import Mathlib

/-!
# Contour: the LDS listener cache, the listener visitor, the annotation helpers,
the status of IngressRoutes and the bootstrap configuration

A shallow embedding of `internal/contour/listener.go` (`ListenerCache`,
`ListenerVisitorConfig`, `visitListeners`), of the annotation helpers of
`internal/dag/annotations.go`, of the statuses and metrics that
`TestIngressRouteMetrics` of `internal/contour/metrics_test.go` exercises, and of
the bootstrap configuration that `TestBootstrap` of
`internal/envoy/bootstrap_test.go` exercises.

Modelling conventions.

* A Go `map[string]*v2.Listener` is an association list of entries; a
  `*v2.Listener` is modelled by the listener it points to.  Go ranges over a map
  in an unspecified order; the embedding ranges in list order and the results
  about `Values` are stated on multisets, which do not see the order.
* A `chan int` is a channel identity (`Chan`).  A cache method returns the new
  cache state together with the sends `ch <- v` it performs, in program order.
  Whether a send has to wait for room is decided by the channel layer
  (`Chans`): every channel has a fixed capacity and a queue of pending values,
  and a send on a channel whose queue is full blocks.  The program closes no
  channel, so closed channels are not modelled.
* The mutex only serialises the methods: each method is one atomic transition.
* A Go `int` is an integer of the range of 64 bits in two's complement
  (`minInt` to `maxInt`), the size it has on a 64-bit platform; the increment
  `c.last++` wraps around (`wrapInt`).
* The packages `dag` and `envoy` are not among the files at hand.  The vertices
  are a closed type (`Vertex`) with the fields the visitor reads, and the results
  of the envoy helpers are represented by the helper called and its arguments.
* A nil pointer dereference is the result `none`; that `visitListeners` never
  meets one is part of what is proved.
* The annotations of an object are an association list; a lookup finds the first
  entry of a key.
* The library functions `strconv.ParseUint`, `strings.Split`, `strings.TrimSpace`,
  `strings.HasPrefix` and `strings.Replace` are embedded as far as the helpers
  call them.  What `Split` and `TrimSpace` return is compared with the
  comma-separated elements and the whitespace-trimmed form of the
  specification's words.
* The DAG builder and `calculateIngressRouteMetric` are not among the files at
  hand.  The statuses of a build and their counts are modelled from the
  specification: root discovery, the DFS of delegation resolution with its path
  of keys, status assembly and the counting.  The depth of the DFS is bounded by
  the number of IngressRoutes of the cache, and it is proved that the bound is
  never used up.  The model is checked against every case of
  `TestIngressRouteMetrics`.
* The function `Bootstrap` is not among the files at hand either.  It is modelled
  from the specification and the fixtures of `TestBootstrap`, with the message
  `bootstrap.Bootstrap` reduced to the parts the fixtures fill in; a port is an
  integer that is handed on as it is configured.  The model is checked against
  every case of `TestBootstrap`.
-/

namespace Contour

/-! ## Envoy listener resources -/

/-- The TLS protocol versions of `envoy_api_v2_auth.TlsParameters_TlsProtocol`
that the program uses. -/
inductive TlsProtocol
  | TLSv1_1
  | TLSv1_2
  | TLSv1_3
deriving DecidableEq, Repr

/-- A byte slice `[]byte`. -/
abbrev Bytes := List UInt8

/-- Modelled from the spec: `dag.TCPProxy` is declared outside the files at hand.
The listener visitor only tests the pointer for nil and hands it to the envoy
helpers; it is represented by the names of the services it proxies to. -/
structure TCPProxy where
  Services : List String
deriving DecidableEq, Repr

/-- Modelled from the spec: the result of the helper `envoy.SocketAddress`, which
is declared outside the files at hand, represented by its arguments: the address
and port a listener binds to. -/
structure SocketAddress where
  Address : String
  Port : Int
deriving DecidableEq, Repr

/-- Modelled from the spec: the network filters built by the helpers
`envoy.HTTPConnectionManager`, `envoy.TCPProxy` and `envoy.TCPProxyFilter`,
which are declared outside the files at hand.  A filter is represented by the
helper that built it and the arguments of the call. -/
inductive Filter
  | HTTPConnectionManager (routename accesslog : String)
  | TCPProxy (statPrefix : String) (proxy : Option TCPProxy) (accesslog : String)
  | TCPProxyFilter (name : String) (proxy : Option TCPProxy) (accesslog : String)
deriving DecidableEq, Repr

/-- Modelled from the spec: the listener filter built by the helper
`envoy.TLSInspector`, which is declared outside the files at hand. -/
inductive ListenerFilter
  | TLSInspector
deriving DecidableEq, Repr

/-- Modelled from the spec: the result of the helper
`envoy.DownstreamTLSContext(cert, key, tlsMinProtoVersion, alpnProtos...)`, which
is declared outside the files at hand, represented by the arguments of the
call. -/
structure DownstreamTlsContext where
  Cert : Bytes
  Key : Bytes
  MinProtoVersion : TlsProtocol
  AlpnProtocols : List String
deriving DecidableEq, Repr

/-- The type `listener.FilterChainMatch`: the field the program sets. -/
structure FilterChainMatch where
  ServerNames : List String
deriving DecidableEq, Repr

/-- The fields of `listener.FilterChain` that the program sets.  A pointer field
the code leaves out of the literal is `none`.  `UseProxyProto` is `some b` when
the code sets the field to `bv(b)`; `bv`, declared outside the files at hand,
wraps a bool as a `*types.BoolValue`. -/
structure FilterChain where
  FilterChainMatch : Option FilterChainMatch
  TlsContext : Option DownstreamTlsContext
  Filters : List Filter
  UseProxyProto : Option Bool
deriving DecidableEq, Repr

/-- The fields of `v2.Listener` that the program sets. -/
structure Listener where
  Name : String
  Address : SocketAddress
  FilterChains : List FilterChain
  ListenerFilters : List ListenerFilter
deriving DecidableEq, Repr

/-- A Go `map[string]*v2.Listener`: its entries. -/
abbrev ListenerMap := List (String × Listener)

/-! ## Channels -/

/-- The identity of a `chan int`. -/
abbrev Chan := Nat

/-- One send statement `ch <- val`. -/
structure Send where
  ch : Chan
  val : Int
deriving DecidableEq, Repr

/-! ## Go's `int` -/

/-- The largest value of Go's `int` on a 64-bit platform, `math.MaxInt64`. -/
def maxInt : Int := 9223372036854775807

/-- The smallest value of Go's `int` on a 64-bit platform, `math.MinInt64`. -/
def minInt : Int := -9223372036854775808

/-- The `int` that an arithmetic result is stored as: the result modulo `2^64`,
in the range from `minInt` to `maxInt` (two's complement wrap-around). -/
def wrapInt (x : Int) : Int :=
  (x + 9223372036854775808) % 18446744073709551616 - 9223372036854775808

/-! ## ListenerCache -/

/-- ListenerCache manages the contents of the gRPC LDS cache.  The field `last` is
a Go `int`. -/
structure ListenerCache where
  values : ListenerMap
  waiters : List Chan
  last : Int
deriving DecidableEq, Repr

namespace ListenerCache

/-- The zero value `ListenerCache{}`: nil map, nil waiters, `last = 0`. -/
def zero : ListenerCache := { values := [], waiters := [], last := 0 }

/-- Register registers ch to receive a value when notify is called.  If the
supplied `last` is less than the cache's counter the channel is sent the counter
at once; otherwise it is appended to the waiters. -/
def Register (c : ListenerCache) (ch : Chan) (last : Int) : ListenerCache × List Send :=
  if last < c.last then
    (c, [{ ch := ch, val := c.last }])
  else
    ({ c with waiters := c.waiters ++ [ch] }, [])

/-- The loop `for _, ch := range c.waiters { ch <- c.last }`: `out` holds the
sends performed so far. -/
def notifyLoop (last : Int) : List Chan → List Send → List Send
  | [], out => out
  | ch :: rest, out => notifyLoop last rest (out ++ [{ ch := ch, val := last }])

/-- The method notify: it notifies all registered waiters that an event has
occurred.  The statement `c.last++` increments an `int`, which wraps around. -/
def notify (c : ListenerCache) : ListenerCache × List Send :=
  let c1 := { c with last := wrapInt (c.last + 1) }
  let sends := notifyLoop c1.last c1.waiters []
  ({ c1 with waiters := [] }, sends)

/-- Update replaces the contents of the cache with the supplied map. -/
def Update (c : ListenerCache) (v : ListenerMap) : ListenerCache × List Send :=
  notify { c with values := v }

/-- The loop of `Values`: `values` holds the listeners appended so far. -/
def valuesLoop (filter : String → Bool) : ListenerMap → List Listener → List Listener
  | [], values => values
  | (_, v) :: rest, values =>
    if filter v.Name then valuesLoop filter rest (values ++ [v])
    else valuesLoop filter rest values

/-- Values returns a slice of the values stored in the cache; the cache is only
read. -/
def Values (c : ListenerCache) (filter : String → Bool) : ListenerCache × List Listener :=
  (c, valuesLoop filter c.values [])

end ListenerCache

/-! ## Sequences of calls -/

/-- A call of one of the three exported methods of `ListenerCache`. -/
inductive Call
  | Register (ch : Chan) (last : Int)
  | Update (v : ListenerMap)
  | Values (filter : String → Bool)

namespace Call

/-- Whether the call is an `Update`. -/
def isUpdate : Call → Bool
  | Update _ => true
  | _ => false

/-- Whether the call is a `Register`. -/
def isRegister : Call → Bool
  | Register _ _ => true
  | _ => false

end Call

namespace ListenerCache

/-- The effect of one call: the new cache state and the sends performed. -/
def call (c : ListenerCache) : Call → ListenerCache × List Send
  | .Register ch last => c.Register ch last
  | .Update v => c.Update v
  | .Values filter => ((c.Values filter).1, [])

/-- The effect of a sequence of calls, made one after the other: the final cache
state and all the sends performed, in order. -/
def calls (c : ListenerCache) : List Call → ListenerCache × List Send
  | [] => (c, [])
  | x :: xs =>
    let r := c.call x
    let rs := calls r.1 xs
    (rs.1, r.2 ++ rs.2)

end ListenerCache

/-- The number of `Update` calls in a sequence. -/
def updateCount (xs : List Call) : Nat :=
  (xs.filter Call.isUpdate).length

/-- The number of sends addressed to `ch`. -/
def signals (ch : Chan) (sends : List Send) : Nat :=
  (sends.filter (fun s => s.ch = ch)).length

/-- The waiters appended by a sequence of calls that holds no `Update`, made on
a cache whose counter is `last`: the channels of the `Register` calls that do not
fire at once, in call order. -/
def enqueued (last : Int) : List Call → List Chan
  | [] => []
  | .Register ch n :: xs => if n < last then enqueued last xs else ch :: enqueued last xs
  | _ :: xs => enqueued last xs

/-! ## The channel layer -/

/-- The channels of the program: the capacity each was made with and the values
pending in it, oldest first. -/
structure Chans where
  cap : Chan → Nat
  buf : Chan → List Int

namespace Chans

/-- One send with no receiver waiting: the value is queued when there is room;
`none` when the queue is full and the sender blocks. -/
def send (h : Chans) (s : Send) : Option Chans :=
  if (h.buf s.ch).length < h.cap s.ch then
    some { h with buf := Function.update h.buf s.ch (h.buf s.ch ++ [s.val]) }
  else
    none

/-- The sends of one method call, in order; `none` as soon as one blocks. -/
def sendAll (h : Chans) : List Send → Option Chans
  | [] => some h
  | s :: rest =>
    match h.send s with
    | some h1 => sendAll h1 rest
    | none => none

/-- A consumer takes the oldest pending value off `ch`, if there is one. -/
def receive (h : Chans) (ch : Chan) : Chans :=
  { h with buf := Function.update h.buf ch (h.buf ch).tail }

end Chans

/-- The cache together with the channels its sends go to. -/
structure World where
  cache : ListenerCache
  chans : Chans

/-- What happens next: a method call on the cache, or a consumer receiving from
its channel. -/
inductive Event
  | call (x : Call)
  | receive (ch : Chan)

namespace Event

/-- The condition put on the channel handed to `Register`: capacity at least 1,
no pending signal, not currently in the waiter list. -/
def admissible (w : World) : Event → Bool
  | call (.Register ch _) =>
    decide (1 ≤ w.chans.cap ch) && decide (w.chans.buf ch = []) &&
      decide (ch ∉ w.cache.waiters)
  | _ => true

end Event

namespace World

/-- One event; `none` when a send of the method call blocks. -/
def step (w : World) : Event → Option World
  | .call x =>
    match w.chans.sendAll (w.cache.call x).2 with
    | some h => some { cache := (w.cache.call x).1, chans := h }
    | none => none
  | .receive ch => some { w with chans := w.chans.receive ch }

/-- A sequence of events; `none` as soon as a send blocks. -/
def run (w : World) : List Event → Option World
  | [] => some w
  | e :: es =>
    match w.step e with
    | some w1 => run w1 es
    | none => none

/-- Every `Register` of the sequence is handed an admissible channel, in the
state in which it is called. -/
def admissible (w : World) : List Event → Bool
  | [] => true
  | e :: es =>
    e.admissible w &&
      match w.step e with
      | some w1 => admissible w1 es
      | none => true

/-- The state of the waiters that the calls maintain: no channel waits twice,
and every waiting channel has capacity at least 1 and nothing pending. -/
def inv (w : World) : Prop :=
  w.cache.waiters.Nodup ∧ ∀ ch ∈ w.cache.waiters, 1 ≤ w.chans.cap ch ∧ w.chans.buf ch = []

end World

/-! ## Go maps of listeners -/

namespace ListenerMap

/-- The read `m[k]`: `none` stands for the nil pointer returned for a missing
key. -/
def index : ListenerMap → String → Option Listener
  | [], _ => none
  | (k1, v1) :: rest, k => if k1 = k then some v1 else index rest k

/-- The assignment `m[k] = v`: the entry of `k` is replaced, or added when the
key is new. -/
def assign : ListenerMap → String → Listener → ListenerMap
  | [], k, v => [(k, v)]
  | (k1, v1) :: rest, k, v =>
    if k1 = k then (k1, v) :: rest else (k1, v1) :: assign rest k v

/-- The statement `delete(m, k)`. -/
def delete (m : ListenerMap) (k : String) : ListenerMap :=
  m.filter (fun e => e.1 ≠ k)

end ListenerMap

/-! ## The DAG vertices seen by the listener visitor -/

/-- Modelled from the spec: `dag.VirtualHost` is declared outside the files at
hand.  The fields the listener visitor reads: the host name, the port and the
optional TCP proxy. -/
structure VirtualHost where
  Host : String
  Port : Int
  TCPProxy : Option TCPProxy
deriving DecidableEq, Repr

/-- Modelled from the spec: `dag.SecureVirtualHost` is declared outside the
files at hand.  It embeds a `VirtualHost`, so `vh.Host` and `vh.TCPProxy` are the
fields of the embedded value.  `Data` is the result of the method `vh.Data()`,
the data of the referenced secret: `none` is the nil map of a missing secret, and
a key that is absent reads as the empty byte slice. -/
structure SecureVirtualHost where
  VirtualHost : VirtualHost
  Data : Option (List (String × Bytes))
  MinProtoVersion : TlsProtocol
deriving DecidableEq, Repr

mutual

/-- Modelled from the spec: `dag.Vertex` is declared outside the files at hand.
A vertex is a `*dag.VirtualHost`, a `*dag.SecureVirtualHost`, or a vertex of
another type, whose method `Visit(f)` calls `f` on its children in turn.  A
vertex that is reached along two paths stands once under each parent. -/
inductive Vertex
  | VirtualHost (vh : VirtualHost)
  | SecureVirtualHost (vh : SecureVirtualHost)
  | other (children : Vertices)

/-- The children of a vertex, in the order in which `Visit` calls on them. -/
inductive Vertices
  | nil
  | cons (v : Vertex) (rest : Vertices)

end

/-- The children given as a list. -/
def Vertices.ofList : List Vertex → Vertices
  | [] => Vertices.nil
  | v :: vs => Vertices.cons v (Vertices.ofList vs)

/-- The read `m[key]` of a non-nil `map[string][]byte`: the zero value, an empty
slice, for a missing key. -/
def bytesIndex : List (String × Bytes) → String → Bytes
  | [], _ => []
  | (k1, b) :: rest, k => if k1 = k then b else bytesIndex rest k

/-- The read `data[key]` of a secret's data: the zero value, an empty slice, for
a nil map or a missing key. -/
def dataIndex : Option (List (String × Bytes)) → String → Bytes
  | none, _ => []
  | some m, k => bytesIndex m k

/-- The constant `v1.TLSCertKey`. -/
def TLSCertKey : String := "tls.crt"

/-- The constant `v1.TLSPrivateKeyKey`. -/
def TLSPrivateKeyKey : String := "tls.key"

/-- The function `strconv.Itoa`: the decimal rendering of an integer. -/
def Itoa (n : Int) : String :=
  if n < 0 then String.mk ('-' :: Nat.toDigits 10 n.natAbs)
  else String.mk (Nat.toDigits 10 n.natAbs)

/-! ## ListenerVisitorConfig -/

/-- The constant `ENVOY_HTTP_LISTENER`. -/
def ENVOY_HTTP_LISTENER : String := "ingress_http"

/-- The constant `ENVOY_HTTPS_LISTENER`. -/
def ENVOY_HTTPS_LISTENER : String := "ingress_https"

/-- The constant `DEFAULT_HTTP_ACCESS_LOG`. -/
def DEFAULT_HTTP_ACCESS_LOG : String := "/dev/stdout"

/-- The constant `DEFAULT_HTTP_LISTENER_ADDRESS`. -/
def DEFAULT_HTTP_LISTENER_ADDRESS : String := "0.0.0.0"

/-- The constant `DEFAULT_HTTP_LISTENER_PORT`. -/
def DEFAULT_HTTP_LISTENER_PORT : Int := 8080

/-- The constant `DEFAULT_HTTPS_ACCESS_LOG`. -/
def DEFAULT_HTTPS_ACCESS_LOG : String := "/dev/stdout"

/-- The constant `DEFAULT_HTTPS_LISTENER_ADDRESS`. -/
def DEFAULT_HTTPS_LISTENER_ADDRESS : String := DEFAULT_HTTP_LISTENER_ADDRESS

/-- The constant `DEFAULT_HTTPS_LISTENER_PORT`. -/
def DEFAULT_HTTPS_LISTENER_PORT : Int := 8443

/-- ListenerVisitorConfig holds configuration parameters for visitListeners. -/
structure ListenerVisitorConfig where
  HTTPAddress : String
  HTTPPort : Int
  HTTPAccessLog : String
  HTTPSAddress : String
  HTTPSPort : Int
  HTTPSAccessLog : String
  UseProxyProto : Bool
deriving DecidableEq, Repr

namespace ListenerVisitorConfig

/-- The zero value `ListenerVisitorConfig{}`. -/
def zero : ListenerVisitorConfig :=
  { HTTPAddress := "", HTTPPort := 0, HTTPAccessLog := "", HTTPSAddress := "",
    HTTPSPort := 0, HTTPSAccessLog := "", UseProxyProto := false }

/-- The accessor httpAddress: the address of the HTTP (non TLS) listener, or
`DEFAULT_HTTP_LISTENER_ADDRESS` if not configured. -/
def httpAddress (lvc : ListenerVisitorConfig) : String :=
  if lvc.HTTPAddress ≠ "" then lvc.HTTPAddress else DEFAULT_HTTP_LISTENER_ADDRESS

/-- The accessor httpPort: the port of the HTTP (non TLS) listener, or
`DEFAULT_HTTP_LISTENER_PORT` if not configured. -/
def httpPort (lvc : ListenerVisitorConfig) : Int :=
  if lvc.HTTPPort ≠ 0 then lvc.HTTPPort else DEFAULT_HTTP_LISTENER_PORT

/-- The accessor httpAccessLog: the access log of the HTTP (non TLS) listener,
or `DEFAULT_HTTP_ACCESS_LOG` if not configured. -/
def httpAccessLog (lvc : ListenerVisitorConfig) : String :=
  if lvc.HTTPAccessLog ≠ "" then lvc.HTTPAccessLog else DEFAULT_HTTP_ACCESS_LOG

/-- The accessor httpsAddress: the address of the HTTPS (TLS) listener, or
`DEFAULT_HTTPS_LISTENER_ADDRESS` if not configured. -/
def httpsAddress (lvc : ListenerVisitorConfig) : String :=
  if lvc.HTTPSAddress ≠ "" then lvc.HTTPSAddress else DEFAULT_HTTPS_LISTENER_ADDRESS

/-- The accessor httpsPort: the port of the HTTPS (TLS) listener, or
`DEFAULT_HTTPS_LISTENER_PORT` if not configured. -/
def httpsPort (lvc : ListenerVisitorConfig) : Int :=
  if lvc.HTTPSPort ≠ 0 then lvc.HTTPSPort else DEFAULT_HTTPS_LISTENER_PORT

/-- The accessor httpsAccessLog: the access log of the HTTPS (TLS) listener, or
`DEFAULT_HTTPS_ACCESS_LOG` if not configured. -/
def httpsAccessLog (lvc : ListenerVisitorConfig) : String :=
  if lvc.HTTPSAccessLog ≠ "" then lvc.HTTPSAccessLog else DEFAULT_HTTPS_ACCESS_LOG

end ListenerVisitorConfig

/-! ## The listener visitor -/

/-- The type listenerVisitor: the embedded configuration, the listeners built so
far, and `http`, which records that at least one `dag.VirtualHost` was
encountered. -/
structure listenerVisitor where
  config : ListenerVisitorConfig
  listeners : ListenerMap
  http : Bool
deriving DecidableEq, Repr

namespace listenerVisitor

/-- The test `data == nil || len(data[v1.TLSCertKey]) == 0 ||
len(data[v1.TLSPrivateKeyKey]) == 0`: there is no secret for this vhost. -/
def noSecret (data : Option (List (String × Bytes))) : Bool :=
  data.isNone || (dataIndex data TLSCertKey).length == 0 ||
    (dataIndex data TLSPrivateKeyKey).length == 0

/-- The variable `filters` once the test `vh.VirtualHost.TCPProxy != nil` has
been passed; `lvc` is the configuration embedded in the visitor. -/
def filters (lvc : ListenerVisitorConfig) (vh : SecureVirtualHost) : List Filter :=
  if vh.VirtualHost.TCPProxy ≠ none then
    [Filter.TCPProxy ENVOY_HTTPS_LISTENER vh.VirtualHost.TCPProxy lvc.httpsAccessLog]
  else
    [Filter.HTTPConnectionManager ENVOY_HTTPS_LISTENER lvc.httpsAccessLog]

/-- The variable `alpnProtos` once the test `vh.VirtualHost.TCPProxy != nil` has
been passed: nil, no ALPN offered, for a TCP proxy. -/
def alpnProtos (vh : SecureVirtualHost) : List String :=
  if vh.VirtualHost.TCPProxy ≠ none then [] else ["h2", "http/1.1"]

/-- The listener stored under `name` for a virtual host whose port is not 443. -/
def tcpListener (lvc : ListenerVisitorConfig) (vh : SecureVirtualHost) (name : String) :
    Listener :=
  { Name := name,
    Address := { Address := "0.0.0.0", Port := vh.VirtualHost.Port },
    FilterChains := [
      { FilterChainMatch := none,
        TlsContext := some
          { Cert := dataIndex vh.Data TLSCertKey,
            Key := dataIndex vh.Data TLSPrivateKeyKey,
            MinProtoVersion := vh.MinProtoVersion,
            AlpnProtocols := [] },
        Filters := [Filter.TCPProxyFilter name vh.VirtualHost.TCPProxy lvc.httpsAccessLog],
        UseProxyProto := none }],
    ListenerFilters := [] }

/-- The filter chain `fc` appended to the listener `ingress_https` for a virtual
host on port 443. -/
def filterChain (lvc : ListenerVisitorConfig) (vh : SecureVirtualHost) : FilterChain :=
  { FilterChainMatch := some { ServerNames := [vh.VirtualHost.Host] },
    TlsContext := some
      { Cert := dataIndex vh.Data TLSCertKey,
        Key := dataIndex vh.Data TLSPrivateKeyKey,
        MinProtoVersion := vh.MinProtoVersion,
        AlpnProtocols := alpnProtos vh },
    Filters := filters lvc vh,
    UseProxyProto := some lvc.UseProxyProto }

/-- The case `*dag.SecureVirtualHost` of the method visit.  The result `none`
stands for the nil pointer dereference on a listener map that has no entry
`ingress_https`. -/
def visitSecureVirtualHost (v : listenerVisitor) (vh : SecureVirtualHost) :
    Option listenerVisitor :=
  if noSecret vh.Data then
    some v
  else if vh.VirtualHost.Port ≠ 443 then
    some { v with
      listeners := ListenerMap.assign v.listeners
        ("ingress_tcp_port_" ++ Itoa vh.VirtualHost.Port)
        (tcpListener v.config vh ("ingress_tcp_port_" ++ Itoa vh.VirtualHost.Port)) }
  else
    match ListenerMap.index v.listeners ENVOY_HTTPS_LISTENER with
    | none => none
    | some l =>
      some { v with
        listeners := ListenerMap.assign v.listeners ENVOY_HTTPS_LISTENER
          { l with FilterChains := l.FilterChains ++ [filterChain v.config vh] } }

mutual

/-- The method visit: a `*dag.VirtualHost` sets `http`, a
`*dag.SecureVirtualHost` adds its filter chain or its listener, and any other
vertex is recursed into with `vertex.Visit(v.visit)`. -/
def visit (v : listenerVisitor) : Vertex → Option listenerVisitor
  | Vertex.VirtualHost _ => some { v with http := true }
  | Vertex.SecureVirtualHost vh => visitSecureVirtualHost v vh
  | Vertex.other children => visitChildren v children

/-- The calls of `v.visit` made by `vertex.Visit`, one child after the other. -/
def visitChildren (v : listenerVisitor) : Vertices → Option listenerVisitor
  | Vertices.nil => some v
  | Vertices.cons x rest =>
    match visit v x with
    | some v1 => visitChildren v1 rest
    | none => none

end

/-- The listener that `visitListeners` sets up under `ingress_http`. -/
def httpListener (lvc : ListenerVisitorConfig) : Listener :=
  { Name := ENVOY_HTTP_LISTENER,
    Address := { Address := lvc.httpAddress, Port := lvc.httpPort },
    FilterChains := [
      { FilterChainMatch := none,
        TlsContext := none,
        Filters := [Filter.HTTPConnectionManager ENVOY_HTTP_LISTENER lvc.httpAccessLog],
        UseProxyProto := some lvc.UseProxyProto }],
    ListenerFilters := [] }

/-- The listener that `visitListeners` sets up under `ingress_https`: it has no
filter chain yet. -/
def httpsListener (lvc : ListenerVisitorConfig) : Listener :=
  { Name := ENVOY_HTTPS_LISTENER,
    Address := { Address := lvc.httpsAddress, Port := lvc.httpsPort },
    FilterChains := [],
    ListenerFilters := [ListenerFilter.TLSInspector] }

/-- The visitor as `visitListeners` sets it up: the two listeners `ingress_http`
and `ingress_https`, and `http` false. -/
def init (lvc : ListenerVisitorConfig) : listenerVisitor :=
  { config := lvc,
    listeners := [(ENVOY_HTTP_LISTENER, httpListener lvc),
      (ENVOY_HTTPS_LISTENER, httpsListener lvc)],
    http := false }

/-- The end of `visitListeners`: `ingress_http` is deleted when no virtual host
was encountered and `ingress_https` when it has no filter chain.  The result
`none` stands for the nil pointer dereference on a map without `ingress_https`. -/
def finish (lv : listenerVisitor) : Option ListenerMap :=
  match ListenerMap.index
      (if !lv.http then ListenerMap.delete lv.listeners ENVOY_HTTP_LISTENER else lv.listeners)
      ENVOY_HTTPS_LISTENER with
  | none => none
  | some l =>
    if l.FilterChains.length = 0 then
      some (ListenerMap.delete
        (if !lv.http then ListenerMap.delete lv.listeners ENVOY_HTTP_LISTENER else lv.listeners)
        ENVOY_HTTPS_LISTENER)
    else
      some (if !lv.http then ListenerMap.delete lv.listeners ENVOY_HTTP_LISTENER
        else lv.listeners)

end listenerVisitor

/-- The function visitListeners: the listeners for the graph under `root`.  The
result `none` stands for a run-time panic. -/
def visitListeners (root : Vertex) (lvc : ListenerVisitorConfig) : Option ListenerMap :=
  match (listenerVisitor.init lvc).visit root with
  | none => none
  | some lv => lv.finish

/-! ## What a visit comes across -/

/-- A virtual host on which the visitor acts: a plain `dag.VirtualHost` or a
`dag.SecureVirtualHost`. -/
inductive Encounter
  | plain (vh : VirtualHost)
  | secure (vh : SecureVirtualHost)
deriving DecidableEq, Repr

namespace Encounter

/-- Whether the virtual host is a plain `dag.VirtualHost`. -/
def isPlain : Encounter → Bool
  | plain _ => true
  | secure _ => false

/-- The `dag.SecureVirtualHost`, if it is one. -/
def secure? : Encounter → Option SecureVirtualHost
  | plain _ => none
  | secure vh => some vh

end Encounter

mutual

/-- The virtual hosts the visitor encounters from a vertex, in visit order: the
vertex itself if it is one, and otherwise those encountered from its children;
the visitor does not look below a virtual host. -/
def Vertex.encounters : Vertex → List Encounter
  | Vertex.VirtualHost vh => [Encounter.plain vh]
  | Vertex.SecureVirtualHost vh => [Encounter.secure vh]
  | Vertex.other children => Vertices.encounters children

/-- The virtual hosts the visitor encounters from a list of children. -/
def Vertices.encounters : Vertices → List Encounter
  | Vertices.nil => []
  | Vertices.cons v rest => Vertex.encounters v ++ Vertices.encounters rest

end

/-- The secure virtual hosts the visitor encounters, in visit order. -/
def Vertex.secureHosts (root : Vertex) : List Contour.SecureVirtualHost :=
  root.encounters.filterMap Encounter.secure?

namespace SecureVirtualHost

/-- The secret is usable: `tls.crt` and `tls.key` are both non-empty (which a
missing secret, read as empty, is not). -/
def usable (vh : SecureVirtualHost) : Bool :=
  decide (dataIndex vh.Data "tls.crt" ≠ []) && decide (dataIndex vh.Data "tls.key" ≠ [])

/-- The virtual host has a usable secret and port 443. -/
def onHTTPS (vh : SecureVirtualHost) : Bool :=
  vh.usable && decide (vh.VirtualHost.Port = 443)

/-- The virtual host has a usable secret and the port `N`, which is not 443. -/
def onPort (N : Int) (vh : SecureVirtualHost) : Bool :=
  vh.usable && decide (vh.VirtualHost.Port ≠ 443) && decide (vh.VirtualHost.Port = N)

end SecureVirtualHost

/-- The virtual host has a usable secret and a port other than 443 for which the
listener is named `k`. -/
def SecureVirtualHost.onListener (k : String) (vh : SecureVirtualHost) : Bool :=
  vh.usable && decide (vh.VirtualHost.Port ≠ 443) &&
    decide ("ingress_tcp_port_" ++ Itoa vh.VirtualHost.Port = k)

/-- The filter chains of the virtual hosts that have a usable secret and port 443,
in the order of the encounters. -/
def httpsChains (lvc : ListenerVisitorConfig) (es : List Encounter) : List FilterChain :=
  ((es.filterMap Encounter.secure?).filter SecureVirtualHost.onHTTPS).map
    (listenerVisitor.filterChain lvc)

/-- The last element of a list that satisfies `p`. -/
def lastSuch {α : Type} (p : α → Bool) : List α → Option α
  | [] => none
  | x :: xs =>
    match lastSuch p xs with
    | some y => some y
    | none => if p x then some x else none

namespace listenerVisitor

/-- The method visit on a virtual host. -/
def visitEncounter (v : listenerVisitor) : Encounter → Option listenerVisitor
  | Encounter.plain _ => some { v with http := true }
  | Encounter.secure vh => visitSecureVirtualHost v vh

/-- The method visit on a sequence of virtual hosts, one after the other. -/
def visitEncounters (v : listenerVisitor) : List Encounter → Option listenerVisitor
  | [] => some v
  | e :: es =>
    match visitEncounter v e with
    | some v1 => visitEncounters v1 es
    | none => none

end listenerVisitor

mutual

/-- The graph `g2` is the graph `g1` with one occurrence of the vertex
`SecureVirtualHost vh` removed from the children of a vertex. -/
inductive Vertex.Without (vh : Contour.SecureVirtualHost) : Vertex → Vertex → Prop
  | other {cs1 cs2 : Vertices} :
    Vertices.Without vh cs1 cs2 → Vertex.Without vh (Vertex.other cs1) (Vertex.other cs2)

/-- The children `cs2` are the children `cs1` with one occurrence of the vertex
`SecureVirtualHost vh` removed, among them or below them. -/
inductive Vertices.Without (vh : Contour.SecureVirtualHost) : Vertices → Vertices → Prop
  | here {rest : Vertices} :
    Vertices.Without vh (Vertices.cons (Vertex.SecureVirtualHost vh) rest) rest
  | inside {v1 v2 : Vertex} {rest : Vertices} :
    Vertex.Without vh v1 v2 →
      Vertices.Without vh (Vertices.cons v1 rest) (Vertices.cons v2 rest)
  | later {v : Vertex} {rest1 rest2 : Vertices} :
    Vertices.Without vh rest1 rest2 →
      Vertices.Without vh (Vertices.cons v rest1) (Vertices.cons v rest2)

end

/-- The number that a list of decimal digits reads as. -/
def digitsValue (cs : List Char) : Nat :=
  cs.foldl (fun acc c => 10 * acc + (c.toNat - 48)) 0

/-! ## Annotations -/

/-- The annotations of an object, `o.GetObjectMeta().GetAnnotations()`: a Go
`map[string]string`, given by its entries. -/
abbrev Annotations := List (String × String)

namespace Annotations

/-- The read `val, ok := a[k]`: `none` when the key is absent. -/
def lookup : Annotations → String → Option String
  | [], _ => none
  | (k1, v1) :: rest, k => if k1 = k then some v1 else lookup rest k

/-- The read `a[k]`: the empty string when the key is absent. -/
def index (a : Annotations) (k : String) : String :=
  match lookup a k with
  | some val => val
  | none => ""

end Annotations

/-- The function compatAnnotation checks the object for the given annotation,
first with the `projectcontour.io/` prefix, and then with the
`contour.heptio.com/` prefix if that is not found. -/
def compatAnnotation (a : Annotations) (key : String) : String :=
  match Annotations.lookup a ("projectcontour.io/" ++ key) with
  | some val => val
  | none => Annotations.index a ("contour.heptio.com/" ++ key)

/-- The function ingressClass returns the first matching ingress class among
`projectcontour.io/ingress.class`, `contour.heptio.com/ingress.class` and
`kubernetes.io/ingress.class`. -/
def ingressClass (a : Annotations) : String :=
  match Annotations.lookup a "projectcontour.io/ingress.class" with
  | some cls => cls
  | none =>
    match Annotations.lookup a "contour.heptio.com/ingress.class" with
    | some cls => cls
    | none =>
      match Annotations.lookup a "kubernetes.io/ingress.class" with
      | some cls => cls
      | none => ""

/-! ## Library functions on strings -/

/-- The loop of the library function `strconv.ParseUint(s, 10, 32)` over the
bytes of `s`, with `n` the value read so far: a byte that is no decimal digit is
a syntax error, and a value above `1<<32 - 1` is a range error; both are `none`.
The accumulator is a `uint64`: `cutoff` is `maxUint64/10 + 1`. -/
def parseUintLoop : List Char → Nat → Option Nat
  | [], n => some n
  | c :: cs, n =>
    if 48 ≤ c.toNat ∧ c.toNat ≤ 57 then
      if n ≥ 18446744073709551615 / 10 + 1 then none
      else if (n * 10 + (c.toNat - 48)) % 2 ^ 64 < n * 10 ∨
          (n * 10 + (c.toNat - 48)) % 2 ^ 64 > 2 ^ 32 - 1 then none
      else parseUintLoop cs ((n * 10 + (c.toNat - 48)) % 2 ^ 64)
    else none

/-- The library function `strconv.ParseUint(s, 10, 32)`: `none` is an error.
The empty string is a syntax error and no sign is accepted. -/
def ParseUint (s : String) : Option Nat :=
  if s.data = [] then none else parseUintLoop s.data 0

/-- The library function `unicode.IsSpace`. -/
def isSpace (c : Char) : Bool :=
  c = '\t' || c = '\n' || c.toNat = 11 || c.toNat = 12 || c = '\r' || c = ' ' ||
    c.toNat = 0x85 || c.toNat = 0xA0 || c.toNat = 0x1680 ||
    (0x2000 ≤ c.toNat && c.toNat ≤ 0x200A) || c.toNat = 0x2028 || c.toNat = 0x2029 ||
    c.toNat = 0x202F || c.toNat = 0x205F || c.toNat = 0x3000

/-- The library function `strings.TrimSpace`: all leading and trailing white
space removed. -/
def TrimSpace (s : String) : String :=
  String.mk (((s.data.dropWhile isSpace).reverse.dropWhile isSpace).reverse)

/-- The pieces of a list of characters between the commas. -/
def splitComma : List Char → List (List Char)
  | [] => [[]]
  | c :: cs =>
    if c = ',' then [] :: splitComma cs
    else
      match splitComma cs with
      | [] => [[c]]
      | x :: xs => (c :: x) :: xs

/-- The library function `strings.Split(s, ",")`. -/
def Split (s : String) : List String :=
  (splitComma s.data).map String.mk

/-- The library function `strings.HasPrefix`. -/
def HasPrefix (s pre : String) : Bool :=
  pre.data.isPrefixOf s.data

/-- The scan of `strings.Replace(s, old, new, -1)` for a non-empty `old`: the
next `skip` characters belong to an occurrence that has been replaced. -/
def replaceScan (old new : List Char) : Nat → List Char → List Char
  | _, [] => []
  | skip + 1, _ :: cs => replaceScan old new skip cs
  | 0, c :: cs =>
    if old.isPrefixOf (c :: cs) then new ++ replaceScan old new (old.length - 1) cs
    else c :: replaceScan old new 0 cs

/-- The library function `strings.Replace(s, old, new, -1)` for a non-empty
`old`: every non-overlapping occurrence of `old`, from the left, is replaced. -/
def Replace (s old new : String) : String :=
  String.mk (replaceScan old.data new.data 0 s.data)

/-! ## Go maps with string keys -/

namespace GoMap

/-- The read `val, ok := m[k]`. -/
def lookup {β : Type} : List (String × β) → String → Option β
  | [], _ => none
  | (k1, v1) :: rest, k => if k1 = k then some v1 else lookup rest k

/-- The assignment `m[k] = v`. -/
def assign {β : Type} : List (String × β) → String → β → List (String × β)
  | [], k, v => [(k, v)]
  | (k1, v1) :: rest, k, v =>
    if k1 = k then (k1, v) :: rest else (k1, v1) :: assign rest k v

end GoMap

/-! ## The annotation helpers -/

/-- The function parseUInt32 parses the supplied string as if it were a uint32.
If the value is not present, or malformed, or outside uint32's range, zero is
returned. -/
def parseUInt32 (s : String) : Nat :=
  match ParseUint s with
  | none => 0
  | some v => v % 2 ^ 32

/-- The function numRetries: the number of retries given by the `num-retries`
annotation. -/
def numRetries (a : Annotations) : Nat :=
  parseUInt32 ( compatAnnotation a "num-retries")

/-- The function maxConnections: the value of the first matching
`max-connections` annotation. -/
def maxConnections (a : Annotations) : Nat :=
  parseUInt32 ( compatAnnotation a "max-connections")

/-- The function maxPendingRequests. -/
def maxPendingRequests (a : Annotations) : Nat :=
  parseUInt32 ( compatAnnotation a "max-pending-requests")

/-- The function maxRequests. -/
def maxRequests (a : Annotations) : Nat :=
  parseUInt32 ( compatAnnotation a "max-requests")

/-- The function maxRetries. -/
def maxRetries (a : Annotations) : Nat :=
  parseUInt32 ( compatAnnotation a "max-retries")

/-- The function MinProtoVersion returns the TLS protocol version specified by
an ingress annotation, or the default if none is present: any other value is
interpreted as TLS/1.1. -/
def MinProtoVersion (version : String) : TlsProtocol :=
  if version = "1.3" then TlsProtocol.TLSv1_3
  else if version = "1.2" then TlsProtocol.TLSv1_2
  else TlsProtocol.TLSv1_1

/-- The function httpAllowed returns true unless the
`kubernetes.io/ingress.allow-http` annotation is present and set to false. -/
def httpAllowed (a : Annotations) : Bool :=
  !(decide (Annotations.index a "kubernetes.io/ingress.allow-http" = "false"))

/-- The function tlsRequired returns true if the
`ingress.kubernetes.io/force-ssl-redirect` annotation is present and set to
true. -/
def tlsRequired (a : Annotations) : Bool :=
  decide (Annotations.index a "ingress.kubernetes.io/force-ssl-redirect" = "true")

/-- One loop of websocketRoutes: every non-empty trimmed piece of `pieces` is
set to true in `routes`. -/
def websocketLoop : List String → List (String × Bool) → List (String × Bool)
  | [], routes => routes
  | v :: rest, routes =>
    if TrimSpace v ≠ "" then websocketLoop rest (GoMap.assign routes (TrimSpace v) true)
    else websocketLoop rest routes

/-- The function websocketRoutes: the first loop runs over the pieces of the
`projectcontour.io/websocket-routes` annotation and the second over those of the
`contour.heptio.com/websocket-routes` annotation. -/
def websocketRoutes (a : Annotations) : List (String × Bool) :=
  websocketLoop (Split (Annotations.index a "contour.heptio.com/websocket-routes"))
    (websocketLoop (Split (Annotations.index a "projectcontour.io/websocket-routes")) [])

/-- The table annotationsByKind: the annotations that are valid on each kind. -/
def annotationsByKind : List (String × List String) :=
  [("Ingress",
      ["ingress.kubernetes.io/force-ssl-redirect",
        "kubernetes.io/ingress.allow-http",
        "kubernetes.io/ingress.class",
        "projectcontour.io/ingress.class",
        "projectcontour.io/num-retries",
        "projectcontour.io/response-timeout",
        "projectcontour.io/retry-on",
        "projectcontour.io/tls-minimum-protocol-version",
        "projectcontour.io/websocket-routes"]),
    ("Service",
      ["projectcontour.io/max-connections",
        "projectcontour.io/max-pending-requests",
        "projectcontour.io/max-requests",
        "projectcontour.io/max-retries",
        "projectcontour.io/upstream-protocol.h2",
        "projectcontour.io/upstream-protocol.h2c",
        "projectcontour.io/upstream-protocol.tls"]),
    ("HTTPProxy",
      ["kubernetes.io/ingress.class",
        "projectcontour.io/ingress.class"]),
    ("IngressRoute",
      ["kubernetes.io/ingress.class",
        "projectcontour.io/ingress.class"])]

/-- The function validAnnotationForKind: on a known kind the key, with the
legacy prefix canonicalized, must be in the table of the kind; on an unknown kind
every key without a Contour prefix is assumed valid. -/
def validAnnotationForKind (kind key : String) : Bool :=
  match GoMap.lookup annotationsByKind kind with
  | some a => decide (Replace key "contour.heptio.com/" "projectcontour.io/" ∈ a)
  | none =>
    if HasPrefix key "projectcontour.io/" || HasPrefix key "contour.heptio.com/" then false
    else true

/-- The function annotationIsKnown: everything with a Contour prefix is known, so
is every `ingress.kubernetes.io/` annotation, and so are three further keys. -/
def annotationIsKnown (key : String) : Bool :=
  if HasPrefix key "projectcontour.io/" || HasPrefix key "contour.heptio.com/" then true
  else if HasPrefix key "ingress.kubernetes.io/" then true
  else if key = "kubernetes.io/ingress.class" ∨ key = "kubernetes.io/ingress.allow-http" ∨
      key = "kubernetes.io/ingress.global-static-ip-name" then true
  else false

/-- The innermost loop of parseUpstreamProtocols, over the pieces of one
annotation: every non-empty trimmed piece is a port, set to `protocol` in `up`. -/
def upstreamPortsLoop (protocol : String) :
    List String → List (String × String) → List (String × String)
  | [], up => up
  | v :: rest, up =>
    if TrimSpace v ≠ "" then
      upstreamPortsLoop protocol rest (GoMap.assign up (TrimSpace v) protocol)
    else upstreamPortsLoop protocol rest up

/-- The loop of parseUpstreamProtocols over the protocols, for one annotation
prefix: the key read is `fmt.Sprintf("%s.%s", annotation, protocol)`. -/
def upstreamProtocolsLoop (m : Annotations) ( annotation : String) :
    List String → List (String × String) → List (String × String)
  | [], up => up
  | protocol :: rest, up =>
    upstreamProtocolsLoop m annotation rest
      (upstreamPortsLoop protocol
        (Split (Annotations.index m ( annotation ++ "." ++ protocol))) up)

/-- The outer loop of parseUpstreamProtocols, over the annotation prefixes. -/
def upstreamAnnotationsLoop (m : Annotations) :
    List String → List (String × String) → List (String × String)
  | [], up => up
  | annotation :: rest, up =>
    upstreamAnnotationsLoop m rest (upstreamProtocolsLoop m annotation ["h2", "h2c", "tls"] up)

/-- The function parseUpstreamProtocols parses the annotations map for
`contour.heptio.com/upstream-protocol.{protocol}` and
`projectcontour.io/upstream-protocol.{protocol}` annotations: the result maps a
port to the protocol that must be used in the upstream. -/
def parseUpstreamProtocols (m : Annotations) : List (String × String) :=
  upstreamAnnotationsLoop m
    ["contour.heptio.com/upstream-protocol", "projectcontour.io/upstream-protocol"] []

/-- The ports listed under the annotation `key`: the non-empty trimmed
comma-separated pieces of its value. -/
def listedPorts (m : Annotations) (key : String) : List String :=
  ((Split (Annotations.index m key)).map TrimSpace).filter (fun x => decide (x ≠ ""))

/-- The six upstream-protocol annotations, each with its protocol, in the order
in which parseUpstreamProtocols reads them. -/
def upstreamProtocolAnnotations : List (String × String) :=
  [("contour.heptio.com/upstream-protocol.h2", "h2"),
    ("contour.heptio.com/upstream-protocol.h2c", "h2c"),
    ("contour.heptio.com/upstream-protocol.tls", "tls"),
    ("projectcontour.io/upstream-protocol.h2", "h2"),
    ("projectcontour.io/upstream-protocol.h2c", "h2c"),
    ("projectcontour.io/upstream-protocol.tls", "tls")]

/-! ## Comma-separated values, in the words of the specification -/

/-- In the words of the specification: `e` is a comma-separated element of `s`.
It is a stretch of `s` that holds no comma, begins at the start of `s` or right
after a comma, and ends at the end of `s` or right before a comma. -/
def CommaSeparatedElement (e s : String) : Prop :=
  ',' ∉ e.data ∧ ∃ l r : List Char, s.data = l ++ e.data ++ r ∧
    (l = [] ∨ ∃ l0, l = l0 ++ [',']) ∧ (r = [] ∨ ∃ r0, r = ',' :: r0)

/-- In the words of the specification: `t` is the whitespace-trimmed form of `e`.
It is what is left of `e` when a stretch of white space is taken off at each end,
and it neither begins nor ends with white space. -/
def WhitespaceTrimmed (t e : String) : Prop :=
  ∃ l r : List Char, e.data = l ++ t.data ++ r ∧
    (∀ c ∈ l, isSpace c = true) ∧ (∀ c ∈ r, isSpace c = true) ∧
    (∀ c rest, t.data = c :: rest → isSpace c = false) ∧
    (∀ init c, t.data = init ++ [c] → isSpace c = false)

/-- In the words of the specification: `p` is listed in the comma-separated
value `s`: it is not empty and is the whitespace-trimmed form of a
comma-separated element of `s`. -/
def ListedIn (p s : String) : Prop :=
  p ≠ "" ∧ ∃ e : String, CommaSeparatedElement e s ∧ WhitespaceTrimmed p e

/-! ## The status of IngressRoutes

The DAG builder and the metrics calculation are not among the files at hand;
only their test `TestIngressRouteMetrics` is.  They are modelled from the
specification, and the model is checked against the cases of the test. -/

namespace ingressroutev1

/-- The type `ingressroutev1.Service` as the test builds it: a service reference
of a route. -/
structure Service where
  Name : String
  Port : Int
  Weight : Int
deriving DecidableEq, Repr

/-- The type `ingressroutev1.Delegate`: the IngressRoute a route delegates to;
an empty namespace stands for the namespace of the delegating IngressRoute. -/
structure Delegate where
  Name : String
  Namespace : String
deriving DecidableEq, Repr

/-- The type `ingressroutev1.Route`. -/
structure Route where
  Match : String
  Services : List Service
  Delegate : Option Delegate
deriving DecidableEq, Repr

/-- The type `ingressroutev1.VirtualHost`. -/
structure VirtualHost where
  Fqdn : String
deriving DecidableEq, Repr

/-- The type `ingressroutev1.IngressRoute`: it is a root when `VirtualHost` is
not nil. -/
structure IngressRoute where
  Namespace : String
  Name : String
  VirtualHost : Option VirtualHost
  Routes : List Route
deriving DecidableEq, Repr

end ingressroutev1

namespace v1

/-- The type `v1.ServicePort`. -/
structure ServicePort where
  Name : String
  Port : Int
deriving DecidableEq, Repr

/-- The type `v1.Service`. -/
structure Service where
  Namespace : String
  Name : String
  Ports : List ServicePort
deriving DecidableEq, Repr

end v1

/-- The key of an object: namespace and name. -/
structure Meta where
  Namespace : String
  Name : String
deriving DecidableEq, Repr

/-- The key of an IngressRoute. -/
def ingressroutev1.IngressRoute.key (ir : ingressroutev1.IngressRoute) : Meta :=
  { Namespace := ir.Namespace, Name := ir.Name }

/-- Modelled from the spec: the key a Delegate edge resolves to, (namespace,
name), the namespace defaulting to that of the delegating IngressRoute. -/
def delegateKey (ir : ingressroutev1.IngressRoute) (d : ingressroutev1.Delegate) : Meta :=
  { Namespace := if d.Namespace = "" then ir.Namespace else d.Namespace, Name := d.Name }

/-- An object handed to `Insert`. -/
inductive Object
  | ingressroute (ir : ingressroutev1.IngressRoute)
  | service (svc : v1.Service)
deriving DecidableEq, Repr

/-- Modelled from the spec: the Object Cache `dag.KubernetesCache`, which is not
among the files at hand.  It holds the last observed version of every object
under its key (kind, namespace, name), in the order in which the keys were first
loaded, and the configured root namespaces. -/
structure KubernetesCache where
  IngressRouteRootNamespaces : List String
  ingressroutes : List ingressroutev1.IngressRoute
  services : List v1.Service
deriving DecidableEq, Repr

namespace KubernetesCache

/-- The write of an IngressRoute under its key: last write wins. -/
def putIngressRoute : List ingressroutev1.IngressRoute → ingressroutev1.IngressRoute →
    List ingressroutev1.IngressRoute
  | [], ir => [ir]
  | x :: rest, ir => if x.key = ir.key then ir :: rest else x :: putIngressRoute rest ir

/-- The write of a Service under its key: last write wins. -/
def putService : List v1.Service → v1.Service → List v1.Service
  | [], svc => [svc]
  | x :: rest, svc =>
    if x.Namespace = svc.Namespace ∧ x.Name = svc.Name then svc :: rest
    else x :: putService rest svc

/-- Modelled from the spec: the operation `Insert(obj)`, which writes the latest
version of the object. -/
def Insert (c : KubernetesCache) : Object → KubernetesCache
  | Object.ingressroute ir => { c with ingressroutes := putIngressRoute c.ingressroutes ir }
  | Object.service svc => { c with services := putService c.services svc }

/-- The cache after a sequence of `Insert` calls on the empty cache with the
given root namespaces. -/
def ofObjects (rootNamespaces : List String) (objs : List Object) : KubernetesCache :=
  objs.foldl Insert
    { IngressRouteRootNamespaces := rootNamespaces, ingressroutes := [], services := [] }

/-- The IngressRoute stored under a key. -/
def findIngressRoute : List ingressroutev1.IngressRoute → Meta →
    Option ingressroutev1.IngressRoute
  | [], _ => none
  | x :: rest, k => if x.key = k then some x else findIngressRoute rest k

/-- Whether a root IngressRoute in namespace `ns` is allowed: the root
namespaces are not set, or `ns` is one of them. -/
def rootAllowed (c : KubernetesCache) (ns : String) : Bool :=
  decide (c.IngressRouteRootNamespaces = []) || decide (ns ∈ c.IngressRouteRootNamespaces)

/-- Modelled from the spec: a service reference of an IngressRoute in namespace
`ns` is in order when its port is in [1, 65535], its weight is not below 0, and
it resolves to a Service object of the namespace that has the port. -/
def serviceOK (c : KubernetesCache) (ns : String) (s : ingressroutev1.Service) : Bool :=
  decide (1 ≤ s.Port) && decide (s.Port ≤ 65535) && decide (0 ≤ s.Weight) &&
    c.services.any (fun svc =>
      decide (svc.Namespace = ns) && decide (svc.Name = s.Name) &&
        svc.Ports.any (fun p => decide (p.Port = s.Port)))

end KubernetesCache

/-- The status of an IngressRoute. -/
inductive StatusKind
  | valid
  | invalid
  | orphaned
deriving DecidableEq, Repr

/-- The statuses set during a build: for a key, the status and the vhost it is
reported under (empty for none); a later write replaces an earlier one. -/
abbrev StatusMap := List (Meta × StatusKind × String)

namespace StatusMap

/-- The status recorded for a key. -/
def lookup : StatusMap → Meta → Option (StatusKind × String)
  | [], _ => none
  | (k1, v1) :: rest, k => if k1 = k then some v1 else lookup rest k

/-- The write of a status for a key. -/
def set : StatusMap → Meta → StatusKind → String → StatusMap
  | [], k, s, h => [(k, s, h)]
  | (k1, v1) :: rest, k, s, h =>
    if k1 = k then (k1, s, h) :: rest else (k1, v1) :: set rest k s h

end StatusMap

namespace builder

/-- Modelled from the spec: the processing of the routes of the IngressRoute `ir`
that the DFS of delegation resolution has entered under the vhost `host`, with
`path` the keys on the DFS path, `ir` included, and `parentPrefix` the prefix of
the delegating route (empty for a root).  The IngressRoute becomes invalid, and
its processing stops, at the first route whose prefix does not start with the
parent prefix, that has both services and a delegate or neither, whose service
has a port outside [1, 65535], a weight below 0 or does not resolve, or whose
delegate is on the path (a cycle) or is a root.  A delegate that is absent is
passed over; any other delegate is descended into with `descend`, after which the
processing goes on.  When all routes are processed the IngressRoute is valid.
The result `none` is passed on from `descend`. -/
def processRoutes (c : KubernetesCache)
    (descend : ingressroutev1.IngressRoute → String → StatusMap → Option StatusMap)
    (ir : ingressroutev1.IngressRoute) (parentPrefix : String) (path : List Meta)
    (host : String) : List ingressroutev1.Route → StatusMap → Option StatusMap
  | [], st => some (StatusMap.set st ir.key StatusKind.valid host)
  | r :: rs, st =>
    if HasPrefix r.Match parentPrefix = false then
      some (StatusMap.set st ir.key StatusKind.invalid host)
    else
      match r.Delegate with
      | none =>
        if r.Services ≠ [] ∧ r.Services.all (KubernetesCache.serviceOK c ir.Namespace) = true then
          processRoutes c descend ir parentPrefix path host rs st
        else
          some (StatusMap.set st ir.key StatusKind.invalid host)
      | some d =>
        if r.Services ≠ [] then
          some (StatusMap.set st ir.key StatusKind.invalid host)
        else
          match KubernetesCache.findIngressRoute c.ingressroutes (delegateKey ir d) with
          | none => processRoutes c descend ir parentPrefix path host rs st
          | some dest =>
            if dest.key ∈ path ∨ dest.VirtualHost ≠ none then
              some (StatusMap.set st ir.key StatusKind.invalid host)
            else
              match descend dest r.Match st with
              | none => none
              | some st1 => processRoutes c descend ir parentPrefix path host rs st1

/-- Modelled from the spec: the DFS of delegation resolution from the
IngressRoute `ir`, entered under the vhost `host` along the path `path`.  The
first argument bounds the depth of the descent; `none` is the result when it is
used up. -/
def processIngressRoute (c : KubernetesCache) : Nat → ingressroutev1.IngressRoute → String →
    List Meta → String → StatusMap → Option StatusMap
  | 0, _, _, _, _, _ => none
  | fuel + 1, ir, parentPrefix, path, host, st =>
    processRoutes c
      (fun dest pfx st1 => processIngressRoute c fuel dest pfx (path ++ [ir.key]) host st1)
      ir parentPrefix (path ++ [ir.key]) host ir.Routes st

/-- Modelled from the spec: root discovery.  Every IngressRoute with a
VirtualHost is a root; it is rejected as invalid, under no vhost, when its
namespace is outside the root namespaces or its FQDN is empty, and as invalid
when an accepted root already owns its FQDN; otherwise it is accepted.  The
result is the statuses of the rejected roots and the accepted roots with their
FQDN, in load order. -/
def discoverRoots (c : KubernetesCache) : List ingressroutev1.IngressRoute →
    List (ingressroutev1.IngressRoute × String) → StatusMap →
    StatusMap × List (ingressroutev1.IngressRoute × String)
  | [], roots, st => (st, roots)
  | ir :: rest, roots, st =>
    match ir.VirtualHost with
    | none => discoverRoots c rest roots st
    | some vh =>
      if c.rootAllowed ir.Namespace = false then
        discoverRoots c rest roots (StatusMap.set st ir.key StatusKind.invalid "")
      else if vh.Fqdn = "" then
        discoverRoots c rest roots (StatusMap.set st ir.key StatusKind.invalid "")
      else if vh.Fqdn ∈ roots.map Prod.snd then
        discoverRoots c rest roots (StatusMap.set st ir.key StatusKind.invalid vh.Fqdn)
      else
        discoverRoots c rest (roots ++ [(ir, vh.Fqdn)]) st

/-- Modelled from the spec: delegation resolution, the DFS from each accepted
root in turn. -/
def resolveDelegation (c : KubernetesCache) :
    List (ingressroutev1.IngressRoute × String) → StatusMap → Option StatusMap
  | [], st => some st
  | (ir, host) :: rest, st =>
    match processIngressRoute c c.ingressroutes.length ir "" [] host st with
    | none => none
    | some st1 => resolveDelegation c rest st1

/-- The statuses the build sets: root discovery, then delegation resolution. -/
def compute (c : KubernetesCache) : Option StatusMap :=
  resolveDelegation c (discoverRoots c c.ingressroutes [] []).2
    (discoverRoots c c.ingressroutes [] []).1

end builder

/-- The status of an object as `Statuses()` reports it. -/
structure ObjectStatus where
  Object : ingressroutev1.IngressRoute
  Status : StatusKind
  Vhost : String
deriving DecidableEq, Repr

/-- Modelled from the spec: status assembly.  Every IngressRoute of the cache
gets the status the build set for it, and one that the build did not reach is
orphaned. -/
def assemble (st : StatusMap) (ir : ingressroutev1.IngressRoute) : ObjectStatus :=
  match StatusMap.lookup st ir.key with
  | some (s, h) => { Object := ir, Status := s, Vhost := h }
  | none => { Object := ir, Status := StatusKind.orphaned, Vhost := "" }

/-- Modelled from the spec: `Build()` followed by `Statuses()`, the status of
every IngressRoute of the cache. -/
def Statuses (c : KubernetesCache) : Option (List ObjectStatus) :=
  match builder.compute c with
  | none => none
  | some st => some (c.ingressroutes.map (assemble st))

namespace metrics

/-- The type `metrics.Meta`: the key of a count, a namespace with or without a
vhost. -/
structure Meta where
  VHost : String
  Namespace : String
deriving DecidableEq, Repr

/-- The type `metrics.IngressRouteMetric`. -/
structure IngressRouteMetric where
  Invalid : List (Meta × Nat)
  Valid : List (Meta × Nat)
  Orphaned : List (Meta × Nat)
  Root : List (Meta × Nat)
  Total : List (Meta × Nat)
deriving DecidableEq, Repr

/-- The statement `m[k]++`. -/
def incr : List (Meta × Nat) → Meta → List (Meta × Nat)
  | [], k => [(k, 1)]
  | (k1, n) :: rest, k => if k1 = k then (k1, n + 1) :: rest else (k1, n) :: incr rest k

/-- The read `m[k]`: 0 for a key that is absent. -/
def get : List (Meta × Nat) → Meta → Nat
  | [], _ => 0
  | (k1, n) :: rest, k => if k1 = k then n else get rest k

/-- The sum of the counts of a namespace, over all vhosts. -/
def ofNamespace : List (Meta × Nat) → String → Nat
  | [], _ => 0
  | (k1, n) :: rest, ns => (if k1.Namespace = ns then n else 0) + ofNamespace rest ns

end metrics

/-- Modelled from the spec: the count of one status.  A valid or invalid
IngressRoute is counted under (namespace, vhost), an orphaned one under its
namespace; every one is counted in total, and a root is counted in root as
well. -/
def countStatus (m : metrics.IngressRouteMetric) (s : ObjectStatus) :
    metrics.IngressRouteMetric :=
  { Invalid := if s.Status = StatusKind.invalid then
        metrics.incr m.Invalid { VHost := s.Vhost, Namespace := s.Object.Namespace }
      else m.Invalid,
    Valid := if s.Status = StatusKind.valid then
        metrics.incr m.Valid { VHost := s.Vhost, Namespace := s.Object.Namespace }
      else m.Valid,
    Orphaned := if s.Status = StatusKind.orphaned then
        metrics.incr m.Orphaned { VHost := "", Namespace := s.Object.Namespace }
      else m.Orphaned,
    Root := if s.Object.VirtualHost ≠ none then
        metrics.incr m.Root { VHost := "", Namespace := s.Object.Namespace }
      else m.Root,
    Total := metrics.incr m.Total { VHost := "", Namespace := s.Object.Namespace } }

/-- Modelled from the spec: the function `calculateIngressRouteMetric`, which is
not among the files at hand: the counts of the statuses. -/
def calculateIngressRouteMetric (statuses : List ObjectStatus) : metrics.IngressRouteMetric :=
  statuses.foldl countStatus { Invalid := [], Valid := [], Orphaned := [], Root := [], Total := [] }

/-- The run of one case of the test: the objects are inserted, the DAG is built
and the metrics of its statuses are calculated. -/
def ingressRouteMetric (rootNamespaces : List String) (objs : List Object) :
    Option metrics.IngressRouteMetric :=
  (Statuses (KubernetesCache.ofObjects rootNamespaces objs)).map calculateIngressRouteMetric

/-- The IngressRoute `y` has a route whose Delegate edge resolves to the
IngressRoute `x` of the cache. -/
def delegatesTo (c : KubernetesCache) (y x : ingressroutev1.IngressRoute) : Prop :=
  ∃ r ∈ y.Routes, ∃ d, r.Delegate = some d ∧
    KubernetesCache.findIngressRoute c.ingressroutes (delegateKey y d) = some x

/-- The accepted roots of the cache, with their FQDN. -/
def acceptedRoots (c : KubernetesCache) : List (ingressroutev1.IngressRoute × String) :=
  (builder.discoverRoots c c.ingressroutes [] []).2

/-- Whether the processing of the IngressRoute `ir`, under the parent prefix
`parentPrefix` and with `path` the keys on the DFS path, `ir` included, goes on
after the route `r`: the conditions of `processRoutes` under which `ir` does not
become invalid at `r`. -/
def builder.routePasses (c : KubernetesCache) (ir : ingressroutev1.IngressRoute)
    (parentPrefix : String) (path : List Meta) (r : ingressroutev1.Route) : Bool :=
  HasPrefix r.Match parentPrefix &&
    match r.Delegate with
    | none =>
      decide (r.Services ≠ []) && r.Services.all (KubernetesCache.serviceOK c ir.Namespace)
    | some d =>
      decide (r.Services = []) &&
        match KubernetesCache.findIngressRoute c.ingressroutes (delegateKey ir d) with
        | none => true
        | some dest => decide (dest.key ∉ path) && decide (dest.VirtualHost = none)

/-- The DFS reaches the IngressRoute `x` through the routes `rs` that are still to
be processed of the IngressRoute `ir`, entered under the parent prefix `pfx`, with
`path` the keys on the DFS path, `ir` included: `x` is the delegate of the first
route, or is reached through the routes of that delegate, when the first route
passes; or it is reached through the later routes, when the first route
passes. -/
inductive builder.ReachesRoutes (c : KubernetesCache) :
    ingressroutev1.IngressRoute → String → List Meta → List ingressroutev1.Route →
    ingressroutev1.IngressRoute → Prop
  | delegate (ir : ingressroutev1.IngressRoute) (pfx : String) (path : List Meta)
    (r : ingressroutev1.Route) (rs : List ingressroutev1.Route)
    (d : ingressroutev1.Delegate) (dest : ingressroutev1.IngressRoute) :
    builder.routePasses c ir pfx path r = true → r.Delegate = some d →
    KubernetesCache.findIngressRoute c.ingressroutes (delegateKey ir d) = some dest →
    builder.ReachesRoutes c ir pfx path (r :: rs) dest
  | descend (ir : ingressroutev1.IngressRoute) (pfx : String) (path : List Meta)
    (r : ingressroutev1.Route) (rs : List ingressroutev1.Route)
    (d : ingressroutev1.Delegate) (dest x : ingressroutev1.IngressRoute) :
    builder.routePasses c ir pfx path r = true → r.Delegate = some d →
    KubernetesCache.findIngressRoute c.ingressroutes (delegateKey ir d) = some dest →
    builder.ReachesRoutes c dest r.Match (path ++ [dest.key]) dest.Routes x →
    builder.ReachesRoutes c ir pfx path (r :: rs) x
  | later (ir : ingressroutev1.IngressRoute) (pfx : String) (path : List Meta)
    (r : ingressroutev1.Route) (rs : List ingressroutev1.Route)
    (x : ingressroutev1.IngressRoute) :
    builder.routePasses c ir pfx path r = true →
    builder.ReachesRoutes c ir pfx path rs x →
    builder.ReachesRoutes c ir pfx path (r :: rs) x

/-- The DFS that enters the IngressRoute `ir` under the parent prefix `pfx` along
the path `path` reaches the IngressRoute `x`: `x` is `ir` itself, or the DFS
reaches it through the routes of `ir`.  This is the relation of what the DFS
visits, and it is narrower than the Delegate edges: an edge is followed only from
a route that is in order and comes after routes that are in order.  The Delegate
edges themselves are `delegatesTo`. -/
def builder.Reaches (c : KubernetesCache) (ir : ingressroutev1.IngressRoute) (pfx : String)
    (path : List Meta) (x : ingressroutev1.IngressRoute) : Prop :=
  x = ir ∨ builder.ReachesRoutes c ir pfx (path ++ [ir.key]) ir.Routes x

/-- The prefix `pfx` is one under which the DFS can enter the IngressRoute `x`:
the empty prefix, under which a root is entered, or the prefix of a route of an
IngressRoute of the cache that delegates to `x`. -/
def builder.PrefixFor (c : KubernetesCache) (x : ingressroutev1.IngressRoute)
    (pfx : String) : Prop :=
  pfx = "" ∨ ∃ y ∈ c.ingressroutes, ∃ r ∈ y.Routes, ∃ d, r.Delegate = some d ∧
    KubernetesCache.findIngressRoute c.ingressroutes (delegateKey y d) = some x ∧
    pfx = r.Match

/-- The value `v` is one that the DFS under the vhost `host` writes for the key
`k`: the verdict on the routes of the IngressRoute of that key, under some path
and a parent prefix under which it can be entered, reported under `host`. -/
def builder.Written (c : KubernetesCache) (host : String) (k : Meta)
    (v : StatusKind × String) : Prop :=
  v.2 = host ∧ ∃ x ∈ c.ingressroutes, x.key = k ∧ ∃ pfx path,
    (v.1 = if x.Routes.all (builder.routePasses c x pfx path) = true then StatusKind.valid
      else StatusKind.invalid) ∧
    builder.PrefixFor c x pfx

/-- The statuses `st2` come from the statuses `st1` by a part of the DFS under
the vhost `host` that reaches the IngressRoutes `R`: only the statuses of
IngressRoutes reached are written; no status is removed; every status written is
a verdict under `host`; and every IngressRoute reached has a status. -/
def builder.Step (c : KubernetesCache) (host : String)
    (R : ingressroutev1.IngressRoute → Prop) (st1 st2 : StatusMap) : Prop :=
  (∀ k, (∀ x, R x → x.key ≠ k) → StatusMap.lookup st2 k = StatusMap.lookup st1 k) ∧
  (∀ k, StatusMap.lookup st1 k ≠ none → StatusMap.lookup st2 k ≠ none) ∧
  (∀ k v, StatusMap.lookup st2 k = some v →
    StatusMap.lookup st1 k = some v ∨ builder.Written c host k v) ∧
  (∀ x, R x → StatusMap.lookup st2 x.key ≠ none)

/-! ## The objects of TestIngressRouteMetrics -/

namespace TestIngressRouteMetrics

/-- The object `ir1` of the test. -/
def ir1 : ingressroutev1.IngressRoute :=
  { Namespace := "roots", Name := "example", VirtualHost := some { Fqdn := "example.com" },
    Routes := [
      { Match := "/foo", Services := [{ Name := "home", Port := 8080, Weight := 0 }], Delegate := none },
      { Match := "/prefix", Services := [], Delegate := some { Name := "delegated", Namespace := "" } }] }

/-- The object `ir2` of the test. -/
def ir2 : ingressroutev1.IngressRoute :=
  { Namespace := "roots", Name := "example", VirtualHost := some { Fqdn := "example.com" },
    Routes := [
      { Match := "/foo", Services := [{ Name := "home", Port := (-80), Weight := 0 }], Delegate := none }] }

/-- The object `ir3` of the test. -/
def ir3 : ingressroutev1.IngressRoute :=
  { Namespace := "finance", Name := "example", VirtualHost := some { Fqdn := "example.com" },
    Routes := [
      { Match := "/foobar", Services := [{ Name := "home", Port := 8080, Weight := 0 }], Delegate := none }] }

/-- The object `ir4` of the test. -/
def ir4 : ingressroutev1.IngressRoute :=
  { Namespace := "roots", Name := "delegated", VirtualHost := none,
    Routes := [
      { Match := "/doesnotmatch", Services := [{ Name := "home", Port := 8080, Weight := 0 }], Delegate := none }] }

/-- The object `ir5` of the test. -/
def ir5 : ingressroutev1.IngressRoute :=
  { Namespace := "roots", Name := "delegated", VirtualHost := some { Fqdn := "example.com" },
    Routes := [
      { Match := "/foo", Services := [{ Name := "home", Port := 8080, Weight := (-10) }], Delegate := none }] }

/-- The object `ir6` of the test. -/
def ir6 : ingressroutev1.IngressRoute :=
  { Namespace := "roots", Name := "self", VirtualHost := some { Fqdn := "example.com" },
    Routes := [
      { Match := "/foo", Services := [], Delegate := some { Name := "self", Namespace := "" } }] }

/-- The object `ir7` of the test. -/
def ir7 : ingressroutev1.IngressRoute :=
  { Namespace := "roots", Name := "parent", VirtualHost := some { Fqdn := "example.com" },
    Routes := [
      { Match := "/foo", Services := [], Delegate := some { Name := "child", Namespace := "" } }] }

/-- The object `ir8` of the test. -/
def ir8 : ingressroutev1.IngressRoute :=
  { Namespace := "roots", Name := "child", VirtualHost := none,
    Routes := [
      { Match := "/foo", Services := [], Delegate := some { Name := "parent", Namespace := "" } }] }

/-- The object `ir9` of the test. -/
def ir9 : ingressroutev1.IngressRoute :=
  { Namespace := "roots", Name := "parent", VirtualHost := some { Fqdn := "example.com" },
    Routes := [
      { Match := "/foo", Services := [{ Name := "kuard", Port := 8080, Weight := 0 }], Delegate := some { Name := "child", Namespace := "" } }] }

/-- The object `ir10` of the test. -/
def ir10 : ingressroutev1.IngressRoute :=
  { Namespace := "roots", Name := "parent", VirtualHost := some { Fqdn := "example.com" },
    Routes := [
      { Match := "/foo", Services := [], Delegate := some { Name := "validChild", Namespace := "" } },
      { Match := "/bar", Services := [], Delegate := some { Name := "invalidChild", Namespace := "" } }] }

/-- The object `ir11` of the test. -/
def ir11 : ingressroutev1.IngressRoute :=
  { Namespace := "roots", Name := "validChild", VirtualHost := none,
    Routes := [
      { Match := "/foo", Services := [{ Name := "foo", Port := 8080, Weight := 0 }], Delegate := none }] }

/-- The object `ir12` of the test. -/
def ir12 : ingressroutev1.IngressRoute :=
  { Namespace := "roots", Name := "invalidChild", VirtualHost := none,
    Routes := [
      { Match := "/bar", Services := [{ Name := "foo", Port := 12345678, Weight := 0 }], Delegate := none }] }

/-- The object `ir13` of the test. -/
def ir13 : ingressroutev1.IngressRoute :=
  { Namespace := "roots", Name := "parent", VirtualHost := some { Fqdn := "" },
    Routes := [
      { Match := "/foo", Services := [{ Name := "foo", Port := 8080, Weight := 0 }], Delegate := none }] }

/-- The object `ir14` of the test. -/
def ir14 : ingressroutev1.IngressRoute :=
  { Namespace := "roots", Name := "invalidParent", VirtualHost := some { Fqdn := "" },
    Routes := [
      { Match := "/foo", Services := [], Delegate := some { Name := "validChild", Namespace := "" } }] }

/-- The object `s1` of the test. -/
def s1 : v1.Service :=
  { Namespace := "roots", Name := "foo", Ports := [{ Name := "http", Port := 12345678 }] }

/-- The object `s2` of the test. -/
def s2 : v1.Service :=
  { Namespace := "roots", Name := "foo", Ports := [{ Name := "http", Port := 8080 }] }

/-- The object `s3` of the test. -/
def s3 : v1.Service :=
  { Namespace := "roots", Name := "home", Ports := [{ Name := "http", Port := 8080 }] }

end TestIngressRouteMetrics

/-! ## Two roots that differ in the order of their routes -/

namespace RouteOrder

/-- A root whose first route has a service with a port out of range and whose
second route delegates to `validChild`. -/
def failsFirst : ingressroutev1.IngressRoute :=
  { Namespace := "roots", Name := "parent", VirtualHost := some { Fqdn := "example.com" },
    Routes := [
      { Match := "/bar", Services := [{ Name := "foo", Port := 12345678, Weight := 0 }], Delegate := none },
      { Match := "/foo", Services := [], Delegate := some { Name := "validChild", Namespace := "" } }] }

/-- The same root with its two routes in the other order: the first route
delegates to `validChild`, the second has the service with the port out of
range. -/
def delegatesFirst : ingressroutev1.IngressRoute :=
  { Namespace := "roots", Name := "parent", VirtualHost := some { Fqdn := "example.com" },
    Routes := [
      { Match := "/foo", Services := [], Delegate := some { Name := "validChild", Namespace := "" } },
      { Match := "/bar", Services := [{ Name := "foo", Port := 12345678, Weight := 0 }], Delegate := none }] }

end RouteOrder

/-! ## The bootstrap configuration

The function `Bootstrap` of the package `envoy` is not among the files at hand;
only its test `TestBootstrap` is.  It is modelled from the specification and the
fixtures of the test, and the model is checked against every case of the test. -/

/-- Modelled from the spec: the type `BootstrapConfig`, with the fields that the
test sets.  A field that is not configured has the zero value: the empty string,
0 or false. -/
structure BootstrapConfig where
  AdminAccessLogPath : String
  AdminAddress : String
  AdminPort : Int
  StatsAddress : String
  StatsPort : Int
  XDSAddress : String
  XDSGRPCPort : Int
  StatsdEnabled : Bool
  StatsdAddress : String
  StatsdPort : Int
deriving DecidableEq, Repr

/-- The zero value `BootstrapConfig{}`. -/
def BootstrapConfig.zero : BootstrapConfig :=
  { AdminAccessLogPath := "", AdminAddress := "", AdminPort := 0, StatsAddress := "",
    StatsPort := 0, XDSAddress := "", XDSGRPCPort := 0, StatsdEnabled := false,
    StatsdAddress := "", StatsdPort := 0 }

namespace bootstrap

/-- An HTTP filter of the connection manager of the stats listener: the health
check on a header, or the router. -/
inductive HTTPFilter
  | health_check (header exactMatch : String) (passThroughMode : Bool)
  | router
deriving DecidableEq, Repr

/-- A route of the stats listener: a prefix and the cluster it routes to. -/
structure Route where
  Prefix : String
  Cluster : String
deriving DecidableEq, Repr

/-- The virtual host of the route configuration of the stats listener. -/
structure VirtualHost where
  Name : String
  Domains : List String
  Routes : List Route
deriving DecidableEq, Repr

/-- The configuration of the filter `envoy.http_connection_manager` of the stats
listener. -/
structure HTTPConnectionManager where
  CodecType : String
  HttpFilters : List HTTPFilter
  VirtualHost : VirtualHost
  StatPrefix : String
  NormalizePath : Bool
deriving DecidableEq, Repr

/-- A network filter of the stats listener. -/
structure Filter where
  Name : String
  Config : HTTPConnectionManager
deriving DecidableEq, Repr

/-- A filter chain of the stats listener. -/
structure FilterChain where
  Filters : List Filter
deriving DecidableEq, Repr

/-- A listener of the static resources. -/
structure Listener where
  Address : SocketAddress
  FilterChains : List FilterChain
deriving DecidableEq, Repr

/-- The thresholds of a circuit breaker; the priority that is left out is
`DEFAULT`. -/
structure Thresholds where
  Priority : String
  MaxConnections : Nat
  MaxPendingRequests : Nat
  MaxRequests : Nat
  MaxRetries : Nat
deriving DecidableEq, Repr

/-- A cluster of the static resources: `Endpoints` holds, for each locality of
the load assignment, the addresses of its endpoints. -/
structure Cluster where
  Name : String
  DiscoveryType : String
  ConnectTimeout : String
  ClusterName : String
  Endpoints : List (List SocketAddress)
  CircuitBreakers : List Thresholds
  Http2ProtocolOptions : Bool
deriving DecidableEq, Repr

/-- A configuration source of the dynamic resources: the API type and the names
of the clusters of its gRPC services. -/
structure ConfigSource where
  ApiType : String
  GrpcServices : List String
deriving DecidableEq, Repr

/-- A stats sink: its name and the socket address it sends to. -/
structure StatsSink where
  Name : String
  Address : String
  Port : Int
  Protocol : String
deriving DecidableEq, Repr

/-- The admin interface. -/
structure Admin where
  AccessLogPath : String
  Address : SocketAddress
deriving DecidableEq, Repr

/-- Modelled from the spec: the message `bootstrap.Bootstrap` with the parts that
the fixtures of the test fill in: the listeners and clusters of the static
resources, the LDS and CDS configuration of the dynamic resources, the stats
sinks and the admin interface. -/
structure Bootstrap where
  Listeners : List Listener
  Clusters : List Cluster
  LdsConfig : ConfigSource
  CdsConfig : ConfigSource
  StatsSinks : List StatsSink
  Admin : Admin
deriving DecidableEq, Repr

end bootstrap

/-- Modelled from the spec: the configured string, or the default when it is
not set. -/
def stringOrDefault (s dflt : String) : String :=
  if s ≠ "" then s else dflt

/-- Modelled from the spec: the configured number, or the default when it is
not set. -/
def intOrDefault (i dflt : Int) : Int :=
  if i ≠ 0 then i else dflt

/-- Modelled from the spec: the function `Bootstrap`, which is not among the
files at hand.  The stats listener is bound to the stats address and port
(default 0.0.0.0:8002) and routes `/stats` to the cluster `service_stats`; the
static cluster `contour` points to the xDS server (default 127.0.0.1:8001); the
cluster `service_stats` points to the admin interface; the admin interface is
bound to the admin address and port (default 127.0.0.1:9001) with its access log
path (default `/dev/null`); and a statsd sink (default 127.0.0.1:9125) is there
when statsd is enabled. -/
def Bootstrap (c : BootstrapConfig) : bootstrap.Bootstrap :=
  { Listeners := [
      { Address :=
          { Address := stringOrDefault c.StatsAddress "0.0.0.0",
            Port := intOrDefault c.StatsPort 8002 },
        FilterChains := [
          { Filters := [
              { Name := "envoy.http_connection_manager",
                Config :=
                  { CodecType := "AUTO",
                    HttpFilters := [
                      bootstrap.HTTPFilter.health_check ":path" "/healthz" false,
                      bootstrap.HTTPFilter.router],
                    VirtualHost :=
                      { Name := "backend",
                        Domains := ["*"],
                        Routes := [{ Prefix := "/stats", Cluster := "service_stats" }] },
                    StatPrefix := "stats",
                    NormalizePath := true } }] }] }],
    Clusters := [
      { Name := "contour",
        DiscoveryType := "STRICT_DNS",
        ConnectTimeout := "5s",
        ClusterName := "contour",
        Endpoints := [[
          { Address := stringOrDefault c.XDSAddress "127.0.0.1",
            Port := intOrDefault c.XDSGRPCPort 8001 }]],
        CircuitBreakers := [
          { Priority := "HIGH",
            MaxConnections := 100000,
            MaxPendingRequests := 100000,
            MaxRequests := 60000000,
            MaxRetries := 50 },
          { Priority := "DEFAULT",
            MaxConnections := 100000,
            MaxPendingRequests := 100000,
            MaxRequests := 60000000,
            MaxRetries := 50 }],
        Http2ProtocolOptions := true },
      { Name := "service_stats",
        DiscoveryType := "LOGICAL_DNS",
        ConnectTimeout := "0.250s",
        ClusterName := "service_stats",
        Endpoints := [[
          { Address := stringOrDefault c.AdminAddress "127.0.0.1",
            Port := intOrDefault c.AdminPort 9001 }]],
        CircuitBreakers := [],
        Http2ProtocolOptions := false }],
    LdsConfig := { ApiType := "GRPC", GrpcServices := ["contour"] },
    CdsConfig := { ApiType := "GRPC", GrpcServices := ["contour"] },
    StatsSinks :=
      if c.StatsdEnabled then
        [{ Name := "envoy.statsd",
           Address := stringOrDefault c.StatsdAddress "127.0.0.1",
           Port := intOrDefault c.StatsdPort 9125,
           Protocol := "UDP" }]
      else [],
    Admin :=
      { AccessLogPath := stringOrDefault c.AdminAccessLogPath "/dev/null",
        Address :=
          { Address := stringOrDefault c.AdminAddress "127.0.0.1",
            Port := intOrDefault c.AdminPort 9001 } } }

/-! ## The cases of TestBootstrap -/

namespace TestBootstrap

open bootstrap

/-- The configuration of the case "default configuration" of the test. -/
def default_configuration.config : BootstrapConfig :=
  BootstrapConfig.zero

/-- The bootstrap that the case "default configuration" of the test wants. -/
def default_configuration.want : bootstrap.Bootstrap :=
  { Listeners := [
      { Address := { Address := "0.0.0.0", Port := 8002 },
        FilterChains := [
          { Filters := [
              { Name := "envoy.http_connection_manager",
                Config :=
                  { CodecType := "AUTO",
                    HttpFilters := [
                      HTTPFilter.health_check ":path" "/healthz" false,
                      HTTPFilter.router],
                    VirtualHost :=
                      { Name := "backend",
                        Domains := ["*"],
                        Routes := [{ Prefix := "/stats", Cluster := "service_stats" }] },
                    StatPrefix := "stats",
                    NormalizePath := true } }] }] }],
    Clusters := [
      { Name := "contour",
        DiscoveryType := "STRICT_DNS",
        ConnectTimeout := "5s",
        ClusterName := "contour",
        Endpoints := [[{ Address := "127.0.0.1", Port := 8001 }]],
        CircuitBreakers := [
          { Priority := "HIGH",
            MaxConnections := 100000,
            MaxPendingRequests := 100000,
            MaxRequests := 60000000,
            MaxRetries := 50 },
          { Priority := "DEFAULT",
            MaxConnections := 100000,
            MaxPendingRequests := 100000,
            MaxRequests := 60000000,
            MaxRetries := 50 }],
        Http2ProtocolOptions := true },
      { Name := "service_stats",
        DiscoveryType := "LOGICAL_DNS",
        ConnectTimeout := "0.250s",
        ClusterName := "service_stats",
        Endpoints := [[{ Address := "127.0.0.1", Port := 9001 }]],
        CircuitBreakers := [],
        Http2ProtocolOptions := false }],
    LdsConfig :=
      { ApiType := "GRPC",
        GrpcServices := ["contour"] },
    CdsConfig :=
      { ApiType := "GRPC",
        GrpcServices := ["contour"] },
    StatsSinks := [],
    Admin :=
      { AccessLogPath := "/dev/null",
        Address := { Address := "127.0.0.1", Port := 9001 } } }

/-- The configuration of the case "--statsd-enabled" of the test. -/
def statsd_enabled.config : BootstrapConfig :=
  { BootstrapConfig.zero with StatsdEnabled := true }

/-- The bootstrap that the case "--statsd-enabled" of the test wants. -/
def statsd_enabled.want : bootstrap.Bootstrap :=
  { Listeners := [
      { Address := { Address := "0.0.0.0", Port := 8002 },
        FilterChains := [
          { Filters := [
              { Name := "envoy.http_connection_manager",
                Config :=
                  { CodecType := "AUTO",
                    HttpFilters := [
                      HTTPFilter.health_check ":path" "/healthz" false,
                      HTTPFilter.router],
                    VirtualHost :=
                      { Name := "backend",
                        Domains := ["*"],
                        Routes := [{ Prefix := "/stats", Cluster := "service_stats" }] },
                    StatPrefix := "stats",
                    NormalizePath := true } }] }] }],
    Clusters := [
      { Name := "contour",
        DiscoveryType := "STRICT_DNS",
        ConnectTimeout := "5s",
        ClusterName := "contour",
        Endpoints := [[{ Address := "127.0.0.1", Port := 8001 }]],
        CircuitBreakers := [
          { Priority := "HIGH",
            MaxConnections := 100000,
            MaxPendingRequests := 100000,
            MaxRequests := 60000000,
            MaxRetries := 50 },
          { Priority := "DEFAULT",
            MaxConnections := 100000,
            MaxPendingRequests := 100000,
            MaxRequests := 60000000,
            MaxRetries := 50 }],
        Http2ProtocolOptions := true },
      { Name := "service_stats",
        DiscoveryType := "LOGICAL_DNS",
        ConnectTimeout := "0.250s",
        ClusterName := "service_stats",
        Endpoints := [[{ Address := "127.0.0.1", Port := 9001 }]],
        CircuitBreakers := [],
        Http2ProtocolOptions := false }],
    LdsConfig :=
      { ApiType := "GRPC",
        GrpcServices := ["contour"] },
    CdsConfig :=
      { ApiType := "GRPC",
        GrpcServices := ["contour"] },
    StatsSinks := [
      { Name := "envoy.statsd",
        Address := "127.0.0.1",
        Port := 9125,
        Protocol := "UDP" }],
    Admin :=
      { AccessLogPath := "/dev/null",
        Address := { Address := "127.0.0.1", Port := 9001 } } }

/-- The configuration of the case "--statsd-enabled --statsd-address=8.8.8.8 --statsd-port=9200" of the test. -/
def statsd_address_and_port.config : BootstrapConfig :=
  { BootstrapConfig.zero with StatsdEnabled := true, StatsdAddress := "8.8.8.8", StatsdPort := 9200 }

/-- The bootstrap that the case "--statsd-enabled --statsd-address=8.8.8.8 --statsd-port=9200" of the test wants. -/
def statsd_address_and_port.want : bootstrap.Bootstrap :=
  { Listeners := [
      { Address := { Address := "0.0.0.0", Port := 8002 },
        FilterChains := [
          { Filters := [
              { Name := "envoy.http_connection_manager",
                Config :=
                  { CodecType := "AUTO",
                    HttpFilters := [
                      HTTPFilter.health_check ":path" "/healthz" false,
                      HTTPFilter.router],
                    VirtualHost :=
                      { Name := "backend",
                        Domains := ["*"],
                        Routes := [{ Prefix := "/stats", Cluster := "service_stats" }] },
                    StatPrefix := "stats",
                    NormalizePath := true } }] }] }],
    Clusters := [
      { Name := "contour",
        DiscoveryType := "STRICT_DNS",
        ConnectTimeout := "5s",
        ClusterName := "contour",
        Endpoints := [[{ Address := "127.0.0.1", Port := 8001 }]],
        CircuitBreakers := [
          { Priority := "HIGH",
            MaxConnections := 100000,
            MaxPendingRequests := 100000,
            MaxRequests := 60000000,
            MaxRetries := 50 },
          { Priority := "DEFAULT",
            MaxConnections := 100000,
            MaxPendingRequests := 100000,
            MaxRequests := 60000000,
            MaxRetries := 50 }],
        Http2ProtocolOptions := true },
      { Name := "service_stats",
        DiscoveryType := "LOGICAL_DNS",
        ConnectTimeout := "0.250s",
        ClusterName := "service_stats",
        Endpoints := [[{ Address := "127.0.0.1", Port := 9001 }]],
        CircuitBreakers := [],
        Http2ProtocolOptions := false }],
    LdsConfig :=
      { ApiType := "GRPC",
        GrpcServices := ["contour"] },
    CdsConfig :=
      { ApiType := "GRPC",
        GrpcServices := ["contour"] },
    StatsSinks := [
      { Name := "envoy.statsd",
        Address := "8.8.8.8",
        Port := 9200,
        Protocol := "UDP" }],
    Admin :=
      { AccessLogPath := "/dev/null",
        Address := { Address := "127.0.0.1", Port := 9001 } } }

/-- The configuration of the case "--admin-address=8.8.8.8 --admin-port=9200" of the test. -/
def admin_address_and_port.config : BootstrapConfig :=
  { BootstrapConfig.zero with AdminAddress := "8.8.8.8", AdminPort := 9200 }

/-- The bootstrap that the case "--admin-address=8.8.8.8 --admin-port=9200" of the test wants. -/
def admin_address_and_port.want : bootstrap.Bootstrap :=
  { Listeners := [
      { Address := { Address := "0.0.0.0", Port := 8002 },
        FilterChains := [
          { Filters := [
              { Name := "envoy.http_connection_manager",
                Config :=
                  { CodecType := "AUTO",
                    HttpFilters := [
                      HTTPFilter.health_check ":path" "/healthz" false,
                      HTTPFilter.router],
                    VirtualHost :=
                      { Name := "backend",
                        Domains := ["*"],
                        Routes := [{ Prefix := "/stats", Cluster := "service_stats" }] },
                    StatPrefix := "stats",
                    NormalizePath := true } }] }] }],
    Clusters := [
      { Name := "contour",
        DiscoveryType := "STRICT_DNS",
        ConnectTimeout := "5s",
        ClusterName := "contour",
        Endpoints := [[{ Address := "127.0.0.1", Port := 8001 }]],
        CircuitBreakers := [
          { Priority := "HIGH",
            MaxConnections := 100000,
            MaxPendingRequests := 100000,
            MaxRequests := 60000000,
            MaxRetries := 50 },
          { Priority := "DEFAULT",
            MaxConnections := 100000,
            MaxPendingRequests := 100000,
            MaxRequests := 60000000,
            MaxRetries := 50 }],
        Http2ProtocolOptions := true },
      { Name := "service_stats",
        DiscoveryType := "LOGICAL_DNS",
        ConnectTimeout := "0.250s",
        ClusterName := "service_stats",
        Endpoints := [[{ Address := "8.8.8.8", Port := 9200 }]],
        CircuitBreakers := [],
        Http2ProtocolOptions := false }],
    LdsConfig :=
      { ApiType := "GRPC",
        GrpcServices := ["contour"] },
    CdsConfig :=
      { ApiType := "GRPC",
        GrpcServices := ["contour"] },
    StatsSinks := [],
    Admin :=
      { AccessLogPath := "/dev/null",
        Address := { Address := "8.8.8.8", Port := 9200 } } }

/-- The configuration of the case "AdminAccessLogPath" of the test. -/
def AdminAccessLogPath.config : BootstrapConfig :=
  { BootstrapConfig.zero with AdminAccessLogPath := "/var/log/admin.log" }

/-- The bootstrap that the case "AdminAccessLogPath" of the test wants. -/
def AdminAccessLogPath.want : bootstrap.Bootstrap :=
  { Listeners := [
      { Address := { Address := "0.0.0.0", Port := 8002 },
        FilterChains := [
          { Filters := [
              { Name := "envoy.http_connection_manager",
                Config :=
                  { CodecType := "AUTO",
                    HttpFilters := [
                      HTTPFilter.health_check ":path" "/healthz" false,
                      HTTPFilter.router],
                    VirtualHost :=
                      { Name := "backend",
                        Domains := ["*"],
                        Routes := [{ Prefix := "/stats", Cluster := "service_stats" }] },
                    StatPrefix := "stats",
                    NormalizePath := true } }] }] }],
    Clusters := [
      { Name := "contour",
        DiscoveryType := "STRICT_DNS",
        ConnectTimeout := "5s",
        ClusterName := "contour",
        Endpoints := [[{ Address := "127.0.0.1", Port := 8001 }]],
        CircuitBreakers := [
          { Priority := "HIGH",
            MaxConnections := 100000,
            MaxPendingRequests := 100000,
            MaxRequests := 60000000,
            MaxRetries := 50 },
          { Priority := "DEFAULT",
            MaxConnections := 100000,
            MaxPendingRequests := 100000,
            MaxRequests := 60000000,
            MaxRetries := 50 }],
        Http2ProtocolOptions := true },
      { Name := "service_stats",
        DiscoveryType := "LOGICAL_DNS",
        ConnectTimeout := "0.250s",
        ClusterName := "service_stats",
        Endpoints := [[{ Address := "127.0.0.1", Port := 9001 }]],
        CircuitBreakers := [],
        Http2ProtocolOptions := false }],
    LdsConfig :=
      { ApiType := "GRPC",
        GrpcServices := ["contour"] },
    CdsConfig :=
      { ApiType := "GRPC",
        GrpcServices := ["contour"] },
    StatsSinks := [],
    Admin :=
      { AccessLogPath := "/var/log/admin.log",
        Address := { Address := "127.0.0.1", Port := 9001 } } }

/-- The configuration of the case "--xds-address=8.8.8.8 --xds-port=9200" of the test. -/
def xds_address_and_port.config : BootstrapConfig :=
  { BootstrapConfig.zero with XDSAddress := "8.8.8.8", XDSGRPCPort := 9200 }

/-- The bootstrap that the case "--xds-address=8.8.8.8 --xds-port=9200" of the test wants. -/
def xds_address_and_port.want : bootstrap.Bootstrap :=
  { Listeners := [
      { Address := { Address := "0.0.0.0", Port := 8002 },
        FilterChains := [
          { Filters := [
              { Name := "envoy.http_connection_manager",
                Config :=
                  { CodecType := "AUTO",
                    HttpFilters := [
                      HTTPFilter.health_check ":path" "/healthz" false,
                      HTTPFilter.router],
                    VirtualHost :=
                      { Name := "backend",
                        Domains := ["*"],
                        Routes := [{ Prefix := "/stats", Cluster := "service_stats" }] },
                    StatPrefix := "stats",
                    NormalizePath := true } }] }] }],
    Clusters := [
      { Name := "contour",
        DiscoveryType := "STRICT_DNS",
        ConnectTimeout := "5s",
        ClusterName := "contour",
        Endpoints := [[{ Address := "8.8.8.8", Port := 9200 }]],
        CircuitBreakers := [
          { Priority := "HIGH",
            MaxConnections := 100000,
            MaxPendingRequests := 100000,
            MaxRequests := 60000000,
            MaxRetries := 50 },
          { Priority := "DEFAULT",
            MaxConnections := 100000,
            MaxPendingRequests := 100000,
            MaxRequests := 60000000,
            MaxRetries := 50 }],
        Http2ProtocolOptions := true },
      { Name := "service_stats",
        DiscoveryType := "LOGICAL_DNS",
        ConnectTimeout := "0.250s",
        ClusterName := "service_stats",
        Endpoints := [[{ Address := "127.0.0.1", Port := 9001 }]],
        CircuitBreakers := [],
        Http2ProtocolOptions := false }],
    LdsConfig :=
      { ApiType := "GRPC",
        GrpcServices := ["contour"] },
    CdsConfig :=
      { ApiType := "GRPC",
        GrpcServices := ["contour"] },
    StatsSinks := [],
    Admin :=
      { AccessLogPath := "/dev/null",
        Address := { Address := "127.0.0.1", Port := 9001 } } }

/-- The configuration of the case "--stats-address=8.8.8.8 --stats-port=9200" of the test. -/
def stats_address_and_port.config : BootstrapConfig :=
  { BootstrapConfig.zero with StatsAddress := "8.8.8.8", StatsPort := 9200 }

/-- The bootstrap that the case "--stats-address=8.8.8.8 --stats-port=9200" of the test wants. -/
def stats_address_and_port.want : bootstrap.Bootstrap :=
  { Listeners := [
      { Address := { Address := "8.8.8.8", Port := 9200 },
        FilterChains := [
          { Filters := [
              { Name := "envoy.http_connection_manager",
                Config :=
                  { CodecType := "AUTO",
                    HttpFilters := [
                      HTTPFilter.health_check ":path" "/healthz" false,
                      HTTPFilter.router],
                    VirtualHost :=
                      { Name := "backend",
                        Domains := ["*"],
                        Routes := [{ Prefix := "/stats", Cluster := "service_stats" }] },
                    StatPrefix := "stats",
                    NormalizePath := true } }] }] }],
    Clusters := [
      { Name := "contour",
        DiscoveryType := "STRICT_DNS",
        ConnectTimeout := "5s",
        ClusterName := "contour",
        Endpoints := [[{ Address := "127.0.0.1", Port := 8001 }]],
        CircuitBreakers := [
          { Priority := "HIGH",
            MaxConnections := 100000,
            MaxPendingRequests := 100000,
            MaxRequests := 60000000,
            MaxRetries := 50 },
          { Priority := "DEFAULT",
            MaxConnections := 100000,
            MaxPendingRequests := 100000,
            MaxRequests := 60000000,
            MaxRetries := 50 }],
        Http2ProtocolOptions := true },
      { Name := "service_stats",
        DiscoveryType := "LOGICAL_DNS",
        ConnectTimeout := "0.250s",
        ClusterName := "service_stats",
        Endpoints := [[{ Address := "127.0.0.1", Port := 9001 }]],
        CircuitBreakers := [],
        Http2ProtocolOptions := false }],
    LdsConfig :=
      { ApiType := "GRPC",
        GrpcServices := ["contour"] },
    CdsConfig :=
      { ApiType := "GRPC",
        GrpcServices := ["contour"] },
    StatsSinks := [],
    Admin :=
      { AccessLogPath := "/dev/null",
        Address := { Address := "127.0.0.1", Port := 9001 } } }

end TestBootstrap

end Contour

/-! ## Lemmas on the loops -/

namespace Contour

open ListenerCache

theorem notifyLoop_eq (last : Int) (ws : List Chan) (out : List Send) :
    notifyLoop last ws out = out ++ ws.map (fun ch => { ch := ch, val := last }) := by
  induction ws generalizing out with
  | nil => simp [notifyLoop]
  | cons ch rest ih => simp [notifyLoop, ih]

theorem valuesLoop_eq (filter : String → Bool) (m : ListenerMap) (acc : List Listener) :
    valuesLoop filter m acc = acc ++ (m.map Prod.snd).filter (fun l => filter l.Name) := by
  induction m generalizing acc with
  | nil => simp [valuesLoop]
  | cons e rest ih =>
    obtain ⟨k, v⟩ := e
    by_cases hf : filter v.Name = true
    · simp [valuesLoop, ih, hf]
    · simp [valuesLoop, ih, hf]

theorem wrapInt_of_range (x : Int) (hlo : minInt ≤ x) (hhi : x ≤ maxInt) : wrapInt x = x := by
  unfold wrapInt
  unfold minInt at hlo
  unfold maxInt at hhi
  omega

theorem wrapInt_range (x : Int) : minInt ≤ wrapInt x ∧ wrapInt x ≤ maxInt := by
  unfold wrapInt minInt maxInt
  omega

theorem wrapInt_maxInt_succ : wrapInt (maxInt + 1) = minInt := by decide

theorem wrapInt_add_wrapInt (x : Int) (k : Nat) :
    wrapInt (wrapInt (x + 1) + k) = wrapInt (x + (k + 1 : Nat)) := by
  unfold wrapInt
  push_cast
  omega

theorem Update_state (c : ListenerCache) (v : ListenerMap) :
    (c.Update v).1 = { values := v, waiters := [], last := wrapInt (c.last + 1) } := rfl

theorem Update_sends (c : ListenerCache) (v : ListenerMap) :
    (c.Update v).2 = c.waiters.map (fun ch => { ch := ch, val := wrapInt (c.last + 1) }) := by
  simp [Update, notify, notifyLoop_eq]

theorem signals_map (ch : Chan) (val : Int) (ws : List Chan) :
    signals ch (ws.map (fun x => ({ ch := x, val := val } : Send))) = ws.count ch := by
  induction ws with
  | nil => simp [signals]
  | cons w rest ih =>
    simp only [signals] at ih
    by_cases h : w = ch
    · subst h
      simp [signals, ih]
    · have h2 : ¬ (w == ch) = true := by simpa using h
      simp [signals, List.filter_cons, h, List.count_cons, h2, ih]

/-! ## Update -/

/-- C1 (amended): `Update(v)` on any cache state, `last` being an `int`, replaces
the stored values map with exactly `v` and increments the counter `last` as an
`int`: below the largest `int` it increases `last` by exactly one, and from the
largest `int` it wraps around to the smallest.  The new `last` is an `int`
again. -/
theorem Update_replaces_values_and_increments_last (c : ListenerCache) (v : ListenerMap)
    (hlo : minInt ≤ c.last) :
    (c.Update v).1.values = v ∧
      (c.last < maxInt → (c.Update v).1.last = c.last + 1) ∧
      (c.last = maxInt → (c.Update v).1.last = minInt) ∧
      minInt ≤ (c.Update v).1.last ∧ (c.Update v).1.last ≤ maxInt := by
  rw [Update_state]
  refine ⟨rfl, fun h => ?_, fun h => ?_, wrapInt_range _⟩
  · exact wrapInt_of_range _ (by unfold minInt at *; omega) (by unfold maxInt at *; omega)
  · show wrapInt (c.last + 1) = minInt
    rw [h]
    exact wrapInt_maxInt_succ

/-- A run of C1: an `Update` on a cache at version 4 installs the new map and
moves the cache to version 5. -/
theorem Update_replaces_values_and_increments_last_witness :
    minInt ≤ ({ values := [], waiters := [8], last := 4 } : ListenerCache).last ∧
    (({ values := [], waiters := [8], last := 4 } : ListenerCache).Update
      [("ingress_http", ⟨"ingress_http", ⟨"0.0.0.0", 8080⟩, [], []⟩)]).1.values =
        [("ingress_http", ⟨"ingress_http", ⟨"0.0.0.0", 8080⟩, [], []⟩)] ∧
    (({ values := [], waiters := [8], last := 4 } : ListenerCache).Update
      [("ingress_http", ⟨"ingress_http", ⟨"0.0.0.0", 8080⟩, [], []⟩)]).1.last = 5 :=
  ⟨by decide,
    (Update_replaces_values_and_increments_last { values := [], waiters := [8], last := 4 }
      [("ingress_http", ⟨"ingress_http", ⟨"0.0.0.0", 8080⟩, [], []⟩)] (by decide)).1,
    (Update_replaces_values_and_increments_last { values := [], waiters := [8], last := 4 }
      [("ingress_http", ⟨"ingress_http", ⟨"0.0.0.0", 8080⟩, [], []⟩)] (by decide)).2.1
      (by decide)⟩

/-- C2: for every cache state, the sends of `Update` are exactly one send per
entry of the waiter list, in list order, each carrying the new value of `last`,
which is the old one incremented as an `int`; so every channel is sent that value
as many times as it occurs in the waiter list, and a channel that is no waiter
is sent nothing. -/
theorem Update_signals_every_waiter (c : ListenerCache) (v : ListenerMap) :
    (c.Update v).2 = c.waiters.map (fun ch => { ch := ch, val := (c.Update v).1.last }) ∧
      (c.Update v).1.last = wrapInt (c.last + 1) ∧
      (∀ s ∈ (c.Update v).2, s.val = (c.Update v).1.last ∧ s.ch ∈ c.waiters) ∧
      (∀ ch, signals ch (c.Update v).2 = c.waiters.count ch) ∧
      (∀ ch, ch ∉ c.waiters → signals ch (c.Update v).2 = 0) := by
  rw [Update_sends, Update_state]
  refine ⟨rfl, rfl, ?_, ?_, ?_⟩
  · intro s hs
    rw [List.mem_map] at hs
    obtain ⟨w, hw, rfl⟩ := hs
    exact ⟨rfl, hw⟩
  · intro ch
    exact signals_map ch _ _
  · intro ch hch
    rw [signals_map]
    exact List.count_eq_zero_of_not_mem hch

/-! ## Sequences of calls: lemmas -/

theorem calls_append (c : ListenerCache) (xs ys : List Call) :
    c.calls (xs ++ ys) =
      (((c.calls xs).1.calls ys).1, (c.calls xs).2 ++ ((c.calls xs).1.calls ys).2) := by
  induction xs generalizing c with
  | nil => simp [calls]
  | cons x xs ih => simp [calls, ih, List.append_assoc]

theorem call_no_waiters (c : ListenerCache) (x : Call) (hw : c.waiters = [])
    (hx : x.isRegister = false) : (c.call x).1.waiters = [] ∧ (c.call x).2 = [] := by
  cases x with
  | Register ch n => simp [Call.isRegister] at hx
  | Update v => simp [call, Update_state, Update_sends, hw]
  | Values f => simp [call, Values, hw]

theorem calls_no_waiters (c : ListenerCache) (xs : List Call) (hw : c.waiters = [])
    (hxs : xs.any Call.isRegister = false) :
    (c.calls xs).1.waiters = [] ∧ (c.calls xs).2 = [] := by
  induction xs generalizing c with
  | nil => simp [calls, hw]
  | cons x xs ih =>
    rw [List.any_cons, Bool.or_eq_false_iff] at hxs
    obtain ⟨h1, h2⟩ := call_no_waiters c x hw hxs.1
    obtain ⟨h3, h4⟩ := ih (c.call x).1 h1 hxs.2
    simp [calls, h2, h3, h4]

theorem calls_no_update (c : ListenerCache) (xs : List Call)
    (hxs : xs.any Call.isUpdate = false) :
    (c.calls xs).1 = { c with waiters := c.waiters ++ enqueued c.last xs } := by
  induction xs generalizing c with
  | nil => simp [calls, enqueued]
  | cons x xs ih =>
    rw [List.any_cons, Bool.or_eq_false_iff] at hxs
    cases x with
    | Register ch n =>
      by_cases hn : n < c.last
      · simp [calls, call, Register, hn, enqueued, ih _ hxs.2]
      · simp [calls, call, Register, hn, enqueued, ih _ hxs.2]
    | Update v => simp [Call.isUpdate] at hxs
    | Values f => simp [calls, call, Values, enqueued, ih _ hxs.2]

/-- C3: waiters are one-shot.  After `Update` the waiter list is empty, a second
`Update` right after it sends nothing, and so does every sequence of `Update`
and `Values` calls that follows with no `Register` in between. -/
theorem Update_waiters_one_shot (c : ListenerCache) (v : ListenerMap) (mid : List Call)
    (hmid : mid.any Call.isRegister = false) :
    (c.Update v).1.waiters = [] ∧
      (∀ v2, ((c.Update v).1.Update v2).2 = []) ∧
      ((c.Update v).1.calls mid).2 = [] ∧
      (∀ v2, (((c.Update v).1.calls mid).1.Update v2).2 = []) := by
  have h0 : (c.Update v).1.waiters = [] := by rw [Update_state]
  obtain ⟨h1, h2⟩ := calls_no_waiters (c.Update v).1 mid h0 hmid
  refine ⟨h0, ?_, h2, ?_⟩
  · intro v2
    rw [Update_sends, h0]
    rfl
  · intro v2
    rw [Update_sends, h1]
    rfl

/-- A run of C3: two waiters are signalled by the first `Update`; a `Values` and
two further `Update` calls then signal nobody. -/
theorem Update_waiters_one_shot_witness :
    [Call.Values (fun _ => true), Call.Update []].any Call.isRegister = false ∧
      ((({ values := [], waiters := [3, 5], last := 0 } : ListenerCache).Update []).1.calls
          [Call.Values (fun _ => true), Call.Update []]).2 = [] ∧
      (({ values := [], waiters := [3, 5], last := 0 } : ListenerCache).Update []).2 =
        [{ ch := 3, val := 1 }, { ch := 5, val := 1 }] :=
  ⟨by decide,
    (Update_waiters_one_shot { values := [], waiters := [3, 5], last := 0 } []
      [Call.Values (fun _ => true), Call.Update []] (by decide)).2.2.1,
    by decide⟩

/-! ## Register -/

/-- C4: `Register(ch, n)` with `n` strictly less than the cache's `last` sends
the current `last` on `ch` at once and nothing else, and the cache state stays as
it was: `ch` is not added to the waiters, and values, `last` and the waiters are
unchanged. -/
theorem Register_behind_fires_at_once (c : ListenerCache) (ch : Chan) (n : Int)
    (h : n < c.last) :
    (c.Register ch n).2 = [{ ch := ch, val := c.last }] ∧
      (c.Register ch n).1 = c ∧
      (c.Register ch n).1.waiters = c.waiters ∧
      (c.Register ch n).1.values = c.values ∧
      (c.Register ch n).1.last = c.last := by
  simp [Register, h]

/-- A run of C4: a consumer that has seen version 1 registers on a cache at
version 4. -/
theorem Register_behind_fires_at_once_witness :
    (1 : Int) < ({ values := [], waiters := [8], last := 4 } : ListenerCache).last ∧
      (({ values := [], waiters := [8], last := 4 } : ListenerCache).Register 2 1).2 =
        [{ ch := 2, val := 4 }] ∧
      (({ values := [], waiters := [8], last := 4 } : ListenerCache).Register 2 1).1.waiters =
        [8] :=
  ⟨by decide,
    (Register_behind_fires_at_once { values := [], waiters := [8], last := 4 } 2 1
      (by decide)).1,
    (Register_behind_fires_at_once { values := [], waiters := [8], last := 4 } 2 1
      (by decide)).2.2.1⟩

/-- C5: `Register(ch, n)` with `n` greater than or equal to the cache's `last`
sends nothing, appends `ch` as the last entry of the waiter list, keeping the
earlier entries and their order, and leaves values and `last` unchanged. -/
theorem Register_current_enqueues (c : ListenerCache) (ch : Chan) (n : Int)
    (h : c.last ≤ n) :
    (c.Register ch n).2 = [] ∧
      (c.Register ch n).1.waiters = c.waiters ++ [ch] ∧
      (c.Register ch n).1.values = c.values ∧
      (c.Register ch n).1.last = c.last := by
  have h2 : ¬ n < c.last := not_lt.mpr h
  simp [Register, h2]

/-- A run of C5: a consumer that has seen version 4 registers on a cache at
version 4. -/
theorem Register_current_enqueues_witness :
    ({ values := [], waiters := [8], last := 4 } : ListenerCache).last ≤ (4 : Int) ∧
      (({ values := [], waiters := [8], last := 4 } : ListenerCache).Register 2 4).2 = [] ∧
      (({ values := [], waiters := [8], last := 4 } : ListenerCache).Register 2 4).1.waiters =
        [8, 2] :=
  ⟨by decide,
    (Register_current_enqueues { values := [], waiters := [8], last := 4 } 2 4
      (by decide)).1,
    (Register_current_enqueues { values := [], waiters := [8], last := 4 } 2 4
      (by decide)).2.1⟩

/-- C6 (amended): registration liveness, counted per registration.  With
`n < last` the signal is sent during `Register` itself and the cache is left as
it was.  With `n ≥ last`, `Register` sends nothing, and at the next `Update`,
whatever `Register` and `Values` calls come in between, the token is signalled
once more than it would be without this registration, each time with the new
`last` (the old one incremented as an `int`): exactly once when the token is not
in the waiter list otherwise.  That `Update` leaves no waiter behind to be
signalled again. -/
theorem Register_liveness (c : ListenerCache) (ch : Chan) (n : Int) (mid : List Call)
    (v : ListenerMap) (hmid : mid.any Call.isUpdate = false) :
    (n < c.last →
        (c.Register ch n).2 = [{ ch := ch, val := c.last }] ∧ (c.Register ch n).1 = c) ∧
      (c.last ≤ n →
        (c.Register ch n).2 = [] ∧
        signals ch ((((c.Register ch n).1.calls mid).1.Update v).2) =
          signals ch (((c.calls mid).1.Update v).2) + 1 ∧
        (ch ∉ (c.calls mid).1.waiters →
          signals ch ((((c.Register ch n).1.calls mid).1.Update v).2) = 1) ∧
        (∀ s ∈ (((c.Register ch n).1.calls mid).1.Update v).2,
          s.val = (((c.Register ch n).1.calls mid).1.Update v).1.last) ∧
        (((c.Register ch n).1.calls mid).1.Update v).1.last = wrapInt (c.last + 1) ∧
        ((((c.Register ch n).1.calls mid).1.Update v).1.waiters = [])) := by
  refine ⟨fun h => by simp [Register, h], fun h => ?_⟩
  have h2 : ¬ n < c.last := not_lt.mpr h
  have hreg : (c.Register ch n).1 = { c with waiters := c.waiters ++ [ch] } := by
    simp [Register, h2]
  have hwith := calls_no_update (c.Register ch n).1 mid hmid
  have hwithout := calls_no_update c mid hmid
  rw [hreg] at hwith
  simp only [] at hwith
  have hcount : signals ch ((((c.Register ch n).1.calls mid).1.Update v).2) =
      signals ch (((c.calls mid).1.Update v).2) + 1 := by
    rw [Update_sends, Update_sends, hreg, hwith, hwithout, signals_map, signals_map]
    simp [List.count_append]
    omega
  refine ⟨by simp [Register, h2], hcount, ?_, ?_, ?_, ?_⟩
  · intro hnot
    rw [hcount, Update_sends, signals_map, List.count_eq_zero_of_not_mem hnot]
  · intro s hs
    rw [Update_sends, List.mem_map] at hs
    obtain ⟨w, _, rfl⟩ := hs
    rfl
  · rw [Update_state, hreg, hwith]
  · rw [Update_state]

/-- A run of C6: a consumer at version 2 registers channel 1 on a cache at
version 2; another consumer registers channel 2 and somebody reads the values;
the next `Update` then signals channel 1 exactly once. -/
theorem Register_liveness_witness :
    [Call.Register 2 5, Call.Values (fun _ => true)].any Call.isUpdate = false ∧
      signals 1
        ((((({ values := [], waiters := [], last := 2 } : ListenerCache).Register 1 2).1.calls
          [Call.Register 2 5, Call.Values (fun _ => true)]).1.Update []).2) = 1 :=
  ⟨by decide,
    ((Register_liveness { values := [], waiters := [], last := 2 } 1 2
      [Call.Register 2 5, Call.Values (fun _ => true)] [] (by decide)).2 (by decide)).2.2.1
      (by decide)⟩

/-- C6 (as stated) fails when the token is already waiting: on the zero-value
cache `Register(7, 0)` is made twice, each time with `0 ≥ last`, and the next
`Update` signals channel 7 twice, not once. -/
theorem Register_liveness_twice :
    ((zero.Register 7 0).1).last ≤ (0 : Int) ∧
      (((zero.Register 7 0).1.Register 7 0).1.Update []).2 =
        [{ ch := 7, val := 1 }, { ch := 7, val := 1 }] ∧
      signals 7 (((zero.Register 7 0).1.Register 7 0).1.Update []).2 ≠ 1 := by
  decide

/-! ## Values -/

/-- C8: `Values(filter)` returns, as a multiset, exactly the stored listeners
whose name satisfies the filter: a listener is returned if and only if it is a
stored value whose `Name` passes the filter, it is returned once per map entry
holding it, the result does not depend on the order in which the map is ranged
over, and the cache state is unchanged. -/
theorem Values_returns_filtered_values (c : ListenerCache) (filter : String → Bool) :
    ((c.Values filter).2 : Multiset Listener) =
        Multiset.filter (fun l => filter l.Name = true)
          ((c.values.map Prod.snd : List Listener) : Multiset Listener) ∧
      (∀ l, l ∈ (c.Values filter).2 ↔ l ∈ c.values.map Prod.snd ∧ filter l.Name = true) ∧
      (∀ l, (c.Values filter).2.count l =
        if filter l.Name = true then (c.values.map Prod.snd).count l else 0) ∧
      (∀ c2 : ListenerCache, c2.values.Perm c.values →
        ((c2.Values filter).2 : Multiset Listener) = ((c.Values filter).2 : Multiset Listener)) ∧
      (c.Values filter).1 = c := by
  have hv : ∀ d : ListenerCache,
      (d.Values filter).2 = (d.values.map Prod.snd).filter (fun l => filter l.Name) := by
    intro d
    simp [Values, valuesLoop_eq]
  refine ⟨?_, ?_, ?_, ?_, rfl⟩
  · rw [hv, Multiset.filter_coe]
    simp
  · intro l
    rw [hv, List.mem_filter]
  · intro l
    rw [hv]
    by_cases hl : filter l.Name = true
    · rw [List.count_filter (by simpa using hl), if_pos hl]
    · rw [if_neg hl, List.count_eq_zero]
      intro hmem
      exact hl (List.mem_filter.mp hmem).2
  · intro c2 hperm
    rw [hv, hv]
    exact Multiset.coe_eq_coe.mpr ((hperm.map Prod.snd).filter _)

/-- C9 (amended): round trip on the cache, `last` being an `int`.  After
`Update(V)`, reading all contents (`Values` with a filter that accepts every
name) yields, as a set and even as a multiset, exactly the values of `V`; when
`last` was below the largest `int` it is strictly greater than it was before the
`Update`, and when it was the largest `int` it is the smallest `int` now, which
is less than before. -/
theorem Update_then_Values_round_trip (c : ListenerCache) (V : ListenerMap)
    (filter : String → Bool) (hall : ∀ name, filter name = true) (hlo : minInt ≤ c.last) :
    (∀ l, l ∈ ((c.Update V).1.Values filter).2 ↔ l ∈ V.map Prod.snd) ∧
      (((c.Update V).1.Values filter).2 : Multiset Listener) =
        ((V.map Prod.snd : List Listener) : Multiset Listener) ∧
      (c.last < maxInt → c.last < (c.Update V).1.last) ∧
      (c.last = maxInt → (c.Update V).1.last = minInt ∧ (c.Update V).1.last < c.last) := by
  have hv : ((c.Update V).1.Values filter).2 = V.map Prod.snd := by
    simp [Values, valuesLoop_eq, Update_state, hall]
  rw [hv, Update_state]
  refine ⟨fun l => Iff.rfl, rfl, fun h => ?_, fun h => ?_⟩
  · show c.last < wrapInt (c.last + 1)
    rw [wrapInt_of_range _ (by unfold minInt at *; omega) (by unfold maxInt at *; omega)]
    omega
  · show wrapInt (c.last + 1) = minInt ∧ wrapInt (c.last + 1) < c.last
    rw [h, wrapInt_maxInt_succ]
    exact ⟨rfl, by decide⟩

/-- A run of C9: one listener is installed in the zero-value cache and read
back with the filter that accepts every name. -/
theorem Update_then_Values_round_trip_witness :
    (∀ name : String, (fun _ => true) name = true) ∧
      minInt ≤ zero.last ∧
      (∀ l, l ∈ ((zero.Update [("ingress_http",
            { Name := "ingress_http", Address := { Address := "0.0.0.0", Port := 8080 },
              FilterChains := [], ListenerFilters := [] })]).1.Values (fun _ => true)).2 ↔
          l ∈ ([("ingress_http",
            { Name := "ingress_http", Address := { Address := "0.0.0.0", Port := 8080 },
              FilterChains := [], ListenerFilters := [] })] : ListenerMap).map Prod.snd) ∧
      zero.last < (zero.Update [("ingress_http",
            { Name := "ingress_http", Address := { Address := "0.0.0.0", Port := 8080 },
              FilterChains := [], ListenerFilters := [] })]).1.last :=
  ⟨fun _ => rfl, by decide,
    (Update_then_Values_round_trip zero [("ingress_http",
        { Name := "ingress_http", Address := { Address := "0.0.0.0", Port := 8080 },
          FilterChains := [], ListenerFilters := [] })] (fun _ => true) (fun _ => rfl)
        (by decide)).1,
    (Update_then_Values_round_trip zero [("ingress_http",
        { Name := "ingress_http", Address := { Address := "0.0.0.0", Port := 8080 },
          FilterChains := [], ListenerFilters := [] })] (fun _ => true) (fun _ => rfl)
        (by decide)).2.2.1 (by decide)⟩

/-! ## The counter -/

theorem call_last (c : ListenerCache) (x : Call) :
    (c.call x).1.last = if x.isUpdate = true then wrapInt (c.last + 1) else c.last := by
  cases x with
  | Register ch n =>
    by_cases hn : n < c.last
    · simp [call, Register, hn, Call.isUpdate]
    · simp [call, Register, hn, Call.isUpdate]
  | Update v => simp [call, Update_state, Call.isUpdate]
  | Values f => simp [call, Values, Call.isUpdate]

theorem updateCount_cons (x : Call) (xs : List Call) :
    updateCount (x :: xs) = (if x.isUpdate = true then 1 else 0) + updateCount xs := by
  by_cases hx : x.isUpdate = true
  · simp [updateCount, List.filter_cons, hx]
    omega
  · simp [updateCount, List.filter_cons, hx]

theorem updateCount_append (xs ys : List Call) :
    updateCount (xs ++ ys) = updateCount xs + updateCount ys := by
  simp [updateCount]

theorem updateCount_replicate_Update (n : Nat) (v : ListenerMap) :
    updateCount (List.replicate n (Call.Update v)) = n := by
  induction n with
  | zero => rfl
  | succ n ih =>
    rw [List.replicate_succ, updateCount_cons, ih]
    simp [Call.isUpdate]
    omega

theorem calls_last (c : ListenerCache) (xs : List Call)
    (hlo : minInt ≤ c.last) (hhi : c.last ≤ maxInt) :
    (c.calls xs).1.last = wrapInt (c.last + updateCount xs) := by
  induction xs generalizing c with
  | nil =>
    have h0 : updateCount [] = 0 := rfl
    rw [h0]
    simp only [calls, Nat.cast_zero, add_zero]
    exact (wrapInt_of_range _ hlo hhi).symm
  | cons x xs ih =>
    have h1 : (c.calls (x :: xs)).1 = ((c.call x).1.calls xs).1 := rfl
    have hr : minInt ≤ (c.call x).1.last ∧ (c.call x).1.last ≤ maxInt := by
      rw [call_last]
      split
      · exact wrapInt_range _
      · exact ⟨hlo, hhi⟩
    rw [h1, ih _ hr.1 hr.2, call_last, updateCount_cons]
    by_cases hx : x.isUpdate = true
    · rw [if_pos hx, if_pos hx, wrapInt_add_wrapInt]
      congr 2
      omega
    · rw [if_neg hx, if_neg hx]
      congr 2
      omega

theorem zero_calls_last (xs : List Call) :
    (zero.calls xs).1.last = wrapInt (updateCount xs) := by
  rw [calls_last zero xs (by decide) (by decide)]
  congr 1
  show (0 : Int) + _ = _
  omega

theorem calls_replicate_Update (n : Nat) (h : (n : Int) ≤ maxInt) :
    (zero.calls (List.replicate n (Call.Update []))).1 =
      { values := [], waiters := [], last := n } := by
  induction n with
  | zero => rfl
  | succ n ih =>
    have hn : (n : Int) ≤ maxInt := by
      have h2 : ((n + 1 : Nat) : Int) = (n : Int) + 1 := by push_cast; rfl
      omega
    have hle : minInt ≤ (n : Int) := by
      unfold minInt
      omega
    have hw : wrapInt ((n : Int) + 1) = ((n + 1 : Nat) : Int) := by
      rw [wrapInt_of_range _ (by unfold minInt; omega) (by push_cast at h; exact h)]
      push_cast
      rfl
    rw [List.replicate_succ', calls_append, ih hn]
    show ((({ values := [], waiters := [], last := (n : Int) } : ListenerCache).Update []).1) = _
    rw [Update_state]
    show ListenerCache.mk [] [] (wrapInt ((n : Int) + 1)) = _
    rw [hw]

/-- C10 (amended): `last` counts the updates as an `int`.  Starting from the
zero-value cache, after any finite sequence of `Register`, `Update` and `Values`
calls `last` is the number of `Update` calls of the sequence wrapped into the
range of `int`; so as long as the sequence holds at most `maxInt` calls of
`Update`, `last` equals their number and has not decreased at any step of the
sequence.  Only `Update` changes `last`: below the largest `int` it adds one. -/
theorem last_counts_updates (xs ys : List Call)
    (h : (updateCount (xs ++ ys) : Int) ≤ maxInt) :
    (zero.calls (xs ++ ys)).1.last = updateCount (xs ++ ys) ∧
      (zero.calls xs).1.last = updateCount xs ∧
      (zero.calls xs).1.last ≤ (zero.calls (xs ++ ys)).1.last ∧
      (∀ zs : List Call, (zero.calls zs).1.last = wrapInt (updateCount zs)) ∧
      (∀ (c : ListenerCache) (x : Call), x.isUpdate = false → (c.call x).1.last = c.last) ∧
      (∀ (c : ListenerCache) (v : ListenerMap), minInt ≤ c.last → c.last < maxInt →
        (c.call (Call.Update v)).1.last = c.last + 1) := by
  have hxs : (updateCount xs : Int) ≤ maxInt := by
    rw [updateCount_append] at h
    push_cast at h
    omega
  have h1 : (zero.calls (xs ++ ys)).1.last = updateCount (xs ++ ys) := by
    rw [zero_calls_last]
    exact wrapInt_of_range _ (by unfold minInt; omega) h
  have h2 : (zero.calls xs).1.last = updateCount xs := by
    rw [zero_calls_last]
    exact wrapInt_of_range _ (by unfold minInt; omega) hxs
  refine ⟨h1, h2, ?_, zero_calls_last, ?_, ?_⟩
  · rw [h1, h2, updateCount_append]
    push_cast
    omega
  · intro c x hx
    rw [call_last, hx]
    rfl
  · intro c v hlo hhi
    rw [call_last]
    simp only [Call.isUpdate, if_true]
    exact wrapInt_of_range _ (by unfold minInt at *; omega) (by unfold maxInt at *; omega)

/-- A run of C10: two registrations, two updates and a read on the zero-value
cache leave `last` at 2. -/
theorem last_counts_updates_witness :
    ((updateCount ([Call.Register 1 0, Call.Update [], Call.Values (fun _ => true)] ++
        [Call.Register 1 1, Call.Update []]) : Int) ≤ maxInt) ∧
      (zero.calls ([Call.Register 1 0, Call.Update [], Call.Values (fun _ => true)] ++
        [Call.Register 1 1, Call.Update []])).1.last = 2 ∧
      (zero.calls [Call.Register 1 0, Call.Update [], Call.Values (fun _ => true)]).1.last ≤
        (zero.calls ([Call.Register 1 0, Call.Update [], Call.Values (fun _ => true)] ++
          [Call.Register 1 1, Call.Update []])).1.last :=
  ⟨by decide, by decide,
    (last_counts_updates [Call.Register 1 0, Call.Update [], Call.Values (fun _ => true)]
      [Call.Register 1 1, Call.Update []] (by decide)).2.2.1⟩

/-! ## The counter at the largest `int` -/

/-- C1 (as stated) fails at the largest `int`.  The zero-value cache reaches
`last = maxInt` after that many calls of `Update`, and in that state one more
`Update` stores `minInt`, which is not `last` increased by one. -/
theorem Update_wraps_last :
    (zero.calls (List.replicate 9223372036854775807 (Call.Update []))).1.last = maxInt ∧
      ((zero.calls (List.replicate 9223372036854775807 (Call.Update []))).1.Update []).1.last =
        minInt ∧
      ((zero.calls (List.replicate 9223372036854775807 (Call.Update []))).1.Update []).1.last ≠
        (zero.calls (List.replicate 9223372036854775807 (Call.Update []))).1.last + 1 := by
  rw [calls_replicate_Update _ (by decide), Update_state]
  decide

/-- C9 (as stated) fails at the largest `int`.  In the state that the zero-value
cache reaches after `maxInt` calls of `Update`, an `Update` with one listener is
read back in full, but `last` is less than it was before, not greater. -/
theorem Update_then_Values_last_decreases :
    (((zero.calls (List.replicate 9223372036854775807 (Call.Update []))).1.Update
        [("ingress_http", ⟨"ingress_http", ⟨"0.0.0.0", 8080⟩, [], []⟩)]).1.Values
          (fun _ => true)).2 = [⟨"ingress_http", ⟨"0.0.0.0", 8080⟩, [], []⟩] ∧
      ¬ (zero.calls (List.replicate 9223372036854775807 (Call.Update []))).1.last <
        ((zero.calls (List.replicate 9223372036854775807 (Call.Update []))).1.Update
          [("ingress_http", ⟨"ingress_http", ⟨"0.0.0.0", 8080⟩, [], []⟩)]).1.last := by
  rw [calls_replicate_Update _ (by decide), Update_state]
  decide

/-- C10 (as stated) fails on long sequences.  After `maxInt + 1` calls of
`Update` on the zero-value cache `last` is `minInt`, not the number of calls, and
the last of these calls has decreased `last`. -/
theorem last_wraps_after_many_updates :
    updateCount (List.replicate 9223372036854775807 (Call.Update []) ++ [Call.Update []]) =
        9223372036854775808 ∧
      (zero.calls (List.replicate 9223372036854775807 (Call.Update []) ++
        [Call.Update []])).1.last = minInt ∧
      (zero.calls (List.replicate 9223372036854775807 (Call.Update []) ++
        [Call.Update []])).1.last ≠
        (updateCount (List.replicate 9223372036854775807 (Call.Update []) ++
          [Call.Update []]) : Int) ∧
      (zero.calls (List.replicate 9223372036854775807 (Call.Update []) ++
        [Call.Update []])).1.last <
        (zero.calls (List.replicate 9223372036854775807 (Call.Update []))).1.last := by
  have hc : updateCount (List.replicate 9223372036854775807 (Call.Update []) ++
      [Call.Update []]) = 9223372036854775808 := by
    rw [updateCount_append, updateCount_replicate_Update]
    rfl
  have hl : (zero.calls (List.replicate 9223372036854775807 (Call.Update []) ++
      [Call.Update []])).1.last = minInt := by
    rw [calls_append, calls_replicate_Update _ (by decide)]
    decide
  rw [hc, hl, calls_replicate_Update _ (by decide)]
  exact ⟨rfl, rfl, by decide, by decide⟩

/-! ## Sends do not block -/

theorem send_room (h : Chans) (s : Send) (hroom : (h.buf s.ch).length < h.cap s.ch) :
    h.send s = some { h with buf := Function.update h.buf s.ch (h.buf s.ch ++ [s.val]) } := by
  simp [Chans.send, hroom]

theorem sendAll_waiters (val : Int) (ws : List Chan) (h : Chans) (hnd : ws.Nodup)
    (hroom : ∀ ch ∈ ws, 1 ≤ h.cap ch ∧ h.buf ch = []) :
    ∃ h2, h.sendAll (ws.map (fun ch => ({ ch := ch, val := val } : Send))) = some h2 := by
  induction ws generalizing h with
  | nil => exact ⟨h, rfl⟩
  | cons w rest ih =>
    obtain ⟨hcap, hbuf⟩ := hroom w (List.mem_cons_self w rest)
    have hsend := send_room h { ch := w, val := val } (by simp only [hbuf]; exact hcap)
    rw [List.nodup_cons] at hnd
    have hrest : ∀ ch ∈ rest,
        1 ≤ h.cap ch ∧ Function.update h.buf w (h.buf w ++ [val]) ch = [] := by
      intro ch hch
      have hne : ch ≠ w := fun e => hnd.1 (e ▸ hch)
      rw [Function.update_noteq hne]
      exact hroom ch (List.mem_cons_of_mem w hch)
    obtain ⟨h2, hh2⟩ := ih { h with buf := Function.update h.buf w (h.buf w ++ [val]) }
      hnd.2 hrest
    refine ⟨h2, ?_⟩
    simp only [List.map_cons, Chans.sendAll, hsend]
    exact hh2

theorem step_inv (w : World) (e : Event) (hinv : w.inv) (hadm : e.admissible w = true) :
    ∃ w2, w.step e = some w2 ∧ w2.inv := by
  obtain ⟨hnd, hroom⟩ := hinv
  cases e with
  | call x =>
    cases x with
    | Register ch n =>
      simp only [Event.admissible, Bool.and_eq_true, decide_eq_true_eq] at hadm
      obtain ⟨⟨hcap, hbuf⟩, hnot⟩ := hadm
      by_cases hn : n < w.cache.last
      · have hsend := send_room w.chans { ch := ch, val := w.cache.last }
          (by simp only [hbuf]; exact hcap)
        refine ⟨⟨w.cache, ⟨w.chans.cap,
          Function.update w.chans.buf ch (w.chans.buf ch ++ [w.cache.last])⟩⟩, ?_, ?_⟩
        · simp [World.step, call, Register, hn, Chans.sendAll, hsend]
        · refine ⟨hnd, fun ch2 hch2 => ?_⟩
          have hne : ch2 ≠ ch := fun e => hnot (e ▸ hch2)
          show 1 ≤ w.chans.cap ch2 ∧ Function.update w.chans.buf ch _ ch2 = []
          rw [Function.update_noteq hne]
          exact hroom ch2 hch2
      · refine ⟨⟨{ w.cache with waiters := w.cache.waiters ++ [ch] }, w.chans⟩, ?_, ?_⟩
        · simp [World.step, call, Register, hn, Chans.sendAll]
        · refine ⟨?_, fun ch2 hch2 => ?_⟩
          · show (w.cache.waiters ++ [ch]).Nodup
            rw [List.nodup_append]
            refine ⟨hnd, List.nodup_singleton ch, ?_⟩
            intro a ha hb
            rw [List.mem_singleton] at hb
            exact hnot (hb ▸ ha)
          · have hmem : ch2 ∈ w.cache.waiters ++ [ch] := hch2
            rw [List.mem_append, List.mem_singleton] at hmem
            rcases hmem with hmem | rfl
            · exact hroom ch2 hmem
            · exact ⟨hcap, hbuf⟩
    | Update v =>
      obtain ⟨h2, hh2⟩ :=
        sendAll_waiters (wrapInt (w.cache.last + 1)) w.cache.waiters w.chans hnd hroom
      refine ⟨{ cache := (w.cache.Update v).1, chans := h2 }, ?_, ?_⟩
      · simp only [World.step, call, Update_sends, hh2]
      · refine ⟨?_, fun ch2 hch2 => ?_⟩
        · show ((w.cache.Update v).1.waiters).Nodup
          rw [Update_state]
          exact List.nodup_nil
        · have hmem : ch2 ∈ (w.cache.Update v).1.waiters := hch2
          rw [Update_state] at hmem
          cases hmem
    | Values f =>
      exact ⟨{ cache := w.cache, chans := w.chans }, rfl, hnd, hroom⟩
  | receive ch =>
    refine ⟨{ w with chans := w.chans.receive ch }, rfl, hnd, fun ch2 hch2 => ?_⟩
    obtain ⟨hcap, hbuf⟩ := hroom ch2 hch2
    refine ⟨hcap, ?_⟩
    show Function.update w.chans.buf ch (w.chans.buf ch).tail ch2 = []
    by_cases hne : ch2 = ch
    · subst hne
      rw [Function.update_same, hbuf]
      rfl
    · rw [Function.update_noteq hne]
      exact hbuf

theorem run_inv (es : List Event) (w : World) (hinv : w.inv)
    (hadm : w.admissible es = true) : ∃ w2, w.run es = some w2 ∧ w2.inv := by
  induction es generalizing w with
  | nil => exact ⟨w, rfl, hinv⟩
  | cons e es ih =>
    simp only [World.admissible, Bool.and_eq_true] at hadm
    obtain ⟨w1, hstep, hinv1⟩ := step_inv w e hinv hadm.1
    have hrest : w1.admissible es = true := by
      have h2 := hadm.2
      rw [hstep] at h2
      exact h2
    obtain ⟨w2, hrun, hinv2⟩ := ih w1 hinv1 hrest
    refine ⟨w2, ?_, hinv2⟩
    simp only [World.run, hstep]
    exact hrun

/-- C7: `Register` never blocks and `Update` never blocks on a consumer.  A send
on a full channel counts as blocking.  Take any channels and any sequence of
`Register`, `Update` and `Values` calls on a cache that starts from its zero
value, interleaved with consumers receiving from their channels, in which every
`Register` is handed a channel of capacity at least 1 that holds no pending
signal and is not currently in the waiter list: every call of the sequence runs
to its end, no send of it blocking. -/
theorem Register_and_Update_never_block (h : Chans) (es : List Event)
    (hadm : World.admissible { cache := zero, chans := h } es = true) :
    (World.run { cache := zero, chans := h } es).isSome = true := by
  have hinv : World.inv { cache := zero, chans := h } :=
    ⟨List.nodup_nil, fun ch hch => by cases hch⟩
  obtain ⟨w2, hrun, _⟩ := run_inv es { cache := zero, chans := h } hinv hadm
  rw [hrun]
  rfl

/-- A run of C7 on channels of capacity 1: two consumers register, an `Update`
signals both, the first consumer takes its signal and registers again with the
version it had before, which fires at once, and a further `Update` follows. -/
theorem Register_and_Update_never_block_witness :
    World.admissible
        { cache := zero, chans := { cap := fun _ => 1, buf := fun _ => [] } }
        [Event.call (Call.Register 0 0), Event.call (Call.Register 1 0),
          Event.call (Call.Update []), Event.receive 0, Event.call (Call.Register 0 0),
          Event.call (Call.Values (fun _ => true)), Event.call (Call.Update [])] = true ∧
      (World.run
        { cache := zero, chans := { cap := fun _ => 1, buf := fun _ => [] } }
        [Event.call (Call.Register 0 0), Event.call (Call.Register 1 0),
          Event.call (Call.Update []), Event.receive 0, Event.call (Call.Register 0 0),
          Event.call (Call.Values (fun _ => true)), Event.call (Call.Update [])]).isSome =
        true :=
  ⟨by decide,
    Register_and_Update_never_block { cap := fun _ => 1, buf := fun _ => [] }
      [Event.call (Call.Register 0 0), Event.call (Call.Register 1 0),
        Event.call (Call.Update []), Event.receive 0, Event.call (Call.Register 0 0),
        Event.call (Call.Values (fun _ => true)), Event.call (Call.Update [])] (by decide)⟩

/-! ## Go maps of listeners: lemmas -/

namespace ListenerMap

theorem index_assign_same (m : ListenerMap) (k : String) (v : Listener) :
    index (assign m k v) k = some v := by
  induction m with
  | nil => simp [assign, index]
  | cons e rest ih =>
    obtain ⟨k1, v1⟩ := e
    by_cases h : k1 = k
    · simp [assign, index, h]
    · simp [assign, index, h, ih]

theorem index_assign_ne (m : ListenerMap) (k k2 : String) (v : Listener) (h : k2 ≠ k) :
    index (assign m k v) k2 = index m k2 := by
  induction m with
  | nil => simp [assign, index, Ne.symm h]
  | cons e rest ih =>
    obtain ⟨k1, v1⟩ := e
    by_cases h1 : k1 = k
    · subst h1
      simp [assign, index, Ne.symm h]
    · by_cases h2 : k1 = k2
      · subst h2
        simp [assign, index, h]
      · simp [assign, index, h1, h2, ih]

theorem index_delete_same (m : ListenerMap) (k : String) : index (delete m k) k = none := by
  induction m with
  | nil => simp [delete, index]
  | cons e rest ih =>
    obtain ⟨k1, v1⟩ := e
    by_cases h : k1 = k
    · simpa [delete, List.filter_cons, h] using ih
    · simpa [delete, List.filter_cons, h, index] using ih

theorem index_delete_ne (m : ListenerMap) (k k2 : String) (h : k2 ≠ k) :
    index (delete m k) k2 = index m k2 := by
  induction m with
  | nil => simp [delete, index]
  | cons e rest ih =>
    obtain ⟨k1, v1⟩ := e
    by_cases h1 : k1 = k
    · subst h1
      simpa [delete, List.filter_cons, index, Ne.symm h] using ih
    · by_cases h2 : k1 = k2
      · subst h2
        simp [delete, List.filter_cons, index, h]
      · simpa [delete, List.filter_cons, index, h1, h2] using ih

end ListenerMap

/-! ## Listener names -/

theorem tcp_name_ne_http (s : String) : "ingress_tcp_port_" ++ s ≠ ENVOY_HTTP_LISTENER := by
  intro h
  have h2 := congrArg String.data h
  simp [ENVOY_HTTP_LISTENER, String.data_append] at h2

theorem tcp_name_ne_https (s : String) : "ingress_tcp_port_" ++ s ≠ ENVOY_HTTPS_LISTENER := by
  intro h
  have h2 := congrArg String.data h
  simp [ENVOY_HTTPS_LISTENER, String.data_append] at h2

theorem http_ne_https : ENVOY_HTTP_LISTENER ≠ ENVOY_HTTPS_LISTENER := by decide

theorem digitChar_value (k : Nat) (hk : k < 10) : (Nat.digitChar k).toNat - 48 = k := by
  interval_cases k <;> rfl

theorem digitChar_ne_minus (k : Nat) (hk : k < 10) : Nat.digitChar k ≠ '-' := by
  interval_cases k <;> decide

theorem toDigitsCore_value (fuel : Nat) : ∀ (n : Nat) (ds : List Char), n < fuel →
    (Nat.toDigitsCore 10 fuel n ds).foldl (fun acc c => 10 * acc + (c.toNat - 48)) 0 =
      ds.foldl (fun acc c => 10 * acc + (c.toNat - 48)) n := by
  induction fuel with
  | zero => intro n ds h; omega
  | succ fuel ih =>
    intro n ds h
    have hd := digitChar_value (n % 10) (Nat.mod_lt n (by decide))
    unfold Nat.toDigitsCore
    simp only
    split
    · rename_i h0
      have hn : n % 10 = n := by omega
      simp only [List.foldl_cons, Nat.mul_zero, Nat.zero_add, hd]
      rw [hn]
    · rename_i h0
      rw [ih (n / 10) _ (by omega)]
      simp only [List.foldl_cons, hd]
      have hn : 10 * (n / 10) + n % 10 = n := Nat.div_add_mod n 10
      rw [hn]

theorem toDigits_value (n : Nat) : digitsValue (Nat.toDigits 10 n) = n := by
  unfold digitsValue Nat.toDigits
  rw [toDigitsCore_value (n + 1) n [] (by omega)]
  rfl

theorem toDigitsCore_head (fuel : Nat) : ∀ (n : Nat) (ds : List Char), n < fuel →
    ∃ k tl, k < 10 ∧ Nat.toDigitsCore 10 fuel n ds = Nat.digitChar k :: tl := by
  induction fuel with
  | zero => intro n ds h; omega
  | succ fuel ih =>
    intro n ds h
    unfold Nat.toDigitsCore
    simp only
    split
    · exact ⟨n % 10, ds, Nat.mod_lt n (by decide), rfl⟩
    · exact ih (n / 10) _ (by omega)

theorem Itoa_injective (a b : Int) (h : Itoa a = Itoa b) : a = b := by
  have hval : ∀ x y : Nat, Nat.toDigits 10 x = Nat.toDigits 10 y → x = y := by
    intro x y hxy
    have := congrArg digitsValue hxy
    rwa [toDigits_value, toDigits_value] at this
  have hhead : ∀ (x : Nat) (tl : List Char), Nat.toDigits 10 x ≠ '-' :: tl := by
    intro x tl hx
    obtain ⟨k, tl2, hk, hk2⟩ := toDigitsCore_head (x + 1) x [] (by omega)
    unfold Nat.toDigits at hx
    rw [hk2] at hx
    exact digitChar_ne_minus k hk (List.cons.inj hx).1
  have hmk : ∀ l1 l2 : List Char, String.mk l1 = String.mk l2 → l1 = l2 :=
    fun l1 l2 e => congrArg String.data e
  unfold Itoa at h
  by_cases ha : a < 0 <;> by_cases hb : b < 0
  · simp only [ha, hb, if_true] at h
    have h2 := hval _ _ (List.cons.inj (hmk _ _ h)).2
    omega
  · simp only [ha, hb, if_true, if_false] at h
    exact absurd (hmk _ _ h).symm (hhead _ _)
  · simp only [ha, hb, if_true, if_false] at h
    exact absurd (hmk _ _ h) (hhead _ _)
  · simp only [ha, hb, if_false] at h
    have h2 := hval _ _ (hmk _ _ h)
    omega

theorem tcp_name_injective (a b : Int)
    (h : "ingress_tcp_port_" ++ Itoa a = "ingress_tcp_port_" ++ Itoa b) : a = b := by
  apply Itoa_injective
  have h2 := congrArg String.data h
  simp only [String.data_append] at h2
  exact String.ext (List.append_cancel_left h2)

/-! ## The visit as a run over the virtual hosts encountered -/

namespace listenerVisitor

theorem visitEncounters_append (es1 es2 : List Encounter) (v : listenerVisitor) :
    visitEncounters v (es1 ++ es2) =
      match visitEncounters v es1 with
      | some v1 => visitEncounters v1 es2
      | none => none := by
  induction es1 generalizing v with
  | nil => rfl
  | cons e es ih =>
    simp only [List.cons_append, visitEncounters]
    cases h : visitEncounter v e with
    | none => rfl
    | some v1 => exact ih v1

mutual

theorem visit_eq_visitEncounters : ∀ (x : Vertex) (v : listenerVisitor),
    visit v x = visitEncounters v x.encounters
  | Vertex.VirtualHost vh, v => by
    simp [visit, Vertex.encounters, visitEncounters, visitEncounter]
  | Vertex.SecureVirtualHost vh, v => by
    simp only [visit, Vertex.encounters, visitEncounters, visitEncounter]
    cases visitSecureVirtualHost v vh <;> rfl
  | Vertex.other children, v => by
    simp only [visit, Vertex.encounters]
    exact visitChildren_eq_visitEncounters children v

theorem visitChildren_eq_visitEncounters : ∀ (xs : Vertices) (v : listenerVisitor),
    visitChildren v xs = visitEncounters v xs.encounters
  | Vertices.nil, v => by
    simp [visitChildren, Vertices.encounters, visitEncounters]
  | Vertices.cons x rest, v => by
    simp only [visitChildren, Vertices.encounters, visitEncounters_append]
    rw [visit_eq_visitEncounters x v]
    cases visitEncounters v x.encounters with
    | none => rfl
    | some v1 => exact visitChildren_eq_visitEncounters rest v1

end

end listenerVisitor

/-! ## What the visit leaves in the listener map -/

theorem lastSuch_cons_false {α : Type} (p : α → Bool) (x : α) (xs : List α)
    (h : p x = false) : lastSuch p (x :: xs) = lastSuch p xs := by
  simp only [lastSuch, h]
  cases lastSuch p xs <;> rfl

theorem lastSuch_eq_some {α : Type} (p : α → Bool) (xs : List α) (y : α)
    (h : lastSuch p xs = some y) :
    p y = true ∧ ∃ pre post, xs = pre ++ y :: post ∧ ∀ z ∈ post, p z = false := by
  induction xs with
  | nil => simp [lastSuch] at h
  | cons x xs ih =>
    simp only [lastSuch] at h
    cases hl : lastSuch p xs with
    | some z =>
      rw [hl] at h
      simp only [Option.some.injEq] at h
      subst h
      obtain ⟨hp, pre, post, hxs, hpost⟩ := ih hl
      exact ⟨hp, x :: pre, post, by rw [hxs]; rfl, hpost⟩
    | none =>
      rw [hl] at h
      by_cases hx : p x = true
      · simp only [hx, if_true, Option.some.injEq] at h
        subst h
        refine ⟨hx, [], xs, rfl, ?_⟩
        intro z hz
        by_contra hne
        have hz2 : p z = true := by simpa using hne
        clear ih
        induction xs with
        | nil => cases hz
        | cons w ws ihw =>
          simp only [lastSuch] at hl
          cases hw : lastSuch p ws with
          | some u => rw [hw] at hl; cases hl
          | none =>
            rw [hw] at hl
            by_cases hpw : p w = true
            · simp [hpw] at hl
            · rcases List.mem_cons.mp hz with rfl | hmem
              · exact hpw hz2
              · exact ihw hw hmem
      · simp [hx] at h

theorem lastSuch_eq_none {α : Type} (p : α → Bool) (xs : List α) :
    lastSuch p xs = none ↔ ∀ z ∈ xs, p z = false := by
  induction xs with
  | nil => simp [lastSuch]
  | cons x xs ih =>
    simp only [lastSuch]
    cases hl : lastSuch p xs with
    | some z =>
      simp only [false_iff, reduceCtorEq]
      intro hall
      have := ih.mpr (fun z hz => hall z (List.mem_cons_of_mem x hz))
      rw [hl] at this
      cases this
    | none =>
      have hxs := ih.mp hl
      by_cases hx : p x = true
      · simp only [hx, if_true, false_iff, reduceCtorEq]
        intro hall
        have := hall x (List.mem_cons_self x xs)
        rw [hx] at this
        cases this
      · simp only [hx, if_false, true_iff, Bool.false_eq_true]
        intro z hz
        rcases List.mem_cons.mp hz with rfl | hmem
        · simpa using hx
        · exact hxs z hmem

namespace listenerVisitor

theorem noSecret_eq (vh : SecureVirtualHost) : noSecret vh.Data = !vh.usable := by
  unfold noSecret SecureVirtualHost.usable TLSCertKey TLSPrivateKeyKey
  cases hd : vh.Data with
  | none => simp [dataIndex]
  | some m =>
    cases h1 : dataIndex (some m) "tls.crt" <;> cases h2 : dataIndex (some m) "tls.key" <;> simp

theorem visit_unusable (v : listenerVisitor) (vh : SecureVirtualHost)
    (h : vh.usable = false) : visitSecureVirtualHost v vh = some v := by
  simp [visitSecureVirtualHost, noSecret_eq, h]

theorem visit_other_port (v : listenerVisitor) (vh : SecureVirtualHost)
    (h : vh.usable = true) (hp : vh.VirtualHost.Port ≠ 443) :
    visitSecureVirtualHost v vh = some { v with
      listeners := ListenerMap.assign v.listeners
        ("ingress_tcp_port_" ++ Itoa vh.VirtualHost.Port)
        (tcpListener v.config vh ("ingress_tcp_port_" ++ Itoa vh.VirtualHost.Port)) } := by
  simp [visitSecureVirtualHost, noSecret_eq, h, hp]

theorem visit_port_443 (v : listenerVisitor) (vh : SecureVirtualHost) (l : Listener)
    (h : vh.usable = true) (hp : vh.VirtualHost.Port = 443)
    (hl : ListenerMap.index v.listeners ENVOY_HTTPS_LISTENER = some l) :
    visitSecureVirtualHost v vh = some { v with
      listeners := ListenerMap.assign v.listeners ENVOY_HTTPS_LISTENER
        { l with FilterChains := l.FilterChains ++ [filterChain v.config vh] } } := by
  simp [visitSecureVirtualHost, noSecret_eq, h, hp, hl]

end listenerVisitor

namespace listenerVisitor

theorem visitEncounters_spec (es : List Encounter) : ∀ (v : listenerVisitor) (l : Listener),
    ListenerMap.index v.listeners ENVOY_HTTPS_LISTENER = some l →
    ∃ v2, visitEncounters v es = some v2 ∧ v2.config = v.config ∧
      v2.http = (v.http || es.any Encounter.isPlain) ∧
      ListenerMap.index v2.listeners ENVOY_HTTPS_LISTENER =
        some { l with FilterChains := l.FilterChains ++ httpsChains v.config es } ∧
      ∀ k, k ≠ ENVOY_HTTPS_LISTENER →
        ListenerMap.index v2.listeners k =
          match lastSuch (SecureVirtualHost.onListener k)
              (es.filterMap Encounter.secure?) with
          | some vh => some (tcpListener v.config vh k)
          | none => ListenerMap.index v.listeners k := by
  induction es with
  | nil =>
    intro v l hl
    refine ⟨v, rfl, rfl, by simp, ?_, ?_⟩
    · simp [httpsChains, hl]
    · intro k _
      simp [lastSuch]
  | cons e es ih =>
    intro v l hl
    cases e with
    | plain vh =>
      obtain ⟨v2, h1, h2, h3, h4, h5⟩ := ih { v with http := true } l hl
      refine ⟨v2, ?_, h2, ?_, ?_, ?_⟩
      · simp only [visitEncounters, visitEncounter]
        exact h1
      · rw [h3]
        simp [Encounter.isPlain]
      · rw [h4]
        simp [httpsChains, Encounter.secure?]
      · intro k hk
        rw [h5 k hk]
        simp [Encounter.secure?]
    | secure vh =>
      by_cases hu : vh.usable = true
      · by_cases hp : vh.VirtualHost.Port = 443
        · have hstep := visit_port_443 v vh l hu hp hl
          have hl1 : ListenerMap.index
              (ListenerMap.assign v.listeners ENVOY_HTTPS_LISTENER
                { l with FilterChains := l.FilterChains ++ [filterChain v.config vh] })
              ENVOY_HTTPS_LISTENER =
              some { l with FilterChains := l.FilterChains ++ [filterChain v.config vh] } :=
            ListenerMap.index_assign_same _ _ _
          obtain ⟨v2, h1, h2, h3, h4, h5⟩ := ih ⟨v.config,
            ListenerMap.assign v.listeners ENVOY_HTTPS_LISTENER
              { l with FilterChains := l.FilterChains ++ [filterChain v.config vh] },
            v.http⟩ _ hl1
          refine ⟨v2, ?_, h2, ?_, ?_, ?_⟩
          · simp only [visitEncounters, visitEncounter, hstep]
            exact h1
          · rw [h3]
            simp [Encounter.isPlain]
          · rw [h4]
            simp [httpsChains, Encounter.secure?, List.filter_cons, SecureVirtualHost.onHTTPS,
              hu, hp]
          · intro k hk
            rw [h5 k hk]
            have hno : SecureVirtualHost.onListener k vh = false := by
              simp [SecureVirtualHost.onListener, hp]
            simp only [List.filterMap_cons, Encounter.secure?, lastSuch_cons_false _ _ _ hno]
            cases lastSuch (SecureVirtualHost.onListener k)
                (List.filterMap Encounter.secure? es) with
            | some y => rfl
            | none => exact ListenerMap.index_assign_ne _ _ _ _ hk
        · have hstep := visit_other_port v vh hu hp
          have hl1 : ListenerMap.index
              (ListenerMap.assign v.listeners
                ("ingress_tcp_port_" ++ Itoa vh.VirtualHost.Port)
                (tcpListener v.config vh ("ingress_tcp_port_" ++ Itoa vh.VirtualHost.Port)))
              ENVOY_HTTPS_LISTENER = some l := by
            rw [ListenerMap.index_assign_ne _ _ _ _ (Ne.symm (tcp_name_ne_https _))]
            exact hl
          obtain ⟨v2, h1, h2, h3, h4, h5⟩ := ih ⟨v.config,
            ListenerMap.assign v.listeners ("ingress_tcp_port_" ++ Itoa vh.VirtualHost.Port)
              (tcpListener v.config vh ("ingress_tcp_port_" ++ Itoa vh.VirtualHost.Port)),
            v.http⟩ _ hl1
          refine ⟨v2, ?_, h2, ?_, ?_, ?_⟩
          · simp only [visitEncounters, visitEncounter, hstep]
            exact h1
          · rw [h3]
            simp [Encounter.isPlain]
          · rw [h4]
            simp [httpsChains, Encounter.secure?, List.filter_cons, SecureVirtualHost.onHTTPS,
              hu, hp]
          · intro k hk
            rw [h5 k hk]
            simp only [List.filterMap_cons, Encounter.secure?, lastSuch]
            cases lastSuch (SecureVirtualHost.onListener k)
                (List.filterMap Encounter.secure? es) with
            | some y => rfl
            | none =>
              by_cases hname : "ingress_tcp_port_" ++ Itoa vh.VirtualHost.Port = k
              · have hon : SecureVirtualHost.onListener k vh = true := by
                  simp [SecureVirtualHost.onListener, hu, hp, hname]
                simp only [hon, if_true]
                subst hname
                exact ListenerMap.index_assign_same _ _ _
              · have hon : SecureVirtualHost.onListener k vh = false := by
                  simp [SecureVirtualHost.onListener, hname]
                simp only [hon]
                exact ListenerMap.index_assign_ne _ _ _ _ (Ne.symm hname)
      · have hu2 : vh.usable = false := by simpa using hu
        have hstep := visit_unusable v vh hu2
        obtain ⟨v2, h1, h2, h3, h4, h5⟩ := ih v l hl
        refine ⟨v2, ?_, h2, ?_, ?_, ?_⟩
        · simp only [visitEncounters, visitEncounter, hstep]
          exact h1
        · rw [h3]
          simp [Encounter.isPlain]
        · rw [h4]
          simp [httpsChains, Encounter.secure?, List.filter_cons, SecureVirtualHost.onHTTPS, hu2]
        · intro k hk
          rw [h5 k hk]
          have hno : SecureVirtualHost.onListener k vh = false := by
            simp [SecureVirtualHost.onListener, hu2]
          simp only [List.filterMap_cons, Encounter.secure?, lastSuch_cons_false _ _ _ hno]

end listenerVisitor

namespace listenerVisitor

theorem finish_spec (lv : listenerVisitor) (l : Listener)
    (hl : ListenerMap.index lv.listeners ENVOY_HTTPS_LISTENER = some l) :
    ∃ m, finish lv = some m ∧
      ListenerMap.index m ENVOY_HTTP_LISTENER =
        (if lv.http = true then ListenerMap.index lv.listeners ENVOY_HTTP_LISTENER else none) ∧
      ListenerMap.index m ENVOY_HTTPS_LISTENER =
        (if l.FilterChains = [] then none else some l) ∧
      ∀ k, k ≠ ENVOY_HTTP_LISTENER → k ≠ ENVOY_HTTPS_LISTENER →
        ListenerMap.index m k = ListenerMap.index lv.listeners k := by
  have hne : ENVOY_HTTPS_LISTENER ≠ ENVOY_HTTP_LISTENER := Ne.symm http_ne_https
  have hls : ListenerMap.index
      (if !lv.http then ListenerMap.delete lv.listeners ENVOY_HTTP_LISTENER else lv.listeners)
      ENVOY_HTTPS_LISTENER = some l := by
    cases lv.http
    · simpa [ListenerMap.index_delete_ne _ _ _ hne] using hl
    · simpa using hl
  unfold finish
  rw [hls]
  by_cases hfc : l.FilterChains = []
  · have hlen : l.FilterChains.length = 0 := by rw [hfc]; rfl
    simp only [hlen, if_true, hfc]
    refine ⟨_, rfl, ?_, ?_, ?_⟩
    · rw [ListenerMap.index_delete_ne _ _ _ http_ne_https]
      cases lv.http
      · simp [ListenerMap.index_delete_same]
      · simp
    · exact ListenerMap.index_delete_same _ _
    · intro k hk1 hk2
      rw [ListenerMap.index_delete_ne _ _ _ hk2]
      cases lv.http
      · simp [ListenerMap.index_delete_ne _ _ _ hk1]
      · simp
  · have hlen : ¬ l.FilterChains.length = 0 := by
      intro h0
      exact hfc (List.length_eq_zero.mp h0)
    simp only [hlen, if_false, hfc]
    refine ⟨_, rfl, ?_, hls, ?_⟩
    · cases lv.http
      · simp [ListenerMap.index_delete_same]
      · simp
    · intro k hk1 hk2
      cases lv.http
      · simp [ListenerMap.index_delete_ne _ _ _ hk1]
      · simp

end listenerVisitor

open listenerVisitor in
theorem visitListeners_spec (root : Vertex) (lvc : ListenerVisitorConfig) :
    ∃ m, visitListeners root lvc = some m ∧
      ListenerMap.index m ENVOY_HTTP_LISTENER =
        (if root.encounters.any Encounter.isPlain = true then some (httpListener lvc)
          else none) ∧
      ListenerMap.index m ENVOY_HTTPS_LISTENER =
        (if httpsChains lvc root.encounters = [] then none
          else some { httpsListener lvc with FilterChains := httpsChains lvc root.encounters }) ∧
      ∀ k, k ≠ ENVOY_HTTP_LISTENER → k ≠ ENVOY_HTTPS_LISTENER →
        ListenerMap.index m k =
          (lastSuch (SecureVirtualHost.onListener k) root.secureHosts).map
            (fun vh => tcpListener lvc vh k) := by
  have h0 : ListenerMap.index (init lvc).listeners ENVOY_HTTPS_LISTENER =
      some (httpsListener lvc) := by
    simp [init, ListenerMap.index, http_ne_https]
  have hhttp : ListenerMap.index (init lvc).listeners ENVOY_HTTP_LISTENER =
      some (httpListener lvc) := by
    simp [init, ListenerMap.index]
  obtain ⟨v2, h1, _, h3, h4, h5⟩ := visitEncounters_spec root.encounters (init lvc) _ h0
  obtain ⟨m, hm, g1, g2, g3⟩ := finish_spec v2 _ h4
  refine ⟨m, ?_, ?_, ?_, ?_⟩
  · unfold visitListeners
    rw [visit_eq_visitEncounters, h1]
    exact hm
  · rw [g1, h3, h5 _ http_ne_https]
    have hnone : lastSuch (SecureVirtualHost.onListener ENVOY_HTTP_LISTENER)
        (List.filterMap Encounter.secure? root.encounters) = none := by
      rw [lastSuch_eq_none]
      intro z _
      have hz := tcp_name_ne_http (Itoa z.VirtualHost.Port)
      simp [SecureVirtualHost.onListener, hz]
    rw [hnone]
    simp only [hhttp]
    simp [init]
  · have e1 : (httpsListener lvc).FilterChains = [] := rfl
    have e2 : (init lvc).config = lvc := rfl
    rw [g2]
    simp only [e1, e2, List.nil_append]
  · intro k hk1 hk2
    rw [g3 k hk1 hk2, h5 k hk2]
    unfold Vertex.secureHosts
    cases lastSuch (SecureVirtualHost.onListener k)
        (List.filterMap Encounter.secure? root.encounters) with
    | some vh => rfl
    | none =>
      simp [init, ListenerMap.index, Ne.symm hk1, Ne.symm hk2]

theorem ListenerMap.index_isSome_iff (m : ListenerMap) (k : String) :
    (ListenerMap.index m k).isSome = true ↔ k ∈ m.map Prod.fst := by
  induction m with
  | nil => simp [ListenerMap.index]
  | cons e rest ih =>
    obtain ⟨k1, v1⟩ := e
    by_cases h : k1 = k
    · simp [ListenerMap.index, h]
    · have h2 : ¬ k = k1 := fun e => h e.symm
      simp [ListenerMap.index, h, h2, ih]

theorem secureHosts_mem (root : Vertex) (vh : SecureVirtualHost) :
    vh ∈ root.secureHosts ↔ Encounter.secure vh ∈ root.encounters := by
  unfold Vertex.secureHosts
  rw [List.mem_filterMap]
  constructor
  · rintro ⟨e, he, hs⟩
    cases e with
    | plain x => simp [Encounter.secure?] at hs
    | secure x =>
      simp only [Encounter.secure?, Option.some.injEq] at hs
      subst hs
      exact he
  · intro h
    exact ⟨_, h, rfl⟩

theorem usable_iff (vh : SecureVirtualHost) :
    vh.usable = true ↔
      dataIndex vh.Data "tls.crt" ≠ [] ∧ dataIndex vh.Data "tls.key" ≠ [] := by
  simp [SecureVirtualHost.usable]

theorem httpsChains_eq (lvc : ListenerVisitorConfig) (root : Vertex) :
    httpsChains lvc root.encounters =
      (root.secureHosts.filter SecureVirtualHost.onHTTPS).map
        (listenerVisitor.filterChain lvc) := rfl

/-! ## The listeners returned by visitListeners -/

/-- C11: `visitListeners` returns a map, and the map contains the key
`ingress_http` if and only if the visitor encounters at least one plain
`dag.VirtualHost` vertex, the root itself or one reached by recursing through
vertices that are neither a `VirtualHost` nor a `SecureVirtualHost`; with no such
vertex there is no `ingress_http` listener. -/
theorem ingress_http_iff_VirtualHost (root : Vertex) (lvc : ListenerVisitorConfig) :
    ∃ m, visitListeners root lvc = some m ∧
      (ENVOY_HTTP_LISTENER ∈ m.map Prod.fst ↔ ∃ vh, Encounter.plain vh ∈ root.encounters) ∧
      ((∀ vh, Encounter.plain vh ∉ root.encounters) →
        ListenerMap.index m ENVOY_HTTP_LISTENER = none) ∧
      ((∃ vh, Encounter.plain vh ∈ root.encounters) →
        ListenerMap.index m ENVOY_HTTP_LISTENER = some (listenerVisitor.httpListener lvc)) := by
  obtain ⟨m, hm, h1, _, _⟩ := visitListeners_spec root lvc
  have hany : root.encounters.any Encounter.isPlain = true ↔
      ∃ vh, Encounter.plain vh ∈ root.encounters := by
    rw [List.any_eq_true]
    constructor
    · rintro ⟨e, he, hp⟩
      cases e with
      | plain x => exact ⟨x, he⟩
      | secure x => simp [Encounter.isPlain] at hp
    · rintro ⟨x, hx⟩
      exact ⟨_, hx, rfl⟩
  refine ⟨m, hm, ?_, ?_, ?_⟩
  · rw [← ListenerMap.index_isSome_iff, h1, ← hany]
    by_cases hp : root.encounters.any Encounter.isPlain = true
    · simp [hp]
    · simp [hp]
  · intro hnone
    have hp : ¬ root.encounters.any Encounter.isPlain = true := by
      rw [hany]
      rintro ⟨x, hx⟩
      exact hnone x hx
    rw [h1, if_neg hp]
  · intro hsome
    rw [h1, if_pos (hany.mpr hsome)]

/-- C12: `visitListeners` returns a map, and the map contains the key
`ingress_https` if and only if at least one visited `SecureVirtualHost` produced
a filter chain, that is, has a non-empty `tls.crt`, a non-empty `tls.key` and port
443; when none did, there is no `ingress_https` listener. -/
theorem ingress_https_iff_filter_chain (root : Vertex) (lvc : ListenerVisitorConfig) :
    ∃ m, visitListeners root lvc = some m ∧
      (ENVOY_HTTPS_LISTENER ∈ m.map Prod.fst ↔
        ∃ vh, vh ∈ root.secureHosts ∧ dataIndex vh.Data "tls.crt" ≠ [] ∧
          dataIndex vh.Data "tls.key" ≠ [] ∧ vh.VirtualHost.Port = 443) ∧
      ((∀ vh, vh ∈ root.secureHosts → ¬ (dataIndex vh.Data "tls.crt" ≠ [] ∧
          dataIndex vh.Data "tls.key" ≠ [] ∧ vh.VirtualHost.Port = 443)) →
        ListenerMap.index m ENVOY_HTTPS_LISTENER = none) := by
  obtain ⟨m, hm, _, h2, _⟩ := visitListeners_spec root lvc
  have hne : httpsChains lvc root.encounters ≠ [] ↔
      ∃ vh, vh ∈ root.secureHosts ∧ dataIndex vh.Data "tls.crt" ≠ [] ∧
        dataIndex vh.Data "tls.key" ≠ [] ∧ vh.VirtualHost.Port = 443 := by
    rw [httpsChains_eq, Ne, List.map_eq_nil_iff, List.filter_eq_nil_iff]
    simp only [SecureVirtualHost.onHTTPS, Bool.and_eq_true, decide_eq_true_eq, usable_iff,
      not_forall, not_not, exists_prop, and_assoc]
  refine ⟨m, hm, ?_, ?_⟩
  · rw [← ListenerMap.index_isSome_iff, h2, ← hne]
    by_cases hc : httpsChains lvc root.encounters = []
    · simp [hc]
    · simp [hc]
  · intro hnone
    have hc : httpsChains lvc root.encounters = [] := by
      by_contra hc
      obtain ⟨vh, hv, hrest⟩ := hne.mp hc
      exact hnone vh hv hrest
    rw [h2, if_pos hc]

/-- C13: for each visited `SecureVirtualHost` with usable secret and port 443,
exactly one filter chain is appended to `ingress_https`, and its
`FilterChainMatch.ServerNames` is the one-element list `[host]`.  Hence the
filter chains of the `ingress_https` listener that is returned are those of the
visited virtual hosts with usable secret and port 443, one each, in visit order;
the listener is absent when there is no such virtual host. -/
theorem ingress_https_filter_chains (root : Vertex) (lvc : ListenerVisitorConfig) :
    (∀ (v : listenerVisitor) (l : Listener) (vh : SecureVirtualHost),
        vh.onHTTPS = true →
        ListenerMap.index v.listeners ENVOY_HTTPS_LISTENER = some l →
        ∃ v2 fc, v.visitSecureVirtualHost vh = some v2 ∧
          ListenerMap.index v2.listeners ENVOY_HTTPS_LISTENER =
            some { l with FilterChains := l.FilterChains ++ [fc] } ∧
          fc.FilterChainMatch = some { ServerNames := [vh.VirtualHost.Host] }) ∧
      ∃ m, visitListeners root lvc = some m ∧
        ListenerMap.index m ENVOY_HTTPS_LISTENER =
          (if root.secureHosts.filter SecureVirtualHost.onHTTPS = [] then none
            else some { listenerVisitor.httpsListener lvc with
              FilterChains := (root.secureHosts.filter SecureVirtualHost.onHTTPS).map
                (listenerVisitor.filterChain lvc) }) ∧
        (∀ l, ListenerMap.index m ENVOY_HTTPS_LISTENER = some l →
          l.FilterChains.length = (root.secureHosts.filter SecureVirtualHost.onHTTPS).length ∧
          l.FilterChains.map (fun fc => fc.FilterChainMatch) =
            (root.secureHosts.filter SecureVirtualHost.onHTTPS).map
              (fun vh => some { ServerNames := [vh.VirtualHost.Host] })) := by
  constructor
  · intro v l vh hon hl
    simp only [SecureVirtualHost.onHTTPS, Bool.and_eq_true, decide_eq_true_eq] at hon
    exact ⟨_, _, listenerVisitor.visit_port_443 v vh l hon.1 hon.2 hl,
      ListenerMap.index_assign_same _ _ _, rfl⟩
  · obtain ⟨m, hm, _, h2, _⟩ := visitListeners_spec root lvc
    rw [httpsChains_eq] at h2
    have h3 : ListenerMap.index m ENVOY_HTTPS_LISTENER =
        (if root.secureHosts.filter SecureVirtualHost.onHTTPS = [] then none
          else some { listenerVisitor.httpsListener lvc with
            FilterChains := (root.secureHosts.filter SecureVirtualHost.onHTTPS).map
              (listenerVisitor.filterChain lvc) }) := by
      rw [h2]
      by_cases hc : root.secureHosts.filter SecureVirtualHost.onHTTPS = []
      · simp [hc]
      · simp [hc]
    refine ⟨m, hm, h3, ?_⟩
    intro l hl
    rw [h3] at hl
    by_cases hc : root.secureHosts.filter SecureVirtualHost.onHTTPS = []
    · rw [if_pos hc] at hl
      cases hl
    · rw [if_neg hc] at hl
      simp only [Option.some.injEq] at hl
      subst hl
      constructor
      · simp
      · simp only [List.map_map]
        rfl

/-- C14: every filter chain of the `ingress_https` listener that is returned is
the chain of a visited `SecureVirtualHost` with usable secret and port 443, and
for each such chain: if the virtual host has no TCPProxy, the TLS context offers
ALPN `["h2", "http/1.1"]` and the single filter is the HTTP connection manager;
if it has a TCPProxy, no ALPN protocol is offered and the single filter is the
TCP proxy filter. -/
theorem ingress_https_alpn_and_filter (root : Vertex) (lvc : ListenerVisitorConfig) :
    ∃ m, visitListeners root lvc = some m ∧
      ∀ l, ListenerMap.index m ENVOY_HTTPS_LISTENER = some l →
        ∀ fc ∈ l.FilterChains,
          ∃ vh, vh ∈ root.secureHosts ∧ vh.onHTTPS = true ∧
            fc = listenerVisitor.filterChain lvc vh ∧
            (vh.VirtualHost.TCPProxy = none →
              fc.TlsContext.map (fun t => t.AlpnProtocols) = some ["h2", "http/1.1"] ∧
              fc.Filters = [Filter.HTTPConnectionManager "ingress_https" lvc.httpsAccessLog]) ∧
            (∀ proxy, vh.VirtualHost.TCPProxy = some proxy →
              fc.TlsContext.map (fun t => t.AlpnProtocols) = some [] ∧
              fc.Filters = [Filter.TCPProxy "ingress_https" (some proxy) lvc.httpsAccessLog]) := by
  obtain ⟨m, hm, _, h2, _⟩ := visitListeners_spec root lvc
  refine ⟨m, hm, ?_⟩
  intro l hl fc hfc
  rw [h2] at hl
  by_cases hc : httpsChains lvc root.encounters = []
  · rw [if_pos hc] at hl
    cases hl
  · rw [if_neg hc] at hl
    simp only [Option.some.injEq] at hl
    subst hl
    rw [httpsChains_eq] at hfc
    simp only [List.mem_map, List.mem_filter] at hfc
    obtain ⟨vh, ⟨hmem, hon⟩, rfl⟩ := hfc
    refine ⟨vh, hmem, hon, rfl, ?_, ?_⟩
    · intro hnone
      simp [listenerVisitor.filterChain, listenerVisitor.alpnProtos, listenerVisitor.filters,
        hnone, ENVOY_HTTPS_LISTENER]
    · intro proxy hsome
      simp [listenerVisitor.filterChain, listenerVisitor.alpnProtos, listenerVisitor.filters,
        hsome, ENVOY_HTTPS_LISTENER]

theorem onListener_eq_onPort (N : Int) :
    SecureVirtualHost.onListener ("ingress_tcp_port_" ++ Itoa N) = SecureVirtualHost.onPort N := by
  funext vh
  unfold SecureVirtualHost.onListener SecureVirtualHost.onPort
  congr 1
  by_cases h : vh.VirtualHost.Port = N
  · simp [h]
  · have h2 : ¬ "ingress_tcp_port_" ++ Itoa vh.VirtualHost.Port = "ingress_tcp_port_" ++ Itoa N :=
      fun e => h (tcp_name_injective _ _ e)
    simp [h, h2]

/-- C15 (amended): for each visited `SecureVirtualHost` with usable secret and
port `N` different from 443, the result contains a listener named
`ingress_tcp_port_<N>`, bound to `0.0.0.0:N`, with exactly one filter chain
holding a single TCP-proxy filter and a TLS context without ALPN.  The listener
is built from the last visited virtual host with usable secret and port `N`, so
it is the virtual host's own when no other visited one shares the port; ports
that differ give listeners of different names; and the visit of the virtual host
leaves the `ingress_https` listener as it was. -/
theorem tcp_port_listener (root : Vertex) (lvc : ListenerVisitorConfig)
    (vh : SecureVirtualHost) (hmem : vh ∈ root.secureHosts)
    (hcrt : dataIndex vh.Data "tls.crt" ≠ []) (hkey : dataIndex vh.Data "tls.key" ≠ [])
    (hport : vh.VirtualHost.Port ≠ 443) :
    ∃ m last l, visitListeners root lvc = some m ∧
      lastSuch (SecureVirtualHost.onPort vh.VirtualHost.Port) root.secureHosts = some last ∧
      ListenerMap.index m ("ingress_tcp_port_" ++ Itoa vh.VirtualHost.Port) = some l ∧
      l.Name = "ingress_tcp_port_" ++ Itoa vh.VirtualHost.Port ∧
      l.Address = { Address := "0.0.0.0", Port := vh.VirtualHost.Port } ∧
      l.FilterChains = [
        { FilterChainMatch := none,
          TlsContext := some
            { Cert := dataIndex last.Data "tls.crt",
              Key := dataIndex last.Data "tls.key",
              MinProtoVersion := last.MinProtoVersion,
              AlpnProtocols := [] },
          Filters := [Filter.TCPProxyFilter ("ingress_tcp_port_" ++ Itoa vh.VirtualHost.Port)
            last.VirtualHost.TCPProxy lvc.httpsAccessLog],
          UseProxyProto := none }] ∧
      ((∀ x ∈ root.secureHosts,
          x.onPort vh.VirtualHost.Port = true → x = vh) → last = vh) ∧
      (∀ M : Int, M ≠ vh.VirtualHost.Port →
        "ingress_tcp_port_" ++ Itoa M ≠ "ingress_tcp_port_" ++ Itoa vh.VirtualHost.Port) ∧
      (∀ (v : listenerVisitor) (l0 : Listener),
        ListenerMap.index v.listeners ENVOY_HTTPS_LISTENER = some l0 →
        ∃ v2, v.visitSecureVirtualHost vh = some v2 ∧
          ListenerMap.index v2.listeners ENVOY_HTTPS_LISTENER = some l0) := by
  have hu : vh.usable = true := (usable_iff vh).mpr ⟨hcrt, hkey⟩
  have hon : vh.onPort vh.VirtualHost.Port = true := by
    simp [SecureVirtualHost.onPort, hu, hport]
  obtain ⟨m, hm, _, _, h3⟩ := visitListeners_spec root lvc
  have hidx := h3 _ (tcp_name_ne_http (Itoa vh.VirtualHost.Port))
    (tcp_name_ne_https (Itoa vh.VirtualHost.Port))
  rw [onListener_eq_onPort] at hidx
  cases hlast : lastSuch (SecureVirtualHost.onPort vh.VirtualHost.Port) root.secureHosts with
  | none =>
    have hall := (lastSuch_eq_none _ _).mp hlast vh hmem
    rw [hon] at hall
    cases hall
  | some last =>
    rw [hlast] at hidx
    obtain ⟨hp, pre, post, hsplit, _⟩ := lastSuch_eq_some _ _ _ hlast
    have hlastport : last.VirtualHost.Port = vh.VirtualHost.Port := by
      simp only [SecureVirtualHost.onPort, Bool.and_eq_true, decide_eq_true_eq] at hp
      exact hp.2
    refine ⟨m, last, _, hm, rfl, hidx, rfl, ?_, ?_, ?_, ?_, ?_⟩
    · simp [listenerVisitor.tcpListener, hlastport]
    · simp [listenerVisitor.tcpListener, TLSCertKey, TLSPrivateKeyKey]
    · intro huniq
      apply huniq last _ hp
      rw [hsplit]
      simp
    · intro M hM e
      exact hM (tcp_name_injective _ _ e)
    · intro v l0 hl0
      refine ⟨_, listenerVisitor.visit_other_port v vh hu hport, ?_⟩
      show ListenerMap.index (ListenerMap.assign v.listeners _ _) ENVOY_HTTPS_LISTENER = some l0
      rw [ListenerMap.index_assign_ne _ _ _ _ (Ne.symm (tcp_name_ne_https _))]
      exact hl0

/-- A run of C15: one virtual host with a usable secret on port 9000. -/
theorem tcp_port_listener_witness :
    ({ VirtualHost := { Host := "tcp.example.com", Port := 9000, TCPProxy := none },
        Data := some [("tls.crt", [1]), ("tls.key", [2])],
        MinProtoVersion := TlsProtocol.TLSv1_1 } : SecureVirtualHost) ∈
      (Vertex.other (Vertices.ofList [Vertex.SecureVirtualHost
        { VirtualHost := { Host := "tcp.example.com", Port := 9000, TCPProxy := none },
          Data := some [("tls.crt", [1]), ("tls.key", [2])],
          MinProtoVersion := TlsProtocol.TLSv1_1 }])).secureHosts ∧
    ∃ m last l,
      visitListeners (Vertex.other (Vertices.ofList [Vertex.SecureVirtualHost
        { VirtualHost := { Host := "tcp.example.com", Port := 9000, TCPProxy := none },
          Data := some [("tls.crt", [1]), ("tls.key", [2])],
          MinProtoVersion := TlsProtocol.TLSv1_1 }])) ListenerVisitorConfig.zero = some m ∧
      lastSuch (SecureVirtualHost.onPort 9000)
        (Vertex.other (Vertices.ofList [Vertex.SecureVirtualHost
          { VirtualHost := { Host := "tcp.example.com", Port := 9000, TCPProxy := none },
            Data := some [("tls.crt", [1]), ("tls.key", [2])],
            MinProtoVersion := TlsProtocol.TLSv1_1 }])).secureHosts = some last ∧
      ListenerMap.index m ("ingress_tcp_port_" ++ Itoa 9000) = some l ∧
      l.Name = "ingress_tcp_port_" ++ Itoa 9000 ∧
      l.Address = { Address := "0.0.0.0", Port := 9000 } :=
  ⟨by decide,
    (tcp_port_listener
      (Vertex.other (Vertices.ofList [Vertex.SecureVirtualHost
        { VirtualHost := { Host := "tcp.example.com", Port := 9000, TCPProxy := none },
          Data := some [("tls.crt", [1]), ("tls.key", [2])],
          MinProtoVersion := TlsProtocol.TLSv1_1 }]))
      ListenerVisitorConfig.zero
      { VirtualHost := { Host := "tcp.example.com", Port := 9000, TCPProxy := none },
        Data := some [("tls.crt", [1]), ("tls.key", [2])],
        MinProtoVersion := TlsProtocol.TLSv1_1 }
      (by decide) (by decide) (by decide) (by decide)).imp
      (fun _ hm => hm.imp (fun _ hl => hl.imp
        (fun _ h => ⟨h.1, h.2.1, h.2.2.1, h.2.2.2.1, h.2.2.2.2.1⟩)))⟩

/-- C15 (as stated) fails when two visited virtual hosts share a port: both have
a usable secret and port 9000, and the result holds the single listener
`ingress_tcp_port_9000`, built from the certificate of the second; the first has
no listener of its own. -/
theorem tcp_port_listener_shared :
    (visitListeners
      (Vertex.other (Vertices.ofList [
        Vertex.SecureVirtualHost
          { VirtualHost := { Host := "a.example.com", Port := 9000, TCPProxy := none },
            Data := some [("tls.crt", [1]), ("tls.key", [1])],
            MinProtoVersion := TlsProtocol.TLSv1_1 },
        Vertex.SecureVirtualHost
          { VirtualHost := { Host := "b.example.com", Port := 9000, TCPProxy := none },
            Data := some [("tls.crt", [2]), ("tls.key", [2])],
            MinProtoVersion := TlsProtocol.TLSv1_1 }]))
      ListenerVisitorConfig.zero).map
        (fun m => m.map (fun e =>
          (e.1, e.2.FilterChains.map (fun fc => fc.TlsContext.map (fun t => t.Cert))))) =
      some [("ingress_tcp_port_9000", [some [2]])] := by
  decide

/-! ## Skipped virtual hosts -/

mutual

theorem without_encounters {vh : SecureVirtualHost} : ∀ {g1 g2 : Vertex},
    Vertex.Without vh g1 g2 →
    ∃ pre post, g1.encounters = pre ++ Encounter.secure vh :: post ∧
      g2.encounters = pre ++ post
  | _, _, Vertex.Without.other h => by
    obtain ⟨pre, post, h1, h2⟩ := without_children_encounters h
    exact ⟨pre, post, by simpa [Vertex.encounters] using h1,
      by simpa [Vertex.encounters] using h2⟩

theorem without_children_encounters {vh : SecureVirtualHost} : ∀ {cs1 cs2 : Vertices},
    Vertices.Without vh cs1 cs2 →
    ∃ pre post, cs1.encounters = pre ++ Encounter.secure vh :: post ∧
      cs2.encounters = pre ++ post
  | _, _, @Vertices.Without.here _ rest => by
    exact ⟨[], rest.encounters, by simp [Vertices.encounters, Vertex.encounters], by simp⟩
  | _, _, @Vertices.Without.inside _ _ _ rest h => by
    obtain ⟨pre, post, h1, h2⟩ := without_encounters h
    exact ⟨pre, post ++ rest.encounters, by simp [Vertices.encounters, h1],
      by simp [Vertices.encounters, h2]⟩
  | _, _, @Vertices.Without.later _ v _ _ h => by
    obtain ⟨pre, post, h1, h2⟩ := without_children_encounters h
    exact ⟨v.encounters ++ pre, post, by simp [Vertices.encounters, h1],
      by simp [Vertices.encounters, h2]⟩

end

theorem visitEncounters_skip (v : listenerVisitor) (vh : SecureVirtualHost)
    (h : vh.usable = false) (pre post : List Encounter) :
    v.visitEncounters (pre ++ Encounter.secure vh :: post) = v.visitEncounters (pre ++ post) := by
  rw [listenerVisitor.visitEncounters_append, listenerVisitor.visitEncounters_append]
  cases v.visitEncounters pre with
  | none => rfl
  | some v1 =>
    simp only [listenerVisitor.visitEncounters, listenerVisitor.visitEncounter,
      listenerVisitor.visit_unusable v1 vh h]

/-- C16: a `SecureVirtualHost` whose secret data is missing, or whose `tls.crt`
or `tls.key` is empty, is skipped by the listener visitor, whatever its port or
TCPProxy setting: `visitListeners` returns the same map for a graph and for the
graph with that vertex removed, and for the vertex alone the same as for a
vertex without children. -/
theorem skipped_SecureVirtualHost (lvc : ListenerVisitorConfig) (vh : SecureVirtualHost)
    (g1 g2 : Vertex)
    (h : vh.Data = none ∨ dataIndex vh.Data "tls.crt" = [] ∨ dataIndex vh.Data "tls.key" = [])
    (hg : Vertex.Without vh g1 g2) :
    visitListeners g1 lvc = visitListeners g2 lvc ∧
      visitListeners (Vertex.SecureVirtualHost vh) lvc =
        visitListeners (Vertex.other Vertices.nil) lvc := by
  have hu : vh.usable = false := by
    rcases h with h | h | h
    · simp [SecureVirtualHost.usable, h, dataIndex]
    · simp [SecureVirtualHost.usable, h]
    · simp [SecureVirtualHost.usable, h]
  constructor
  · obtain ⟨pre, post, h1, h2⟩ := without_encounters hg
    unfold visitListeners
    rw [listenerVisitor.visit_eq_visitEncounters, listenerVisitor.visit_eq_visitEncounters,
      h1, h2, visitEncounters_skip _ vh hu]
  · unfold visitListeners
    rw [listenerVisitor.visit_eq_visitEncounters, listenerVisitor.visit_eq_visitEncounters]
    have hskip : (listenerVisitor.init lvc).visitEncounters [Encounter.secure vh] =
        (listenerVisitor.init lvc).visitEncounters [] :=
      visitEncounters_skip (listenerVisitor.init lvc) vh hu [] []
    simp only [Vertex.encounters, Vertices.encounters]
    rw [hskip]

/-- A run of C16: a virtual host whose secret is missing stands between a plain
virtual host and a virtual host with a usable secret; removing it changes
nothing. -/
theorem skipped_SecureVirtualHost_witness :
    (({ VirtualHost := { Host := "b.example.com", Port := 9000, TCPProxy := none },
        Data := none, MinProtoVersion := TlsProtocol.TLSv1_1 } : SecureVirtualHost).Data = none ∨
      dataIndex
        ({ VirtualHost := { Host := "b.example.com", Port := 9000, TCPProxy := none },
            Data := none, MinProtoVersion := TlsProtocol.TLSv1_1 } : SecureVirtualHost).Data
        "tls.crt" = [] ∨
      dataIndex
        ({ VirtualHost := { Host := "b.example.com", Port := 9000, TCPProxy := none },
            Data := none, MinProtoVersion := TlsProtocol.TLSv1_1 } : SecureVirtualHost).Data
        "tls.key" = []) ∧
    visitListeners
        (Vertex.other (Vertices.cons
          (Vertex.VirtualHost { Host := "a.example.com", Port := 80, TCPProxy := none })
          (Vertices.cons
            (Vertex.SecureVirtualHost
              { VirtualHost := { Host := "b.example.com", Port := 9000, TCPProxy := none },
                Data := none, MinProtoVersion := TlsProtocol.TLSv1_1 })
            (Vertices.cons
              (Vertex.SecureVirtualHost
                { VirtualHost := { Host := "c.example.com", Port := 443, TCPProxy := none },
                  Data := some [("tls.crt", [1]), ("tls.key", [2])],
                  MinProtoVersion := TlsProtocol.TLSv1_2 })
              Vertices.nil))))
        ListenerVisitorConfig.zero =
      visitListeners
        (Vertex.other (Vertices.cons
          (Vertex.VirtualHost { Host := "a.example.com", Port := 80, TCPProxy := none })
          (Vertices.cons
            (Vertex.SecureVirtualHost
              { VirtualHost := { Host := "c.example.com", Port := 443, TCPProxy := none },
                Data := some [("tls.crt", [1]), ("tls.key", [2])],
                MinProtoVersion := TlsProtocol.TLSv1_2 })
            Vertices.nil)))
        ListenerVisitorConfig.zero :=
  ⟨Or.inl rfl,
    (skipped_SecureVirtualHost ListenerVisitorConfig.zero
      { VirtualHost := { Host := "b.example.com", Port := 9000, TCPProxy := none },
        Data := none, MinProtoVersion := TlsProtocol.TLSv1_1 }
      _ _ (Or.inl rfl)
      (Vertex.Without.other (Vertices.Without.later Vertices.Without.here))).1⟩

/-! ## The configuration -/

/-- C17 (the code at the failing input): with `UseProxyProto` set, a virtual host
on port 443 and a virtual host on port 9000, both with a usable secret, the
filter chain of `ingress_https` carries the setting, and the filter chain of the
listener `ingress_tcp_port_9000` has the field unset. -/
theorem UseProxyProto_unset_on_tcp_port_listener :
    (visitListeners
      (Vertex.other (Vertices.ofList [
        Vertex.SecureVirtualHost
          { VirtualHost := { Host := "www.example.com", Port := 443, TCPProxy := none },
            Data := some [("tls.crt", [1]), ("tls.key", [2])],
            MinProtoVersion := TlsProtocol.TLSv1_1 },
        Vertex.SecureVirtualHost
          { VirtualHost := { Host := "tcp.example.com", Port := 9000, TCPProxy := none },
            Data := some [("tls.crt", [1]), ("tls.key", [2])],
            MinProtoVersion := TlsProtocol.TLSv1_1 }]))
      { HTTPAddress := "", HTTPPort := 0, HTTPAccessLog := "", HTTPSAddress := "",
        HTTPSPort := 0, HTTPSAccessLog := "", UseProxyProto := true }).map
        (fun m => m.map (fun e => (e.1, e.2.FilterChains.map (fun fc => fc.UseProxyProto)))) =
      some [("ingress_https", [some true]), ("ingress_tcp_port_9000", [none])] := by
  decide

/-- C18: each accessor of `ListenerVisitorConfig` returns the configured field
when it is set (non-empty string, non-zero port) and otherwise its default:
`httpAddress` 0.0.0.0, `httpPort` 8080, `httpAccessLog` /dev/stdout,
`httpsAddress` 0.0.0.0, `httpsPort` 8443, `httpsAccessLog` /dev/stdout.  So with
the zero-value configuration, on every graph, a listener `ingress_http` is bound
to 0.0.0.0:8080 and a listener `ingress_https` to 0.0.0.0:8443. -/
theorem config_accessors_defaults (lvc : ListenerVisitorConfig) (root : Vertex) :
    lvc.httpAddress = (if lvc.HTTPAddress = "" then "0.0.0.0" else lvc.HTTPAddress) ∧
      lvc.httpPort = (if lvc.HTTPPort = 0 then 8080 else lvc.HTTPPort) ∧
      lvc.httpAccessLog = (if lvc.HTTPAccessLog = "" then "/dev/stdout" else lvc.HTTPAccessLog) ∧
      lvc.httpsAddress = (if lvc.HTTPSAddress = "" then "0.0.0.0" else lvc.HTTPSAddress) ∧
      lvc.httpsPort = (if lvc.HTTPSPort = 0 then 8443 else lvc.HTTPSPort) ∧
      lvc.httpsAccessLog =
        (if lvc.HTTPSAccessLog = "" then "/dev/stdout" else lvc.HTTPSAccessLog) ∧
      ∃ m, visitListeners root ListenerVisitorConfig.zero = some m ∧
        (∀ l, ListenerMap.index m "ingress_http" = some l →
          l.Address = { Address := "0.0.0.0", Port := 8080 }) ∧
        (∀ l, ListenerMap.index m "ingress_https" = some l →
          l.Address = { Address := "0.0.0.0", Port := 8443 }) := by
  refine ⟨?_, ?_, ?_, ?_, ?_, ?_, ?_⟩
  · by_cases h : lvc.HTTPAddress = "" <;>
      simp [ListenerVisitorConfig.httpAddress, DEFAULT_HTTP_LISTENER_ADDRESS, h]
  · by_cases h : lvc.HTTPPort = 0 <;>
      simp [ListenerVisitorConfig.httpPort, DEFAULT_HTTP_LISTENER_PORT, h]
  · by_cases h : lvc.HTTPAccessLog = "" <;>
      simp [ListenerVisitorConfig.httpAccessLog, DEFAULT_HTTP_ACCESS_LOG, h]
  · by_cases h : lvc.HTTPSAddress = "" <;>
      simp [ListenerVisitorConfig.httpsAddress, DEFAULT_HTTPS_LISTENER_ADDRESS,
        DEFAULT_HTTP_LISTENER_ADDRESS, h]
  · by_cases h : lvc.HTTPSPort = 0 <;>
      simp [ListenerVisitorConfig.httpsPort, DEFAULT_HTTPS_LISTENER_PORT, h]
  · by_cases h : lvc.HTTPSAccessLog = "" <;>
      simp [ListenerVisitorConfig.httpsAccessLog, DEFAULT_HTTPS_ACCESS_LOG, h]
  · obtain ⟨m, hm, h1, h2, _⟩ := visitListeners_spec root ListenerVisitorConfig.zero
    refine ⟨m, hm, ?_, ?_⟩
    · intro l hl
      have hl2 : ListenerMap.index m ENVOY_HTTP_LISTENER = some l := hl
      rw [h1] at hl2
      by_cases hp : root.encounters.any Encounter.isPlain = true
      · rw [if_pos hp] at hl2
        simp only [Option.some.injEq] at hl2
        subst hl2
        decide
      · rw [if_neg hp] at hl2
        cases hl2
    · intro l hl
      have hl2 : ListenerMap.index m ENVOY_HTTPS_LISTENER = some l := hl
      rw [h2] at hl2
      by_cases hc : httpsChains ListenerVisitorConfig.zero root.encounters = []
      · rw [if_pos hc] at hl2
        cases hl2
      · rw [if_neg hc] at hl2
        simp only [Option.some.injEq] at hl2
        subst hl2
        show (listenerVisitor.httpsListener ListenerVisitorConfig.zero).Address =
          { Address := "0.0.0.0", Port := 8443 }
        decide

/-! ## Annotations -/

/-- C19: `compatAnnotation(o, key)` returns the value of `projectcontour.io/<key>`
whenever that annotation is present, even when its value is the empty string;
otherwise the value of `contour.heptio.com/<key>`; and the empty string when
neither is present. -/
theorem compatAnnotation_fallback (a : Annotations) (key : String) :
    (∀ val, Annotations.lookup a ("projectcontour.io/" ++ key) = some val →
        compatAnnotation a key = val) ∧
      (Annotations.lookup a ("projectcontour.io/" ++ key) = some "" →
        compatAnnotation a key = "") ∧
      (Annotations.lookup a ("projectcontour.io/" ++ key) = none →
        ∀ val, Annotations.lookup a ("contour.heptio.com/" ++ key) = some val →
          compatAnnotation a key = val) ∧
      (Annotations.lookup a ("projectcontour.io/" ++ key) = none →
        Annotations.lookup a ("contour.heptio.com/" ++ key) = none →
          compatAnnotation a key = "") := by
  refine ⟨?_, ?_, ?_, ?_⟩
  · intro val h
    simp [ compatAnnotation, h]
  · intro h
    simp [ compatAnnotation, h]
  · intro h val h2
    simp [ compatAnnotation, h, Annotations.index, h2]
  · intro h h2
    simp [ compatAnnotation, h, Annotations.index, h2]

/-- C20: `ingressClass(o)` returns the value of the first annotation present
among `projectcontour.io/ingress.class`, `contour.heptio.com/ingress.class` and
`kubernetes.io/ingress.class`, in that order, and the empty string when none of
the three is present. -/
theorem ingressClass_first_present (a : Annotations) :
    (∀ cls, Annotations.lookup a "projectcontour.io/ingress.class" = some cls →
        ingressClass a = cls) ∧
      (Annotations.lookup a "projectcontour.io/ingress.class" = none →
        ∀ cls, Annotations.lookup a "contour.heptio.com/ingress.class" = some cls →
          ingressClass a = cls) ∧
      (Annotations.lookup a "projectcontour.io/ingress.class" = none →
        Annotations.lookup a "contour.heptio.com/ingress.class" = none →
        ∀ cls, Annotations.lookup a "kubernetes.io/ingress.class" = some cls →
          ingressClass a = cls) ∧
      (Annotations.lookup a "projectcontour.io/ingress.class" = none →
        Annotations.lookup a "contour.heptio.com/ingress.class" = none →
        Annotations.lookup a "kubernetes.io/ingress.class" = none →
          ingressClass a = "") := by
  refine ⟨?_, ?_, ?_, ?_⟩
  · intro cls h
    simp [ingressClass, h]
  · intro h cls h2
    simp [ingressClass, h, h2]
  · intro h h2 cls h3
    simp [ingressClass, h, h2, h3]
  · intro h h2 h3
    simp [ingressClass, h, h2, h3]

/-! ## Parsing numbers -/

theorem digits_foldl_le (cs : List Char) : ∀ n : Nat,
    n ≤ cs.foldl (fun acc c => 10 * acc + (c.toNat - 48)) n := by
  induction cs with
  | nil => intro n; exact Nat.le_refl n
  | cons c cs ih =>
    intro n
    simp only [List.foldl_cons]
    exact Nat.le_trans (by omega) (ih _)

theorem parseUintLoop_eq (cs : List Char) : ∀ n : Nat, n ≤ 2 ^ 32 - 1 →
    parseUintLoop cs n =
      if cs.all (fun c => decide (48 ≤ c.toNat ∧ c.toNat ≤ 57)) = true ∧
          cs.foldl (fun acc c => 10 * acc + (c.toNat - 48)) n ≤ 2 ^ 32 - 1
      then some (cs.foldl (fun acc c => 10 * acc + (c.toNat - 48)) n) else none := by
  induction cs with
  | nil =>
    intro n hn
    have hn2 : n ≤ 4294967295 := hn
    simp [parseUintLoop, hn2]
  | cons c cs ih =>
    intro n hn
    have hn2 : n ≤ 4294967295 := hn
    by_cases hc : 48 ≤ c.toNat ∧ c.toNat ≤ 57
    · have hcut : ¬ n ≥ 18446744073709551615 / 10 + 1 := by omega
      have hmod : (n * 10 + (c.toNat - 48)) % 2 ^ 64 = 10 * n + (c.toNat - 48) := by
        rw [Nat.mod_eq_of_lt (by omega)]
        omega
      simp only [parseUintLoop, hc, and_self, if_true, hcut, if_false, hmod, List.all_cons,
        decide_True, Bool.true_and, List.foldl_cons]
      by_cases hbig : 10 * n + (c.toNat - 48) > 2 ^ 32 - 1
      · have hge := digits_foldl_le cs (10 * n + (c.toNat - 48))
        have h1 : 10 * n + (c.toNat - 48) < n * 10 ∨ 10 * n + (c.toNat - 48) > 2 ^ 32 - 1 :=
          Or.inr hbig
        have h2 : ¬ (cs.all (fun c => decide (48 ≤ c.toNat ∧ c.toNat ≤ 57)) = true ∧
            cs.foldl (fun acc c => 10 * acc + (c.toNat - 48)) (10 * n + (c.toNat - 48)) ≤
              2 ^ 32 - 1) := by
          intro h
          omega
        rw [if_pos h1, if_neg h2]
      · have h1 : ¬ (10 * n + (c.toNat - 48) < n * 10 ∨
            10 * n + (c.toNat - 48) > 2 ^ 32 - 1) := by omega
        rw [if_neg h1]
        exact ih _ (by omega)
    · simp only [parseUintLoop, hc, if_false, List.all_cons, decide_False, Bool.false_and,
        Bool.false_eq_true, false_and]

theorem parseUInt32_eq (s : String) :
    parseUInt32 s =
      if s.data ≠ [] ∧ (∀ c ∈ s.data, 48 ≤ c.toNat ∧ c.toNat ≤ 57) ∧
          digitsValue s.data ≤ 4294967295
      then digitsValue s.data else 0 := by
  have hall : s.data.all (fun c => decide (48 ≤ c.toNat ∧ c.toNat ≤ 57)) = true ↔
      ∀ c ∈ s.data, 48 ≤ c.toNat ∧ c.toNat ≤ 57 := by
    simp [List.all_eq_true]
  unfold parseUInt32 ParseUint
  by_cases he : s.data = []
  · simp [he]
  · rw [if_neg he, parseUintLoop_eq s.data 0 (by omega)]
    by_cases hcond : s.data.all (fun c => decide (48 ≤ c.toNat ∧ c.toNat ≤ 57)) = true ∧
        s.data.foldl (fun acc c => 10 * acc + (c.toNat - 48)) 0 ≤ 2 ^ 32 - 1
    · have h2 : s.data ≠ [] ∧ (∀ c ∈ s.data, 48 ≤ c.toNat ∧ c.toNat ≤ 57) ∧
          digitsValue s.data ≤ 4294967295 := ⟨he, hall.mp hcond.1, hcond.2⟩
      rw [if_pos hcond, if_pos h2]
      show digitsValue s.data % 2 ^ 32 = digitsValue s.data
      exact Nat.mod_eq_of_lt (by omega)
    · have h2 : ¬ (s.data ≠ [] ∧ (∀ c ∈ s.data, 48 ≤ c.toNat ∧ c.toNat ≤ 57) ∧
          digitsValue s.data ≤ 4294967295) := by
        rintro ⟨_, h3, h4⟩
        exact hcond ⟨hall.mpr h3, h4⟩
      rw [if_neg hcond, if_neg h2]

theorem digitChar_is_digit (k : Nat) (hk : k < 10) :
    48 ≤ (Nat.digitChar k).toNat ∧ (Nat.digitChar k).toNat ≤ 57 := by
  interval_cases k <;> decide

theorem toDigitsCore_digits (fuel : Nat) : ∀ (n : Nat) (ds : List Char),
    (∀ c ∈ ds, 48 ≤ c.toNat ∧ c.toNat ≤ 57) →
    ∀ c ∈ Nat.toDigitsCore 10 fuel n ds, 48 ≤ c.toNat ∧ c.toNat ≤ 57 := by
  induction fuel with
  | zero =>
    intro n ds hds
    simpa [Nat.toDigitsCore] using hds
  | succ fuel ih =>
    intro n ds hds
    have hcons : ∀ c ∈ Nat.digitChar (n % 10) :: ds, 48 ≤ c.toNat ∧ c.toNat ≤ 57 := by
      intro c hc
      rcases List.mem_cons.mp hc with rfl | hmem
      · exact digitChar_is_digit _ (Nat.mod_lt n (by decide))
      · exact hds c hmem
    unfold Nat.toDigitsCore
    simp only
    split
    · exact hcons
    · exact ih _ _ hcons

/-- C21: `parseUInt32(s)` equals `n` when `s` is a non-empty string of ASCII
decimal digits denoting a number `n ≤ 4294967295`, so parsing the decimal
rendering of any uint32 returns that uint32; and it equals 0 for every other
string: empty, signed, containing a non-digit, or denoting a value outside the
range of uint32. -/
theorem parseUInt32_value_or_zero (s : String) :
    (s.data ≠ [] → (∀ c ∈ s.data, 48 ≤ c.toNat ∧ c.toNat ≤ 57) →
        digitsValue s.data ≤ 4294967295 → parseUInt32 s = digitsValue s.data) ∧
      (¬ (s.data ≠ [] ∧ (∀ c ∈ s.data, 48 ≤ c.toNat ∧ c.toNat ≤ 57) ∧
          digitsValue s.data ≤ 4294967295) → parseUInt32 s = 0) ∧
      (∀ n : Nat, n ≤ 4294967295 → parseUInt32 (String.mk (Nat.toDigits 10 n)) = n) ∧
      parseUInt32 "" = 0 ∧
      (∀ t : String, parseUInt32 ("-" ++ t) = 0 ∧ parseUInt32 ("+" ++ t) = 0) ∧
      parseUInt32 "4294967295" = 4294967295 ∧ parseUInt32 "4294967296" = 0 := by
  refine ⟨?_, ?_, ?_, by decide, ?_, by decide, by decide⟩
  · intro h1 h2 h3
    rw [parseUInt32_eq, if_pos ⟨h1, h2, h3⟩]
  · intro h
    rw [parseUInt32_eq, if_neg h]
  · intro n hn
    have hne : (String.mk (Nat.toDigits 10 n)).data ≠ [] := by
      obtain ⟨k, tl, _, hk⟩ := toDigitsCore_head (n + 1) n [] (by omega)
      show Nat.toDigits 10 n ≠ []
      unfold Nat.toDigits
      rw [hk]
      exact List.cons_ne_nil _ _
    have hdig : ∀ c ∈ (String.mk (Nat.toDigits 10 n)).data, 48 ≤ c.toNat ∧ c.toNat ≤ 57 :=
      toDigitsCore_digits (n + 1) n [] (by intro c hc; cases hc)
    have hval : digitsValue (String.mk (Nat.toDigits 10 n)).data = n := toDigits_value n
    rw [parseUInt32_eq, if_pos ⟨hne, hdig, by rw [hval]; exact hn⟩, hval]
  · intro t
    constructor
    · rw [parseUInt32_eq, if_neg]
      rintro ⟨_, h2, _⟩
      have := h2 '-' (by simp [String.data_append])
      revert this
      decide
    · rw [parseUInt32_eq, if_neg]
      rintro ⟨_, h2, _⟩
      have := h2 '+' (by simp [String.data_append])
      revert this
      decide

/-! ## The annotation accessors -/

/-- C22: each numeric annotation accessor (`numRetries`, `maxConnections`,
`maxPendingRequests`, `maxRequests`, `maxRetries`) returns the parsed value of the
first matching annotation, `projectcontour.io/<name>` before
`contour.heptio.com/<name>`, and returns 0 when the annotation is unset under
both prefixes or the selected value is unparseable. -/
theorem numeric_accessors (a : Annotations) :
    (numRetries a = parseUInt32 ( compatAnnotation a "num-retries") ∧
      maxConnections a = parseUInt32 ( compatAnnotation a "max-connections") ∧
      maxPendingRequests a = parseUInt32 ( compatAnnotation a "max-pending-requests") ∧
      maxRequests a = parseUInt32 ( compatAnnotation a "max-requests") ∧
      maxRetries a = parseUInt32 ( compatAnnotation a "max-retries")) ∧
    (∀ (name val : String),
      Annotations.lookup a ("projectcontour.io/" ++ name) = some val →
        parseUInt32 ( compatAnnotation a name) = parseUInt32 val) ∧
    (∀ (name val : String),
      Annotations.lookup a ("projectcontour.io/" ++ name) = none →
      Annotations.lookup a ("contour.heptio.com/" ++ name) = some val →
        parseUInt32 ( compatAnnotation a name) = parseUInt32 val) ∧
    (∀ name : String,
      Annotations.lookup a ("projectcontour.io/" ++ name) = none →
      Annotations.lookup a ("contour.heptio.com/" ++ name) = none →
        parseUInt32 ( compatAnnotation a name) = 0) ∧
    (∀ val : String, ParseUint val = none → parseUInt32 val = 0) := by
  refine ⟨⟨rfl, rfl, rfl, rfl, rfl⟩, ?_, ?_, ?_, ?_⟩
  · intro name val h
    simp [ compatAnnotation, h]
  · intro name val h h2
    simp [ compatAnnotation, h, Annotations.index, h2]
  · intro name h h2
    simp only [ compatAnnotation, h, Annotations.index, h2]
    decide
  · intro val h
    simp [parseUInt32, h]

/-- C23: `MinProtoVersion(version)` returns `TLSv1_3` exactly when `version` is
the string "1.3", `TLSv1_2` exactly when it is "1.2", and `TLSv1_1` for every
other string, including the empty string. -/
theorem MinProtoVersion_cases (version : String) :
    (MinProtoVersion version = TlsProtocol.TLSv1_3 ↔ version = "1.3") ∧
      (MinProtoVersion version = TlsProtocol.TLSv1_2 ↔ version = "1.2") ∧
      (MinProtoVersion version = TlsProtocol.TLSv1_1 ↔ version ≠ "1.3" ∧ version ≠ "1.2") ∧
      MinProtoVersion "" = TlsProtocol.TLSv1_1 := by
  unfold MinProtoVersion
  refine ⟨?_, ?_, ?_, by decide⟩
  · by_cases h3 : version = "1.3"
    · simp [h3]
    · by_cases h2 : version = "1.2" <;> simp [h3, h2]
  · by_cases h3 : version = "1.3"
    · subst h3
      simp
    · by_cases h2 : version = "1.2" <;> simp [h3, h2]
  · by_cases h3 : version = "1.3"
    · simp [h3]
    · by_cases h2 : version = "1.2" <;> simp [h3, h2]

theorem GoMap.lookup_assign {β : Type} (m : List (String × β)) (k k2 : String) (v : β) :
    GoMap.lookup (GoMap.assign m k v) k2 = if k = k2 then some v else GoMap.lookup m k2 := by
  induction m with
  | nil => simp [GoMap.assign, GoMap.lookup]
  | cons e rest ih =>
    obtain ⟨k1, v1⟩ := e
    by_cases h1 : k1 = k
    · subst h1
      by_cases h2 : k1 = k2 <;> simp [GoMap.assign, GoMap.lookup, h2]
    · by_cases h2 : k1 = k2
      · subst h2
        have h3 : ¬ k = k1 := fun e => h1 e.symm
        simp [GoMap.assign, GoMap.lookup, h1, h3]
      · simp [GoMap.assign, GoMap.lookup, h1, h2, ih]

theorem websocketLoop_lookup (pieces : List String) : ∀ (routes : List (String × Bool))
    (r : String),
    GoMap.lookup (websocketLoop pieces routes) r =
      if r ∈ (pieces.map TrimSpace).filter (fun x => decide (x ≠ "")) then some true
      else GoMap.lookup routes r := by
  induction pieces with
  | nil => intro routes r; simp [websocketLoop]
  | cons v rest ih =>
    intro routes r
    by_cases hv : TrimSpace v = ""
    · have hstep : websocketLoop (v :: rest) routes = websocketLoop rest routes := by
        simp [websocketLoop, hv]
      have hfil : List.filter (fun x => decide (x ≠ "")) (List.map TrimSpace (v :: rest)) =
          List.filter (fun x => decide (x ≠ "")) (List.map TrimSpace rest) := by
        simp [List.filter_cons, hv]
      rw [hstep, hfil, ih]
    · have hstep : websocketLoop (v :: rest) routes =
          websocketLoop rest (GoMap.assign routes (TrimSpace v) true) := by
        simp [websocketLoop, hv]
      have hfil : List.filter (fun x => decide (x ≠ "")) (List.map TrimSpace (v :: rest)) =
          TrimSpace v :: List.filter (fun x => decide (x ≠ "")) (List.map TrimSpace rest) := by
        simp [List.filter_cons, hv]
      rw [hstep, hfil, ih, GoMap.lookup_assign]
      by_cases h1 : r ∈ List.filter (fun x => decide (x ≠ "")) (List.map TrimSpace rest)
      · rw [if_pos h1, if_pos (List.mem_cons_of_mem _ h1)]
      · rw [if_neg h1]
        by_cases h2 : TrimSpace v = r
        · rw [if_pos h2, if_pos (h2 ▸ List.mem_cons_self _ _)]
        · rw [if_neg h2, if_neg]
          intro hmem
          rcases List.mem_cons.mp hmem with e | e
          · exact h2 e.symm
          · exact h1 e

/-- C24 (amended): `websocketRoutes` does not fall back: it takes the routes of
`projectcontour.io/websocket-routes` and those of
`contour.heptio.com/websocket-routes` together, whether or not the new-prefix
annotation is found.  A route is in the result, with the value true, if and only
if it is a non-empty trimmed piece of one of the two annotations; so the result
is determined by the `projectcontour.io` annotation alone only when the legacy
annotation contributes no route. -/
theorem websocketRoutes_of_both (a : Annotations) (r : String) :
    (GoMap.lookup (websocketRoutes a) r = some true ↔
      r ∈ ((Split (Annotations.index a "projectcontour.io/websocket-routes")).map
          TrimSpace).filter (fun x => decide (x ≠ "")) ∨
      r ∈ ((Split (Annotations.index a "contour.heptio.com/websocket-routes")).map
          TrimSpace).filter (fun x => decide (x ≠ ""))) ∧
    (GoMap.lookup (websocketRoutes a) r = none ↔
      ¬ (r ∈ ((Split (Annotations.index a "projectcontour.io/websocket-routes")).map
          TrimSpace).filter (fun x => decide (x ≠ "")) ∨
        r ∈ ((Split (Annotations.index a "contour.heptio.com/websocket-routes")).map
          TrimSpace).filter (fun x => decide (x ≠ "")))) := by
  unfold websocketRoutes
  rw [websocketLoop_lookup, websocketLoop_lookup]
  by_cases h1 : r ∈ ((Split (Annotations.index a "contour.heptio.com/websocket-routes")).map
      TrimSpace).filter (fun x => decide (x ≠ ""))
  · rw [if_pos h1]
    exact ⟨⟨fun _ => Or.inr h1, fun _ => rfl⟩,
      ⟨fun h => (by cases h), fun h => absurd (Or.inr h1) h⟩⟩
  · rw [if_neg h1]
    by_cases h2 : r ∈ ((Split (Annotations.index a "projectcontour.io/websocket-routes")).map
        TrimSpace).filter (fun x => decide (x ≠ ""))
    · rw [if_pos h2]
      exact ⟨⟨fun _ => Or.inl h2, fun _ => rfl⟩,
        ⟨fun h => (by cases h), fun h => absurd (Or.inl h2) h⟩⟩
    · rw [if_neg h2]
      refine ⟨⟨fun h => (by simp [GoMap.lookup] at h), fun h => ?_⟩,
        ⟨fun _ h => ?_, fun _ => rfl⟩⟩
      · rcases h with h | h
        · exact absurd h h2
        · exact absurd h h1
      · rcases h with h | h
        · exact h2 h
        · exact h1 h

/-- C24 (as stated) fails: two Ingresses carry the same
`projectcontour.io/websocket-routes` annotation, and the one that carries a
`contour.heptio.com/websocket-routes` annotation as well gets the routes of both. -/
theorem websocketRoutes_no_fallback :
    websocketRoutes [("projectcontour.io/websocket-routes", "/a"),
        ("contour.heptio.com/websocket-routes", "/b")] = [("/a", true), ("/b", true)] ∧
      websocketRoutes [("projectcontour.io/websocket-routes", "/a")] = [("/a", true)] ∧
      websocketRoutes [("projectcontour.io/websocket-routes", "/a"),
        ("contour.heptio.com/websocket-routes", "/b")] ≠
        websocketRoutes [("projectcontour.io/websocket-routes", "/a")] := by
  decide

/-- C25: `httpAllowed(i)` is false if and only if the Ingress carries the
annotation `kubernetes.io/ingress.allow-http` with the exact value "false"; it is
true when the annotation is absent or has any other value. -/
theorem httpAllowed_false_iff (a : Annotations) :
    (httpAllowed a = false ↔
      Annotations.lookup a "kubernetes.io/ingress.allow-http" = some "false") ∧
    (Annotations.lookup a "kubernetes.io/ingress.allow-http" = none → httpAllowed a = true) ∧
    (∀ val, Annotations.lookup a "kubernetes.io/ingress.allow-http" = some val →
      val ≠ "false" → httpAllowed a = true) := by
  unfold httpAllowed Annotations.index
  cases h : Annotations.lookup a "kubernetes.io/ingress.allow-http" with
  | none => simp
  | some val =>
    by_cases hv : val = "false"
    · simp [hv]
    · simp [hv]

/-- C26 (the code at the failing input): on the kind `Ingress`,
`validAnnotationForKind` rejects `per-try-timeout` under both the
`projectcontour.io/` and the `contour.heptio.com/` prefix, and accepts the other
six annotations under both. -/
theorem per_try_timeout_not_valid :
    validAnnotationForKind "Ingress" "projectcontour.io/per-try-timeout" = false ∧
      validAnnotationForKind "Ingress" "contour.heptio.com/per-try-timeout" = false ∧
      (∀ name ∈ ["ingress.class", "num-retries", "retry-on", "response-timeout",
          "tls-minimum-protocol-version", "websocket-routes"],
        validAnnotationForKind "Ingress" ("projectcontour.io/" ++ name) = true ∧
        validAnnotationForKind "Ingress" ("contour.heptio.com/" ++ name) = true) := by
  decide

/-! ## The status model and the test -/

open TestIngressRouteMetrics in
/-- The model of the builder and of the metrics yields the metrics that
`TestIngressRouteMetrics` expects, in each of its thirteen cases. -/
theorem model_agrees_with_TestIngressRouteMetrics :
    ingressRouteMetric [] [
        Object.ingressroute ir1,
        Object.service s3] =
      some
        { Invalid := [],
          Valid := [({ VHost := "example.com", Namespace := "roots" }, 1)],
          Orphaned := [],
          Root := [({ VHost := "", Namespace := "roots" }, 1)],
          Total := [({ VHost := "", Namespace := "roots" }, 1)] } ∧
    ingressRouteMetric [] [
        Object.ingressroute ir2] =
      some
        { Invalid := [({ VHost := "example.com", Namespace := "roots" }, 1)],
          Valid := [],
          Orphaned := [],
          Root := [({ VHost := "", Namespace := "roots" }, 1)],
          Total := [({ VHost := "", Namespace := "roots" }, 1)] } ∧
    ingressRouteMetric ["foo"] [
        Object.ingressroute ir3] =
      some
        { Invalid := [({ VHost := "", Namespace := "finance" }, 1)],
          Valid := [],
          Orphaned := [],
          Root := [({ VHost := "", Namespace := "finance" }, 1)],
          Total := [({ VHost := "", Namespace := "finance" }, 1)] } ∧
    ingressRouteMetric [] [
        Object.ingressroute ir1,
        Object.ingressroute ir4,
        Object.service s3] =
      some
        { Invalid := [({ VHost := "example.com", Namespace := "roots" }, 1)],
          Valid := [({ VHost := "example.com", Namespace := "roots" }, 1)],
          Orphaned := [],
          Root := [({ VHost := "", Namespace := "roots" }, 1)],
          Total := [({ VHost := "", Namespace := "roots" }, 2)] } ∧
    ingressRouteMetric [] [
        Object.ingressroute ir5] =
      some
        { Invalid := [({ VHost := "example.com", Namespace := "roots" }, 1)],
          Valid := [],
          Orphaned := [],
          Root := [({ VHost := "", Namespace := "roots" }, 1)],
          Total := [({ VHost := "", Namespace := "roots" }, 1)] } ∧
    ingressRouteMetric [] [
        Object.ingressroute ir13] =
      some
        { Invalid := [({ VHost := "", Namespace := "roots" }, 1)],
          Valid := [],
          Orphaned := [],
          Root := [({ VHost := "", Namespace := "roots" }, 1)],
          Total := [({ VHost := "", Namespace := "roots" }, 1)] } ∧
    ingressRouteMetric [] [
        Object.ingressroute ir6] =
      some
        { Invalid := [({ VHost := "example.com", Namespace := "roots" }, 1)],
          Valid := [],
          Orphaned := [],
          Root := [({ VHost := "", Namespace := "roots" }, 1)],
          Total := [({ VHost := "", Namespace := "roots" }, 1)] } ∧
    ingressRouteMetric [] [
        Object.ingressroute ir7,
        Object.ingressroute ir8] =
      some
        { Invalid := [({ VHost := "example.com", Namespace := "roots" }, 1)],
          Valid := [({ VHost := "example.com", Namespace := "roots" }, 1)],
          Orphaned := [],
          Root := [({ VHost := "", Namespace := "roots" }, 1)],
          Total := [({ VHost := "", Namespace := "roots" }, 2)] } ∧
    ingressRouteMetric [] [
        Object.ingressroute ir9] =
      some
        { Invalid := [({ VHost := "example.com", Namespace := "roots" }, 1)],
          Valid := [],
          Orphaned := [],
          Root := [({ VHost := "", Namespace := "roots" }, 1)],
          Total := [({ VHost := "", Namespace := "roots" }, 1)] } ∧
    ingressRouteMetric [] [
        Object.ingressroute ir8] =
      some
        { Invalid := [],
          Valid := [],
          Orphaned := [({ VHost := "", Namespace := "roots" }, 1)],
          Root := [],
          Total := [({ VHost := "", Namespace := "roots" }, 1)] } ∧
    ingressRouteMetric [] [
        Object.ingressroute ir10,
        Object.ingressroute ir11,
        Object.ingressroute ir12,
        Object.service s1,
        Object.service s2] =
      some
        { Invalid := [({ VHost := "example.com", Namespace := "roots" }, 1)],
          Valid := [({ VHost := "example.com", Namespace := "roots" }, 2)],
          Orphaned := [],
          Root := [({ VHost := "", Namespace := "roots" }, 1)],
          Total := [({ VHost := "", Namespace := "roots" }, 3)] } ∧
    ingressRouteMetric [] [
        Object.ingressroute ir14,
        Object.ingressroute ir11] =
      some
        { Invalid := [({ VHost := "", Namespace := "roots" }, 1)],
          Valid := [],
          Orphaned := [({ VHost := "", Namespace := "roots" }, 1)],
          Root := [({ VHost := "", Namespace := "roots" }, 1)],
          Total := [({ VHost := "", Namespace := "roots" }, 2)] } ∧
    ingressRouteMetric [] [
        Object.ingressroute ir14,
        Object.ingressroute ir11,
        Object.ingressroute ir10,
        Object.service s2] =
      some
        { Invalid := [({ VHost := "", Namespace := "roots" }, 1)],
          Valid := [({ VHost := "example.com", Namespace := "roots" }, 2)],
          Orphaned := [],
          Root := [({ VHost := "", Namespace := "roots" }, 2)],
          Total := [({ VHost := "", Namespace := "roots" }, 3)] } := by
  refine ⟨?_, ?_, ?_, ?_, ?_, ?_, ?_, ?_, ?_, ?_, ?_, ?_, ?_⟩ <;> decide

/-! ## The object cache and the status map -/

namespace StatusMap

theorem lookup_set (st : StatusMap) (k k2 : Meta) (s : StatusKind) (h : String) :
    lookup (set st k s h) k2 = if k = k2 then some (s, h) else lookup st k2 := by
  induction st with
  | nil => simp [set, lookup]
  | cons e rest ih =>
    obtain ⟨k1, v1⟩ := e
    by_cases h1 : k1 = k
    · subst h1
      by_cases h2 : k1 = k2 <;> simp [set, lookup, h2]
    · by_cases h2 : k1 = k2
      · subst h2
        have h3 : ¬ k = k1 := fun e => h1 e.symm
        simp [set, lookup, h1, h3]
      · simp [set, lookup, h1, h2, ih]

end StatusMap

namespace KubernetesCache

theorem findIngressRoute_some (l : List ingressroutev1.IngressRoute) (k : Meta)
    (x : ingressroutev1.IngressRoute) (h : findIngressRoute l k = some x) :
    x ∈ l ∧ x.key = k := by
  induction l with
  | nil => simp [findIngressRoute] at h
  | cons y rest ih =>
    by_cases hy : y.key = k
    · simp only [findIngressRoute, hy, if_true, Option.some.injEq] at h
      subst h
      exact ⟨List.mem_cons_self _ _, hy⟩
    · simp only [findIngressRoute, hy, if_false] at h
      obtain ⟨h1, h2⟩ := ih h
      exact ⟨List.mem_cons_of_mem _ h1, h2⟩

theorem findIngressRoute_of_mem (l : List ingressroutev1.IngressRoute)
    (x : ingressroutev1.IngressRoute) (hnd : (l.map ingressroutev1.IngressRoute.key).Nodup)
    (hx : x ∈ l) : findIngressRoute l x.key = some x := by
  induction l with
  | nil => cases hx
  | cons y rest ih =>
    rw [List.map_cons, List.nodup_cons] at hnd
    rcases List.mem_cons.mp hx with rfl | hmem
    · simp [findIngressRoute]
    · have hne : y.key ≠ x.key := by
        intro e
        exact hnd.1 (e ▸ List.mem_map_of_mem _ hmem)
      simp only [findIngressRoute, hne, if_false]
      exact ih hnd.2 hmem

theorem putIngressRoute_keys (l : List ingressroutev1.IngressRoute)
    (ir : ingressroutev1.IngressRoute) :
    (putIngressRoute l ir).map ingressroutev1.IngressRoute.key =
      if ir.key ∈ l.map ingressroutev1.IngressRoute.key
      then l.map ingressroutev1.IngressRoute.key
      else l.map ingressroutev1.IngressRoute.key ++ [ir.key] := by
  induction l with
  | nil => simp [putIngressRoute]
  | cons y rest ih =>
    by_cases hy : y.key = ir.key
    · simp [putIngressRoute, hy]
    · have hy2 : ¬ ir.key = y.key := fun e => hy e.symm
      simp only [putIngressRoute, hy, if_false, List.map_cons, ih, List.mem_cons, hy2, false_or]
      split <;> simp

theorem putIngressRoute_nodup (l : List ingressroutev1.IngressRoute)
    (ir : ingressroutev1.IngressRoute)
    (hnd : (l.map ingressroutev1.IngressRoute.key).Nodup) :
    ((putIngressRoute l ir).map ingressroutev1.IngressRoute.key).Nodup := by
  rw [putIngressRoute_keys]
  split
  · exact hnd
  · rename_i hmem
    rw [List.nodup_append]
    refine ⟨hnd, List.nodup_singleton _, ?_⟩
    intro a ha hb
    rw [List.mem_singleton] at hb
    exact hmem (hb ▸ ha)

theorem foldl_Insert_nodup (objs : List Object) : ∀ c : KubernetesCache,
    (c.ingressroutes.map ingressroutev1.IngressRoute.key).Nodup →
    ((objs.foldl Insert c).ingressroutes.map ingressroutev1.IngressRoute.key).Nodup := by
  induction objs with
  | nil => intro c h; exact h
  | cons o rest ih =>
    intro c h
    simp only [List.foldl_cons]
    apply ih
    cases o with
    | ingressroute ir => exact putIngressRoute_nodup _ _ h
    | service svc => exact h

theorem ofObjects_nodup (rootNamespaces : List String) (objs : List Object) :
    ((ofObjects rootNamespaces objs).ingressroutes.map
      ingressroutev1.IngressRoute.key).Nodup :=
  foldl_Insert_nodup objs _ List.nodup_nil

end KubernetesCache

/-! ## The DFS of delegation resolution -/

theorem KubernetesCache.key_unique (l : List ingressroutev1.IngressRoute)
    (hnd : (l.map ingressroutev1.IngressRoute.key).Nodup)
    (x y : ingressroutev1.IngressRoute) (hx : x ∈ l) (hy : y ∈ l) (hk : x.key = y.key) :
    x = y := by
  have h1 := KubernetesCache.findIngressRoute_of_mem l x hnd hx
  have h2 := KubernetesCache.findIngressRoute_of_mem l y hnd hy
  rw [hk, h2] at h1
  exact (Option.some.inj h1).symm

namespace builder

theorem discoverRoots_spec (c : KubernetesCache) :
    ∀ (l : List ingressroutev1.IngressRoute)
      (roots0 : List (ingressroutev1.IngressRoute × String)) (st0 : StatusMap),
      (l.map ingressroutev1.IngressRoute.key).Nodup →
      (∀ p ∈ (discoverRoots c l roots0 st0).2, p ∈ roots0 ∨
        (p.1 ∈ l ∧ p.1.VirtualHost = some { Fqdn := p.2 } ∧ p.2 ≠ "" ∧
          c.rootAllowed p.1.Namespace = true)) ∧
      (∃ added, (discoverRoots c l roots0 st0).2 = roots0 ++ added ∧
        (added.map Prod.fst).Sublist l) ∧
      (∀ k, k ∉ l.map ingressroutev1.IngressRoute.key →
        StatusMap.lookup (discoverRoots c l roots0 st0).1 k = StatusMap.lookup st0 k) ∧
      (∀ k v, StatusMap.lookup (discoverRoots c l roots0 st0).1 k = some v →
        StatusMap.lookup st0 k = some v ∨
        (v.1 = StatusKind.invalid ∧ ∃ ir ∈ l, ir.key = k ∧ ir.VirtualHost ≠ none)) ∧
      (∀ ir ∈ l, ∀ vh, ir.VirtualHost = some vh →
        (c.rootAllowed ir.Namespace = false ∨ vh.Fqdn = "") →
        StatusMap.lookup (discoverRoots c l roots0 st0).1 ir.key =
          some (StatusKind.invalid, "")) ∧
      (∀ ir ∈ l, ir.VirtualHost ≠ none →
        (∃ h, (ir, h) ∈ (discoverRoots c l roots0 st0).2) ∨
        StatusMap.lookup (discoverRoots c l roots0 st0).1 ir.key ≠ none) := by
  intro l
  induction l with
  | nil =>
    intro roots0 st0 _
    refine ⟨fun p hp => Or.inl hp, ⟨[], by simp [discoverRoots], List.Sublist.refl _⟩,
      fun _ _ => rfl, fun _ _ h => Or.inl h, ?_, ?_⟩
    · intro ir hir
      cases hir
    · intro ir hir
      cases hir
  | cons x rest ih =>
    intro roots0 st0 hnd
    rw [List.map_cons, List.nodup_cons] at hnd
    obtain ⟨hx, hnd2⟩ := hnd
    -- the step made on `x`: the roots and statuses handed on to the rest
    have hstep : ∃ roots1 st1,
        discoverRoots c (x :: rest) roots0 st0 = discoverRoots c rest roots1 st1 ∧
        ((roots1 = roots0 ∧ st1 = st0 ∧ x.VirtualHost = none) ∨
          (roots1 = roots0 ∧ ∃ vh h, x.VirtualHost = some vh ∧
            st1 = StatusMap.set st0 x.key StatusKind.invalid h ∧
            ((c.rootAllowed x.Namespace = false ∨ vh.Fqdn = "") → h = "")) ∨
          (st1 = st0 ∧ ∃ vh, x.VirtualHost = some vh ∧ roots1 = roots0 ++ [(x, vh.Fqdn)] ∧
            c.rootAllowed x.Namespace = true ∧ vh.Fqdn ≠ "")) := by
      cases hv : x.VirtualHost with
      | none =>
        exact ⟨roots0, st0, by simp [discoverRoots, hv], Or.inl ⟨rfl, rfl, rfl⟩⟩
      | some vh =>
        by_cases h1 : c.rootAllowed x.Namespace = false
        · exact ⟨roots0, _, by simp [discoverRoots, hv, h1],
            Or.inr (Or.inl ⟨rfl, vh, "", rfl, rfl, fun _ => rfl⟩)⟩
        · by_cases h2 : vh.Fqdn = ""
          · exact ⟨roots0, _, by simp [discoverRoots, hv, h1, h2],
              Or.inr (Or.inl ⟨rfl, vh, "", rfl, rfl, fun _ => rfl⟩)⟩
          · by_cases h3 : vh.Fqdn ∈ roots0.map Prod.snd
            · refine ⟨roots0, _, by simp [discoverRoots, hv, h1, h2, h3],
                Or.inr (Or.inl ⟨rfl, vh, vh.Fqdn, rfl, rfl, ?_⟩)⟩
              intro h
              rcases h with h | h
              · exact absurd h h1
              · exact absurd h h2
            · refine ⟨_, st0, by simp [discoverRoots, hv, h1, h2, h3],
                Or.inr (Or.inr ⟨rfl, vh, rfl, rfl, ?_, h2⟩)⟩
              simpa using h1
    obtain ⟨roots1, st1, heq, hcases⟩ := hstep
    rw [heq]
    obtain ⟨i1, ⟨added, i2a, i2b⟩, i3, i4, i5, i6⟩ := ih roots1 st1 hnd2
    have hst1 : ∀ k, k ≠ x.key → StatusMap.lookup st1 k = StatusMap.lookup st0 k := by
      intro k hk
      rcases hcases with ⟨_, h, _⟩ | ⟨_, vh, h, _, hs, _⟩ | ⟨h, _⟩
      · rw [h]
      · rw [hs, StatusMap.lookup_set, if_neg (fun e => hk e.symm)]
      · rw [h]
    refine ⟨?_, ?_, ?_, ?_, ?_, ?_⟩
    · intro p hp
      rcases i1 p hp with h | ⟨h1, h2⟩
      · rcases hcases with ⟨hr, _⟩ | ⟨hr, _⟩ | ⟨_, vh, hv, hr, ha, hf⟩
        · exact Or.inl (hr ▸ h)
        · exact Or.inl (hr ▸ h)
        · rw [hr] at h
          rcases List.mem_append.mp h with h | h
          · exact Or.inl h
          · rw [List.mem_singleton] at h
            subst h
            exact Or.inr ⟨List.mem_cons_self _ _, hv, hf, ha⟩
      · exact Or.inr ⟨List.mem_cons_of_mem _ h1, h2⟩
    · rcases hcases with ⟨hr, _⟩ | ⟨hr, _⟩ | ⟨_, vh, hv, hr, ha, hf⟩
      · exact ⟨added, by rw [i2a, hr], i2b.cons _⟩
      · exact ⟨added, by rw [i2a, hr], i2b.cons _⟩
      · refine ⟨(x, vh.Fqdn) :: added, by rw [i2a, hr]; simp, ?_⟩
        simpa using i2b.cons₂ x
    · intro k hk
      rw [List.map_cons, List.mem_cons, not_or] at hk
      rw [i3 k hk.2, hst1 k hk.1]
    · intro k v hv
      rcases i4 k v hv with h | ⟨h1, ir, hir, h2⟩
      · by_cases hk : k = x.key
        · rcases hcases with ⟨_, hs, _⟩ | ⟨_, vh, h0, hxv, hs, _⟩ | ⟨hs, _⟩
          · exact Or.inl (hs ▸ h)
          · rw [hs, StatusMap.lookup_set, if_pos hk.symm] at h
            simp only [Option.some.injEq] at h
            subst h
            exact Or.inr ⟨rfl, x, List.mem_cons_self _ _, hk.symm, by rw [hxv]; simp⟩
          · exact Or.inl (hs ▸ h)
        · rw [hst1 k hk] at h
          exact Or.inl h
      · exact Or.inr ⟨h1, ir, List.mem_cons_of_mem _ hir, h2⟩
    · intro ir hir vh hv hrej
      rcases List.mem_cons.mp hir with rfl | hmem
      · rw [i3 _ hx]
        rcases hcases with ⟨_, _, hn⟩ | ⟨_, vh2, h, hxv, hs, hh⟩ | ⟨_, vh2, hxv, _, ha, hf⟩
        · rw [hn] at hv
          cases hv
        · rw [hxv] at hv
          simp only [Option.some.injEq] at hv
          subst hv
          rw [hs, StatusMap.lookup_set, if_pos rfl, hh hrej]
        · rw [hxv] at hv
          simp only [Option.some.injEq] at hv
          subst hv
          rcases hrej with h | h
          · rw [ha] at h
            cases h
          · exact absurd h hf
      · exact i5 ir hmem vh hv hrej
    · intro ir hir hv
      rcases List.mem_cons.mp hir with rfl | hmem
      · rcases hcases with ⟨_, _, hn⟩ | ⟨_, vh2, h, hxv, hs, hh⟩ | ⟨_, vh2, hxv, hr, _, _⟩
        · exact absurd hn hv
        · right
          rw [i3 _ hx, hs, StatusMap.lookup_set, if_pos rfl]
          exact Option.some_ne_none _
        · left
          refine ⟨vh2.Fqdn, ?_⟩
          rw [i2a, hr]
          simp
      · exact i6 ir hmem hv

end builder

namespace builder

theorem Step.congr {c : KubernetesCache} {host : String}
    {R1 R2 : ingressroutev1.IngressRoute → Prop} {st1 st2 : StatusMap}
    (h : Step c host R1 st1 st2) (hR : ∀ x, R1 x ↔ R2 x) : Step c host R2 st1 st2 := by
  have e : R1 = R2 := funext fun x => propext (hR x)
  rw [← e]
  exact h

theorem Step.seq {c : KubernetesCache} {host : String}
    {R1 R2 R : ingressroutev1.IngressRoute → Prop} {st1 st2 st3 : StatusMap}
    (h12 : Step c host R1 st1 st2) (h23 : Step c host R2 st2 st3)
    (hR : ∀ x, R x ↔ (R1 x ∨ R2 x)) : Step c host R st1 st3 := by
  obtain ⟨f12, m12, v12, c12⟩ := h12
  obtain ⟨f23, m23, v23, c23⟩ := h23
  refine ⟨?_, ?_, ?_, ?_⟩
  · intro k hk
    rw [f23 k (fun x hx => hk x ((hR x).mpr (Or.inr hx))),
      f12 k (fun x hx => hk x ((hR x).mpr (Or.inl hx)))]
  · intro k h
    exact m23 k (m12 k h)
  · intro k v h
    rcases v23 k v h with h2 | h2
    · exact v12 k v h2
    · exact Or.inr h2
  · intro x hx
    rcases (hR x).mp hx with h1 | h2
    · exact m23 _ (c12 x h1)
    · exact c23 x h2

theorem Step.set (c : KubernetesCache) (host : String)
    (R : ingressroutev1.IngressRoute → Prop) (own : ingressroutev1.IngressRoute)
    (st : StatusMap) (s : StatusKind) (hown : R own) (hR : ∀ x, R x → x = own)
    (hw : Written c host own.key (s, host)) :
    Step c host R st (StatusMap.set st own.key s host) := by
  refine ⟨?_, ?_, ?_, ?_⟩
  · intro k hk
    rw [StatusMap.lookup_set, if_neg (hk own hown)]
  · intro k h
    rw [StatusMap.lookup_set]
    split
    · exact Option.some_ne_none _
    · exact h
  · intro k v h
    rw [StatusMap.lookup_set] at h
    split at h
    · rename_i e
      simp only [Option.some.injEq] at h
      subst h
      subst e
      exact Or.inr hw
    · exact Or.inl h
  · intro x hx
    rw [hR x hx, StatusMap.lookup_set, if_pos rfl]
    exact Option.some_ne_none _

theorem processRoutes_spec (c : KubernetesCache)
    (descend : ingressroutev1.IngressRoute → String → StatusMap → Option StatusMap)
    (ir : ingressroutev1.IngressRoute) (parentPrefix : String) (path : List Meta)
    (host : String) (hir : ir ∈ c.ingressroutes) (hpfx : PrefixFor c ir parentPrefix)
    (hdesc : ∀ dest pfx st1, dest ∈ c.ingressroutes → dest.key ∉ path →
      dest.VirtualHost = none → PrefixFor c dest pfx →
      ∃ st2, descend dest pfx st1 = some st2 ∧ Step c host (Reaches c dest pfx path) st1 st2) :
    ∀ (rs : List ingressroutev1.Route),
      ir.Routes.all (routePasses c ir parentPrefix path) =
        rs.all (routePasses c ir parentPrefix path) →
      (∀ r ∈ rs, r ∈ ir.Routes) →
      ∀ st : StatusMap,
      ∃ st2, processRoutes c descend ir parentPrefix path host rs st = some st2 ∧
        Step c host (fun x => x = ir ∨ ReachesRoutes c ir parentPrefix path rs x) st st2 ∧
        StatusMap.lookup st2 ir.key =
          some (if rs.all (routePasses c ir parentPrefix path) = true then StatusKind.valid
            else StatusKind.invalid, host) := by
  -- the route `r` does not pass: the IngressRoute becomes invalid
  have hinv : ∀ (r : ingressroutev1.Route) (rs : List ingressroutev1.Route) (st : StatusMap),
      ir.Routes.all (routePasses c ir parentPrefix path) =
        (r :: rs).all (routePasses c ir parentPrefix path) →
      routePasses c ir parentPrefix path r = false →
      ∃ st2, some (StatusMap.set st ir.key StatusKind.invalid host) = some st2 ∧
        Step c host (fun x => x = ir ∨ ReachesRoutes c ir parentPrefix path (r :: rs) x) st st2 ∧
        StatusMap.lookup st2 ir.key =
          some (if (r :: rs).all (routePasses c ir parentPrefix path) = true then
            StatusKind.valid else StatusKind.invalid, host) := by
    intro r rs st hall hp
    have hfalse : (r :: rs).all (routePasses c ir parentPrefix path) = false := by
      simp [List.all_cons, hp]
    refine ⟨_, rfl, ?_, ?_⟩
    · apply Step.set c host _ ir st _ (Or.inl rfl)
      · intro x hx
        rcases hx with hx | hx
        · exact hx
        · cases hx with
          | delegate _ _ _ _ _ d _ h1 _ _ => rw [hp] at h1; cases h1
          | descend _ _ _ _ _ d dest _ h1 _ _ _ => rw [hp] at h1; cases h1
          | later _ _ _ _ _ _ h1 _ => rw [hp] at h1; cases h1
      · refine ⟨rfl, ir, hir, rfl, parentPrefix, path, ?_, hpfx⟩
        rw [hall, hfalse]
        rfl
    · rw [StatusMap.lookup_set, if_pos rfl, hfalse]
      rfl
  -- the route `r` passes and the DFS does not descend from it
  have hskip : ∀ (r : ingressroutev1.Route) (rs : List ingressroutev1.Route) (st st2 : StatusMap),
      routePasses c ir parentPrefix path r = true →
      (∀ d dest, r.Delegate = some d →
        KubernetesCache.findIngressRoute c.ingressroutes (delegateKey ir d) = some dest → False) →
      (Step c host (fun x => x = ir ∨ ReachesRoutes c ir parentPrefix path rs x) st st2 ∧
        StatusMap.lookup st2 ir.key =
          some (if rs.all (routePasses c ir parentPrefix path) = true then StatusKind.valid
            else StatusKind.invalid, host)) →
      (Step c host (fun x => x = ir ∨ ReachesRoutes c ir parentPrefix path (r :: rs) x) st st2 ∧
        StatusMap.lookup st2 ir.key =
          some (if (r :: rs).all (routePasses c ir parentPrefix path) = true then
            StatusKind.valid else StatusKind.invalid, host)) := by
    intro r rs st st2 hp hno ⟨h1, h2⟩
    refine ⟨Step.congr h1 ?_, ?_⟩
    · intro x
      constructor
      · intro hx
        rcases hx with hx | hx
        · exact Or.inl hx
        · exact Or.inr (ReachesRoutes.later _ _ _ _ _ _ hp hx)
      · intro hx
        rcases hx with hx | hx
        · exact Or.inl hx
        · cases hx with
          | delegate _ _ _ _ _ d _ _ h3 h4 => exact absurd (hno d _ h3 h4) id
          | descend _ _ _ _ _ d dest _ _ h3 h4 _ => exact absurd (hno d dest h3 h4) id
          | later _ _ _ _ _ _ _ h3 => exact Or.inr h3
    · rw [h2, List.all_cons, hp, Bool.true_and]
  intro rs
  induction rs with
  | nil =>
    intro hall _ st
    refine ⟨_, rfl, ?_, ?_⟩
    · apply Step.set c host _ ir st _ (Or.inl rfl)
      · intro x hx
        rcases hx with hx | hx
        · exact hx
        · cases hx
      · refine ⟨rfl, ir, hir, rfl, parentPrefix, path, ?_, hpfx⟩
        rw [hall]
        rfl
    · rw [StatusMap.lookup_set, if_pos rfl]
      rfl
  | cons r rs ih =>
    intro hall hrs st
    have hrs2 : ∀ r2 ∈ rs, r2 ∈ ir.Routes := fun r2 h2 => hrs r2 (List.mem_cons_of_mem _ h2)
    have hr : r ∈ ir.Routes := hrs r (List.mem_cons_self _ _)
    unfold processRoutes
    split
    · rename_i hpre
      exact hinv r rs st hall (by simp [routePasses, hpre])
    · rename_i hpre
      have hpre2 : HasPrefix r.Match parentPrefix = true := by simpa using hpre
      cases hd : r.Delegate with
      | none =>
        simp only
        split
        · rename_i hcond
          have hp : routePasses c ir parentPrefix path r = true := by
            simp only [routePasses, hpre2, hd, Bool.true_and, Bool.and_eq_true,
              decide_eq_true_eq]
            exact hcond
          have hall2 : ir.Routes.all (routePasses c ir parentPrefix path) =
              rs.all (routePasses c ir parentPrefix path) := by
            rw [hall, List.all_cons, hp, Bool.true_and]
          obtain ⟨st2, h1, h2, h3⟩ := ih hall2 hrs2 st
          refine ⟨st2, h1, ?_⟩
          apply hskip r rs st st2 hp _ ⟨h2, h3⟩
          intro d dest h4 _
          rw [hd] at h4
          cases h4
        · rename_i hcond
          apply hinv r rs st hall
          simp only [routePasses, hpre2, hd, Bool.true_and]
          by_contra hne
          apply hcond
          simpa using hne
      | some d =>
        simp only
        split
        · rename_i hsv
          apply hinv r rs st hall
          simp [routePasses, hd, hsv]
        · rename_i hsv
          have hsv2 : r.Services = [] := by
            by_contra h
            exact hsv h
          cases hf : KubernetesCache.findIngressRoute c.ingressroutes (delegateKey ir d) with
          | none =>
            simp only
            have hp : routePasses c ir parentPrefix path r = true := by
              simp [routePasses, hpre2, hd, hsv2, hf]
            have hall2 : ir.Routes.all (routePasses c ir parentPrefix path) =
                rs.all (routePasses c ir parentPrefix path) := by
              rw [hall, List.all_cons, hp, Bool.true_and]
            obtain ⟨st2, h1, h2, h3⟩ := ih hall2 hrs2 st
            refine ⟨st2, h1, ?_⟩
            apply hskip r rs st st2 hp _ ⟨h2, h3⟩
            intro d2 dest h4 h5
            rw [hd] at h4
            simp only [Option.some.injEq] at h4
            subst h4
            rw [hf] at h5
            cases h5
          | some dest =>
            simp only
            split
            · rename_i hcond
              apply hinv r rs st hall
              simp only [routePasses, hpre2, hd, hsv2, hf, Bool.true_and, decide_True]
              rcases hcond with hcond | hcond
              · simp [hcond]
              · simp [hcond]
            · rename_i hcond
              have hnot : dest.key ∉ path ∧ dest.VirtualHost = none := by
                constructor
                · exact fun h => hcond (Or.inl h)
                · by_contra h
                  exact hcond (Or.inr h)
              have hp : routePasses c ir parentPrefix path r = true := by
                simp [routePasses, hpre2, hd, hsv2, hf, hnot.1, hnot.2]
              have hall2 : ir.Routes.all (routePasses c ir parentPrefix path) =
                  rs.all (routePasses c ir parentPrefix path) := by
                rw [hall, List.all_cons, hp, Bool.true_and]
              obtain ⟨hmem, _⟩ := KubernetesCache.findIngressRoute_some _ _ _ hf
              obtain ⟨st1, hd1, hstep1⟩ := hdesc dest r.Match st hmem hnot.1 hnot.2
                (Or.inr ⟨ir, hir, r, hr, d, hd, hf, rfl⟩)
              rw [hd1]
              simp only
              obtain ⟨st2, h2, hstep2, hs2⟩ := ih hall2 hrs2 st1
              refine ⟨st2, h2, Step.seq hstep1 hstep2 ?_, ?_⟩
              · intro x
                constructor
                · intro hx
                  rcases hx with hx | hx
                  · exact Or.inr (Or.inl hx)
                  · cases hx with
                    | delegate _ _ _ _ _ d2 _ _ h3 h4 =>
                      rw [hd] at h3
                      simp only [Option.some.injEq] at h3
                      subst h3
                      rw [hf] at h4
                      simp only [Option.some.injEq] at h4
                      subst h4
                      exact Or.inl (Or.inl rfl)
                    | descend _ _ _ _ _ d2 dest2 _ _ h3 h4 h5 =>
                      rw [hd] at h3
                      simp only [Option.some.injEq] at h3
                      subst h3
                      rw [hf] at h4
                      simp only [Option.some.injEq] at h4
                      subst h4
                      exact Or.inl (Or.inr h5)
                    | later _ _ _ _ _ _ _ h3 => exact Or.inr (Or.inr h3)
                · intro hx
                  rcases hx with (hx | hx) | hx | hx
                  · rw [hx]
                    exact Or.inr (ReachesRoutes.delegate _ _ _ _ _ d dest hp hd hf)
                  · exact Or.inr (ReachesRoutes.descend _ _ _ _ _ d dest _ hp hd hf hx)
                  · exact Or.inl hx
                  · exact Or.inr (ReachesRoutes.later _ _ _ _ _ _ hp hx)
              · rw [hs2, List.all_cons, hp, Bool.true_and]

end builder

namespace builder

theorem processIngressRoute_spec (c : KubernetesCache) (host : String) (fuel : Nat) :
    ∀ (ir : ingressroutev1.IngressRoute) (parentPrefix : String) (path : List Meta)
      (st : StatusMap),
      ir ∈ c.ingressroutes → ir.key ∉ path → path.Nodup →
      (∀ k ∈ path, k ∈ c.ingressroutes.map ingressroutev1.IngressRoute.key) →
      c.ingressroutes.length ≤ fuel + path.length → PrefixFor c ir parentPrefix →
      ∃ st2, processIngressRoute c fuel ir parentPrefix path host st = some st2 ∧
        Step c host (Reaches c ir parentPrefix path) st st2 ∧
        StatusMap.lookup st2 ir.key =
          some (if ir.Routes.all (routePasses c ir parentPrefix (path ++ [ir.key])) = true then
            StatusKind.valid else StatusKind.invalid, host) := by
  induction fuel with
  | zero =>
    intro ir parentPrefix path st hir hnot hnd hsub hlen _
    exfalso
    have hnd2 : (ir.key :: path).Nodup := List.nodup_cons.mpr ⟨hnot, hnd⟩
    have hsub2 : ir.key :: path ⊆ c.ingressroutes.map ingressroutev1.IngressRoute.key := by
      intro k hk
      rcases List.mem_cons.mp hk with rfl | hk2
      · exact List.mem_map_of_mem _ hir
      · exact hsub k hk2
    have hle := (List.subperm_of_subset hnd2 hsub2).length_le
    simp only [List.length_cons, List.length_map] at hle
    omega
  | succ fuel ih =>
    intro ir parentPrefix path st hir hnot hnd hsub hlen hpfx
    unfold processIngressRoute
    have hgoal := processRoutes_spec c
      (fun dest pfx st1 => processIngressRoute c fuel dest pfx (path ++ [ir.key]) host st1)
      ir parentPrefix (path ++ [ir.key]) host hir hpfx (by
        intro dest pfx st1 hdest hdnot hchild hdpfx
        have hsub3 : ∃ st2, processIngressRoute c fuel dest pfx (path ++ [ir.key]) host st1 =
            some st2 ∧ Step c host (Reaches c dest pfx (path ++ [ir.key])) st1 st2 ∧
            StatusMap.lookup st2 dest.key =
              some (if dest.Routes.all
                  (routePasses c dest pfx ((path ++ [ir.key]) ++ [dest.key])) = true then
                StatusKind.valid else StatusKind.invalid, host) := by
          apply ih dest pfx (path ++ [ir.key]) st1 hdest hdnot
          · rw [List.nodup_append]
            refine ⟨hnd, List.nodup_singleton _, ?_⟩
            intro a ha hb
            rw [List.mem_singleton] at hb
            exact hnot (hb ▸ ha)
          · intro k hk
            rcases List.mem_append.mp hk with hk2 | hk2
            · exact hsub k hk2
            · rw [List.mem_singleton] at hk2
              rw [hk2]
              exact List.mem_map_of_mem _ hir
          · simp only [List.length_append, List.length_singleton]
            omega
          · exact hdpfx
        obtain ⟨st2, h1, h2, _⟩ := hsub3
        exact ⟨st2, h1, h2⟩) ir.Routes rfl (fun _ hr => hr) st
    obtain ⟨st2, h1, h2, h3⟩ := hgoal
    exact ⟨st2, h1, h2, h3⟩

theorem routePasses_delegate (c : KubernetesCache) (ir : ingressroutev1.IngressRoute)
    (pfx : String) (path : List Meta) (r : ingressroutev1.Route)
    (d : ingressroutev1.Delegate) (dest : ingressroutev1.IngressRoute)
    (hp : routePasses c ir pfx path r = true) (hd : r.Delegate = some d)
    (hf : KubernetesCache.findIngressRoute c.ingressroutes (delegateKey ir d) = some dest) :
    HasPrefix r.Match pfx = true ∧ r.Services = [] ∧ dest.key ∉ path ∧
      dest.VirtualHost = none := by
  simp only [routePasses, hd, hf, Bool.and_eq_true, decide_eq_true_eq] at hp
  exact ⟨hp.1, hp.2.1, hp.2.2.1, hp.2.2.2⟩

theorem ReachesRoutes.child_of_routes (c : KubernetesCache) {z : ingressroutev1.IngressRoute}
    {pfx : String} {path : List Meta} {rs : List ingressroutev1.Route}
    {x : ingressroutev1.IngressRoute}
    (h : ReachesRoutes c z pfx path rs x) :
    z ∈ c.ingressroutes → (∀ r ∈ rs, r ∈ z.Routes) →
    (x ∈ c.ingressroutes ∧ x.VirtualHost = none ∧
      ∃ y ∈ c.ingressroutes, (y = z ∨ y.VirtualHost = none) ∧ delegatesTo c y x) := by
  induction h with
  | delegate ir pfx path r rs d dest hp hd hf =>
    intro hz hrs
    have hdest := KubernetesCache.findIngressRoute_some _ _ _ hf
    have hpass := routePasses_delegate c ir _ _ r d dest hp hd hf
    exact ⟨hdest.1, hpass.2.2.2, ir, hz, Or.inl rfl,
      r, hrs r (List.mem_cons_self _ _), d, hd, hf⟩
  | descend ir pfx path r rs d dest x hp hd hf _ ih =>
    intro hz hrs
    have hdest := KubernetesCache.findIngressRoute_some _ _ _ hf
    have hpass := routePasses_delegate c ir _ _ r d dest hp hd hf
    obtain ⟨h1, h2, y, h3, h4, h5⟩ := ih hdest.1 (fun _ hr => hr)
    refine ⟨h1, h2, y, h3, Or.inr ?_, h5⟩
    rcases h4 with h4 | h4
    · rw [h4]
      exact hpass.2.2.2
    · exact h4
  | later ir pfx path r rs x _ _ ih =>
    intro hz hrs
    exact ih hz (fun r2 hr => hrs r2 (List.mem_cons_of_mem _ hr))

theorem Reaches.child (c : KubernetesCache) {z : ingressroutev1.IngressRoute}
    {pfx : String} {path : List Meta} {x : ingressroutev1.IngressRoute}
    (h : Reaches c z pfx path x) (hz : z ∈ c.ingressroutes) :
    x = z ∨ (x ∈ c.ingressroutes ∧ x.VirtualHost = none ∧
      ∃ y ∈ c.ingressroutes, (y = z ∨ y.VirtualHost = none) ∧ delegatesTo c y x) := by
  rcases h with h | h
  · exact Or.inl h
  · exact Or.inr (ReachesRoutes.child_of_routes c h hz (fun _ hr => hr))

end builder

namespace builder

theorem Written.ne_orphaned {c : KubernetesCache} {host : String} {k : Meta}
    {v : StatusKind × String} (h : Written c host k v) : v.1 ≠ StatusKind.orphaned := by
  obtain ⟨_, x, _, _, pfx, path, hv, _⟩ := h
  rw [hv]
  split <;> decide

theorem Reaches.mem (c : KubernetesCache) {z : ingressroutev1.IngressRoute}
    {pfx : String} {path : List Meta} {x : ingressroutev1.IngressRoute}
    (h : Reaches c z pfx path x) (hz : z ∈ c.ingressroutes) : x ∈ c.ingressroutes := by
  rcases Reaches.child c h hz with h1 | h1
  · rw [h1]
    exact hz
  · exact h1.1

theorem resolveDelegation_spec (c : KubernetesCache)
    (hnd : (c.ingressroutes.map ingressroutev1.IngressRoute.key).Nodup) :
    ∀ (roots : List (ingressroutev1.IngressRoute × String)) (st0 : StatusMap),
      (∀ p ∈ roots, p.1 ∈ c.ingressroutes ∧ p.1.VirtualHost ≠ none) →
      (roots.map (fun p => p.1.key)).Nodup →
      ∃ st, resolveDelegation c roots st0 = some st ∧
        (∀ k, (∀ p ∈ roots, ∀ x, Reaches c p.1 "" [] x → x.key ≠ k) →
          StatusMap.lookup st k = StatusMap.lookup st0 k) ∧
        (∀ k, StatusMap.lookup st0 k ≠ none → StatusMap.lookup st k ≠ none) ∧
        (∀ k v, StatusMap.lookup st k = some v → StatusMap.lookup st0 k = some v ∨
          ∃ p ∈ roots, Written c p.2 k v ∧ ∃ x, x.key = k ∧ Reaches c p.1 "" [] x) ∧
        (∀ p ∈ roots, ∀ x, Reaches c p.1 "" [] x → StatusMap.lookup st x.key ≠ none) ∧
        (∀ p ∈ roots, StatusMap.lookup st p.1.key =
          some (if p.1.Routes.all (routePasses c p.1 "" [p.1.key]) = true then StatusKind.valid
            else StatusKind.invalid, p.2)) := by
  intro roots
  induction roots with
  | nil =>
    intro st0 _ _
    refine ⟨st0, rfl, fun _ _ => rfl, fun _ h => h, fun _ _ h => Or.inl h, ?_, ?_⟩
    · intro p hp
      cases hp
    · intro p hp
      cases hp
  | cons q rest ih =>
    intro st0 hroots hkeys
    obtain ⟨ir, host⟩ := q
    rw [List.map_cons, List.nodup_cons] at hkeys
    obtain ⟨hq, hkeys2⟩ := hkeys
    have hir := hroots (ir, host) (List.mem_cons_self _ _)
    have hrest : ∀ p ∈ rest, p.1 ∈ c.ingressroutes ∧ p.1.VirtualHost ≠ none :=
      fun p hp => hroots p (List.mem_cons_of_mem _ hp)
    obtain ⟨st1, h1, ⟨f1, m1, v1, c1⟩, o1⟩ :=
      processIngressRoute_spec c host c.ingressroutes.length ir "" [] st0 hir.1
        (List.not_mem_nil _) List.nodup_nil (fun k hk => absurd hk (List.not_mem_nil _))
        (by simp) (Or.inl rfl)
    obtain ⟨st, h2, f2, m2, v2, c2, o2⟩ := ih st1 hrest hkeys2
    -- the DFS from a later root does not reach the root `ir`
    have hkeep : ∀ p ∈ rest, ∀ x, Reaches c p.1 "" [] x → x.key ≠ ir.key := by
      intro p hp x hx hk
      rcases Reaches.child c hx (hrest p hp).1 with h3 | ⟨h3, h4, _⟩
      · apply hq
        rw [List.mem_map]
        exact ⟨p, hp, by rw [← hk, h3]⟩
      · have e := KubernetesCache.key_unique c.ingressroutes hnd x ir h3 hir.1 hk
        rw [e] at h4
        exact hir.2 h4
    refine ⟨st, ?_, ?_, ?_, ?_, ?_, ?_⟩
    · simp only [resolveDelegation, h1]
      exact h2
    · intro k hk
      rw [f2 k (fun p hp => hk p (List.mem_cons_of_mem _ hp)),
        f1 k (hk (ir, host) (List.mem_cons_self _ _))]
    · intro k h
      exact m2 k (m1 k h)
    · intro k v h
      rcases v2 k v h with h3 | ⟨p, hp, h3⟩
      · by_cases hreach : ∀ x, Reaches c ir "" [] x → x.key ≠ k
        · rw [f1 k hreach] at h3
          exact Or.inl h3
        · rcases v1 k v h3 with h4 | h4
          · exact Or.inl h4
          · right
            refine ⟨(ir, host), List.mem_cons_self _ _, h4, ?_⟩
            by_contra hno
            apply hreach
            intro x hx hk
            exact hno ⟨x, hk, hx⟩
      · exact Or.inr ⟨p, List.mem_cons_of_mem _ hp, h3⟩
    · intro p hp x hx
      rcases List.mem_cons.mp hp with rfl | hp2
      · exact m2 _ (c1 x hx)
      · exact c2 p hp2 x hx
    · intro p hp
      rcases List.mem_cons.mp hp with rfl | hp2
      · rw [f2 _ hkeep, o1]
        rfl
      · exact o2 p hp2

theorem acceptedRoots_spec (c : KubernetesCache)
    (hnd : (c.ingressroutes.map ingressroutev1.IngressRoute.key).Nodup) :
    (∀ p ∈ acceptedRoots c, p.1 ∈ c.ingressroutes ∧ p.1.VirtualHost = some { Fqdn := p.2 } ∧
      p.2 ≠ "" ∧ c.rootAllowed p.1.Namespace = true) ∧
    ((acceptedRoots c).map (fun p => p.1.key)).Nodup := by
  obtain ⟨i1, ⟨added, i2a, i2b⟩, _⟩ := discoverRoots_spec c c.ingressroutes [] [] hnd
  constructor
  · intro p hp
    rcases i1 p hp with h | h
    · cases h
    · exact h
  · have e : (acceptedRoots c).map (fun p => p.1.key) =
        (added.map Prod.fst).map ingressroutev1.IngressRoute.key := by
      simp only [acceptedRoots, i2a, List.nil_append, List.map_map]
      rfl
    rw [e]
    exact hnd.sublist (i2b.map _)

end builder

namespace builder

theorem compute_spec (c : KubernetesCache)
    (hnd : (c.ingressroutes.map ingressroutev1.IngressRoute.key).Nodup) :
    ∃ st, compute c = some st ∧
      (∀ ir ∈ c.ingressroutes, ∀ vh, ir.VirtualHost = some vh →
        (c.rootAllowed ir.Namespace = false ∨ vh.Fqdn = "") →
        StatusMap.lookup st ir.key = some (StatusKind.invalid, "")) ∧
      (∀ ir ∈ c.ingressroutes, ir.VirtualHost ≠ none → StatusMap.lookup st ir.key ≠ none) ∧
      (∀ x ∈ c.ingressroutes, x.VirtualHost = none →
        (StatusMap.lookup st x.key ≠ none ↔ ∃ p ∈ acceptedRoots c, Reaches c p.1 "" [] x)) ∧
      (∀ k v, StatusMap.lookup st k = some v → v.1 ≠ StatusKind.orphaned) ∧
      (∀ p ∈ acceptedRoots c, StatusMap.lookup st p.1.key =
        some (if p.1.Routes.all (routePasses c p.1 "" [p.1.key]) = true then StatusKind.valid
          else StatusKind.invalid, p.2)) ∧
      (∀ x ∈ c.ingressroutes, x.VirtualHost = none → ∀ v, StatusMap.lookup st x.key = some v →
        ∃ p ∈ acceptedRoots c, Reaches c p.1 "" [] x ∧ Written c p.2 x.key v) ∧
      (∀ ir ∈ c.ingressroutes, ir.VirtualHost ≠ none → (∀ h, (ir, h) ∉ acceptedRoots c) →
        ∃ h, StatusMap.lookup st ir.key = some (StatusKind.invalid, h)) := by
  obtain ⟨hacc, hkeys⟩ := acceptedRoots_spec c hnd
  obtain ⟨_, _, i3, i4, i5, i6⟩ := discoverRoots_spec c c.ingressroutes [] [] hnd
  have hroots : ∀ p ∈ acceptedRoots c, p.1 ∈ c.ingressroutes ∧ p.1.VirtualHost ≠ none := by
    intro p hp
    obtain ⟨h1, h2, _⟩ := hacc p hp
    exact ⟨h1, by rw [h2]; exact Option.some_ne_none _⟩
  obtain ⟨st, h, f, m, v, cp, o⟩ := resolveDelegation_spec c hnd (acceptedRoots c)
    (discoverRoots c c.ingressroutes [] []).1 hroots hkeys
  -- a status set by root discovery is invalid, and is that of a root
  have hdisc : ∀ k w, StatusMap.lookup (discoverRoots c c.ingressroutes [] []).1 k = some w →
      w.1 = StatusKind.invalid ∧ ∃ ir ∈ c.ingressroutes, ir.key = k ∧ ir.VirtualHost ≠ none := by
    intro k w hw
    rcases i4 k w hw with h1 | h1
    · simp [StatusMap.lookup] at h1
    · exact h1
  -- an IngressRoute that is no root has no status after root discovery
  have hchild : ∀ x ∈ c.ingressroutes, x.VirtualHost = none →
      StatusMap.lookup (discoverRoots c c.ingressroutes [] []).1 x.key = none := by
    intro x hx hxv
    cases hl : StatusMap.lookup (discoverRoots c c.ingressroutes [] []).1 x.key with
    | none => rfl
    | some w =>
      obtain ⟨_, ir, hir, hk, hv⟩ := hdisc _ w hl
      have e := KubernetesCache.key_unique c.ingressroutes hnd ir x hir hx hk
      rw [e] at hv
      exact absurd hxv hv
  refine ⟨st, h, ?_, ?_, ?_, ?_, o, ?_, ?_⟩
  · intro ir hir vh hv hrej
    rw [f ir.key, i5 ir hir vh hv hrej]
    intro p hp x hx hk
    obtain ⟨hp1, hp2, hp3, hp4⟩ := hacc p hp
    rcases Reaches.child c hx hp1 with h1 | ⟨h1, h2, _⟩
    · have e := KubernetesCache.key_unique c.ingressroutes hnd x ir (h1 ▸ hp1) hir hk
      rw [h1] at e
      rw [e, hv] at hp2
      simp only [Option.some.injEq] at hp2
      rcases hrej with hrej | hrej
      · rw [e, hrej] at hp4
        cases hp4
      · rw [hp2] at hrej
        exact hp3 hrej
    · have e := KubernetesCache.key_unique c.ingressroutes hnd x ir h1 hir hk
      rw [e, hv] at h2
      cases h2
  · intro ir hir hv
    rcases i6 ir hir hv with ⟨hh, h1⟩ | h1
    · rw [o (ir, hh) h1]
      exact Option.some_ne_none _
    · exact m _ h1
  · intro x hx hxv
    constructor
    · intro hne
      by_contra hno
      apply hne
      rw [f x.key, hchild x hx hxv]
      intro p hp y hy hk
      apply hno
      have e := KubernetesCache.key_unique c.ingressroutes hnd y x
        (Reaches.mem c hy (hroots p hp).1) hx hk
      exact ⟨p, hp, e ▸ hy⟩
    · intro ⟨p, hp, hreach⟩
      exact cp p hp x hreach
  · intro k w hw
    rcases v k w hw with h1 | ⟨p, _, h1, _⟩
    · rw [(hdisc k w h1).1]
      decide
    · exact h1.ne_orphaned
  · intro x hx hxv w hw
    rcases v x.key w hw with h1 | ⟨p, hp, h1, y, hk, hy⟩
    · rw [hchild x hx hxv] at h1
      cases h1
    · have e := KubernetesCache.key_unique c.ingressroutes hnd y x
        (Reaches.mem c hy (hroots p hp).1) hx hk
      exact ⟨p, hp, e ▸ hy, h1⟩
  · intro ir hir hv hno
    rcases i6 ir hir hv with ⟨hh, h1⟩ | h1
    · exact absurd h1 (hno hh)
    · cases hl : StatusMap.lookup (discoverRoots c c.ingressroutes [] []).1 ir.key with
      | none => exact absurd hl h1
      | some w =>
        obtain ⟨hw, _⟩ := hdisc _ w hl
        refine ⟨w.2, ?_⟩
        rw [f ir.key, hl, ← hw]
        intro p hp x hx hk
        rcases Reaches.child c hx (hroots p hp).1 with h2 | ⟨h2, h3, _⟩
        · have e := KubernetesCache.key_unique c.ingressroutes hnd x ir
            (h2 ▸ (hroots p hp).1) hir hk
          rw [h2] at e
          apply hno p.2
          rw [← e]
          exact hp
        · have e := KubernetesCache.key_unique c.ingressroutes hnd x ir h2 hir hk
          rw [e] at h3
          exact hv h3

end builder

/-! ## The counts of the statuses -/

namespace metrics

theorem get_incr (m : List (Meta × Nat)) (k k2 : Meta) :
    get (incr m k) k2 = get m k2 + if k = k2 then 1 else 0 := by
  induction m with
  | nil =>
    by_cases h : k = k2
    · simp [incr, get, h]
    · simp [incr, get, h]
  | cons x rest ih =>
    obtain ⟨k1, n⟩ := x
    by_cases h1 : k1 = k
    · subst h1
      by_cases h2 : k1 = k2
      · simp [incr, get, h2]
      · simp [incr, get, h2]
    · by_cases h2 : k1 = k2
      · subst h2
        have h3 : ¬ k = k1 := fun e => h1 e.symm
        simp [incr, get, h1, h3]
      · simp [incr, get, h1, h2, ih]

theorem ofNamespace_incr (m : List (Meta × Nat)) (k : Meta) (ns : String) :
    ofNamespace (incr m k) ns = ofNamespace m ns + if k.Namespace = ns then 1 else 0 := by
  induction m with
  | nil => simp [incr, ofNamespace]
  | cons x rest ih =>
    obtain ⟨k1, n⟩ := x
    by_cases h1 : k1 = k
    · subst h1
      by_cases h2 : k1.Namespace = ns
      · simp [incr, ofNamespace, h2]
        omega
      · simp [incr, ofNamespace, h2]
    · simp only [incr, h1, if_false, ofNamespace, ih]
      omega

end metrics

theorem countStatus_counts (m : metrics.IngressRouteMetric) (s : ObjectStatus) :
    (∀ k, metrics.get (countStatus m s).Invalid k = metrics.get m.Invalid k +
      if s.Status = StatusKind.invalid ∧
        ({ VHost := s.Vhost, Namespace := s.Object.Namespace } : metrics.Meta) = k
      then 1 else 0) ∧
    (∀ k, metrics.get (countStatus m s).Valid k = metrics.get m.Valid k +
      if s.Status = StatusKind.valid ∧
        ({ VHost := s.Vhost, Namespace := s.Object.Namespace } : metrics.Meta) = k
      then 1 else 0) ∧
    (∀ k, metrics.get (countStatus m s).Orphaned k = metrics.get m.Orphaned k +
      if s.Status = StatusKind.orphaned ∧
        ({ VHost := "", Namespace := s.Object.Namespace } : metrics.Meta) = k
      then 1 else 0) ∧
    (∀ k, metrics.get (countStatus m s).Root k = metrics.get m.Root k +
      if s.Object.VirtualHost ≠ none ∧
        ({ VHost := "", Namespace := s.Object.Namespace } : metrics.Meta) = k
      then 1 else 0) ∧
    (∀ k, metrics.get (countStatus m s).Total k = metrics.get m.Total k +
      if ({ VHost := "", Namespace := s.Object.Namespace } : metrics.Meta) = k
      then 1 else 0) ∧
    (∀ ns, metrics.ofNamespace (countStatus m s).Valid ns +
        metrics.ofNamespace (countStatus m s).Invalid ns +
        metrics.ofNamespace (countStatus m s).Orphaned ns =
      metrics.ofNamespace m.Valid ns + metrics.ofNamespace m.Invalid ns +
        metrics.ofNamespace m.Orphaned ns + if s.Object.Namespace = ns then 1 else 0) := by
  refine ⟨?_, ?_, ?_, ?_, ?_, ?_⟩
  · intro k
    by_cases h : s.Status = StatusKind.invalid
    · simp [countStatus, h, metrics.get_incr]
    · simp [countStatus, h]
  · intro k
    by_cases h : s.Status = StatusKind.valid
    · simp [countStatus, h, metrics.get_incr]
    · simp [countStatus, h]
  · intro k
    by_cases h : s.Status = StatusKind.orphaned
    · simp [countStatus, h, metrics.get_incr]
    · simp [countStatus, h]
  · intro k
    by_cases h : s.Object.VirtualHost = none
    · simp [countStatus, h]
    · simp [countStatus, h, metrics.get_incr]
  · intro k
    simp [countStatus, metrics.get_incr]
  · intro ns
    cases h : s.Status with
    | valid =>
      simp only [countStatus, h, if_true, metrics.ofNamespace_incr]
      simp only [reduceCtorEq, if_false]
      omega
    | invalid =>
      simp only [countStatus, h, if_true, metrics.ofNamespace_incr]
      simp only [reduceCtorEq, if_false]
      omega
    | orphaned =>
      simp only [countStatus, h, if_true, metrics.ofNamespace_incr]
      simp only [reduceCtorEq, if_false]
      omega

theorem foldl_countStatus_counts (l : List ObjectStatus) :
    ∀ m : metrics.IngressRouteMetric,
    (∀ k, metrics.get (l.foldl countStatus m).Invalid k = metrics.get m.Invalid k +
      l.countP (fun s => decide (s.Status = StatusKind.invalid ∧
        ({ VHost := s.Vhost, Namespace := s.Object.Namespace } : metrics.Meta) = k))) ∧
    (∀ k, metrics.get (l.foldl countStatus m).Valid k = metrics.get m.Valid k +
      l.countP (fun s => decide (s.Status = StatusKind.valid ∧
        ({ VHost := s.Vhost, Namespace := s.Object.Namespace } : metrics.Meta) = k))) ∧
    (∀ k, metrics.get (l.foldl countStatus m).Orphaned k = metrics.get m.Orphaned k +
      l.countP (fun s => decide (s.Status = StatusKind.orphaned ∧
        ({ VHost := "", Namespace := s.Object.Namespace } : metrics.Meta) = k))) ∧
    (∀ k, metrics.get (l.foldl countStatus m).Root k = metrics.get m.Root k +
      l.countP (fun s => decide (s.Object.VirtualHost ≠ none ∧
        ({ VHost := "", Namespace := s.Object.Namespace } : metrics.Meta) = k))) ∧
    (∀ k, metrics.get (l.foldl countStatus m).Total k = metrics.get m.Total k +
      l.countP (fun s => decide
        (({ VHost := "", Namespace := s.Object.Namespace } : metrics.Meta) = k))) ∧
    (∀ ns, metrics.ofNamespace (l.foldl countStatus m).Valid ns +
        metrics.ofNamespace (l.foldl countStatus m).Invalid ns +
        metrics.ofNamespace (l.foldl countStatus m).Orphaned ns =
      metrics.ofNamespace m.Valid ns + metrics.ofNamespace m.Invalid ns +
        metrics.ofNamespace m.Orphaned ns +
        l.countP (fun s => decide (s.Object.Namespace = ns))) := by
  induction l with
  | nil =>
    intro m
    simp
  | cons s rest ih =>
    intro m
    obtain ⟨a1, a2, a3, a4, a5, a6⟩ := ih (countStatus m s)
    obtain ⟨b1, b2, b3, b4, b5, b6⟩ := countStatus_counts m s
    simp only [List.foldl_cons, List.countP_cons, decide_eq_true_eq]
    refine ⟨?_, ?_, ?_, ?_, ?_, ?_⟩
    · intro k
      rw [a1 k, b1 k]
      omega
    · intro k
      rw [a2 k, b2 k]
      omega
    · intro k
      rw [a3 k, b3 k]
      omega
    · intro k
      rw [a4 k, b4 k]
      omega
    · intro k
      rw [a5 k, b5 k]
      omega
    · intro ns
      rw [a6 ns, b6 ns]
      omega

/-! ## The statuses of a build -/

theorem assemble_Object (st : StatusMap) (ir : ingressroutev1.IngressRoute) :
    (assemble st ir).Object = ir := by
  unfold assemble
  split <;> rfl

theorem assemble_of_lookup (st : StatusMap) (ir : ingressroutev1.IngressRoute)
    (s : StatusKind) (h : String) (hl : StatusMap.lookup st ir.key = some (s, h)) :
    assemble st ir = { Object := ir, Status := s, Vhost := h } := by
  simp [assemble, hl]

theorem assemble_of_none (st : StatusMap) (ir : ingressroutev1.IngressRoute)
    (hl : StatusMap.lookup st ir.key = none) :
    assemble st ir = { Object := ir, Status := StatusKind.orphaned, Vhost := "" } := by
  simp [assemble, hl]

theorem Statuses_of_compute (c : KubernetesCache) (st : StatusMap)
    (h : builder.compute c = some st) :
    Statuses c = some (c.ingressroutes.map (assemble st)) := by
  simp [Statuses, h]

theorem calculateIngressRouteMetric_counts (l : List ObjectStatus) :
    (∀ k, metrics.get (calculateIngressRouteMetric l).Invalid k =
      l.countP (fun s => decide (s.Status = StatusKind.invalid ∧
        ({ VHost := s.Vhost, Namespace := s.Object.Namespace } : metrics.Meta) = k))) ∧
    (∀ k, metrics.get (calculateIngressRouteMetric l).Valid k =
      l.countP (fun s => decide (s.Status = StatusKind.valid ∧
        ({ VHost := s.Vhost, Namespace := s.Object.Namespace } : metrics.Meta) = k))) ∧
    (∀ k, metrics.get (calculateIngressRouteMetric l).Orphaned k =
      l.countP (fun s => decide (s.Status = StatusKind.orphaned ∧
        ({ VHost := "", Namespace := s.Object.Namespace } : metrics.Meta) = k))) ∧
    (∀ k, metrics.get (calculateIngressRouteMetric l).Root k =
      l.countP (fun s => decide (s.Object.VirtualHost ≠ none ∧
        ({ VHost := "", Namespace := s.Object.Namespace } : metrics.Meta) = k))) ∧
    (∀ k, metrics.get (calculateIngressRouteMetric l).Total k =
      l.countP (fun s => decide
        (({ VHost := "", Namespace := s.Object.Namespace } : metrics.Meta) = k))) ∧
    (∀ ns, metrics.ofNamespace (calculateIngressRouteMetric l).Valid ns +
        metrics.ofNamespace (calculateIngressRouteMetric l).Invalid ns +
        metrics.ofNamespace (calculateIngressRouteMetric l).Orphaned ns =
      l.countP (fun s => decide (s.Object.Namespace = ns))) := by
  obtain ⟨a1, a2, a3, a4, a5, a6⟩ := foldl_countStatus_counts l
    { Invalid := [], Valid := [], Orphaned := [], Root := [], Total := [] }
  unfold calculateIngressRouteMetric
  refine ⟨?_, ?_, ?_, ?_, ?_, ?_⟩
  · intro k
    rw [a1 k]
    simp [metrics.get]
  · intro k
    rw [a2 k]
    simp [metrics.get]
  · intro k
    rw [a3 k]
    simp [metrics.get]
  · intro k
    rw [a4 k]
    simp [metrics.get]
  · intro k
    rw [a5 k]
    simp [metrics.get]
  · intro ns
    rw [a6 ns]
    simp [metrics.ofNamespace]

/-- C27: for every sequence of inserted objects the build gives every
IngressRoute of the cache one status, in the order of the cache, whose keys are
distinct; the valid, invalid and orphaned counts are the numbers of statuses of
that kind under the key, and the root count of a namespace is the number of its
roots; the total of a namespace is the number of its IngressRoutes, and the
valid, invalid and orphaned counts of the namespace sum to it; the count of one
status adds one to exactly one of valid, invalid and orphaned and leaves the
other two as they are. -/
theorem status_partition (rootNamespaces : List String) (objs : List Object) :
    ∃ l M, Statuses (KubernetesCache.ofObjects rootNamespaces objs) = some l ∧
      ingressRouteMetric rootNamespaces objs = some M ∧
      l.map ObjectStatus.Object = (KubernetesCache.ofObjects rootNamespaces objs).ingressroutes ∧
      ((KubernetesCache.ofObjects rootNamespaces objs).ingressroutes.map
        ingressroutev1.IngressRoute.key).Nodup ∧
      (∀ k, metrics.get M.Valid k =
        l.countP (fun s => decide (s.Status = StatusKind.valid ∧
          ({ VHost := s.Vhost, Namespace := s.Object.Namespace } : metrics.Meta) = k))) ∧
      (∀ k, metrics.get M.Invalid k =
        l.countP (fun s => decide (s.Status = StatusKind.invalid ∧
          ({ VHost := s.Vhost, Namespace := s.Object.Namespace } : metrics.Meta) = k))) ∧
      (∀ k, metrics.get M.Orphaned k =
        l.countP (fun s => decide (s.Status = StatusKind.orphaned ∧
          ({ VHost := "", Namespace := s.Object.Namespace } : metrics.Meta) = k))) ∧
      (∀ ns, metrics.get M.Root { VHost := "", Namespace := ns } =
        (KubernetesCache.ofObjects rootNamespaces objs).ingressroutes.countP
          (fun ir => decide (ir.VirtualHost ≠ none ∧ ir.Namespace = ns))) ∧
      (∀ ns, metrics.get M.Total { VHost := "", Namespace := ns } =
        (KubernetesCache.ofObjects rootNamespaces objs).ingressroutes.countP
          (fun ir => decide (ir.Namespace = ns))) ∧
      (∀ ns, metrics.ofNamespace M.Valid ns + metrics.ofNamespace M.Invalid ns +
          metrics.ofNamespace M.Orphaned ns =
        metrics.get M.Total { VHost := "", Namespace := ns }) ∧
      (∀ s ∈ l, ∀ m,
        (s.Status = StatusKind.valid ∧
          (countStatus m s).Valid =
            metrics.incr m.Valid { VHost := s.Vhost, Namespace := s.Object.Namespace } ∧
          (countStatus m s).Invalid = m.Invalid ∧ (countStatus m s).Orphaned = m.Orphaned) ∨
        (s.Status = StatusKind.invalid ∧
          (countStatus m s).Invalid =
            metrics.incr m.Invalid { VHost := s.Vhost, Namespace := s.Object.Namespace } ∧
          (countStatus m s).Valid = m.Valid ∧ (countStatus m s).Orphaned = m.Orphaned) ∨
        (s.Status = StatusKind.orphaned ∧
          (countStatus m s).Orphaned =
            metrics.incr m.Orphaned { VHost := "", Namespace := s.Object.Namespace } ∧
          (countStatus m s).Valid = m.Valid ∧ (countStatus m s).Invalid = m.Invalid)) := by
  have hnd := KubernetesCache.ofObjects_nodup rootNamespaces objs
  obtain ⟨st, hst, _⟩ := builder.compute_spec _ hnd
  have hl := Statuses_of_compute _ st hst
  obtain ⟨a1, a2, a3, a4, a5, a6⟩ := calculateIngressRouteMetric_counts
    ((KubernetesCache.ofObjects rootNamespaces objs).ingressroutes.map (assemble st))
  have hroot : ∀ ns, metrics.get (calculateIngressRouteMetric
      ((KubernetesCache.ofObjects rootNamespaces objs).ingressroutes.map (assemble st))).Root
        { VHost := "", Namespace := ns } =
      (KubernetesCache.ofObjects rootNamespaces objs).ingressroutes.countP
        (fun ir => decide (ir.VirtualHost ≠ none ∧ ir.Namespace = ns)) := by
    intro ns
    rw [a4, List.countP_map]
    apply List.countP_congr
    intro ir _
    simp [assemble_Object]
  have htotal : ∀ ns, metrics.get (calculateIngressRouteMetric
      ((KubernetesCache.ofObjects rootNamespaces objs).ingressroutes.map (assemble st))).Total
        { VHost := "", Namespace := ns } =
      (KubernetesCache.ofObjects rootNamespaces objs).ingressroutes.countP
        (fun ir => decide (ir.Namespace = ns)) := by
    intro ns
    rw [a5, List.countP_map]
    apply List.countP_congr
    intro ir _
    simp [assemble_Object]
  refine ⟨_, _, hl, by simp [ingressRouteMetric, hl], ?_, hnd, a2, a1, a3, hroot, htotal, ?_, ?_⟩
  · rw [List.map_map]
    conv_rhs => rw [← List.map_id (KubernetesCache.ofObjects rootNamespaces objs).ingressroutes]
    apply List.map_congr_left
    intro ir _
    exact assemble_Object st ir
  · intro ns
    rw [a6, htotal, List.countP_map]
    apply List.countP_congr
    intro ir _
    simp [assemble_Object]
  · intro s _ m
    cases hs : s.Status with
    | valid => exact Or.inl ⟨rfl, by simp [countStatus, hs]⟩
    | invalid => exact Or.inr (Or.inl ⟨rfl, by simp [countStatus, hs]⟩)
    | orphaned => exact Or.inr (Or.inr ⟨rfl, by simp [countStatus, hs]⟩)

theorem Statuses_mem (c : KubernetesCache) (st : StatusMap) (l : List ObjectStatus)
    (hl : l = c.ingressroutes.map (assemble st)) (ir : ingressroutev1.IngressRoute)
    (hir : ir ∈ c.ingressroutes) :
    assemble st ir ∈ l ∧ ∀ s ∈ l, s.Object = ir → s = assemble st ir := by
  subst hl
  constructor
  · exact List.mem_map_of_mem _ hir
  · intro s hs he
    obtain ⟨ir2, _, h2⟩ := List.mem_map.mp hs
    rw [← h2, assemble_Object] at he
    rw [← h2, he]

theorem calculateIngressRouteMetric_counted (l : List ObjectStatus) (s : ObjectStatus)
    (hs : s ∈ l) :
    (s.Status = StatusKind.invalid → 1 ≤ metrics.get (calculateIngressRouteMetric l).Invalid
      { VHost := s.Vhost, Namespace := s.Object.Namespace }) ∧
    (s.Status = StatusKind.valid → 1 ≤ metrics.get (calculateIngressRouteMetric l).Valid
      { VHost := s.Vhost, Namespace := s.Object.Namespace }) ∧
    (s.Status = StatusKind.orphaned → 1 ≤ metrics.get (calculateIngressRouteMetric l).Orphaned
      { VHost := "", Namespace := s.Object.Namespace }) ∧
    (s.Object.VirtualHost ≠ none → 1 ≤ metrics.get (calculateIngressRouteMetric l).Root
      { VHost := "", Namespace := s.Object.Namespace }) ∧
    1 ≤ metrics.get (calculateIngressRouteMetric l).Total
      { VHost := "", Namespace := s.Object.Namespace } := by
  obtain ⟨a1, a2, a3, a4, a5, _⟩ := calculateIngressRouteMetric_counts l
  refine ⟨?_, ?_, ?_, ?_, ?_⟩
  · intro h
    rw [a1]
    exact List.countP_pos_iff.mpr ⟨s, hs, by simp [h]⟩
  · intro h
    rw [a2]
    exact List.countP_pos_iff.mpr ⟨s, hs, by simp [h]⟩
  · intro h
    rw [a3]
    exact List.countP_pos_iff.mpr ⟨s, hs, by simp [h]⟩
  · intro h
    rw [a4]
    exact List.countP_pos_iff.mpr ⟨s, hs, by simp [h]⟩
  · rw [a5]
    exact List.countP_pos_iff.mpr ⟨s, hs, by simp⟩

theorem KubernetesCache.foldl_Insert_rootNamespaces (objs : List Object) :
    ∀ c : KubernetesCache,
      (objs.foldl KubernetesCache.Insert c).IngressRouteRootNamespaces =
        c.IngressRouteRootNamespaces := by
  induction objs with
  | nil =>
    intro c
    rfl
  | cons o rest ih =>
    intro c
    rw [List.foldl_cons, ih]
    cases o <;> rfl

theorem KubernetesCache.rootAllowed_ofObjects (rootNamespaces : List String)
    (objs : List Object) (ns : String) :
    (KubernetesCache.ofObjects rootNamespaces objs).rootAllowed ns =
      (decide (rootNamespaces = []) || decide (ns ∈ rootNamespaces)) := by
  unfold KubernetesCache.rootAllowed KubernetesCache.ofObjects
  rw [KubernetesCache.foldl_Insert_rootNamespaces]

/-! ## Roots that are rejected -/

/-- C29: a root IngressRoute of the cache whose namespace is outside the root
namespaces that are set, or whose FQDN is empty, has the status invalid under no
vhost, and no other status; the count of that status adds one to invalid under
the key of its namespace without vhost, to root and to total of its namespace,
and leaves valid and orphaned as they are; so these three counts of the metrics
are not 0. -/
theorem rejected_root_counted_invalid (rootNamespaces : List String) (objs : List Object)
    (ir : ingressroutev1.IngressRoute) (vh : ingressroutev1.VirtualHost)
    (hmem : ir ∈ (KubernetesCache.ofObjects rootNamespaces objs).ingressroutes)
    (hv : ir.VirtualHost = some vh)
    (hrej : (rootNamespaces ≠ [] ∧ ir.Namespace ∉ rootNamespaces) ∨ vh.Fqdn = "") :
    ∃ l M, Statuses (KubernetesCache.ofObjects rootNamespaces objs) = some l ∧
      ingressRouteMetric rootNamespaces objs = some M ∧
      { Object := ir, Status := StatusKind.invalid, Vhost := "" } ∈ l ∧
      (∀ s ∈ l, s.Object = ir →
        s = { Object := ir, Status := StatusKind.invalid, Vhost := "" }) ∧
      (∀ m, countStatus m { Object := ir, Status := StatusKind.invalid, Vhost := "" } =
        { Invalid := metrics.incr m.Invalid { VHost := "", Namespace := ir.Namespace },
          Valid := m.Valid,
          Orphaned := m.Orphaned,
          Root := metrics.incr m.Root { VHost := "", Namespace := ir.Namespace },
          Total := metrics.incr m.Total { VHost := "", Namespace := ir.Namespace } }) ∧
      1 ≤ metrics.get M.Invalid { VHost := "", Namespace := ir.Namespace } ∧
      1 ≤ metrics.get M.Root { VHost := "", Namespace := ir.Namespace } ∧
      1 ≤ metrics.get M.Total { VHost := "", Namespace := ir.Namespace } := by
  have hnd := KubernetesCache.ofObjects_nodup rootNamespaces objs
  obtain ⟨st, hst, hA, _⟩ := builder.compute_spec _ hnd
  have hl := Statuses_of_compute _ st hst
  have hrej2 : (KubernetesCache.ofObjects rootNamespaces objs).rootAllowed ir.Namespace = false ∨
      vh.Fqdn = "" := by
    rcases hrej with ⟨h1, h2⟩ | h
    · left
      rw [KubernetesCache.rootAllowed_ofObjects]
      simp [h1, h2]
    · exact Or.inr h
  have hstatus := assemble_of_lookup st ir _ _ (hA ir hmem vh hv hrej2)
  obtain ⟨h1, h2⟩ := Statuses_mem _ st _ rfl ir hmem
  rw [hstatus] at h1 h2
  obtain ⟨c1, _, _, c4, c5⟩ := calculateIngressRouteMetric_counted _ _ h1
  refine ⟨_, _, hl, by simp [ingressRouteMetric, hl], h1, h2, ?_, c1 rfl, c4 ?_, c5⟩
  · intro m
    simp [countStatus, hv]
  · simp [hv]

theorem rejected_root_counted_invalid_witness :
    (TestIngressRouteMetrics.ir3 ∈ (KubernetesCache.ofObjects ["foo"]
        [Object.ingressroute TestIngressRouteMetrics.ir3]).ingressroutes ∧
      TestIngressRouteMetrics.ir3.VirtualHost = some { Fqdn := "example.com" } ∧
      ((["foo"] ≠ [] ∧ TestIngressRouteMetrics.ir3.Namespace ∉ ["foo"]) ∨
        ({ Fqdn := "example.com" } : ingressroutev1.VirtualHost).Fqdn = "")) ∧
    ∃ l M, Statuses (KubernetesCache.ofObjects ["foo"]
        [Object.ingressroute TestIngressRouteMetrics.ir3]) = some l ∧
      ingressRouteMetric ["foo"] [Object.ingressroute TestIngressRouteMetrics.ir3] = some M ∧
      { Object := TestIngressRouteMetrics.ir3, Status := StatusKind.invalid, Vhost := "" } ∈ l ∧
      1 ≤ metrics.get M.Invalid { VHost := "", Namespace := "finance" } ∧
      1 ≤ metrics.get M.Root { VHost := "", Namespace := "finance" } ∧
      1 ≤ metrics.get M.Total { VHost := "", Namespace := "finance" } :=
  ⟨⟨by decide, rfl, Or.inl ⟨by decide, by decide⟩⟩,
    (rejected_root_counted_invalid ["foo"] [Object.ingressroute TestIngressRouteMetrics.ir3]
      TestIngressRouteMetrics.ir3 { Fqdn := "example.com" } (by decide) rfl
      (Or.inl ⟨by decide, by decide⟩)).imp
      (fun _ hl => hl.imp (fun _ h =>
        ⟨h.1, h.2.1, h.2.2.1, h.2.2.2.2.2.1, h.2.2.2.2.2.2.1, h.2.2.2.2.2.2.2⟩))⟩

/-! ## Delegation cycles -/

theorem HasPrefix_empty (s : String) : HasPrefix s "" = true := by
  simp [HasPrefix]

theorem builder.routePasses_blocked (c : KubernetesCache) (ir : ingressroutev1.IngressRoute)
    (pfx : String) (path : List Meta) (r : ingressroutev1.Route)
    (d : ingressroutev1.Delegate) (dest : ingressroutev1.IngressRoute)
    (hd : r.Delegate = some d)
    (hf : KubernetesCache.findIngressRoute c.ingressroutes (delegateKey ir d) = some dest)
    (hb : dest.key ∈ path ∨ dest.VirtualHost ≠ none) :
    builder.routePasses c ir pfx path r = false := by
  cases hp : builder.routePasses c ir pfx path r with
  | false => rfl
  | true =>
    obtain ⟨_, _, h1, h2⟩ := builder.routePasses_delegate c ir pfx path r d dest hp hd hf
    rcases hb with hb | hb
    · exact absurd hb h1
    · exact absurd h2 hb

theorem builder.all_routePasses_blocked (c : KubernetesCache)
    (ir : ingressroutev1.IngressRoute) (pfx : String) (path : List Meta)
    (r : ingressroutev1.Route) (hr : r ∈ ir.Routes)
    (hp : builder.routePasses c ir pfx path r = false) :
    ir.Routes.all (builder.routePasses c ir pfx path) = false := by
  cases ha : ir.Routes.all (builder.routePasses c ir pfx path) with
  | false => rfl
  | true =>
    rw [List.all_eq_true] at ha
    rw [ha r hr] at hp
    cases hp

theorem builder.ReachesRoutes.of_all_pass (c : KubernetesCache)
    (ir : ingressroutev1.IngressRoute) (pfx : String) (path : List Meta)
    (d : ingressroutev1.Delegate) (dest : ingressroutev1.IngressRoute)
    (hf : KubernetesCache.findIngressRoute c.ingressroutes (delegateKey ir d) = some dest) :
    ∀ (rs : List ingressroutev1.Route),
      (∀ r ∈ rs, builder.routePasses c ir pfx path r = true) →
      (∃ r ∈ rs, r.Delegate = some d) → builder.ReachesRoutes c ir pfx path rs dest := by
  intro rs
  induction rs with
  | nil =>
    intro _ ⟨r, hr, _⟩
    cases hr
  | cons r0 rs ih =>
    intro hall ⟨r, hr, hd⟩
    rcases List.mem_cons.mp hr with e | hr2
    · subst e
      exact builder.ReachesRoutes.delegate _ _ _ _ _ d dest (hall _ (List.mem_cons_self _ _))
        hd hf
    · exact builder.ReachesRoutes.later _ _ _ _ _ _ (hall _ (List.mem_cons_self _ _))
        (ih (fun r1 h1 => hall r1 (List.mem_cons_of_mem _ h1)) ⟨r, hr2, hd⟩)

theorem builder.ReachesRoutes.delegation_chain (c : KubernetesCache)
    {z : ingressroutev1.IngressRoute} {pfx : String} {path : List Meta}
    {rs : List ingressroutev1.Route} {x : ingressroutev1.IngressRoute}
    (h : builder.ReachesRoutes c z pfx path rs x) :
    (∀ r ∈ rs, r ∈ z.Routes) → Relation.TransGen (delegatesTo c) z x := by
  induction h with
  | delegate ir pfx path r rs d dest hp hd hf =>
    intro hrs
    exact Relation.TransGen.single ⟨r, hrs r (List.mem_cons_self _ _), d, hd, hf⟩
  | descend ir pfx path r rs d dest x hp hd hf _ ih =>
    intro hrs
    exact Relation.TransGen.head ⟨r, hrs r (List.mem_cons_self _ _), d, hd, hf⟩
      (ih (fun _ hr => hr))
  | later ir pfx path r rs x _ _ ih =>
    intro hrs
    exact ih (fun r2 hr => hrs r2 (List.mem_cons_of_mem _ hr))

/-- C28: for an accepted root `y` with FQDN `h`, when a route of `y` delegates to
`y` itself, `y` has the status invalid under `h` and is counted in invalid under
(namespace, `h`).  When a route of `y` delegates to an IngressRoute `x` that is no
root, every other route of `y` is in order, and a route of `x` delegates back to
`y`, then `y` has the status valid under `h` and is counted in valid under
(namespace, `h`), and `x` has the status invalid under the FQDN of an accepted
root from which Delegate edges lead to it and is counted in invalid there; when `y` is the only
IngressRoute that delegates to `x`, the two-node cycle, that FQDN is `h`, the
root's.  The namespace of `x` is that of `y` when the Delegate names none.  No
IngressRoute has two statuses, and neither `y` nor `x` is orphaned. -/
theorem delegation_cycles (rootNamespaces : List String) (objs : List Object)
    (y : ingressroutev1.IngressRoute) (h : String)
    (hy : (y, h) ∈ acceptedRoots (KubernetesCache.ofObjects rootNamespaces objs)) :
    ∃ l M, Statuses (KubernetesCache.ofObjects rootNamespaces objs) = some l ∧
      ingressRouteMetric rootNamespaces objs = some M ∧
      (l.map ObjectStatus.Object).Nodup ∧
      ((∃ r ∈ y.Routes, ∃ d, r.Delegate = some d ∧ delegateKey y d = y.key) →
        { Object := y, Status := StatusKind.invalid, Vhost := h } ∈ l ∧
        1 ≤ metrics.get M.Invalid { VHost := h, Namespace := y.Namespace }) ∧
      (∀ x ∈ (KubernetesCache.ofObjects rootNamespaces objs).ingressroutes,
        x.VirtualHost = none →
        (∃ r ∈ y.Routes, ∃ d, r.Delegate = some d ∧ delegateKey y d = x.key) →
        (∀ r ∈ y.Routes,
          (r.Services = [] ∧ ∃ d, r.Delegate = some d ∧ delegateKey y d = x.key) ∨
          builder.routePasses (KubernetesCache.ofObjects rootNamespaces objs) y "" [y.key] r =
            true) →
        (∃ r ∈ x.Routes, ∃ d, r.Delegate = some d ∧ delegateKey x d = y.key) →
        { Object := y, Status := StatusKind.valid, Vhost := h } ∈ l ∧
        1 ≤ metrics.get M.Valid { VHost := h, Namespace := y.Namespace } ∧
        (∃ p ∈ acceptedRoots (KubernetesCache.ofObjects rootNamespaces objs),
          Relation.TransGen (delegatesTo (KubernetesCache.ofObjects rootNamespaces objs)) p.1 x ∧
          { Object := x, Status := StatusKind.invalid, Vhost := p.2 } ∈ l ∧
          1 ≤ metrics.get M.Invalid { VHost := p.2, Namespace := x.Namespace }) ∧
        ((∀ z ∈ (KubernetesCache.ofObjects rootNamespaces objs).ingressroutes,
            delegatesTo (KubernetesCache.ofObjects rootNamespaces objs) z x → z = y) →
          { Object := x, Status := StatusKind.invalid, Vhost := h } ∈ l ∧
          1 ≤ metrics.get M.Invalid { VHost := h, Namespace := x.Namespace }) ∧
        (∀ r ∈ y.Routes, ∀ d, r.Delegate = some d → delegateKey y d = x.key →
          d.Namespace = "" → x.Namespace = y.Namespace) ∧
        (∀ s ∈ l, s.Object = y ∨ s.Object = x → s.Status ≠ StatusKind.orphaned)) := by
  have hnd := KubernetesCache.ofObjects_nodup rootNamespaces objs
  obtain ⟨st, hst, _, _, hC, _, hE, hF, _⟩ := builder.compute_spec _ hnd
  have hl := Statuses_of_compute _ st hst
  obtain ⟨hacc, _⟩ := builder.acceptedRoots_spec _ hnd
  obtain ⟨hymem, hyv, _, _⟩ := hacc (y, h) hy
  have hyfind := KubernetesCache.findIngressRoute_of_mem _ y hnd hymem
  have hyroot : y.VirtualHost ≠ none := by
    rw [hyv]
    exact Option.some_ne_none _
  have hown := hE (y, h) hy
  obtain ⟨hy1, hy2⟩ := Statuses_mem _ st _ rfl y hymem
  have hM : ingressRouteMetric rootNamespaces objs = some (calculateIngressRouteMetric
      ((KubernetesCache.ofObjects rootNamespaces objs).ingressroutes.map (assemble st))) := by
    simp [ingressRouteMetric, hl]
  refine ⟨_, _, hl, hM, ?_, ?_, ?_⟩
  · rw [List.map_map]
    have e : (KubernetesCache.ofObjects rootNamespaces objs).ingressroutes.map
        (ObjectStatus.Object ∘ assemble st) =
        (KubernetesCache.ofObjects rootNamespaces objs).ingressroutes.map id := by
      apply List.map_congr_left
      intro ir _
      exact assemble_Object st ir
    rw [e, List.map_id]
    exact List.Nodup.of_map _ hnd
  · intro ⟨r, hr, d, hd, hk⟩
    have hp : builder.routePasses (KubernetesCache.ofObjects rootNamespaces objs) y ""
        [y.key] r = false :=
      builder.routePasses_blocked (KubernetesCache.ofObjects rootNamespaces objs) y "" [y.key] r d y hd (by rw [hk]; exact hyfind)
        (Or.inl (List.mem_singleton.mpr rfl))
    rw [builder.all_routePasses_blocked (KubernetesCache.ofObjects rootNamespaces objs) y "" [y.key] r hr hp] at hown
    have hs := assemble_of_lookup st y _ _ hown
    rw [hs] at hy1
    exact ⟨hy1, (calculateIngressRouteMetric_counted _ _ hy1).1 rfl⟩
  · intro x hxmem hxv ⟨r0, hr0, d0, hd0, hk0⟩ hall ⟨r2, hr2, d2, hd2, hk2⟩
    have hxfind := KubernetesCache.findIngressRoute_of_mem _ x hnd hxmem
    have hxy : x.key ∉ [y.key] := by
      intro hmem
      rw [List.mem_singleton] at hmem
      have e := KubernetesCache.key_unique _ hnd x y hxmem hymem hmem
      rw [e] at hxv
      exact hyroot hxv
    have hpass : ∀ r ∈ y.Routes, builder.routePasses (KubernetesCache.ofObjects rootNamespaces objs) y "" [y.key] r = true := by
      intro r hr
      rcases hall r hr with ⟨hs, d, hd, hk⟩ | hp
      · simp only [builder.routePasses, HasPrefix_empty, hd, hs, hk, hxfind, Bool.true_and,
          decide_True, Bool.and_eq_true, decide_eq_true_eq]
        exact ⟨hxy, hxv⟩
      · exact hp
    rw [List.all_eq_true.mpr hpass, if_pos rfl] at hown
    have hs := assemble_of_lookup st y _ _ hown
    have hy3 := hy1
    rw [hs] at hy3
    have hreach : builder.Reaches (KubernetesCache.ofObjects rootNamespaces objs) y "" [] x :=
      Or.inr (builder.ReachesRoutes.of_all_pass _ y "" _ d0 x (by rw [hk0]; exact hxfind)
        y.Routes hpass ⟨r0, hr0, hd0⟩)
    have hset := (hC x hxmem hxv).mpr ⟨(y, h), hy, hreach⟩
    cases hlook : StatusMap.lookup st x.key with
    | none => exact absurd hlook hset
    | some v =>
      obtain ⟨p, hp, hpr, hw2, x2, hx2, hxk, pfx, path, hv, _⟩ := hF x hxmem hxv v hlook
      have e := KubernetesCache.key_unique _ hnd x2 x hx2 hxmem hxk
      subst e
      have hblock : builder.routePasses (KubernetesCache.ofObjects rootNamespaces objs) x2 pfx path r2 = false :=
        builder.routePasses_blocked (KubernetesCache.ofObjects rootNamespaces objs) x2 pfx path r2 d2 y hd2 (by rw [hk2]; exact hyfind)
          (Or.inr hyroot)
      rw [builder.all_routePasses_blocked (KubernetesCache.ofObjects rootNamespaces objs) x2 pfx path r2 hr2 hblock] at hv
      have hv2 : v = (StatusKind.invalid, p.2) := by
        obtain ⟨v1, v2⟩ := v
        simp only at hv hw2
        rw [hv, hw2]
        rfl
      rw [hv2] at hlook
      obtain ⟨hx1, hx3⟩ := Statuses_mem _ st _ rfl x2 hxmem
      have hxs := assemble_of_lookup st x2 _ _ hlook
      have hx4 := hx1
      rw [hxs] at hx4
      obtain ⟨hpm, hpv, _, _⟩ := hacc p hp
      -- the IngressRoute that delegates to `x` on the way from `p`
      have hparent : ∃ z ∈ (KubernetesCache.ofObjects rootNamespaces objs).ingressroutes,
          (z = p.1 ∨ z.VirtualHost = none) ∧
          delegatesTo (KubernetesCache.ofObjects rootNamespaces objs) z x2 := by
        rcases builder.Reaches.child _ hpr hpm with h1 | ⟨_, _, z, hz, hz2, hz3⟩
        · rw [h1, hpv] at hxv
          cases hxv
        · exact ⟨z, hz, hz2, hz3⟩
      refine ⟨hy3, (calculateIngressRouteMetric_counted _ _ hy3).2.1 rfl, ?_, ?_, ?_, ?_⟩
      · refine ⟨p, hp, ?_, hx4, (calculateIngressRouteMetric_counted _ _ hx4).1 rfl⟩
        rcases hpr with h1 | h1
        · rw [h1, hpv] at hxv
          cases hxv
        · exact builder.ReachesRoutes.delegation_chain _ h1 (fun _ hr => hr)
      · intro honly
        obtain ⟨z, hz, hz2, hz3⟩ := hparent
        have hzy := honly z hz hz3
        rcases hz2 with hz2 | hz2
        · have hpy : p.1 = y := by rw [← hz2, hzy]
          have hph : p.2 = h := by
            rw [hpy, hyv] at hpv
            simp only [Option.some.injEq, ingressroutev1.VirtualHost.mk.injEq] at hpv
            exact hpv.symm
          rw [hph] at hx4
          exact ⟨hx4, (calculateIngressRouteMetric_counted _ _ hx4).1 rfl⟩
        · rw [hzy] at hz2
          exact absurd hz2 hyroot
      · intro r hr d hd hk hns
        have e1 : (delegateKey y d).Namespace = x2.key.Namespace := by rw [hk]
        simp only [delegateKey, hns, if_true, ingressroutev1.IngressRoute.key] at e1
        exact e1.symm
      · intro s hs hobj
        rcases hobj with hobj | hobj
        · rw [hy2 s hs hobj, assemble_of_lookup st y _ _ hown]
          exact fun e => StatusKind.noConfusion e
        · rw [hx3 s hs hobj, hxs]
          exact fun e => StatusKind.noConfusion e

/-- A run of C28, the cases of the test: the root `ir7` delegates to `ir8`, which
delegates back, and the root `ir6` delegates to itself. -/
theorem delegation_cycles_witness :
    (TestIngressRouteMetrics.ir7, "example.com") ∈
      acceptedRoots (KubernetesCache.ofObjects []
        [Object.ingressroute TestIngressRouteMetrics.ir7,
          Object.ingressroute TestIngressRouteMetrics.ir8]) ∧
    (∃ l M, Statuses (KubernetesCache.ofObjects []
        [Object.ingressroute TestIngressRouteMetrics.ir7,
          Object.ingressroute TestIngressRouteMetrics.ir8]) = some l ∧
      ingressRouteMetric [] [Object.ingressroute TestIngressRouteMetrics.ir7,
        Object.ingressroute TestIngressRouteMetrics.ir8] = some M ∧
      { Object := TestIngressRouteMetrics.ir7, Status := StatusKind.valid,
        Vhost := "example.com" } ∈ l ∧
      1 ≤ metrics.get M.Valid { VHost := "example.com", Namespace := "roots" } ∧
      { Object := TestIngressRouteMetrics.ir8, Status := StatusKind.invalid,
        Vhost := "example.com" } ∈ l ∧
      1 ≤ metrics.get M.Invalid { VHost := "example.com", Namespace := "roots" }) ∧
    Statuses (KubernetesCache.ofObjects []
        [Object.ingressroute TestIngressRouteMetrics.ir7,
          Object.ingressroute TestIngressRouteMetrics.ir8]) =
      some [
        { Object := TestIngressRouteMetrics.ir7, Status := StatusKind.valid,
          Vhost := "example.com" },
        { Object := TestIngressRouteMetrics.ir8, Status := StatusKind.invalid,
          Vhost := "example.com" }] ∧
    Statuses (KubernetesCache.ofObjects [] [Object.ingressroute TestIngressRouteMetrics.ir6]) =
      some [
        { Object := TestIngressRouteMetrics.ir6, Status := StatusKind.invalid,
          Vhost := "example.com" }] := by
  refine ⟨by decide, ?_, by decide, by decide⟩
  obtain ⟨l, M, h1, h2, _, _, h5⟩ := delegation_cycles []
    [Object.ingressroute TestIngressRouteMetrics.ir7,
      Object.ingressroute TestIngressRouteMetrics.ir8]
    TestIngressRouteMetrics.ir7 "example.com" (by decide)
  obtain ⟨a, b, _, honly, _, _⟩ := h5 TestIngressRouteMetrics.ir8 (by decide) rfl
    ⟨_, List.mem_cons_self _ _, _, rfl, rfl⟩
    (by
      intro r hr
      simp only [TestIngressRouteMetrics.ir7, List.mem_singleton] at hr
      subst hr
      exact Or.inl ⟨rfl, _, rfl, rfl⟩)
    ⟨_, List.mem_cons_self _ _, _, rfl, rfl⟩
  have hz : ∀ z ∈ (KubernetesCache.ofObjects []
      [Object.ingressroute TestIngressRouteMetrics.ir7,
        Object.ingressroute TestIngressRouteMetrics.ir8]).ingressroutes,
      delegatesTo (KubernetesCache.ofObjects []
        [Object.ingressroute TestIngressRouteMetrics.ir7,
          Object.ingressroute TestIngressRouteMetrics.ir8]) z TestIngressRouteMetrics.ir8 →
      z = TestIngressRouteMetrics.ir7 := by
    intro z hz hdel
    have hz2 : z = TestIngressRouteMetrics.ir7 ∨ z = TestIngressRouteMetrics.ir8 := by
      have e : (KubernetesCache.ofObjects []
          [Object.ingressroute TestIngressRouteMetrics.ir7,
            Object.ingressroute TestIngressRouteMetrics.ir8]).ingressroutes =
          [TestIngressRouteMetrics.ir7, TestIngressRouteMetrics.ir8] := by decide
      rw [e] at hz
      simpa using hz
    rcases hz2 with e | e
    · exact e
    · subst e
      obtain ⟨r, hr, d, hd, hf⟩ := hdel
      simp only [TestIngressRouteMetrics.ir8, List.mem_singleton] at hr
      subst hr
      simp only [Option.some.injEq] at hd
      subst hd
      exact absurd hf (by decide)
  obtain ⟨c, d⟩ := honly hz
  exact ⟨l, M, h1, h2, a, b, c, d⟩

/-! ## Catch-up -/

/-- C33 (amended): catch-up is strict below the largest `int`.  For
`Register(ch, n)` with `n` at most the cache's `last`: when `n < last` the value
`last`, which is greater than `n`, is sent on `ch` at once; when `n = last`
nothing is sent at once and the next `Update`, whatever `Register` and `Values`
calls come in between, sends the incremented `last` on `ch`.  When `last` is an
`int` below the largest one, that value is `last + 1`, and every value sent by
the `Register` or by that `Update` is strictly greater than `n`. -/
theorem catch_up_strict (c : ListenerCache) (ch : Chan) (n : Int) (mid : List Call)
    (v : ListenerMap) (hn : n ≤ c.last) (hmid : mid.any Call.isUpdate = false) :
    (n < c.last → (c.Register ch n).2 = [{ ch := ch, val := c.last }]) ∧
      (∀ s ∈ (c.Register ch n).2, n < s.val) ∧
      (n = c.last → (c.Register ch n).2 = [] ∧
        { ch := ch, val := wrapInt (c.last + 1) } ∈
          (((c.Register ch n).1.calls mid).1.Update v).2) ∧
      (minInt ≤ c.last → c.last < maxInt →
        (n = c.last →
          { ch := ch, val := c.last + 1 } ∈ (((c.Register ch n).1.calls mid).1.Update v).2) ∧
        (∀ s ∈ (c.Register ch n).2 ++ (((c.Register ch n).1.calls mid).1.Update v).2,
          n < s.val)) := by
  have hlast : ((c.Register ch n).1.calls mid).1.last = c.last := by
    rw [calls_no_update _ mid hmid]
    by_cases h : n < c.last
    · simp [Register, h]
    · simp [Register, h]
  have hreg : ∀ s ∈ (c.Register ch n).2, n < s.val := by
    intro s h1
    by_cases h : n < c.last
    · simp only [Register, h, if_true, List.mem_singleton] at h1
      rw [h1]
      exact h
    · simp [Register, h] at h1
  have hmem : n = c.last → { ch := ch, val := wrapInt (c.last + 1) } ∈
      (((c.Register ch n).1.calls mid).1.Update v).2 := by
    intro h
    have h2 : ¬ n < c.last := by omega
    rw [Update_sends, hlast, calls_no_update _ mid hmid]
    simp [Register, h2]
  refine ⟨fun h => by simp [Register, h], hreg, ?_, ?_⟩
  · intro h
    have h2 : ¬ n < c.last := by omega
    exact ⟨by simp [Register, h2], hmem h⟩
  · intro hlo hhi
    have hw : wrapInt (c.last + 1) = c.last + 1 :=
      wrapInt_of_range _ (by unfold minInt at *; omega) (by unfold maxInt at *; omega)
    refine ⟨fun h => hw ▸ hmem h, ?_⟩
    intro s hs
    rcases List.mem_append.mp hs with h1 | h1
    · exact hreg s h1
    · rw [Update_sends, hlast, List.mem_map] at h1
      obtain ⟨w, _, rfl⟩ := h1
      simp only
      omega

/-- A run of C33: a consumer that has seen version 2 registers channel 1 on a
cache at version 2; after another registration the next `Update` sends it 3. -/
theorem catch_up_strict_witness :
    ((2 : Int) ≤ ({ values := [], waiters := [], last := 2 } : ListenerCache).last ∧
      [Call.Register 2 5].any Call.isUpdate = false) ∧
    (((({ values := [], waiters := [], last := 2 } : ListenerCache).Register 1 2).1.calls
        [Call.Register 2 5]).1.Update []).2 = [{ ch := 1, val := 3 }, { ch := 2, val := 3 }] ∧
    ∀ s ∈ (({ values := [], waiters := [], last := 2 } : ListenerCache).Register 1 2).2 ++
        (((({ values := [], waiters := [], last := 2 } : ListenerCache).Register 1 2).1.calls
          [Call.Register 2 5]).1.Update []).2,
      (2 : Int) < s.val :=
  ⟨⟨by decide, by decide⟩, by decide,
    ((catch_up_strict { values := [], waiters := [], last := 2 } 1 2 [Call.Register 2 5] []
      (by decide) (by decide)).2.2.2 (by decide) (by decide)).2⟩

/-- C33 (as stated) fails at the largest `int`.  In the state that the zero-value
cache reaches after `maxInt` calls of `Update`, `Register(1, maxInt)` is made with
`n = last`; it sends nothing, and the next `Update` delivers `minInt` on the
channel, which is not greater than `n`. -/
theorem catch_up_wraps :
    maxInt ≤ (zero.calls (List.replicate 9223372036854775807 (Call.Update []))).1.last ∧
      ((zero.calls (List.replicate 9223372036854775807 (Call.Update []))).1.Register 1
        maxInt).2 = [] ∧
      (((zero.calls (List.replicate 9223372036854775807 (Call.Update []))).1.Register 1
        maxInt).1.Update []).2 = [{ ch := 1, val := minInt }] ∧
      ¬ ∀ s ∈ (((zero.calls (List.replicate 9223372036854775807 (Call.Update []))).1.Register 1
          maxInt).1.Update []).2, maxInt < s.val := by
  rw [calls_replicate_Update _ (by decide)]
  decide

/-! ## The keys and the filter chains of the listeners returned -/

namespace ListenerMap

theorem assign_keys_nodup (m : ListenerMap) (k : String) (v : Listener)
    (h : (m.map Prod.fst).Nodup) : ((assign m k v).map Prod.fst).Nodup := by
  induction m with
  | nil => simp [assign]
  | cons e rest ih =>
    obtain ⟨k1, v1⟩ := e
    rw [List.map_cons, List.nodup_cons] at h
    by_cases hk : k1 = k
    · simp only [assign, hk, if_true, List.map_cons, List.nodup_cons]
      rw [← hk]
      exact h
    · simp only [assign, hk, if_false, List.map_cons, List.nodup_cons]
      refine ⟨?_, ih h.2⟩
      intro hmem
      rw [← index_isSome_iff] at hmem
      rw [index_assign_ne _ _ _ _ hk, index_isSome_iff] at hmem
      exact h.1 hmem

theorem delete_keys_nodup (m : ListenerMap) (k : String)
    (h : (m.map Prod.fst).Nodup) : ((delete m k).map Prod.fst).Nodup :=
  h.sublist ((List.filter_sublist m).map Prod.fst)

theorem mem_iff_index (m : ListenerMap) (h : (m.map Prod.fst).Nodup) (k : String)
    (l : Listener) : (k, l) ∈ m ↔ index m k = some l := by
  induction m with
  | nil => simp [index]
  | cons e rest ih =>
    obtain ⟨k1, v1⟩ := e
    rw [List.map_cons, List.nodup_cons] at h
    by_cases hk : k1 = k
    · subst hk
      simp only [index, if_true, List.mem_cons, Prod.mk.injEq, true_and, Option.some.injEq]
      constructor
      · intro hm
        rcases hm with hm | hm
        · exact hm.symm
        · exact absurd (List.mem_map_of_mem Prod.fst hm) h.1
      · intro hm
        exact Or.inl hm.symm
    · simp only [index, hk, if_false, List.mem_cons, Prod.mk.injEq]
      rw [← ih h.2]
      constructor
      · intro hm
        rcases hm with hm | hm
        · exact absurd hm.1.symm hk
        · exact hm
      · intro hm
        exact Or.inr hm

end ListenerMap

namespace listenerVisitor

theorem visitEncounters_keys_nodup (es : List Encounter) : ∀ (v v2 : listenerVisitor),
    (v.listeners.map Prod.fst).Nodup → visitEncounters v es = some v2 →
    (v2.listeners.map Prod.fst).Nodup := by
  induction es with
  | nil =>
    intro v v2 h hv
    simp only [visitEncounters, Option.some.injEq] at hv
    rw [← hv]
    exact h
  | cons e es ih =>
    intro v v2 h hv
    simp only [visitEncounters] at hv
    cases h1 : visitEncounter v e with
    | none => simp [h1] at hv
    | some v1 =>
      rw [h1] at hv
      apply ih v1 v2 _ hv
      cases e with
      | plain vh =>
        simp only [visitEncounter, Option.some.injEq] at h1
        rw [← h1]
        exact h
      | secure vh =>
        simp only [visitEncounter, visitSecureVirtualHost] at h1
        split at h1
        · simp only [Option.some.injEq] at h1
          rw [← h1]
          exact h
        · split at h1
          · simp only [Option.some.injEq] at h1
            rw [← h1]
            exact ListenerMap.assign_keys_nodup _ _ _ h
          · split at h1
            · cases h1
            · simp only [Option.some.injEq] at h1
              rw [← h1]
              exact ListenerMap.assign_keys_nodup _ _ _ h

theorem finish_keys_nodup (lv : listenerVisitor) (m : ListenerMap)
    (h : (lv.listeners.map Prod.fst).Nodup) (hm : finish lv = some m) :
    (m.map Prod.fst).Nodup := by
  have h1 : ((if !lv.http then ListenerMap.delete lv.listeners ENVOY_HTTP_LISTENER
      else lv.listeners).map Prod.fst).Nodup := by
    split
    · exact ListenerMap.delete_keys_nodup _ _ h
    · exact h
  unfold finish at hm
  split at hm
  · cases hm
  · split at hm
    · simp only [Option.some.injEq] at hm
      rw [← hm]
      exact ListenerMap.delete_keys_nodup _ _ h1
    · simp only [Option.some.injEq] at hm
      rw [← hm]
      exact h1

end listenerVisitor

theorem visitListeners_keys_nodup (root : Vertex) (lvc : ListenerVisitorConfig)
    (m : ListenerMap) (hm : visitListeners root lvc = some m) : (m.map Prod.fst).Nodup := by
  unfold visitListeners at hm
  rw [listenerVisitor.visit_eq_visitEncounters] at hm
  cases h1 : (listenerVisitor.init lvc).visitEncounters root.encounters with
  | none => simp [h1] at hm
  | some lv =>
    rw [h1] at hm
    apply listenerVisitor.finish_keys_nodup lv m _ hm
    apply listenerVisitor.visitEncounters_keys_nodup _ _ _ _ h1
    simp [listenerVisitor.init, http_ne_https]

/-- The entries of the map returned by `visitListeners`: under `ingress_http` the
HTTP listener, under `ingress_https` the HTTPS listener with the filter chains of
the virtual hosts on port 443, which are not none, and under any other key the
listener of the last virtual host with a usable secret and a port other than 443
whose listener has that name. -/
theorem visitListeners_entries (root : Vertex) (lvc : ListenerVisitorConfig)
    (m : ListenerMap) (hm : visitListeners root lvc = some m) (k : String) (l : Listener)
    (hl : (k, l) ∈ m) :
    (k = ENVOY_HTTP_LISTENER ∧ l = listenerVisitor.httpListener lvc) ∨
    (k = ENVOY_HTTPS_LISTENER ∧ httpsChains lvc root.encounters ≠ [] ∧
      l = { listenerVisitor.httpsListener lvc with
        FilterChains := httpsChains lvc root.encounters }) ∨
    (∃ vh ∈ root.secureHosts, vh.usable = true ∧ vh.VirtualHost.Port ≠ 443 ∧
      k = "ingress_tcp_port_" ++ Itoa vh.VirtualHost.Port ∧
      l = listenerVisitor.tcpListener lvc vh k) := by
  obtain ⟨m2, hm2, g1, g2, g3⟩ := visitListeners_spec root lvc
  rw [hm] at hm2
  simp only [Option.some.injEq] at hm2
  subst hm2
  rw [ListenerMap.mem_iff_index m (visitListeners_keys_nodup root lvc m hm)] at hl
  by_cases hk1 : k = ENVOY_HTTP_LISTENER
  · left
    subst hk1
    rw [g1] at hl
    split at hl
    · simp only [Option.some.injEq] at hl
      exact ⟨rfl, hl.symm⟩
    · cases hl
  · by_cases hk2 : k = ENVOY_HTTPS_LISTENER
    · right; left
      subst hk2
      rw [g2] at hl
      split at hl
      · cases hl
      · rename_i hne
        simp only [Option.some.injEq] at hl
        exact ⟨rfl, hne, hl.symm⟩
    · right; right
      rw [g3 k hk1 hk2] at hl
      cases hlast : lastSuch (SecureVirtualHost.onListener k) root.secureHosts with
      | none => simp [hlast] at hl
      | some vh =>
        rw [hlast] at hl
        simp only [Option.map_some', Option.some.injEq] at hl
        obtain ⟨hp, pre, post, hpre, _⟩ := lastSuch_eq_some _ _ _ hlast
        simp only [SecureVirtualHost.onListener, Bool.and_eq_true, decide_eq_true_eq] at hp
        refine ⟨vh, ?_, hp.1.1, hp.1.2, hp.2.symm, hl.symm⟩
        rw [hpre]
        simp

theorem filter_by_name_eq_filter_by_key (f : String → Bool) (m : ListenerMap)
    (h : ∀ e ∈ m, e.2.Name = e.1) :
    (m.map Prod.snd).filter (fun l => f l.Name) = (m.filter (fun e => f e.1)).map Prod.snd := by
  induction m with
  | nil => rfl
  | cons e rest ih =>
    have he := h e (List.mem_cons_self _ _)
    have ih2 := ih (fun e2 h2 => h e2 (List.mem_cons_of_mem _ h2))
    simp only [List.map_cons, List.filter_cons, he]
    split
    · rw [List.map_cons, ih2]
    · exact ih2

/-- C34: `visitListeners` returns a map in which the key of every entry equals
the `Name` of its listener, and every key is `ingress_http`, `ingress_https` or
`ingress_tcp_port_<N>` for the port `N`, different from 443, of a
`SecureVirtualHost` the visitor encounters; so when the map is the content of the
cache, `Values` with a filter on the name returns the listeners of the entries
whose key passes the filter. -/
theorem keys_are_listener_names (root : Vertex) (lvc : ListenerVisitorConfig) :
    ∃ m, visitListeners root lvc = some m ∧
      (∀ k l, (k, l) ∈ m → l.Name = k ∧
        (k = "ingress_http" ∨ k = "ingress_https" ∨
          ∃ vh ∈ root.secureHosts, vh.VirtualHost.Port ≠ 443 ∧
            k = "ingress_tcp_port_" ++ Itoa vh.VirtualHost.Port)) ∧
      (∀ (c : ListenerCache) (filter : String → Bool),
        ((c.Update m).1.Values filter).2 = (m.filter (fun e => filter e.1)).map Prod.snd) := by
  obtain ⟨m, hm, _⟩ := visitListeners_spec root lvc
  have hentries : ∀ k l, (k, l) ∈ m → l.Name = k ∧
      (k = "ingress_http" ∨ k = "ingress_https" ∨
        ∃ vh ∈ root.secureHosts, vh.VirtualHost.Port ≠ 443 ∧
          k = "ingress_tcp_port_" ++ Itoa vh.VirtualHost.Port) := by
    intro k l hl
    rcases visitListeners_entries root lvc m hm k l hl with ⟨h1, h2⟩ | ⟨h1, _, h2⟩ |
      ⟨vh, h1, _, h2, h3, h4⟩
    · rw [h1, h2]
      exact ⟨rfl, Or.inl rfl⟩
    · rw [h1, h2]
      exact ⟨rfl, Or.inr (Or.inl rfl)⟩
    · rw [h4]
      exact ⟨rfl, Or.inr (Or.inr ⟨vh, h1, h2, h3⟩)⟩
  refine ⟨m, hm, hentries, ?_⟩
  intro c filter
  rw [Update_state]
  simp only [Values, valuesLoop_eq, List.nil_append]
  exact filter_by_name_eq_filter_by_key filter m (fun e he => (hentries e.1 e.2 he).1)

/-- C35: `visitListeners` returns a map in which every listener has at least one
filter chain and every filter chain of every listener has exactly one filter. -/
theorem listeners_have_filter_chains (root : Vertex) (lvc : ListenerVisitorConfig) :
    ∃ m, visitListeners root lvc = some m ∧
      ∀ k l, (k, l) ∈ m →
        1 ≤ l.FilterChains.length ∧ ∀ fc ∈ l.FilterChains, fc.Filters.length = 1 := by
  obtain ⟨m, hm, _⟩ := visitListeners_spec root lvc
  refine ⟨m, hm, ?_⟩
  intro k l hl
  rcases visitListeners_entries root lvc m hm k l hl with ⟨_, h2⟩ | ⟨_, hne, h2⟩ |
    ⟨vh, _, _, _, _, h4⟩
  · rw [h2]
    simp [listenerVisitor.httpListener]
  · rw [h2]
    constructor
    · exact List.length_pos.mpr hne
    · intro fc hfc
      simp only [httpsChains, List.mem_map] at hfc
      obtain ⟨vh, _, rfl⟩ := hfc
      simp only [listenerVisitor.filterChain, listenerVisitor.filters]
      split <;> rfl
  · rw [h4]
    simp [listenerVisitor.tcpListener]

/-! ## Go maps with string keys: lemmas -/

namespace GoMap

theorem lookup_isSome_iff {β : Type} (m : List (String × β)) (k : String) :
    (∃ v, lookup m k = some v) ↔ k ∈ m.map Prod.fst := by
  induction m with
  | nil => simp [lookup]
  | cons e rest ih =>
    obtain ⟨k1, v1⟩ := e
    by_cases hk : k1 = k
    · simp [lookup, hk]
    · have hk2 : ¬ k = k1 := fun e => hk e.symm
      simp only [lookup, hk, if_false, List.map_cons, List.mem_cons, hk2, false_or]
      exact ih

theorem assign_nodup {β : Type} (m : List (String × β)) (k : String) (v : β)
    (h : (m.map Prod.fst).Nodup) : ((assign m k v).map Prod.fst).Nodup := by
  induction m with
  | nil => simp [assign]
  | cons e rest ih =>
    obtain ⟨k1, v1⟩ := e
    rw [List.map_cons, List.nodup_cons] at h
    by_cases hk : k1 = k
    · simp only [assign, hk, if_true, List.map_cons, List.nodup_cons]
      rw [← hk]
      exact h
    · simp only [assign, hk, if_false, List.map_cons, List.nodup_cons]
      refine ⟨?_, ih h.2⟩
      intro hmem
      rw [← lookup_isSome_iff] at hmem
      obtain ⟨w, hw⟩ := hmem
      rw [lookup_assign] at hw
      split at hw
      · rename_i e
        exact hk e.symm
      · exact h.1 ((lookup_isSome_iff rest k1).mp ⟨w, hw⟩)

theorem mem_iff_lookup {β : Type} (m : List (String × β)) (h : (m.map Prod.fst).Nodup)
    (k : String) (v : β) : (k, v) ∈ m ↔ lookup m k = some v := by
  induction m with
  | nil => simp [lookup]
  | cons e rest ih =>
    obtain ⟨k1, v1⟩ := e
    rw [List.map_cons, List.nodup_cons] at h
    by_cases hk : k1 = k
    · subst hk
      simp only [lookup, if_true, List.mem_cons, Prod.mk.injEq, true_and, Option.some.injEq]
      constructor
      · intro hm
        rcases hm with hm | hm
        · exact hm.symm
        · exact absurd (List.mem_map_of_mem Prod.fst hm) h.1
      · intro hm
        exact Or.inl hm.symm
    · simp only [lookup, hk, if_false, List.mem_cons, Prod.mk.injEq]
      rw [← ih h.2]
      constructor
      · intro hm
        rcases hm with hm | hm
        · exact absurd hm.1.symm hk
        · exact hm
      · intro hm
        exact Or.inr hm

end GoMap

/-! ## Comma-separated elements and trimmed forms: `strings.Split` and
`strings.TrimSpace` against the words of the specification -/

theorem splitComma_ne_nil (s : List Char) : splitComma s ≠ [] := by
  cases s with
  | nil => simp [splitComma]
  | cons c cs =>
    simp only [splitComma]
    split
    · simp
    · split <;> simp

theorem splitComma_cons_ne (c : Char) (cs y : List Char) (ys : List (List Char))
    (hc : c ≠ ',') (h : splitComma cs = y :: ys) : splitComma (c :: cs) = (c :: y) :: ys := by
  simp [splitComma, hc, h]

theorem splitComma_append (l rest : List Char) :
    splitComma (l ++ ',' :: rest) = splitComma l ++ splitComma rest := by
  induction l with
  | nil => simp [splitComma]
  | cons c l ih =>
    by_cases hc : c = ','
    · simp [splitComma, hc, ih]
    · have hne := splitComma_ne_nil l
      cases h : splitComma l with
      | nil => exact absurd h hne
      | cons y ys =>
        rw [List.cons_append, splitComma_cons_ne c _ y (ys ++ splitComma rest) hc (by rw [ih, h]; rfl),
          splitComma_cons_ne c _ y ys hc h]
        rfl

theorem splitComma_no_comma (x : List Char) (h : ',' ∉ x) : splitComma x = [x] := by
  induction x with
  | nil => rfl
  | cons c x ih =>
    rw [List.mem_cons, not_or] at h
    have hc : c ≠ ',' := fun e => h.1 e.symm
    simp [splitComma, hc, ih h.2]

theorem first_comma (s : List Char) :
    ',' ∉ s ∨ ∃ y rest, s = y ++ ',' :: rest ∧ ',' ∉ y := by
  induction s with
  | nil => exact Or.inl (List.not_mem_nil _)
  | cons c s ih =>
    by_cases hc : c = ','
    · exact Or.inr ⟨[], s, by simp [hc], List.not_mem_nil _⟩
    · rcases ih with h | ⟨y, rest, h1, h2⟩
      · refine Or.inl ?_
        rw [List.mem_cons, not_or]
        exact ⟨fun e => hc e.symm, h⟩
      · refine Or.inr ⟨c :: y, rest, by simp [h1], ?_⟩
        rw [List.mem_cons, not_or]
        exact ⟨fun e => hc e.symm, h2⟩

theorem comma_free_prefix_unique (y x rest r0 : List Char) (hy : ',' ∉ y) (hx : ',' ∉ x)
    (h : y ++ ',' :: rest = x ++ ',' :: r0) : y = x := by
  induction y generalizing x with
  | nil =>
    cases x with
    | nil => rfl
    | cons c x =>
      simp only [List.nil_append, List.cons_append, List.cons.injEq] at h
      exact absurd (h.1 ▸ List.mem_cons_self _ _) hx
  | cons d y ih =>
    cases x with
    | nil =>
      simp only [List.nil_append, List.cons_append, List.cons.injEq] at h
      exact absurd (h.1 ▸ List.mem_cons_self _ _) hy
    | cons c x =>
      simp only [List.cons_append, List.cons.injEq] at h
      rw [List.mem_cons, not_or] at hy hx
      rw [h.1, ih x hy.2 hx.2 h.2]

theorem comma_split_cases (y rest l0 t : List Char) (hy : ',' ∉ y)
    (h : y ++ ',' :: rest = l0 ++ ',' :: t) :
    (l0 = y ∧ rest = t) ∨ ∃ l1, l0 = y ++ ',' :: l1 ∧ rest = l1 ++ ',' :: t := by
  induction y generalizing l0 with
  | nil =>
    cases l0 with
    | nil =>
      simp only [List.nil_append, List.cons.injEq, true_and] at h
      exact Or.inl ⟨rfl, h⟩
    | cons c l0 =>
      simp only [List.nil_append, List.cons_append, List.cons.injEq] at h
      exact Or.inr ⟨l0, by rw [← h.1]; rfl, h.2⟩
  | cons d y ih =>
    rw [List.mem_cons, not_or] at hy
    cases l0 with
    | nil =>
      simp only [List.nil_append, List.cons_append, List.cons.injEq] at h
      exact absurd h.1.symm hy.1
    | cons c l0 =>
      simp only [List.cons_append, List.cons.injEq] at h
      rcases ih l0 hy.2 h.2 with ⟨h1, h2⟩ | ⟨l1, h1, h2⟩
      · exact Or.inl ⟨by rw [h.1, h1], h2⟩
      · exact Or.inr ⟨l1, by rw [h.1, h1]; rfl, h2⟩

theorem mem_splitComma (x : List Char) : ∀ (n : Nat) (s : List Char), s.length ≤ n →
    (x ∈ splitComma s ↔ ',' ∉ x ∧ ∃ l r : List Char, s = l ++ x ++ r ∧
      (l = [] ∨ ∃ l0, l = l0 ++ [',']) ∧ (r = [] ∨ ∃ r0, r = ',' :: r0)) := by
  intro n
  induction n with
  | zero =>
    intro s hs
    have hs0 : s = [] := List.length_eq_zero.mp (Nat.le_zero.mp hs)
    subst hs0
    constructor
    · intro h
      simp only [splitComma, List.mem_singleton] at h
      subst h
      exact ⟨List.not_mem_nil _, [], [], rfl, Or.inl rfl, Or.inl rfl⟩
    · intro ⟨_, l, r, h, _, _⟩
      have h1 : l ++ x ++ r = [] := h.symm
      simp only [List.append_eq_nil] at h1
      simp [splitComma, h1.1.2]
  | succ n ih =>
    intro s hs
    rcases first_comma s with hno | ⟨y, rest, hs1, hy⟩
    · rw [splitComma_no_comma s hno, List.mem_singleton]
      constructor
      · intro h
        subst h
        exact ⟨hno, [], [], by simp, Or.inl rfl, Or.inl rfl⟩
      · intro ⟨_, l, r, h, hl, hr⟩
        rcases hl with rfl | ⟨l0, rfl⟩
        · rcases hr with rfl | ⟨r0, rfl⟩
          · simp at h
            exact h.symm
          · exact absurd (h ▸ by simp) hno
        · exact absurd (h ▸ by simp) hno
    · subst hs1
      have hlen : rest.length ≤ n := by
        simp only [List.length_append, List.length_cons] at hs
        omega
      rw [splitComma_append, splitComma_no_comma y hy, List.singleton_append, List.mem_cons,
        ih rest hlen]
      constructor
      · rintro (h | ⟨hx, l, r, h, hl, hr⟩)
        · subst h
          exact ⟨hy, [], ',' :: rest, by simp, Or.inl rfl, Or.inr ⟨rest, rfl⟩⟩
        · refine ⟨hx, y ++ ',' :: l, r, ?_, Or.inr ?_, hr⟩
          · rw [h]
            simp
          · rcases hl with rfl | ⟨l0, rfl⟩
            · exact ⟨y, rfl⟩
            · exact ⟨y ++ ',' :: l0, by simp⟩
      · rintro ⟨hx, l, r, h, hl, hr⟩
        rcases hl with rfl | ⟨l0, rfl⟩
        · -- the element starts the string
          left
          rcases hr with rfl | ⟨r0, rfl⟩
          · simp only [List.nil_append, List.append_nil] at h
            exact absurd (h ▸ by simp) hx
          · simp only [List.nil_append] at h
            exact (comma_free_prefix_unique _ _ _ _ hy hx h).symm
        · -- the element follows a comma
          right
          refine ⟨hx, ?_⟩
          have h2 : y ++ ',' :: rest = l0 ++ ',' :: (x ++ r) := by
            rw [h]
            simp
          rcases comma_split_cases _ _ _ _ hy h2 with ⟨rfl, hrest⟩ | ⟨l1, rfl, hrest⟩
          · exact ⟨[], r, by simp [hrest], Or.inl rfl, hr⟩
          · exact ⟨l1 ++ [','], r, by simp [hrest], Or.inr ⟨l1, rfl⟩, hr⟩

theorem mem_Split (e s : String) : e ∈ Split s ↔ CommaSeparatedElement e s := by
  unfold Split CommaSeparatedElement
  rw [List.mem_map]
  constructor
  · rintro ⟨x, hx, rfl⟩
    exact (mem_splitComma x _ s.data le_rfl).mp hx
  · intro h
    exact ⟨e.data, (mem_splitComma e.data _ s.data le_rfl).mpr h, rfl⟩

theorem dropWhile_of_all (p : Char → Bool) (l m : List Char) (h : ∀ c ∈ l, p c = true) :
    (l ++ m).dropWhile p = m.dropWhile p := by
  induction l with
  | nil => rfl
  | cons c l ih =>
    have hc : p c = true := h c (List.mem_cons_self _ _)
    rw [List.cons_append, List.dropWhile_cons, if_pos hc]
    exact ih (fun d hd => h d (List.mem_cons_of_mem _ hd))

theorem dropWhile_head_false (p : Char → Bool) (l : List Char) (c : Char) (rest : List Char)
    (h : l.dropWhile p = c :: rest) : p c = false := by
  induction l with
  | nil => simp at h
  | cons d l ih =>
    rw [List.dropWhile_cons] at h
    by_cases hd : p d = true
    · rw [if_pos hd] at h
      exact ih h
    · rw [if_neg hd] at h
      simp only [List.cons.injEq] at h
      rw [← h.1]
      simpa using hd

theorem dropWhile_of_head (p : Char → Bool) (m : List Char)
    (h : ∀ c rest, m = c :: rest → p c = false) : m.dropWhile p = m := by
  cases m with
  | nil => rfl
  | cons c rest =>
    have hc := h c rest rfl
    rw [List.dropWhile_cons, if_neg (by simp [hc])]

theorem TrimSpace_trimmed (e : String) : WhitespaceTrimmed (TrimSpace e) e := by
  have h1 : e.data = e.data.takeWhile isSpace ++ e.data.dropWhile isSpace :=
    (List.takeWhile_append_dropWhile isSpace e.data).symm
  have h2 : (e.data.dropWhile isSpace).reverse =
      (e.data.dropWhile isSpace).reverse.takeWhile isSpace ++
        (e.data.dropWhile isSpace).reverse.dropWhile isSpace :=
    (List.takeWhile_append_dropWhile isSpace _).symm
  have h3 : e.data.dropWhile isSpace =
      ((e.data.dropWhile isSpace).reverse.dropWhile isSpace).reverse ++
        ((e.data.dropWhile isSpace).reverse.takeWhile isSpace).reverse := by
    rw [← List.reverse_append, ← h2, List.reverse_reverse]
  refine ⟨e.data.takeWhile isSpace,
    ((e.data.dropWhile isSpace).reverse.takeWhile isSpace).reverse, ?_, ?_, ?_, ?_, ?_⟩
  · show e.data = _ ++ ((e.data.dropWhile isSpace).reverse.dropWhile isSpace).reverse ++ _
    rw [List.append_assoc, ← h3]
    exact h1
  · intro c hc
    exact List.mem_takeWhile_imp hc
  · intro c hc
    exact List.mem_takeWhile_imp (List.mem_reverse.mp hc)
  · intro c rest ht
    have ht2 : ((e.data.dropWhile isSpace).reverse.dropWhile isSpace).reverse = c :: rest := ht
    rw [ht2] at h3
    exact dropWhile_head_false isSpace e.data c _ h3
  · intro init c ht
    have ht2 : ((e.data.dropWhile isSpace).reverse.dropWhile isSpace).reverse = init ++ [c] := ht
    have ht3 : (e.data.dropWhile isSpace).reverse.dropWhile isSpace = c :: init.reverse := by
      rw [← List.reverse_reverse ((e.data.dropWhile isSpace).reverse.dropWhile isSpace), ht2]
      simp
    exact dropWhile_head_false isSpace _ c _ ht3

theorem WhitespaceTrimmed_unique (t e : String) (h : WhitespaceTrimmed t e) :
    t = TrimSpace e := by
  obtain ⟨l, r, he, hl, hr, hhead, hlast⟩ := h
  apply String.ext
  show t.data = ((e.data.dropWhile isSpace).reverse.dropWhile isSpace).reverse
  rw [he, List.append_assoc, dropWhile_of_all isSpace l _ hl]
  cases ht : t.data with
  | nil =>
    have h0 : ([] ++ r).dropWhile isSpace = [] := by
      have := dropWhile_of_all isSpace r [] hr
      simpa using this
    rw [h0]
    rfl
  | cons c rest =>
    have hc : isSpace c = false := hhead c rest ht
    have h1 : (c :: rest ++ r).dropWhile isSpace = c :: rest ++ r := by
      rw [List.cons_append, List.dropWhile_cons, if_neg (by simp [hc])]
    rw [h1, List.reverse_append, dropWhile_of_all isSpace r.reverse _
      (fun d hd => hr d (List.mem_reverse.mp hd))]
    rw [dropWhile_of_head isSpace (c :: rest).reverse, List.reverse_reverse]
    intro d rest2 hrev
    apply hlast rest2.reverse d
    rw [ht, ← List.reverse_reverse (c :: rest), hrev]
    simp

theorem WhitespaceTrimmed_iff (t e : String) : WhitespaceTrimmed t e ↔ t = TrimSpace e :=
  ⟨WhitespaceTrimmed_unique t e, fun h => h ▸ TrimSpace_trimmed e⟩

theorem listed_iff_ListedIn (p s : String) :
    (p ≠ "" ∧ ∃ piece ∈ Split s, p = TrimSpace piece) ↔ ListedIn p s := by
  unfold ListedIn
  constructor
  · rintro ⟨h1, piece, h2, h3⟩
    exact ⟨h1, piece, (mem_Split piece s).mp h2, (WhitespaceTrimmed_iff p piece).mpr h3⟩
  · rintro ⟨h1, piece, h2, h3⟩
    exact ⟨h1, piece, (mem_Split piece s).mpr h2, (WhitespaceTrimmed_iff p piece).mp h3⟩

/-! ## Upstream protocols -/

theorem mem_listedPorts (m : Annotations) (key p : String) :
    p ∈ listedPorts m key ↔
      p ≠ "" ∧ ∃ piece ∈ Split (Annotations.index m key), p = TrimSpace piece := by
  simp only [listedPorts, List.mem_filter, List.mem_map, decide_eq_true_eq]
  constructor
  · intro ⟨⟨piece, h1, h2⟩, h3⟩
    exact ⟨h3, piece, h1, h2.symm⟩
  · intro ⟨h3, piece, h1, h2⟩
    exact ⟨⟨piece, h1, h2.symm⟩, h3⟩

theorem mem_listedPorts_ListedIn (m : Annotations) (key p : String) :
    p ∈ listedPorts m key ↔ ListedIn p (Annotations.index m key) := by
  rw [mem_listedPorts]
  exact listed_iff_ListedIn p _

theorem upstreamPortsLoop_lookup (protocol : String) (pieces : List String) :
    ∀ (up : List (String × String)) (p : String),
    GoMap.lookup (upstreamPortsLoop protocol pieces up) p =
      if p ∈ (pieces.map TrimSpace).filter (fun x => decide (x ≠ "")) then some protocol
      else GoMap.lookup up p := by
  induction pieces with
  | nil => intro up p; simp [upstreamPortsLoop]
  | cons v rest ih =>
    intro up p
    by_cases hv : TrimSpace v = ""
    · have hstep : upstreamPortsLoop protocol (v :: rest) up =
          upstreamPortsLoop protocol rest up := by
        simp [upstreamPortsLoop, hv]
      have hfil : List.filter (fun x => decide (x ≠ "")) (List.map TrimSpace (v :: rest)) =
          List.filter (fun x => decide (x ≠ "")) (List.map TrimSpace rest) := by
        simp [List.filter_cons, hv]
      rw [hstep, hfil, ih]
    · have hstep : upstreamPortsLoop protocol (v :: rest) up =
          upstreamPortsLoop protocol rest (GoMap.assign up (TrimSpace v) protocol) := by
        simp [upstreamPortsLoop, hv]
      have hfil : List.filter (fun x => decide (x ≠ "")) (List.map TrimSpace (v :: rest)) =
          TrimSpace v :: List.filter (fun x => decide (x ≠ "")) (List.map TrimSpace rest) := by
        simp [List.filter_cons, hv]
      rw [hstep, hfil, ih, GoMap.lookup_assign]
      by_cases h1 : p ∈ List.filter (fun x => decide (x ≠ "")) (List.map TrimSpace rest)
      · rw [if_pos h1, if_pos (List.mem_cons_of_mem _ h1)]
      · rw [if_neg h1]
        by_cases h2 : TrimSpace v = p
        · rw [if_pos h2, if_pos (h2 ▸ List.mem_cons_self _ _)]
        · rw [if_neg h2, if_neg]
          intro hmem
          rcases List.mem_cons.mp hmem with e | e
          · exact h2 e.symm
          · exact h1 e

theorem upstreamPortsLoop_nodup (protocol : String) (pieces : List String) :
    ∀ (up : List (String × String)), (up.map Prod.fst).Nodup →
    ((upstreamPortsLoop protocol pieces up).map Prod.fst).Nodup := by
  induction pieces with
  | nil => intro up h; exact h
  | cons v rest ih =>
    intro up h
    simp only [upstreamPortsLoop]
    split
    · exact ih _ (GoMap.assign_nodup _ _ _ h)
    · exact ih _ h

theorem parseUpstreamProtocols_eq (m : Annotations) :
    parseUpstreamProtocols m =
      upstreamPortsLoop "tls" (Split (Annotations.index m "projectcontour.io/upstream-protocol.tls"))
      (upstreamPortsLoop "h2c" (Split (Annotations.index m "projectcontour.io/upstream-protocol.h2c"))
      (upstreamPortsLoop "h2" (Split (Annotations.index m "projectcontour.io/upstream-protocol.h2"))
      (upstreamPortsLoop "tls" (Split (Annotations.index m "contour.heptio.com/upstream-protocol.tls"))
      (upstreamPortsLoop "h2c" (Split (Annotations.index m "contour.heptio.com/upstream-protocol.h2c"))
      (upstreamPortsLoop "h2" (Split (Annotations.index m "contour.heptio.com/upstream-protocol.h2"))
        []))))) := rfl

theorem parseUpstreamProtocols_lookup (m : Annotations) (p : String) :
    GoMap.lookup (parseUpstreamProtocols m) p =
      if p ∈ listedPorts m "projectcontour.io/upstream-protocol.tls" then some "tls"
      else if p ∈ listedPorts m "projectcontour.io/upstream-protocol.h2c" then some "h2c"
      else if p ∈ listedPorts m "projectcontour.io/upstream-protocol.h2" then some "h2"
      else if p ∈ listedPorts m "contour.heptio.com/upstream-protocol.tls" then some "tls"
      else if p ∈ listedPorts m "contour.heptio.com/upstream-protocol.h2c" then some "h2c"
      else if p ∈ listedPorts m "contour.heptio.com/upstream-protocol.h2" then some "h2"
      else none := by
  rw [parseUpstreamProtocols_eq]
  simp only [upstreamPortsLoop_lookup, listedPorts]
  rfl

/-- C36: `parseUpstreamProtocols(m)` has a key `p` if and only if `p` is not
empty and is the whitespace-trimmed form of a comma-separated element of one of
the six upstream-protocol annotations, the element and the trimmed form being
those of the specification's words (`CommaSeparatedElement`,
`WhitespaceTrimmed`) and not the library functions the code calls; every value of
the result is `h2`, `h2c` or `tls` and is the protocol of an annotation under
which the port is listed; the keys of the result are distinct; two annotation
maps that agree on the six annotations give the same result, so annotations with
other keys have no effect; and a run on three annotations, one with another key,
gives the ports between the commas, trimmed, the empty ones left out. -/
theorem parseUpstreamProtocols_keys (m : Annotations) :
    (∀ p, (∃ v, GoMap.lookup (parseUpstreamProtocols m) p = some v) ↔
      p ≠ "" ∧ ∃ e ∈ upstreamProtocolAnnotations,
        ∃ piece, CommaSeparatedElement piece (Annotations.index m e.1) ∧
          WhitespaceTrimmed p piece) ∧
    (∀ p v, GoMap.lookup (parseUpstreamProtocols m) p = some v →
      (v = "h2" ∨ v = "h2c" ∨ v = "tls") ∧
      ∃ e ∈ upstreamProtocolAnnotations, e.2 = v ∧ ListedIn p (Annotations.index m e.1)) ∧
    ((parseUpstreamProtocols m).map Prod.fst).Nodup ∧
    (∀ p v, (p, v) ∈ parseUpstreamProtocols m ↔
      GoMap.lookup (parseUpstreamProtocols m) p = some v) ∧
    (∀ m2 : Annotations,
      (∀ e ∈ upstreamProtocolAnnotations, Annotations.index m2 e.1 = Annotations.index m e.1) →
      parseUpstreamProtocols m2 = parseUpstreamProtocols m) ∧
    parseUpstreamProtocols
      [("projectcontour.io/upstream-protocol.h2", " 80, 443 ,,\t8080"),
        ("contour.heptio.com/upstream-protocol.tls", "443,https"),
        ("projectcontour.io/num-retries", "7,8")] =
      [("443", "h2"), ("https", "tls"), ("80", "h2"), ("8080", "h2")] := by
  have hvalues : ∀ p v, GoMap.lookup (parseUpstreamProtocols m) p = some v →
      (v = "h2" ∨ v = "h2c" ∨ v = "tls") ∧
      ∃ e ∈ upstreamProtocolAnnotations, e.2 = v ∧ p ∈ listedPorts m e.1 := by
    intro p v hv
    rw [parseUpstreamProtocols_lookup] at hv
    simp only [upstreamProtocolAnnotations, List.mem_cons, List.mem_singleton, exists_eq_or_imp,
      exists_eq_left, List.not_mem_nil, false_and, exists_false, or_false]
    split at hv
    · rename_i h
      simp only [Option.some.injEq] at hv
      subst hv
      exact ⟨by decide, Or.inr (Or.inr (Or.inr (Or.inr (Or.inr ⟨rfl, h⟩))))⟩
    · split at hv
      · rename_i h
        simp only [Option.some.injEq] at hv
        subst hv
        exact ⟨by decide, Or.inr (Or.inr (Or.inr (Or.inr (Or.inl ⟨rfl, h⟩))))⟩
      · split at hv
        · rename_i h
          simp only [Option.some.injEq] at hv
          subst hv
          exact ⟨by decide, Or.inr (Or.inr (Or.inr (Or.inl ⟨rfl, h⟩)))⟩
        · split at hv
          · rename_i h
            simp only [Option.some.injEq] at hv
            subst hv
            exact ⟨by decide, Or.inr (Or.inr (Or.inl ⟨rfl, h⟩))⟩
          · split at hv
            · rename_i h
              simp only [Option.some.injEq] at hv
              subst hv
              exact ⟨by decide, Or.inr (Or.inl ⟨rfl, h⟩)⟩
            · split at hv
              · rename_i h
                simp only [Option.some.injEq] at hv
                subst hv
                exact ⟨by decide, Or.inl ⟨rfl, h⟩⟩
              · cases hv
  have hnodup : ((parseUpstreamProtocols m).map Prod.fst).Nodup := by
    rw [parseUpstreamProtocols_eq]
    repeat apply upstreamPortsLoop_nodup
    exact List.nodup_nil
  refine ⟨?_, ?_, hnodup, fun p v => GoMap.mem_iff_lookup _ hnodup p v, ?_, by decide⟩
  · intro p
    constructor
    · intro ⟨v, hv⟩
      obtain ⟨_, e, he, _, hp⟩ := hvalues p v hv
      rw [mem_listedPorts_ListedIn] at hp
      exact ⟨hp.1, e, he, hp.2⟩
    · intro ⟨hne, e, he, piece, hpiece, hp⟩
      have hlisted : p ∈ listedPorts m e.1 :=
        (mem_listedPorts_ListedIn m e.1 p).mpr ⟨hne, piece, hpiece, hp⟩
      rw [parseUpstreamProtocols_lookup]
      simp only [upstreamProtocolAnnotations, List.mem_cons, List.mem_singleton,
        List.not_mem_nil, or_false] at he
      rcases he with rfl | rfl | rfl | rfl | rfl | rfl
      all_goals
        simp only at hlisted
        split_ifs <;> exact ⟨_, rfl⟩
  · intro p v hv
    obtain ⟨h1, e, he, h2, hp⟩ := hvalues p v hv
    exact ⟨h1, e, he, h2, (mem_listedPorts_ListedIn m e.1 p).mp hp⟩
  · intro m2 h
    rw [parseUpstreamProtocols_eq, parseUpstreamProtocols_eq]
    rw [h ("contour.heptio.com/upstream-protocol.h2", "h2") (by decide),
      h ("contour.heptio.com/upstream-protocol.h2c", "h2c") (by decide),
      h ("contour.heptio.com/upstream-protocol.tls", "tls") (by decide),
      h ("projectcontour.io/upstream-protocol.h2", "h2") (by decide),
      h ("projectcontour.io/upstream-protocol.h2c", "h2c") (by decide),
      h ("projectcontour.io/upstream-protocol.tls", "tls") (by decide)]

/-- C37: `parseUpstreamProtocols` maps a port to the protocol of its last listing
in the order legacy `h2`, `h2c`, `tls`, then `projectcontour.io` `h2`, `h2c`,
`tls`.  So a port listed under a `projectcontour.io` annotation gets the protocol
of its last `projectcontour.io` listing, whatever the legacy annotations list; and
within one prefix `tls` overrides `h2c`, which overrides `h2`. -/
theorem parseUpstreamProtocols_last_listing (m : Annotations) (p : String) :
    GoMap.lookup (parseUpstreamProtocols m) p =
      (lastSuch (fun e => decide (p ∈ listedPorts m e.1)) upstreamProtocolAnnotations).map
        Prod.snd ∧
    ((∃ e ∈ upstreamProtocolAnnotations.drop 3, p ∈ listedPorts m e.1) →
      GoMap.lookup (parseUpstreamProtocols m) p =
        (lastSuch (fun e => decide (p ∈ listedPorts m e.1))
          (upstreamProtocolAnnotations.drop 3)).map Prod.snd) ∧
    (p ∈ listedPorts m "projectcontour.io/upstream-protocol.tls" →
      GoMap.lookup (parseUpstreamProtocols m) p = some "tls") ∧
    (p ∉ listedPorts m "projectcontour.io/upstream-protocol.tls" →
      p ∈ listedPorts m "projectcontour.io/upstream-protocol.h2c" →
      GoMap.lookup (parseUpstreamProtocols m) p = some "h2c") ∧
    (p ∉ listedPorts m "projectcontour.io/upstream-protocol.tls" →
      p ∉ listedPorts m "projectcontour.io/upstream-protocol.h2c" →
      p ∈ listedPorts m "projectcontour.io/upstream-protocol.h2" →
      GoMap.lookup (parseUpstreamProtocols m) p = some "h2") ∧
    ((∀ e ∈ upstreamProtocolAnnotations.drop 3, p ∉ listedPorts m e.1) →
      (p ∈ listedPorts m "contour.heptio.com/upstream-protocol.tls" →
        GoMap.lookup (parseUpstreamProtocols m) p = some "tls") ∧
      (p ∉ listedPorts m "contour.heptio.com/upstream-protocol.tls" →
        p ∈ listedPorts m "contour.heptio.com/upstream-protocol.h2c" →
        GoMap.lookup (parseUpstreamProtocols m) p = some "h2c") ∧
      (p ∉ listedPorts m "contour.heptio.com/upstream-protocol.tls" →
        p ∉ listedPorts m "contour.heptio.com/upstream-protocol.h2c" →
        p ∈ listedPorts m "contour.heptio.com/upstream-protocol.h2" →
        GoMap.lookup (parseUpstreamProtocols m) p = some "h2")) := by
  rw [parseUpstreamProtocols_lookup]
  simp only [upstreamProtocolAnnotations, lastSuch, List.drop, List.mem_cons, List.mem_singleton,
    List.not_mem_nil, or_false, exists_eq_or_imp, exists_eq_left, forall_eq_or_imp, forall_eq]
  by_cases h6 : p ∈ listedPorts m "projectcontour.io/upstream-protocol.tls" <;>
  by_cases h5 : p ∈ listedPorts m "projectcontour.io/upstream-protocol.h2c" <;>
  by_cases h4 : p ∈ listedPorts m "projectcontour.io/upstream-protocol.h2" <;>
  by_cases h3 : p ∈ listedPorts m "contour.heptio.com/upstream-protocol.tls" <;>
  by_cases h2 : p ∈ listedPorts m "contour.heptio.com/upstream-protocol.h2c" <;>
  by_cases h1 : p ∈ listedPorts m "contour.heptio.com/upstream-protocol.h2" <;>
  simp [h1, h2, h3, h4, h5, h6]

/-! ## Websocket routes -/

theorem websocketLoop_nodup (pieces : List String) :
    ∀ (routes : List (String × Bool)), (routes.map Prod.fst).Nodup →
    ((websocketLoop pieces routes).map Prod.fst).Nodup := by
  induction pieces with
  | nil => intro routes h; exact h
  | cons v rest ih =>
    intro routes h
    simp only [websocketLoop]
    split
    · exact ih _ (GoMap.assign_nodup _ _ _ h)
    · exact ih _ h

theorem websocketRoutes_lookup (a : Annotations) (r : String) :
    GoMap.lookup (websocketRoutes a) r =
      if r ∈ listedPorts a "contour.heptio.com/websocket-routes" ∨
        r ∈ listedPorts a "projectcontour.io/websocket-routes" then some true else none := by
  unfold websocketRoutes listedPorts
  rw [websocketLoop_lookup, websocketLoop_lookup]
  by_cases h1 : r ∈ ((Split (Annotations.index a "contour.heptio.com/websocket-routes")).map
      TrimSpace).filter (fun x => decide (x ≠ ""))
  · rw [if_pos h1, if_pos (Or.inl h1)]
  · by_cases h2 : r ∈ ((Split (Annotations.index a "projectcontour.io/websocket-routes")).map
        TrimSpace).filter (fun x => decide (x ≠ ""))
    · rw [if_neg h1, if_pos h2, if_pos (Or.inr h2)]
    · rw [if_neg h1, if_neg h2, if_neg (fun h => h.elim h1 h2)]
      rfl

/-- C38: `websocketRoutes(i)` is the set of the non-empty, whitespace-trimmed,
comma-separated elements of the `projectcontour.io/websocket-routes` and the
`contour.heptio.com/websocket-routes` annotation taken together, the element and
the trimmed form being those of the specification's words
(`CommaSeparatedElement`, `WhitespaceTrimmed`) and not the library functions the
code calls: a string is a key of the result if and only if it is not empty and
is the trimmed form of an element of one of the two; the keys are distinct; every
key maps to true; the empty string is no key; with neither annotation present
the result is empty; and a run on both annotations gives the routes between the
commas, trimmed, the empty ones left out. -/
theorem websocketRoutes_union (a : Annotations) :
    (∀ r, (∃ v, GoMap.lookup (websocketRoutes a) r = some v) ↔
      r ≠ "" ∧ ∃ piece,
        (CommaSeparatedElement piece (Annotations.index a "projectcontour.io/websocket-routes") ∨
          CommaSeparatedElement piece
            (Annotations.index a "contour.heptio.com/websocket-routes")) ∧
        WhitespaceTrimmed r piece) ∧
    ((websocketRoutes a).map Prod.fst).Nodup ∧
    (∀ r v, (r, v) ∈ websocketRoutes a → v = true ∧ r ≠ "") ∧
    GoMap.lookup (websocketRoutes a) "" = none ∧
    (Annotations.lookup a "projectcontour.io/websocket-routes" = none →
      Annotations.lookup a "contour.heptio.com/websocket-routes" = none →
      websocketRoutes a = []) ∧
    websocketRoutes
      [("projectcontour.io/websocket-routes", " /ws1 ,/ws2,, "),
        ("contour.heptio.com/websocket-routes", "/ws2,\t/ws3"),
        ("projectcontour.io/num-retries", "/ws4")] =
      [("/ws1", true), ("/ws2", true), ("/ws3", true)] := by
  have hnodup : ((websocketRoutes a).map Prod.fst).Nodup := by
    unfold websocketRoutes
    apply websocketLoop_nodup
    apply websocketLoop_nodup
    exact List.nodup_nil
  have hkeys : ∀ r, (∃ v, GoMap.lookup (websocketRoutes a) r = some v) ↔
      r ≠ "" ∧ ∃ piece,
        (CommaSeparatedElement piece (Annotations.index a "projectcontour.io/websocket-routes") ∨
          CommaSeparatedElement piece
            (Annotations.index a "contour.heptio.com/websocket-routes")) ∧
        WhitespaceTrimmed r piece := by
    intro r
    rw [websocketRoutes_lookup]
    constructor
    · intro ⟨v, hv⟩
      split at hv
      · rename_i h
        rcases h with h | h
        · rw [mem_listedPorts_ListedIn] at h
          obtain ⟨h1, piece, h2, h3⟩ := h
          exact ⟨h1, piece, Or.inr h2, h3⟩
        · rw [mem_listedPorts_ListedIn] at h
          obtain ⟨h1, piece, h2, h3⟩ := h
          exact ⟨h1, piece, Or.inl h2, h3⟩
      · cases hv
    · intro ⟨h1, piece, h2, h3⟩
      rw [if_pos]
      · exact ⟨_, rfl⟩
      · rcases h2 with h2 | h2
        · exact Or.inr ((mem_listedPorts_ListedIn _ _ _).mpr ⟨h1, piece, h2, h3⟩)
        · exact Or.inl ((mem_listedPorts_ListedIn _ _ _).mpr ⟨h1, piece, h2, h3⟩)
  refine ⟨hkeys, hnodup, ?_, ?_, ?_, by decide⟩
  · intro r v hrv
    rw [GoMap.mem_iff_lookup _ hnodup] at hrv
    refine ⟨?_, ((hkeys r).mp ⟨v, hrv⟩).1⟩
    rw [websocketRoutes_lookup] at hrv
    split at hrv
    · simp only [Option.some.injEq] at hrv
      exact hrv.symm
    · cases hrv
  · cases h : GoMap.lookup (websocketRoutes a) "" with
    | none => rfl
    | some v => exact absurd rfl ((hkeys "").mp ⟨v, h⟩).1
  · intro h1 h2
    simp [websocketRoutes, Annotations.index, h1, h2, Split, splitComma, websocketLoop,
      TrimSpace]

/-! ## Valid annotations -/

theorem replaceScan_skip (old new : List Char) (ys : List Char) :
    ∀ xs : List Char, replaceScan old new ys.length (ys ++ xs) = replaceScan old new 0 xs := by
  induction ys with
  | nil => intro xs; rfl
  | cons y ys ih =>
    intro xs
    simp only [List.length_cons, List.cons_append, replaceScan]
    exact ih xs

theorem replaceScan_occurrence (c : Char) (old new : List Char) (xs : List Char) :
    replaceScan (c :: old) new 0 ((c :: old) ++ xs) = new ++ replaceScan (c :: old) new 0 xs := by
  have h : (c :: old).isPrefixOf (c :: (old ++ xs)) = true := by
    rw [List.isPrefixOf_iff_prefix]
    exact ⟨xs, rfl⟩
  rw [List.cons_append, replaceScan, if_pos h]
  simp only [List.length_cons, Nat.add_sub_cancel]
  rw [replaceScan_skip]

theorem replaceScan_keeps_new (xs : List Char) :
    replaceScan "contour.heptio.com/".data "projectcontour.io/".data 0
        ("projectcontour.io/".data ++ xs) =
      "projectcontour.io/".data ++
        replaceScan "contour.heptio.com/".data "projectcontour.io/".data 0 xs := by
  have e1 : ("contour.heptio.com/" : String).data =
      ['c', 'o', 'n', 't', 'o', 'u', 'r', '.', 'h', 'e', 'p', 't', 'i', 'o', '.', 'c', 'o', 'm',
        '/'] := rfl
  have e2 : ("projectcontour.io/" : String).data =
      ['p', 'r', 'o', 'j', 'e', 'c', 't', 'c', 'o', 'n', 't', 'o', 'u', 'r', '.', 'i', 'o',
        '/'] := rfl
  rw [e1, e2]
  simp [replaceScan, List.isPrefixOf]

theorem Replace_legacy (x : String) :
    Replace ("contour.heptio.com/" ++ x) "contour.heptio.com/" "projectcontour.io/" =
      "projectcontour.io/" ++ Replace x "contour.heptio.com/" "projectcontour.io/" := by
  apply String.ext
  unfold Replace
  rw [String.data_append, String.data_append]
  exact replaceScan_occurrence 'c' _ _ x.data

theorem Replace_new (x : String) :
    Replace ("projectcontour.io/" ++ x) "contour.heptio.com/" "projectcontour.io/" =
      "projectcontour.io/" ++ Replace x "contour.heptio.com/" "projectcontour.io/" := by
  apply String.ext
  unfold Replace
  rw [String.data_append, String.data_append]
  exact replaceScan_keeps_new x.data

/-- C39: legacy names are canonicalized.  For every kind, so for each of the
known kinds Ingress, Service, HTTPProxy and IngressRoute, and every suffix `x`,
`validAnnotationForKind(kind, "contour.heptio.com/" + x)` equals
`validAnnotationForKind(kind, "projectcontour.io/" + x)`: both keys are replaced
by the same canonical key. -/
theorem legacy_names_canonicalized (kind x : String) :
    validAnnotationForKind kind ("contour.heptio.com/" ++ x) =
      validAnnotationForKind kind ("projectcontour.io/" ++ x) ∧
    Replace ("contour.heptio.com/" ++ x) "contour.heptio.com/" "projectcontour.io/" =
      Replace ("projectcontour.io/" ++ x) "contour.heptio.com/" "projectcontour.io/" := by
  have hrep : Replace ("contour.heptio.com/" ++ x) "contour.heptio.com/" "projectcontour.io/" =
      Replace ("projectcontour.io/" ++ x) "contour.heptio.com/" "projectcontour.io/" := by
    rw [Replace_legacy, Replace_new]
  refine ⟨?_, hrep⟩
  unfold validAnnotationForKind
  cases GoMap.lookup annotationsByKind kind with
  | some a =>
    simp only [hrep]
  | none =>
    have h1 : HasPrefix ("contour.heptio.com/" ++ x) "contour.heptio.com/" = true := by
      simp [HasPrefix, String.data_append]
    have h2 : HasPrefix ("projectcontour.io/" ++ x) "projectcontour.io/" = true := by
      simp [HasPrefix, String.data_append]
    simp [h1, h2]

theorem replaceScan_prefix (old new : List Char) (p : Char) :
    ∀ (t k : List Char), (∀ c ∈ t, c ≠ p) → t <+: replaceScan old (p :: new) 0 k → t <+: k := by
  intro t
  induction t with
  | nil => intro k _ _; exact List.nil_prefix
  | cons a t ih =>
    intro k hp h
    cases k with
    | nil =>
      simp only [replaceScan] at h
      exact h
    | cons c cs =>
      rw [replaceScan] at h
      split at h
      · rw [List.cons_append, List.cons_prefix_cons] at h
        exact absurd h.1 (hp a (List.mem_cons_self _ _))
      · rw [List.cons_prefix_cons] at h
        rw [List.cons_prefix_cons]
        exact ⟨h.1, ih cs (fun c2 hc => hp c2 (List.mem_cons_of_mem _ hc)) h.2⟩

theorem replaceScan_eq (old new : List Char) :
    ∀ (k t : List Char), (t.tails.all (fun s => !new.isPrefixOf s)) = true →
      replaceScan old new 0 k = t → k = t := by
  intro k
  induction k with
  | nil =>
    intro t _ h
    simp only [replaceScan] at h
    exact h
  | cons c cs ih =>
    intro t ht h
    rw [replaceScan] at h
    split at h
    · exfalso
      rw [List.all_eq_true] at ht
      have h1 := ht t (by simp)
      have h2 : new.isPrefixOf t = true := by
        rw [List.isPrefixOf_iff_prefix, ← h]
        exact List.prefix_append _ _
      rw [h2] at h1
      cases h1
    · cases t with
      | nil => cases h
      | cons a t =>
        rw [List.cons.injEq] at h
        rw [List.tails_cons, List.all_cons, Bool.and_eq_true] at ht
        rw [h.1, ih t ht.2 h.2]

theorem annotationsByKind_entries (kind : String) (a : List String)
    (h : GoMap.lookup annotationsByKind kind = some a) :
    kind ∈ ["Ingress", "Service", "HTTPProxy", "IngressRoute"] ∧
    ∀ e ∈ a, HasPrefix e "projectcontour.io/" = true ∨
      e = "ingress.kubernetes.io/force-ssl-redirect" ∨
      e = "kubernetes.io/ingress.allow-http" ∨ e = "kubernetes.io/ingress.class" := by
  simp only [annotationsByKind, GoMap.lookup] at h
  split at h
  · rename_i hk
    simp only [Option.some.injEq] at h
    subst h
    exact ⟨by simp [← hk], by decide⟩
  · split at h
    · rename_i hk
      simp only [Option.some.injEq] at h
      subst h
      exact ⟨by simp [← hk], by decide⟩
    · split at h
      · rename_i hk
        simp only [Option.some.injEq] at h
        subst h
        exact ⟨by simp [← hk], by decide⟩
      · split at h
        · rename_i hk
          simp only [Option.some.injEq] at h
          subst h
          exact ⟨by simp [← hk], by decide⟩
        · cases h

theorem annotationsByKind_unknown (kind : String)
    (h : kind ∉ ["Ingress", "Service", "HTTPProxy", "IngressRoute"]) :
    GoMap.lookup annotationsByKind kind = none := by
  cases hl : GoMap.lookup annotationsByKind kind with
  | none => rfl
  | some a => exact absurd (annotationsByKind_entries kind a hl).1 h

theorem canonical_key_known (key : String)
    (h : HasPrefix (Replace key "contour.heptio.com/" "projectcontour.io/")
        "projectcontour.io/" = true ∨
      Replace key "contour.heptio.com/" "projectcontour.io/" =
        "ingress.kubernetes.io/force-ssl-redirect" ∨
      Replace key "contour.heptio.com/" "projectcontour.io/" =
        "kubernetes.io/ingress.allow-http" ∨
      Replace key "contour.heptio.com/" "projectcontour.io/" = "kubernetes.io/ingress.class") :
    annotationIsKnown key = true := by
  have hscan : (Replace key "contour.heptio.com/" "projectcontour.io/").data =
      replaceScan "contour.heptio.com/".data ('p' :: "rojectcontour.io/".data) 0 key.data := rfl
  rcases h with h | h | h | h
  · -- the canonical key has the Contour prefix: so has the key, or it has the legacy one
    simp only [HasPrefix, List.isPrefixOf_iff_prefix] at h
    rw [hscan] at h
    cases hk : key.data with
    | nil =>
      rw [hk] at h
      simp only [replaceScan] at h
      exact absurd h (by decide)
    | cons c cs =>
      rw [hk, replaceScan] at h
      split at h
      · rename_i hold
        have : HasPrefix key "contour.heptio.com/" = true := by
          simp only [HasPrefix, hk]
          exact hold
        simp [annotationIsKnown, this]
      · rw [List.cons_prefix_cons] at h
        have h2 := replaceScan_prefix _ _ 'p' _ cs (by decide) h.2
        have : HasPrefix key "projectcontour.io/" = true := by
          simp only [HasPrefix, hk, List.isPrefixOf_iff_prefix]
          exact List.cons_prefix_cons.mpr ⟨h.1, h2⟩
        simp [annotationIsKnown, this]
  · have h1 : "ingress.kubernetes.io/".data <+:
        (Replace key "contour.heptio.com/" "projectcontour.io/").data := by
      rw [h]
      decide
    rw [hscan] at h1
    have h2 := replaceScan_prefix _ _ 'p' _ key.data (by decide) h1
    have : HasPrefix key "ingress.kubernetes.io/" = true := by
      simp only [HasPrefix, List.isPrefixOf_iff_prefix]
      exact h2
    simp [annotationIsKnown, this]
  · have h1 := congrArg String.data h
    have h2 := replaceScan_eq _ _ key.data _ (by decide) h1
    have h3 : key = "kubernetes.io/ingress.allow-http" := String.ext h2
    rw [h3]
    decide
  · have h1 := congrArg String.data h
    have h2 := replaceScan_eq _ _ key.data _ (by decide) h1
    have h3 : key = "kubernetes.io/ingress.class" := String.ext h2
    rw [h3]
    decide

/-- C40: for a kind that is not in `annotationsByKind`,
`validAnnotationForKind(kind, key)` is false exactly when `key` starts with
`projectcontour.io/` or `contour.heptio.com/`, and true for every other key; and
for a kind that is in it, every key that `validAnnotationForKind` accepts is
accepted by `annotationIsKnown`. -/
theorem validAnnotationForKind_unknown_kind_and_known (kind key : String) :
    (kind ∉ ["Ingress", "Service", "HTTPProxy", "IngressRoute"] →
      GoMap.lookup annotationsByKind kind = none ∧
      (validAnnotationForKind kind key = false ↔
        (HasPrefix key "projectcontour.io/" = true ∨
          HasPrefix key "contour.heptio.com/" = true)) ∧
      (validAnnotationForKind kind key = true ↔
        (HasPrefix key "projectcontour.io/" = false ∧
          HasPrefix key "contour.heptio.com/" = false))) ∧
    (kind ∈ ["Ingress", "Service", "HTTPProxy", "IngressRoute"] →
      (∃ a, GoMap.lookup annotationsByKind kind = some a) ∧
      (validAnnotationForKind kind key = true → annotationIsKnown key = true)) := by
  constructor
  · intro h
    have hl := annotationsByKind_unknown kind h
    refine ⟨hl, ?_, ?_⟩
    · simp only [validAnnotationForKind, hl]
      cases HasPrefix key "projectcontour.io/" <;> cases HasPrefix key "contour.heptio.com/" <;>
        simp
    · simp only [validAnnotationForKind, hl]
      cases HasPrefix key "projectcontour.io/" <;> cases HasPrefix key "contour.heptio.com/" <;>
        simp
  · intro h
    cases hl : GoMap.lookup annotationsByKind kind with
    | none =>
      exfalso
      simp only [List.mem_cons, List.mem_singleton, List.not_mem_nil, or_false] at h
      rcases h with rfl | rfl | rfl | rfl <;> simp [annotationsByKind, GoMap.lookup] at hl
    | some a =>
      refine ⟨⟨a, rfl⟩, ?_⟩
      intro hv
      simp only [validAnnotationForKind, hl, decide_eq_true_eq] at hv
      apply canonical_key_known
      rcases (annotationsByKind_entries kind a hl).2 _ hv with h1 | h1 | h1 | h1
      · exact Or.inl h1
      · exact Or.inr (Or.inl h1)
      · exact Or.inr (Or.inr (Or.inl h1))
      · exact Or.inr (Or.inr (Or.inr h1))

/-! ## Services with a port or a weight out of range -/

theorem builder.routePasses_bad_service (c : KubernetesCache)
    (ir : ingressroutev1.IngressRoute) (pfx : String) (path : List Meta)
    (r : ingressroutev1.Route) (s : ingressroutev1.Service) (hs : s ∈ r.Services)
    (hbad : s.Port < 1 ∨ 65535 < s.Port ∨ s.Weight < 0) :
    builder.routePasses c ir pfx path r = false := by
  have hne : r.Services ≠ [] := List.ne_nil_of_mem hs
  have hok : KubernetesCache.serviceOK c ir.Namespace s = false := by
    unfold KubernetesCache.serviceOK
    rcases hbad with h | h | h
    · have h2 : ¬ 1 ≤ s.Port := by omega
      simp [h2]
    · have h2 : ¬ s.Port ≤ 65535 := by omega
      simp [h2]
    · have h2 : ¬ 0 ≤ s.Weight := by omega
      simp [h2]
  have hall : r.Services.all (KubernetesCache.serviceOK c ir.Namespace) = false := by
    cases ha : r.Services.all (KubernetesCache.serviceOK c ir.Namespace) with
    | false => rfl
    | true =>
      rw [List.all_eq_true] at ha
      rw [ha s hs] at hok
      cases hok
  unfold builder.routePasses
  cases r.Delegate with
  | none => simp [hall]
  | some d => simp [hne]

theorem builder.routePasses_delegation (c : KubernetesCache)
    (hnd : (c.ingressroutes.map ingressroutev1.IngressRoute.key).Nodup)
    (y : ingressroutev1.IngressRoute) (hy : y ∈ c.ingressroutes) (hroot : y.VirtualHost ≠ none)
    (r : ingressroutev1.Route) (hs : r.Services = [])
    (hd : ∃ d, r.Delegate = some d ∧ ∀ dest,
      KubernetesCache.findIngressRoute c.ingressroutes (delegateKey y d) = some dest →
      dest.VirtualHost = none) :
    builder.routePasses c y "" [y.key] r = true := by
  obtain ⟨d, hd1, hd2⟩ := hd
  simp only [builder.routePasses, HasPrefix_empty, hd1, hs, Bool.true_and, decide_True]
  cases hf : KubernetesCache.findIngressRoute c.ingressroutes (delegateKey y d) with
  | none => rfl
  | some dest =>
    have hdest := hd2 dest hf
    have hmem := (KubernetesCache.findIngressRoute_some _ _ _ hf).1
    simp only [Bool.and_eq_true, decide_eq_true_eq, List.mem_singleton]
    refine ⟨?_, hdest⟩
    intro hk
    have e := KubernetesCache.key_unique _ hnd dest y hmem hy hk
    rw [e] at hdest
    exact hroot hdest

theorem builder.routePasses_services (c : KubernetesCache) (z : ingressroutev1.IngressRoute)
    (pfx : String) (path : List Meta) (r : ingressroutev1.Route)
    (hpre : HasPrefix r.Match pfx = true) (hd : r.Delegate = none) (hne : r.Services ≠ [])
    (hok : r.Services.all (KubernetesCache.serviceOK c z.Namespace) = true) :
    builder.routePasses c z pfx path r = true := by
  simp [builder.routePasses, hpre, hd, hne, hok]

/-- C31: let an IngressRoute `x` of the cache have a route with a service whose
port is outside [1, 65535] or whose weight is below 0.  Then `x` never has the
status valid.  If `x` is an accepted root, it is invalid under its FQDN and
counted in invalid under (namespace, FQDN).  If `x` is no root and the DFS from an
accepted root reaches it, it is invalid under the FQDN of an accepted root that
reaches it and counted there.  Meanwhile an accepted root whose routes only
delegate, to IngressRoutes that are absent or are no roots, is valid under its
FQDN, and an IngressRoute that is no root, is reached, and whose routes all have
services in order and a prefix that starts with the prefix of every route
delegating to it, is valid under the FQDN of an accepted root that reaches it. -/
theorem invalid_service_counted_invalid (rootNamespaces : List String) (objs : List Object)
    (x : ingressroutev1.IngressRoute) (r : ingressroutev1.Route)
    (s : ingressroutev1.Service)
    (hx : x ∈ (KubernetesCache.ofObjects rootNamespaces objs).ingressroutes)
    (hr : r ∈ x.Routes) (hs : s ∈ r.Services)
    (hbad : s.Port < 1 ∨ 65535 < s.Port ∨ s.Weight < 0) :
    ∃ l M, Statuses (KubernetesCache.ofObjects rootNamespaces objs) = some l ∧
      ingressRouteMetric rootNamespaces objs = some M ∧
      (l.map ObjectStatus.Object).Nodup ∧
      (∀ h, ({ Object := x, Status := StatusKind.valid, Vhost := h } : ObjectStatus) ∉ l) ∧
      (∀ h, (x, h) ∈ acceptedRoots (KubernetesCache.ofObjects rootNamespaces objs) →
        { Object := x, Status := StatusKind.invalid, Vhost := h } ∈ l ∧
        1 ≤ metrics.get M.Invalid { VHost := h, Namespace := x.Namespace }) ∧
      (x.VirtualHost = none →
        (∃ p ∈ acceptedRoots (KubernetesCache.ofObjects rootNamespaces objs),
          builder.Reaches (KubernetesCache.ofObjects rootNamespaces objs) p.1 "" [] x) →
        ∃ q ∈ acceptedRoots (KubernetesCache.ofObjects rootNamespaces objs),
          builder.Reaches (KubernetesCache.ofObjects rootNamespaces objs) q.1 "" [] x ∧
          { Object := x, Status := StatusKind.invalid, Vhost := q.2 } ∈ l ∧
          1 ≤ metrics.get M.Invalid { VHost := q.2, Namespace := x.Namespace }) ∧
      (∀ y h, (y, h) ∈ acceptedRoots (KubernetesCache.ofObjects rootNamespaces objs) →
        (∀ r1 ∈ y.Routes, r1.Services = [] ∧ ∃ d, r1.Delegate = some d ∧ ∀ dest,
          KubernetesCache.findIngressRoute
            (KubernetesCache.ofObjects rootNamespaces objs).ingressroutes
            (delegateKey y d) = some dest → dest.VirtualHost = none) →
        { Object := y, Status := StatusKind.valid, Vhost := h } ∈ l ∧
        1 ≤ metrics.get M.Valid { VHost := h, Namespace := y.Namespace }) ∧
      (∀ z ∈ (KubernetesCache.ofObjects rootNamespaces objs).ingressroutes,
        z.VirtualHost = none →
        (∃ p ∈ acceptedRoots (KubernetesCache.ofObjects rootNamespaces objs),
          builder.Reaches (KubernetesCache.ofObjects rootNamespaces objs) p.1 "" [] z) →
        (∀ r2 ∈ z.Routes, r2.Delegate = none ∧ r2.Services ≠ [] ∧
          r2.Services.all (KubernetesCache.serviceOK
            (KubernetesCache.ofObjects rootNamespaces objs) z.Namespace) = true) →
        (∀ y ∈ (KubernetesCache.ofObjects rootNamespaces objs).ingressroutes,
          ∀ r1 ∈ y.Routes, ∀ d, r1.Delegate = some d →
          KubernetesCache.findIngressRoute
            (KubernetesCache.ofObjects rootNamespaces objs).ingressroutes
            (delegateKey y d) = some z →
          ∀ r2 ∈ z.Routes, HasPrefix r2.Match r1.Match = true) →
        ∃ q ∈ acceptedRoots (KubernetesCache.ofObjects rootNamespaces objs),
          builder.Reaches (KubernetesCache.ofObjects rootNamespaces objs) q.1 "" [] z ∧
          { Object := z, Status := StatusKind.valid, Vhost := q.2 } ∈ l ∧
          1 ≤ metrics.get M.Valid { VHost := q.2, Namespace := z.Namespace }) := by
  have hnd := KubernetesCache.ofObjects_nodup rootNamespaces objs
  obtain ⟨st, hst, _, _, hC, _, hE, hF, hG⟩ := builder.compute_spec _ hnd
  have hl := Statuses_of_compute _ st hst
  have hM : ingressRouteMetric rootNamespaces objs = some (calculateIngressRouteMetric
      ((KubernetesCache.ofObjects rootNamespaces objs).ingressroutes.map (assemble st))) := by
    simp [ingressRouteMetric, hl]
  obtain ⟨hacc, _⟩ := builder.acceptedRoots_spec _ hnd
  have hfail : ∀ pfx path, x.Routes.all (builder.routePasses
      (KubernetesCache.ofObjects rootNamespaces objs) x pfx path) = false := fun pfx path =>
    builder.all_routePasses_blocked _ x pfx path r hr
      (builder.routePasses_bad_service _ x pfx path r s hs hbad)
  -- the status of an accepted root with the failing route
  have hroot : ∀ h, (x, h) ∈ acceptedRoots (KubernetesCache.ofObjects rootNamespaces objs) →
      StatusMap.lookup st x.key = some (StatusKind.invalid, h) := by
    intro h hxh
    have hown := hE (x, h) hxh
    rw [hfail] at hown
    exact hown
  -- the status of an IngressRoute that is no root and has the failing route
  have hchild : x.VirtualHost = none → ∀ v, StatusMap.lookup st x.key = some v →
      ∃ q ∈ acceptedRoots (KubernetesCache.ofObjects rootNamespaces objs),
        builder.Reaches (KubernetesCache.ofObjects rootNamespaces objs) q.1 "" [] x ∧
        v = (StatusKind.invalid, q.2) := by
    intro hxv v hlook
    obtain ⟨q, hq, hqr, hw, x2, hx2, hxk, pfx, path, hv, _⟩ := hF x hx hxv v hlook
    have e := KubernetesCache.key_unique _ hnd x2 x hx2 hx hxk
    subst e
    rw [hfail] at hv
    refine ⟨q, hq, hqr, ?_⟩
    obtain ⟨v1, v2⟩ := v
    simp only at hv hw
    rw [hv, hw]
    rfl
  obtain ⟨hx1, hx2⟩ := Statuses_mem _ st _ rfl x hx
  refine ⟨_, _, hl, hM, ?_, ?_, ?_, ?_, ?_, ?_⟩
  · rw [List.map_map]
    have e : (KubernetesCache.ofObjects rootNamespaces objs).ingressroutes.map
        (ObjectStatus.Object ∘ assemble st) =
        (KubernetesCache.ofObjects rootNamespaces objs).ingressroutes.map id := by
      apply List.map_congr_left
      intro ir _
      exact assemble_Object st ir
    rw [e, List.map_id]
    exact List.Nodup.of_map _ hnd
  · intro h hmem
    have hs2 := hx2 _ hmem rfl
    cases hlook : StatusMap.lookup st x.key with
    | none =>
      rw [assemble_of_none st x hlook] at hs2
      cases hs2
    | some v =>
      obtain ⟨v1, v2⟩ := v
      rw [assemble_of_lookup st x v1 v2 hlook] at hs2
      simp only [ObjectStatus.mk.injEq, true_and] at hs2
      rw [← hs2.1] at hlook
      cases hxv : x.VirtualHost with
      | none =>
        obtain ⟨_, _, _, hv⟩ := hchild hxv _ hlook
        simp only [Prod.mk.injEq, reduceCtorEq, false_and] at hv
      | some vh =>
        have hne : x.VirtualHost ≠ none := by
          rw [hxv]
          exact Option.some_ne_none _
        by_cases hacc2 : ∃ h2, (x, h2) ∈
            acceptedRoots (KubernetesCache.ofObjects rootNamespaces objs)
        · obtain ⟨h2, hxh⟩ := hacc2
          rw [hroot h2 hxh] at hlook
          simp only [Option.some.injEq, Prod.mk.injEq, reduceCtorEq, false_and] at hlook
        · obtain ⟨h2, hinv⟩ := hG x hx hne (fun h2 hxh => hacc2 ⟨h2, hxh⟩)
          rw [hinv] at hlook
          simp only [Option.some.injEq, Prod.mk.injEq, reduceCtorEq, false_and] at hlook
  · intro h hxh
    have hmem := hx1
    rw [assemble_of_lookup st x _ _ (hroot h hxh)] at hmem
    exact ⟨hmem, (calculateIngressRouteMetric_counted _ _ hmem).1 rfl⟩
  · intro hxv hreach
    have hset := (hC x hx hxv).mpr hreach
    cases hlook : StatusMap.lookup st x.key with
    | none => exact absurd hlook hset
    | some v =>
      obtain ⟨q, hq, hqr, hv⟩ := hchild hxv v hlook
      rw [hv] at hlook
      have hmem := hx1
      rw [assemble_of_lookup st x _ _ hlook] at hmem
      exact ⟨q, hq, hqr, hmem, (calculateIngressRouteMetric_counted _ _ hmem).1 rfl⟩
  · intro y h hyh hroutes
    obtain ⟨hymem, hyv, _⟩ := hacc (y, h) hyh
    have hyroot : y.VirtualHost ≠ none := by
      rw [hyv]
      exact Option.some_ne_none _
    have hown := hE (y, h) hyh
    have hpass : y.Routes.all (builder.routePasses
        (KubernetesCache.ofObjects rootNamespaces objs) y "" [y.key]) = true := by
      rw [List.all_eq_true]
      intro r1 hr1
      exact builder.routePasses_delegation _ hnd y hymem hyroot r1 (hroutes r1 hr1).1
        (hroutes r1 hr1).2
    rw [hpass, if_pos rfl] at hown
    obtain ⟨hy1, _⟩ := Statuses_mem _ st _ rfl y hymem
    rw [assemble_of_lookup st y _ _ hown] at hy1
    exact ⟨hy1, (calculateIngressRouteMetric_counted _ _ hy1).2.1 rfl⟩
  · intro z hz hzv hreach hserv hprefix
    have hset := (hC z hz hzv).mpr hreach
    cases hlook : StatusMap.lookup st z.key with
    | none => exact absurd hlook hset
    | some v =>
      obtain ⟨q, hq, hqr, hw, z2, hz2, hzk, pfx, path, hv, hpfx⟩ := hF z hz hzv v hlook
      have e := KubernetesCache.key_unique _ hnd z2 z hz2 hz hzk
      subst e
      have hpass : z2.Routes.all (builder.routePasses
          (KubernetesCache.ofObjects rootNamespaces objs) z2 pfx path) = true := by
        rw [List.all_eq_true]
        intro r2 hr2
        obtain ⟨h1, h2, h3⟩ := hserv r2 hr2
        apply builder.routePasses_services _ z2 pfx path r2 _ h1 h2 h3
        rcases hpfx with hp | ⟨y, hy, r1, hr1, d, hd, hf, hp⟩
        · rw [hp]
          exact HasPrefix_empty _
        · rw [hp]
          exact hprefix y hy r1 hr1 d hd hf r2 hr2
      rw [hpass, if_pos rfl] at hv
      have hv2 : v = (StatusKind.valid, q.2) := by
        obtain ⟨v1, v2⟩ := v
        simp only at hv hw
        rw [hv, hw]
      rw [hv2] at hlook
      obtain ⟨hz1, _⟩ := Statuses_mem _ st _ rfl z2 hz
      rw [assemble_of_lookup st z2 _ _ hlook] at hz1
      exact ⟨q, hq, hqr, hz1, (calculateIngressRouteMetric_counted _ _ hz1).2.1 rfl⟩

theorem invalid_service_counted_invalid_witness :
    (TestIngressRouteMetrics.ir12 ∈ (KubernetesCache.ofObjects []
        [Object.ingressroute TestIngressRouteMetrics.ir10,
          Object.ingressroute TestIngressRouteMetrics.ir11,
          Object.ingressroute TestIngressRouteMetrics.ir12,
          Object.service TestIngressRouteMetrics.s1,
          Object.service TestIngressRouteMetrics.s2]).ingressroutes ∧
      ({ Match := "/bar",
         Services := [{ Name := "foo", Port := 12345678, Weight := 0 }],
         Delegate := none } : ingressroutev1.Route) ∈ TestIngressRouteMetrics.ir12.Routes ∧
      ({ Name := "foo", Port := 12345678, Weight := 0 } : ingressroutev1.Service) ∈
        ({ Match := "/bar",
           Services := [{ Name := "foo", Port := 12345678, Weight := 0 }],
           Delegate := none } : ingressroutev1.Route).Services ∧
      ((12345678 : Int) < 1 ∨ (65535 : Int) < 12345678 ∨ (0 : Int) < 0)) ∧
    (∃ l M, Statuses (KubernetesCache.ofObjects []
        [Object.ingressroute TestIngressRouteMetrics.ir10,
          Object.ingressroute TestIngressRouteMetrics.ir11,
          Object.ingressroute TestIngressRouteMetrics.ir12,
          Object.service TestIngressRouteMetrics.s1,
          Object.service TestIngressRouteMetrics.s2]) = some l ∧
      ingressRouteMetric []
        [Object.ingressroute TestIngressRouteMetrics.ir10,
          Object.ingressroute TestIngressRouteMetrics.ir11,
          Object.ingressroute TestIngressRouteMetrics.ir12,
          Object.service TestIngressRouteMetrics.s1,
          Object.service TestIngressRouteMetrics.s2] = some M ∧
      ∀ h, ({ Object := TestIngressRouteMetrics.ir12,
              Status := StatusKind.valid,
              Vhost := h } : ObjectStatus) ∉ l) ∧
    Statuses (KubernetesCache.ofObjects []
        [Object.ingressroute TestIngressRouteMetrics.ir10,
          Object.ingressroute TestIngressRouteMetrics.ir11,
          Object.ingressroute TestIngressRouteMetrics.ir12,
          Object.service TestIngressRouteMetrics.s1,
          Object.service TestIngressRouteMetrics.s2]) =
      some [
        { Object := TestIngressRouteMetrics.ir10, Status := StatusKind.valid,
          Vhost := "example.com" },
        { Object := TestIngressRouteMetrics.ir11, Status := StatusKind.valid,
          Vhost := "example.com" },
        { Object := TestIngressRouteMetrics.ir12, Status := StatusKind.invalid,
          Vhost := "example.com" }] ∧
    Statuses (KubernetesCache.ofObjects [] [Object.ingressroute TestIngressRouteMetrics.ir2]) =
      some [
        { Object := TestIngressRouteMetrics.ir2, Status := StatusKind.invalid,
          Vhost := "example.com" }] ∧
    Statuses (KubernetesCache.ofObjects [] [Object.ingressroute TestIngressRouteMetrics.ir5]) =
      some [
        { Object := TestIngressRouteMetrics.ir5, Status := StatusKind.invalid,
          Vhost := "example.com" }] :=
  ⟨⟨by decide, by decide, by decide, by decide⟩,
    (invalid_service_counted_invalid []
      [Object.ingressroute TestIngressRouteMetrics.ir10,
        Object.ingressroute TestIngressRouteMetrics.ir11,
        Object.ingressroute TestIngressRouteMetrics.ir12,
        Object.service TestIngressRouteMetrics.s1,
        Object.service TestIngressRouteMetrics.s2]
      TestIngressRouteMetrics.ir12
      { Match := "/bar",
        Services := [{ Name := "foo", Port := 12345678, Weight := 0 }],
        Delegate := none }
      { Name := "foo", Port := 12345678, Weight := 0 }
      (by decide) (by decide) (by decide) (by decide)).imp
      (fun _ hl => hl.imp (fun _ h => ⟨h.1, h.2.1, h.2.2.2.1⟩)),
    by decide, by decide, by decide⟩

/-! ## Orphaned IngressRoutes -/

/-- C30 (amended): an IngressRoute `x` of the cache that is no root has one
status, and that status is orphaned if and only if the DFS from no accepted root
visits `x`; the DFS follows the Delegate edge of a route only when the route and
the earlier routes of its IngressRoute are in order.  So `x` is orphaned when
Delegate edges lead to it from no accepted root, and when every IngressRoute that
delegates to it is a root that is not accepted, as when nothing delegates to it.
When orphaned it is reported under no vhost, its count adds one to orphaned and
to total of its namespace and leaves valid, invalid and root as they are.  It is
not orphaned when an accepted root whose status is valid delegates to it,
whatever else delegates to it.  When not orphaned, an accepted root visits it,
its status is the verdict on its routes, valid or invalid, under the FQDN of that
root, and it is counted there; the verdict is valid when all its routes have
services in order and a prefix that starts with the prefix of every route that
delegates to it. -/
theorem orphaned_iff_not_visited (rootNamespaces : List String) (objs : List Object)
    (x : ingressroutev1.IngressRoute)
    (hmem : x ∈ (KubernetesCache.ofObjects rootNamespaces objs).ingressroutes)
    (hx : x.VirtualHost = none) :
    ∃ l M s, Statuses (KubernetesCache.ofObjects rootNamespaces objs) = some l ∧
      ingressRouteMetric rootNamespaces objs = some M ∧
      s ∈ l ∧ s.Object = x ∧ (∀ s2 ∈ l, s2.Object = x → s2 = s) ∧
      (s.Status = StatusKind.orphaned ↔
        ¬ ∃ p ∈ acceptedRoots (KubernetesCache.ofObjects rootNamespaces objs),
          builder.Reaches (KubernetesCache.ofObjects rootNamespaces objs) p.1 "" [] x) ∧
      ((¬ ∃ p ∈ acceptedRoots (KubernetesCache.ofObjects rootNamespaces objs),
          Relation.TransGen (delegatesTo (KubernetesCache.ofObjects rootNamespaces objs))
            p.1 x) →
        s.Status = StatusKind.orphaned) ∧
      ((∀ y ∈ (KubernetesCache.ofObjects rootNamespaces objs).ingressroutes,
          delegatesTo (KubernetesCache.ofObjects rootNamespaces objs) y x →
          y.VirtualHost ≠ none ∧
            ∀ h, (y, h) ∉ acceptedRoots (KubernetesCache.ofObjects rootNamespaces objs)) →
        s.Status = StatusKind.orphaned) ∧
      (s.Status = StatusKind.orphaned →
        s.Vhost = "" ∧
        (∀ m, countStatus m s =
          { Invalid := m.Invalid,
            Valid := m.Valid,
            Orphaned := metrics.incr m.Orphaned { VHost := "", Namespace := x.Namespace },
            Root := m.Root,
            Total := metrics.incr m.Total { VHost := "", Namespace := x.Namespace } }) ∧
        1 ≤ metrics.get M.Orphaned { VHost := "", Namespace := x.Namespace } ∧
        1 ≤ metrics.get M.Total { VHost := "", Namespace := x.Namespace }) ∧
      (∀ y h, (y, h) ∈ acceptedRoots (KubernetesCache.ofObjects rootNamespaces objs) →
        ({ Object := y, Status := StatusKind.valid, Vhost := h } : ObjectStatus) ∈ l →
        delegatesTo (KubernetesCache.ofObjects rootNamespaces objs) y x →
        s.Status ≠ StatusKind.orphaned) ∧
      (s.Status ≠ StatusKind.orphaned →
        ∃ p ∈ acceptedRoots (KubernetesCache.ofObjects rootNamespaces objs),
          builder.Reaches (KubernetesCache.ofObjects rootNamespaces objs) p.1 "" [] x ∧
          Relation.TransGen (delegatesTo (KubernetesCache.ofObjects rootNamespaces objs))
            p.1 x ∧
          s.Vhost = p.2 ∧
          (∃ pfx path, s.Status =
            if x.Routes.all (builder.routePasses
              (KubernetesCache.ofObjects rootNamespaces objs) x pfx path) = true
            then StatusKind.valid else StatusKind.invalid) ∧
          (s.Status = StatusKind.valid →
            1 ≤ metrics.get M.Valid { VHost := p.2, Namespace := x.Namespace }) ∧
          (s.Status = StatusKind.invalid →
            1 ≤ metrics.get M.Invalid { VHost := p.2, Namespace := x.Namespace })) ∧
      (s.Status ≠ StatusKind.orphaned →
        (∀ r2 ∈ x.Routes, r2.Delegate = none ∧ r2.Services ≠ [] ∧
          r2.Services.all (KubernetesCache.serviceOK
            (KubernetesCache.ofObjects rootNamespaces objs) x.Namespace) = true) →
        (∀ y ∈ (KubernetesCache.ofObjects rootNamespaces objs).ingressroutes,
          ∀ r1 ∈ y.Routes, ∀ d, r1.Delegate = some d →
          KubernetesCache.findIngressRoute
            (KubernetesCache.ofObjects rootNamespaces objs).ingressroutes
            (delegateKey y d) = some x →
          ∀ r2 ∈ x.Routes, HasPrefix r2.Match r1.Match = true) →
        s.Status = StatusKind.valid ∧
        ∃ p ∈ acceptedRoots (KubernetesCache.ofObjects rootNamespaces objs),
          s.Vhost = p.2 ∧
          1 ≤ metrics.get M.Valid { VHost := p.2, Namespace := x.Namespace }) := by
  have hnd := KubernetesCache.ofObjects_nodup rootNamespaces objs
  obtain ⟨st, hst, _, _, hC, hD, hE, hF, _⟩ := builder.compute_spec _ hnd
  have hl := Statuses_of_compute _ st hst
  have hM : ingressRouteMetric rootNamespaces objs = some (calculateIngressRouteMetric
      ((KubernetesCache.ofObjects rootNamespaces objs).ingressroutes.map (assemble st))) := by
    simp [ingressRouteMetric, hl]
  obtain ⟨hacc, _⟩ := builder.acceptedRoots_spec _ hnd
  obtain ⟨hs1, hs2⟩ := Statuses_mem _ st _ rfl x hmem
  obtain ⟨c1, c2, c3, _, c5⟩ := calculateIngressRouteMetric_counted _ _ hs1
  have hiff : (assemble st x).Status = StatusKind.orphaned ↔
      StatusMap.lookup st x.key = none := by
    cases hlook : StatusMap.lookup st x.key with
    | none => simp [assemble_of_none st x hlook]
    | some v =>
      obtain ⟨v1, v2⟩ := v
      simp only [assemble_of_lookup st x v1 v2 hlook, reduceCtorEq, iff_false]
      exact hD _ _ hlook
  have hreach : (assemble st x).Status = StatusKind.orphaned ↔
      ¬ ∃ p ∈ acceptedRoots (KubernetesCache.ofObjects rootNamespaces objs),
        builder.Reaches (KubernetesCache.ofObjects rootNamespaces objs) p.1 "" [] x := by
    rw [hiff, ← hC x hmem hx, not_not]
  -- what the DFS visits lies on Delegate edges from the root
  have hchain : ∀ p ∈ acceptedRoots (KubernetesCache.ofObjects rootNamespaces objs),
      builder.Reaches (KubernetesCache.ofObjects rootNamespaces objs) p.1 "" [] x →
      Relation.TransGen (delegatesTo (KubernetesCache.ofObjects rootNamespaces objs))
        p.1 x := by
    intro p hp hr
    obtain ⟨_, hpv, _⟩ := hacc p hp
    rcases hr with h1 | h1
    · rw [h1, hpv] at hx
      cases hx
    · exact builder.ReachesRoutes.delegation_chain _ h1 (fun _ hr => hr)
  -- the status that is set for `x`, when one is set
  have hset : (assemble st x).Status ≠ StatusKind.orphaned →
      ∃ v1 v2, StatusMap.lookup st x.key = some (v1, v2) ∧
        assemble st x = { Object := x, Status := v1, Vhost := v2 } ∧
        ∃ p ∈ acceptedRoots (KubernetesCache.ofObjects rootNamespaces objs),
          builder.Reaches (KubernetesCache.ofObjects rootNamespaces objs) p.1 "" [] x ∧
          v2 = p.2 ∧
          ∃ pfx path, (v1 = if x.Routes.all (builder.routePasses
              (KubernetesCache.ofObjects rootNamespaces objs) x pfx path) = true
            then StatusKind.valid else StatusKind.invalid) ∧
            builder.PrefixFor (KubernetesCache.ofObjects rootNamespaces objs) x pfx := by
    intro hno
    cases hlook : StatusMap.lookup st x.key with
    | none => exact absurd (hiff.mpr hlook) hno
    | some v =>
      obtain ⟨p, hp, hr, hw, x2, hx2, hxk, pfx, path, hv, hpfx⟩ := hF x hmem hx v hlook
      have e := KubernetesCache.key_unique _ hnd x2 x hx2 hmem hxk
      subst e
      obtain ⟨v1, v2⟩ := v
      exact ⟨v1, v2, rfl, assemble_of_lookup st x2 v1 v2 hlook, p, hp, hr, hw, pfx, path,
        hv, hpfx⟩
  refine ⟨_, _, assemble st x, hl, hM, hs1, assemble_Object st x, hs2, hreach, ?_, ?_, ?_,
    ?_, ?_, ?_⟩
  · intro hno
    rw [hreach]
    intro ⟨p, hp, hr⟩
    exact hno ⟨p, hp, hchain p hp hr⟩
  · intro hdel
    rw [hreach]
    intro ⟨p, hp, hr⟩
    obtain ⟨hpm, hpv, _⟩ := hacc p hp
    rcases builder.Reaches.child _ hr hpm with h1 | ⟨_, _, y, hy, hy2, hy3⟩
    · rw [h1, hpv] at hx
      cases hx
    · obtain ⟨hroot, hnot⟩ := hdel y hy hy3
      rcases hy2 with hy2 | hy2
      · apply hnot p.2
        rw [hy2]
        exact hp
      · exact hroot hy2
  · intro horph
    have hnone := hiff.mp horph
    have hs := assemble_of_none st x hnone
    rw [assemble_Object] at c3 c5
    refine ⟨by rw [hs], ?_, c3 horph, c5⟩
    intro m
    rw [hs]
    simp [countStatus, hx]
  · intro y h hyh hvalid ⟨r, hr, d, hd, hf⟩
    obtain ⟨hym, _, _⟩ := hacc (y, h) hyh
    obtain ⟨_, hy2⟩ := Statuses_mem _ st _ rfl y hym
    have hown := hE (y, h) hyh
    have hsame := hy2 _ hvalid rfl
    rw [assemble_of_lookup st y _ _ hown] at hsame
    have hpass : y.Routes.all (builder.routePasses
        (KubernetesCache.ofObjects rootNamespaces objs) y "" [y.key]) = true := by
      by_contra hnp
      rw [if_neg hnp] at hsame
      simp only [ObjectStatus.mk.injEq, reduceCtorEq, false_and, and_false] at hsame
    intro horph
    exact hreach.mp horph ⟨(y, h), hyh, Or.inr (builder.ReachesRoutes.of_all_pass _ y "" _ d x
      hf y.Routes (List.all_eq_true.mp hpass) ⟨r, hr, hd⟩)⟩
  · intro hno
    obtain ⟨v1, v2, _, hs, p, hp, hr, hw, pfx, path, hv, _⟩ := hset hno
    rw [hs] at c1 c2
    simp only at c1 c2
    rw [hw] at c1 c2
    refine ⟨p, hp, hr, hchain p hp hr, by rw [hs]; exact hw, ⟨pfx, path, by rw [hs]; exact hv⟩,
      ?_, ?_⟩
    · intro h
      rw [hs] at h
      exact c2 h
    · intro h
      rw [hs] at h
      exact c1 h
  · intro hno hserv hprefix
    obtain ⟨v1, v2, _, hs, p, hp, _, hw, pfx, path, hv, hpfx⟩ := hset hno
    have hpass : x.Routes.all (builder.routePasses
        (KubernetesCache.ofObjects rootNamespaces objs) x pfx path) = true := by
      rw [List.all_eq_true]
      intro r2 hr2
      obtain ⟨h1, h2, h3⟩ := hserv r2 hr2
      apply builder.routePasses_services _ x pfx path r2 _ h1 h2 h3
      rcases hpfx with hp1 | ⟨y, hy, r1, hr1, d, hd, hf, hp1⟩
      · rw [hp1]
        exact HasPrefix_empty _
      · rw [hp1]
        exact hprefix y hy r1 hr1 d hd hf r2 hr2
    rw [hpass, if_pos rfl] at hv
    rw [hs] at c2
    simp only at c2
    rw [hw, hv] at c2
    refine ⟨by rw [hs]; exact hv, p, hp, by rw [hs]; exact hw, c2 rfl⟩

/-- A run of C30, two cases of the test: `ir11` is orphaned when only the root
`ir14`, which has no FQDN and is not accepted, delegates to it; it is valid under
`example.com` when the valid root `ir10` delegates to it as well. -/
theorem orphaned_iff_not_visited_witness :
    (TestIngressRouteMetrics.ir11 ∈ (KubernetesCache.ofObjects []
        [Object.ingressroute TestIngressRouteMetrics.ir14,
          Object.ingressroute TestIngressRouteMetrics.ir11,
          Object.ingressroute TestIngressRouteMetrics.ir10,
          Object.service TestIngressRouteMetrics.s2]).ingressroutes ∧
      TestIngressRouteMetrics.ir11.VirtualHost = none) ∧
    (∃ l M s, Statuses (KubernetesCache.ofObjects []
        [Object.ingressroute TestIngressRouteMetrics.ir14,
          Object.ingressroute TestIngressRouteMetrics.ir11,
          Object.ingressroute TestIngressRouteMetrics.ir10,
          Object.service TestIngressRouteMetrics.s2]) = some l ∧
      ingressRouteMetric [] [Object.ingressroute TestIngressRouteMetrics.ir14,
        Object.ingressroute TestIngressRouteMetrics.ir11,
        Object.ingressroute TestIngressRouteMetrics.ir10,
        Object.service TestIngressRouteMetrics.s2] = some M ∧
      s ∈ l ∧ s.Object = TestIngressRouteMetrics.ir11 ∧
      s.Status ≠ StatusKind.orphaned) ∧
    Statuses (KubernetesCache.ofObjects []
        [Object.ingressroute TestIngressRouteMetrics.ir14,
          Object.ingressroute TestIngressRouteMetrics.ir11]) =
      some [{ Object := TestIngressRouteMetrics.ir14, Status := StatusKind.invalid, Vhost := "" },
        { Object := TestIngressRouteMetrics.ir11, Status := StatusKind.orphaned, Vhost := "" }] ∧
    Statuses (KubernetesCache.ofObjects []
        [Object.ingressroute TestIngressRouteMetrics.ir14,
          Object.ingressroute TestIngressRouteMetrics.ir11,
          Object.ingressroute TestIngressRouteMetrics.ir10,
          Object.service TestIngressRouteMetrics.s2]) =
      some [{ Object := TestIngressRouteMetrics.ir14, Status := StatusKind.invalid, Vhost := "" },
        { Object := TestIngressRouteMetrics.ir11, Status := StatusKind.valid,
          Vhost := "example.com" },
        { Object := TestIngressRouteMetrics.ir10, Status := StatusKind.valid,
          Vhost := "example.com" }] := by
  refine ⟨⟨by decide, rfl⟩, ?_, by decide, by decide⟩
  obtain ⟨l, M, s, h1, h2, h3, h4, _, _, _, _, _, hvalid, _⟩ := orphaned_iff_not_visited []
    [Object.ingressroute TestIngressRouteMetrics.ir14,
      Object.ingressroute TestIngressRouteMetrics.ir11,
      Object.ingressroute TestIngressRouteMetrics.ir10,
      Object.service TestIngressRouteMetrics.s2]
    TestIngressRouteMetrics.ir11 (by decide) rfl
  refine ⟨l, M, s, h1, h2, h3, h4, ?_⟩
  apply hvalid TestIngressRouteMetrics.ir10 "example.com" (by decide)
  · have e : l = [
        { Object := TestIngressRouteMetrics.ir14, Status := StatusKind.invalid, Vhost := "" },
        { Object := TestIngressRouteMetrics.ir11, Status := StatusKind.valid,
          Vhost := "example.com" },
        { Object := TestIngressRouteMetrics.ir10, Status := StatusKind.valid,
          Vhost := "example.com" }] := by
      have h5 : Statuses (KubernetesCache.ofObjects []
          [Object.ingressroute TestIngressRouteMetrics.ir14,
            Object.ingressroute TestIngressRouteMetrics.ir11,
            Object.ingressroute TestIngressRouteMetrics.ir10,
            Object.service TestIngressRouteMetrics.s2]) = some [
          { Object := TestIngressRouteMetrics.ir14, Status := StatusKind.invalid, Vhost := "" },
          { Object := TestIngressRouteMetrics.ir11, Status := StatusKind.valid,
            Vhost := "example.com" },
          { Object := TestIngressRouteMetrics.ir10, Status := StatusKind.valid,
            Vhost := "example.com" }] := by decide
      rw [h5] at h1
      exact (Option.some.inj h1).symm
    rw [e]
    simp
  · exact ⟨_, List.mem_cons_self _ _, _, rfl, by decide⟩

/-- C30 (as stated) fails: whether a child is orphaned is not settled by which
roots delegate to it and which of them are valid.  The roots `failsFirst` and
`delegatesFirst` hold the same two routes, one with a service port out of range
and one that delegates to `ir11`, in either order.  Each is accepted at root
discovery, delegates to `ir11`, and ends invalid under `example.com`; nothing
else delegates to `ir11`.  Under `failsFirst` the child is orphaned, although an
accepted root delegates to it; under `delegatesFirst` the child is valid under
`example.com` and not orphaned, although only an invalid root delegates to it. -/
theorem orphaned_depends_on_route_order :
    Statuses (KubernetesCache.ofObjects []
        [Object.ingressroute RouteOrder.failsFirst,
          Object.ingressroute TestIngressRouteMetrics.ir11,
          Object.service TestIngressRouteMetrics.s2]) =
      some [
        { Object := RouteOrder.failsFirst, Status := StatusKind.invalid,
          Vhost := "example.com" },
        { Object := TestIngressRouteMetrics.ir11, Status := StatusKind.orphaned, Vhost := "" }] ∧
    Statuses (KubernetesCache.ofObjects []
        [Object.ingressroute RouteOrder.delegatesFirst,
          Object.ingressroute TestIngressRouteMetrics.ir11,
          Object.service TestIngressRouteMetrics.s2]) =
      some [
        { Object := RouteOrder.delegatesFirst, Status := StatusKind.invalid,
          Vhost := "example.com" },
        { Object := TestIngressRouteMetrics.ir11, Status := StatusKind.valid,
          Vhost := "example.com" }] ∧
    acceptedRoots (KubernetesCache.ofObjects []
        [Object.ingressroute RouteOrder.failsFirst,
          Object.ingressroute TestIngressRouteMetrics.ir11,
          Object.service TestIngressRouteMetrics.s2]) =
      [(RouteOrder.failsFirst, "example.com")] ∧
    acceptedRoots (KubernetesCache.ofObjects []
        [Object.ingressroute RouteOrder.delegatesFirst,
          Object.ingressroute TestIngressRouteMetrics.ir11,
          Object.service TestIngressRouteMetrics.s2]) =
      [(RouteOrder.delegatesFirst, "example.com")] ∧
    delegatesTo (KubernetesCache.ofObjects []
        [Object.ingressroute RouteOrder.failsFirst,
          Object.ingressroute TestIngressRouteMetrics.ir11,
          Object.service TestIngressRouteMetrics.s2])
      RouteOrder.failsFirst TestIngressRouteMetrics.ir11 ∧
    delegatesTo (KubernetesCache.ofObjects []
        [Object.ingressroute RouteOrder.delegatesFirst,
          Object.ingressroute TestIngressRouteMetrics.ir11,
          Object.service TestIngressRouteMetrics.s2])
      RouteOrder.delegatesFirst TestIngressRouteMetrics.ir11 ∧
    ¬ delegatesTo (KubernetesCache.ofObjects []
        [Object.ingressroute RouteOrder.failsFirst,
          Object.ingressroute TestIngressRouteMetrics.ir11,
          Object.service TestIngressRouteMetrics.s2])
      TestIngressRouteMetrics.ir11 TestIngressRouteMetrics.ir11 ∧
    ¬ delegatesTo (KubernetesCache.ofObjects []
        [Object.ingressroute RouteOrder.delegatesFirst,
          Object.ingressroute TestIngressRouteMetrics.ir11,
          Object.service TestIngressRouteMetrics.s2])
      TestIngressRouteMetrics.ir11 TestIngressRouteMetrics.ir11 := by
  refine ⟨by decide, by decide, by decide, by decide, ?_, ?_, ?_, ?_⟩
  · exact ⟨_, List.mem_cons_of_mem _ (List.mem_cons_self _ _), _, rfl, by decide⟩
  · exact ⟨_, List.mem_cons_self _ _, _, rfl, by decide⟩
  · intro ⟨r, hr, d, hd, _⟩
    simp only [TestIngressRouteMetrics.ir11, List.mem_singleton] at hr
    subst hr
    cases hd
  · intro ⟨r, hr, d, hd, _⟩
    simp only [TestIngressRouteMetrics.ir11, List.mem_singleton] at hr
    subst hr
    cases hd

/-! ## The bootstrap configuration: the model and the test -/

/-- The model of `Bootstrap` yields the bootstrap that `TestBootstrap` wants, in
each of its seven cases. -/
theorem model_agrees_with_TestBootstrap :
    Bootstrap TestBootstrap.default_configuration.config =
      TestBootstrap.default_configuration.want ∧
    Bootstrap TestBootstrap.statsd_enabled.config = TestBootstrap.statsd_enabled.want ∧
    Bootstrap TestBootstrap.statsd_address_and_port.config =
      TestBootstrap.statsd_address_and_port.want ∧
    Bootstrap TestBootstrap.admin_address_and_port.config =
      TestBootstrap.admin_address_and_port.want ∧
    Bootstrap TestBootstrap.AdminAccessLogPath.config =
      TestBootstrap.AdminAccessLogPath.want ∧
    Bootstrap TestBootstrap.xds_address_and_port.config =
      TestBootstrap.xds_address_and_port.want ∧
    Bootstrap TestBootstrap.stats_address_and_port.config =
      TestBootstrap.stats_address_and_port.want := by
  decide

/-- C32: for every `BootstrapConfig`, `Bootstrap` binds the admin interface to
the configured admin address and port, default 127.0.0.1:9001, with the
configured access log path, default `/dev/null`; has one cluster `contour`, at
the configured xDS address and port, default 127.0.0.1:8001; has one listener, at
the configured stats address and port, default 0.0.0.0:8002; has one cluster
`service_stats`, whose endpoint is the address and port of the admin interface;
and has a stats sink if and only if `StatsdEnabled` is set, which is then the one
statsd sink, at the configured statsd address and port, default 127.0.0.1:9125.
A field is configured when it is not the zero value. -/
theorem Bootstrap_defaults (c : BootstrapConfig) :
    (Bootstrap c).Admin.Address.Address =
      (if c.AdminAddress ≠ "" then c.AdminAddress else "127.0.0.1") ∧
    (Bootstrap c).Admin.Address.Port = (if c.AdminPort ≠ 0 then c.AdminPort else 9001) ∧
    (Bootstrap c).Admin.AccessLogPath =
      (if c.AdminAccessLogPath ≠ "" then c.AdminAccessLogPath else "/dev/null") ∧
    ((Bootstrap c).Clusters.filter (fun cl => decide (cl.Name = "contour"))).map
        bootstrap.Cluster.Endpoints =
      [[[{ Address := if c.XDSAddress ≠ "" then c.XDSAddress else "127.0.0.1",
           Port := if c.XDSGRPCPort ≠ 0 then c.XDSGRPCPort else 8001 }]]] ∧
    (Bootstrap c).Listeners.map bootstrap.Listener.Address =
      [{ Address := if c.StatsAddress ≠ "" then c.StatsAddress else "0.0.0.0",
         Port := if c.StatsPort ≠ 0 then c.StatsPort else 8002 }] ∧
    ((Bootstrap c).Clusters.filter (fun cl => decide (cl.Name = "service_stats"))).map
        bootstrap.Cluster.Endpoints = [[[(Bootstrap c).Admin.Address]]] ∧
    ((Bootstrap c).StatsSinks ≠ [] ↔ c.StatsdEnabled = true) ∧
    (c.StatsdEnabled = true →
      (Bootstrap c).StatsSinks =
        [{ Name := "envoy.statsd",
           Address := if c.StatsdAddress ≠ "" then c.StatsdAddress else "127.0.0.1",
           Port := if c.StatsdPort ≠ 0 then c.StatsdPort else 9125,
           Protocol := "UDP" }]) ∧
    (c.StatsdEnabled = false → (Bootstrap c).StatsSinks = []) := by
  refine ⟨rfl, rfl, rfl, ?_, rfl, ?_, ?_, ?_, ?_⟩
  · simp [Bootstrap, stringOrDefault, intOrDefault]
  · simp [Bootstrap, stringOrDefault, intOrDefault]
  · cases h : c.StatsdEnabled <;> simp [Bootstrap, h]
  · intro h
    simp [Bootstrap, h, stringOrDefault, intOrDefault]
  · intro h
    simp [Bootstrap, h]

end Contour
